import Mathlib

/-!
# The Tinsel virtual processor (`engines/tinsel/pcode.cpp`)

A shallow embedding of the bytecode interpreter, its interpret-context pool and
the rendezvous ("wait for another script") protocol, followed by theorems about
them.

Conventions of the embedding:

* C `int` / `int32` values are `Int`; results of `+ - * -x` are wrapped with
  `wrap32`. `uint32` values are `Nat`, wrapped with `% 2 ^ 32`. Code bytes are
  `Nat`, reduced `% 256` when read.
* A pointer into `icList` is an index into the list `icList`; the loops
  `for (i = 0; i < NUM_INTERPRET; i++)` are traversals of that list, so
  `NUM_INTERPRET` is the length of the pool.
* `PROCESS *` and `INV_OBJECT *` are addresses (`Nat`, `0` is `NULL`); the code
  pointer is `Option (List Nat)` (`none` is `NULL`).
* `error(...)`, a failed `assert(...)` and C-level undefined behaviour (array
  access outside its bounds, division by zero) end an operation with
  `Outcome.fatal`, which carries the state when the operation was abandoned
  (for undefined behaviour: a state before the offending access).
* `Interpret` and `UniqueWaitNumber` loop without a bound in C; here they take
  a number of passes (`fuel`) and end with `timeout` or `none` when it runs out.
-/

namespace Tinsel

/-! ## Data model -/

/-- Modelled from the spec: the enumeration `GSORT` is declared in `pcode.h`, of which only
the uses in `pcode.cpp` are available. `pcode.cpp` names `GS_NONE` (free slot), `GS_MASTER`
and `GS_GPROCESS`; every other sort is `GS_OTHER`. -/
inductive GSORT where
  | GS_NONE
  | GS_MASTER
  | GS_GPROCESS
  | GS_OTHER (tag : Nat)
  deriving DecidableEq, Repr

/-- Modelled from the spec: the enumeration `RESCODE` of `pcode.h`; `pcode.cpp` uses these
three values for `resumeCode`. -/
inductive RESCODE where
  | RES_WAITING
  | RES_FINISHED
  | RES_CUTSHORT
  deriving DecidableEq, Repr

/-- Modelled from the spec: the enumeration `RESUME_STATE` of `pcode.h`; `pcode.cpp` names
`RES_NOT` and `RES_1`, any other state is `RES_OTHER`. -/
inductive RESUME_STATE where
  | RES_NOT
  | RES_1
  | RES_OTHER (tag : Nat)
  deriving DecidableEq, Repr

/-- Modelled from the spec: the record `INT_CONTEXT` is declared in `pcode.h`; the fields are
the ones `pcode.cpp` reads and writes, with the types it uses them at. -/
structure INT_CONTEXT where
  pProc : Nat
  GSort : GSORT
  hCode : Nat
  code : Option (List Nat)
  event : Nat
  hPoly : Int
  idActor : Int
  pinvo : Nat
  stack : List Int
  sp : Int
  bp : Int
  ip : Int
  bHalt : Bool
  escOn : Bool
  myEscape : Int
  waitNumber1 : Nat
  waitNumber2 : Nat
  resumeCode : RESCODE
  resumeState : RESUME_STATE
  deriving DecidableEq, Repr

/-- The conditions that abort an operation. -/
inductive Fault where
  /-- `error("Interpret() - Unknown opcode")` -/
  | unknownOpcode
  /-- `assert(ic->sp >= 0 && ic->sp < PCODE_STACK_SIZE)` after an instruction -/
  | stackCheck
  /-- `assert(ic->sp >= 0)` after popping one operand of a binary operation -/
  | operandCheck
  /-- `assert(0 <= tmp && tmp < numGlobals)` -/
  | globalCheck
  /-- `assert(ic->sp == 0)` after the loop -/
  | notUnwound
  /-- `assert(i < NUM_INTERPRET)` in `FreeWaitCheck` -/
  | noWaiter
  /-- `error("Out of interpret contexts")` -/
  | outOfContexts
  /-- `assert(_ctx->picWaitee->waitNumber2 == 0)` in `WaitInterpret` -/
  | waiteeBusy
  /-- undefined behaviour: `ic->stack[...]` outside the array -/
  | stackAccess
  /-- undefined behaviour: `code[...]` outside the code block, or `code` is `NULL` -/
  | codeAccess
  /-- undefined behaviour: `pGlobals[...]` outside the array, or `pGlobals` is `NULL` -/
  | globalAccess
  /-- undefined behaviour: division by zero, or `INT_MIN / -1` -/
  | divide
  /-- undefined behaviour: a context pointer that addresses no pool slot -/
  | contextAccess
  /-- `error("Found unreleased interpret context")`, in a `DEBUG` build -/
  | unreleased
  /-- `assert(currentProcess)` in `WaitInterpret` -/
  | noCurrentProcess
  /-- `assert(currentProcess != pWaitProc)` in `WaitInterpret` -/
  | waitForSelf
  /-- `assert(numGlobals == num)` in `RegisterGlobals` -/
  | globalsCount
  /-- `error("Cannot allocate memory for global data")` -/
  | cannotAllocate
  /-- `error(CANNOT_FIND_FILE, GLOBALS_FILENAME)` -/
  | cannotFindFile
  /-- `error(FILE_IS_CORRUPT, GLOBALS_FILENAME)` -/
  | fileIsCorrupt
  /-- `assert(j < NUM_INTERPRET)` in the first loop of `CheckOutWaiters` -/
  | waiterMissing
  /-- `assert(j < NUM_INTERPRET)` in the second loop of `CheckOutWaiters` -/
  | waiteeMissing
  deriving DecidableEq, Repr

/-- How an operation ends. `timeout` is produced only by fuel-bounded loops. -/
inductive Outcome (σ : Type) where
  | ok (s : σ)
  | suspended (s : σ)
  | fatal (f : Fault) (s : σ)
  | timeout (s : σ)
  deriving DecidableEq, Repr

/-- What `CallLibraryRoutine` leaves behind: the coroutine parameter, its return value
(the stack delta), and the two things it can write through its pointer arguments
`pp` (the operand stack) and `pResumeState`. -/
structure LibResult (κ : Type) where
  coroParam : Option κ
  ret : Int
  stack : List Int
  resumeState : RESUME_STATE

/-- Constants and collaborators that `pcode.cpp` uses but does not define: the constants
`PCODE_STACK_SIZE` of `pcode.h`, the engine variant `TinselV2`, whether the build defines
`DEBUG`, the memory manager (`LockMem`, `FindChunk(MASTER_SCNHANDLE, CHUNK_PCODE)`),
`GetEscEvents()` and the library bridge `CallLibraryRoutine`. `κ` is the type of coroutine
contexts. -/
structure Host (κ : Type) where
  TinselV2 : Bool
  DEBUG : Bool
  PCODE_STACK_SIZE : Nat
  LockMem : Nat → Option (List Nat)
  masterPcode : Option (List Nat)
  GetEscEvents : Int
  CallLibraryRoutine : Option κ → Int → INT_CONTEXT → LibResult κ

/-- The file-scope data of `pcode.cpp`, and the calls made to `g_scheduler->reschedule`
(oldest first). -/
structure Machine where
  pGlobals : Option (List Int)
  numGlobals : Int
  icList : List INT_CONTEXT
  hMasterScript : Nat
  bNoPause : Bool
  rescheduled : List Nat
  deriving DecidableEq, Repr

/-- What one pass of the loop of `Interpret` can touch: the context `ic` points to, the
globals, `bNoPause` and the coroutine parameter. `numGlobals` and `hMasterScript` are
only read. -/
structure Exec (κ : Type) where
  ic : INT_CONTEXT
  pGlobals : Option (List Int)
  numGlobals : Int
  hMasterScript : Nat
  bNoPause : Bool
  coroParam : Option κ

/-! ## Opcodes -/

abbrev OP_HALT : Nat := 0
abbrev OP_IMM : Nat := 1
abbrev OP_ZERO : Nat := 2
abbrev OP_ONE : Nat := 3
abbrev OP_MINUSONE : Nat := 4
abbrev OP_STR : Nat := 5
abbrev OP_FILM : Nat := 6
abbrev OP_FONT : Nat := 7
abbrev OP_PAL : Nat := 8
abbrev OP_LOAD : Nat := 9
abbrev OP_GLOAD : Nat := 10
abbrev OP_STORE : Nat := 11
abbrev OP_GSTORE : Nat := 12
abbrev OP_CALL : Nat := 13
abbrev OP_LIBCALL : Nat := 14
abbrev OP_RET : Nat := 15
abbrev OP_ALLOC : Nat := 16
abbrev OP_JUMP : Nat := 17
abbrev OP_JMPFALSE : Nat := 18
abbrev OP_JMPTRUE : Nat := 19
abbrev OP_EQUAL : Nat := 20
abbrev OP_LESS : Nat := 21
abbrev OP_LEQUAL : Nat := 22
abbrev OP_NEQUAL : Nat := 23
abbrev OP_GEQUAL : Nat := 24
abbrev OP_GREAT : Nat := 25
abbrev OP_PLUS : Nat := 26
abbrev OP_MINUS : Nat := 27
abbrev OP_LOR : Nat := 28
abbrev OP_MULT : Nat := 29
abbrev OP_DIV : Nat := 30
abbrev OP_MOD : Nat := 31
abbrev OP_AND : Nat := 32
abbrev OP_OR : Nat := 33
abbrev OP_EOR : Nat := 34
abbrev OP_LAND : Nat := 35
abbrev OP_NOT : Nat := 36
abbrev OP_COMP : Nat := 37
abbrev OP_NEG : Nat := 38
abbrev OP_DUP : Nat := 39
abbrev OP_ESCON : Nat := 40
abbrev OP_ESCOFF : Nat := 41
abbrev OP_CIMM : Nat := 42
abbrev OP_CDFILM : Nat := 43

/-- When this bit is set, the operand size is 8 bits. -/
abbrev OPSIZE8 : Nat := 0x40
/-- When this bit is set, the operand size is 16 bits. -/
abbrev OPSIZE16 : Nat := 0x80
/-- Mask to isolate the opcode. -/
abbrev OPMASK : Nat := 0x3F

/-! ## Machine integers and memory -/

/-- The value of an `int` expression as stored in a 32-bit two's complement `int`. -/
def wrap32 (x : Int) : Int := (x + 2147483648) % 4294967296 - 2147483648

/-- The cast `(int8)` of a byte. -/
def castInt8 (b : Nat) : Int := if b % 256 < 128 then (b % 256 : Nat) else (b % 256 : Nat) - 256

/-- The cast `(int16)` of a 16-bit unsigned value. -/
def castInt16 (w : Nat) : Int :=
  if w % 65536 < 32768 then (w % 65536 : Nat) else (w % 65536 : Nat) - 65536

/-- The cast `(int32)` of a 32-bit unsigned value. -/
def castInt32 (w : Nat) : Int :=
  if w % 4294967296 < 2147483648 then (w % 4294967296 : Nat)
  else (w % 4294967296 : Nat) - 4294967296

/-- The byte `code[ip]`; `none` outside the block. -/
def readByte (code : List Nat) (ip : Int) : Option Nat :=
  if 0 ≤ ip then (code[ip.toNat]?).map (· % 256) else none

/-- `READ_LE_UINT16(code + ip)`. -/
def READ_LE_UINT16 (code : List Nat) (ip : Int) : Option Nat :=
  match readByte code ip, readByte code (ip + 1) with
  | some b0, some b1 => some (b0 + 256 * b1)
  | _, _ => none

/-- `READ_LE_UINT32(code + ip)`. -/
def READ_LE_UINT32 (code : List Nat) (ip : Int) : Option Nat :=
  match readByte code ip, readByte code (ip + 1), readByte code (ip + 2),
      readByte code (ip + 3) with
  | some b0, some b1, some b2, some b3 => some (b0 + 256 * b1 + 65536 * b2 + 16777216 * b3)
  | _, _, _, _ => none

/-- The word `stack[i]`; `none` outside the array. -/
def stackRead (stack : List Int) (i : Int) : Option Int :=
  if 0 ≤ i then stack[i.toNat]? else none

/-- The assignment `stack[i] = v`; `none` outside the array. -/
def stackWrite (stack : List Int) (i : Int) (v : Int) : Option (List Int) :=
  if 0 ≤ i ∧ i.toNat < stack.length then some (stack.set i.toNat v) else none

/-- Fetch (and sign extend, if necessary) a 8/16/32 bit value from the code stream and
advance the instruction pointer accordingly. Returns the value and the new `ip`. -/
def Fetch (opcode : Nat) (code : List Nat) (ip : Int) : Option (Int × Int) :=
  if opcode &&& OPSIZE8 ≠ 0 then
    (readByte code ip).map fun b => (castInt8 b, ip + 1)
  else if opcode &&& OPSIZE16 ≠ 0 then
    (READ_LE_UINT16 code ip).map fun w => (castInt16 w, ip + 2)
  else
    (READ_LE_UINT32 code ip).map fun w => (castInt32 w, ip + 4)

/-- The word `pGlobals[i]`; `none` outside the array or when `pGlobals` is `NULL`. -/
def globalRead (g : Option (List Int)) (i : Int) : Option Int :=
  match g with
  | some l => if 0 ≤ i then l[i.toNat]? else none
  | none => none

/-- The assignment `pGlobals[i] = v`; `none` outside the array or when `pGlobals` is `NULL`. -/
def globalWrite (g : Option (List Int)) (i : Int) (v : Int) : Option (List Int) :=
  match g with
  | some l => if 0 ≤ i ∧ i.toNat < l.length then some (l.set i.toNat v) else none
  | none => none

/-! ## The interpreter -/

/-- Keeps the code array pointer up to date. -/
def LockCode {κ : Type} (x : Host κ) (hMasterScript : Nat) (ic : INT_CONTEXT) : INT_CONTEXT :=
  if ic.GSort = GSORT.GS_MASTER then
    if x.TinselV2 then { ic with code := x.LockMem hMasterScript }
    else { ic with code := x.masterPcode }
  else { ic with code := x.LockMem ic.hCode }

/-- The end of one pass of the loop: `assert(ic->sp >= 0 && ic->sp < PCODE_STACK_SIZE)`,
then `ic->ip = ip`. -/
def endOfPass {κ : Type} (x : Host κ) (s : Exec κ) (ip : Int) : Outcome (Exec κ) :=
  if 0 ≤ s.ic.sp ∧ s.ic.sp < x.PCODE_STACK_SIZE then
    .ok { s with ic := { s.ic with ip := ip } }
  else .fatal .stackCheck s

/-- The statement `ic->stack[++ic->sp] = v; break;`. -/
def push {κ : Type} (x : Host κ) (s : Exec κ) (v : Int) (ip : Int) : Outcome (Exec κ) :=
  match stackWrite s.ic.stack (s.ic.sp + 1) v with
  | some st => endOfPass x { s with ic := { s.ic with stack := st, sp := s.ic.sp + 1 } } ip
  | none => .fatal .stackAccess s

/-- A C truth value as an `int`. -/
def boolInt (p : Prop) [Decidable p] : Int := if p then 1 else 0

/-- The inner `switch (opcode)` of the comparison and logical group: the new value of
`tmp`. The switch has no default, so another `opcode` leaves `tmp` as it is. -/
def compareOp (opcode : Nat) (tmp tmp2 : Int) : Int :=
  if opcode = OP_EQUAL then boolInt (tmp = tmp2)
  else if opcode = OP_LESS then boolInt (tmp < tmp2)
  else if opcode = OP_LEQUAL then boolInt (tmp ≤ tmp2)
  else if opcode = OP_NEQUAL then boolInt (tmp ≠ tmp2)
  else if opcode = OP_GEQUAL then boolInt (tmp ≥ tmp2)
  else if opcode = OP_GREAT then boolInt (tmp > tmp2)
  else if opcode = OP_LOR then boolInt (tmp ≠ 0 ∨ tmp2 ≠ 0)
  else if opcode = OP_LAND then boolInt (tmp ≠ 0 ∧ tmp2 ≠ 0)
  else tmp

/-- The inner `switch (opcode)` of the arithmetic and bitwise group: the new value of
`tmp`, or `none` where the C expression is undefined (a zero divisor, `INT_MIN / -1`).
The switch has no default, so another `opcode` leaves `tmp` as it is. -/
def arithOp (opcode : Nat) (tmp tmp2 : Int) : Option Int :=
  if opcode = OP_PLUS then some (wrap32 (tmp + tmp2))
  else if opcode = OP_MINUS then some (wrap32 (tmp - tmp2))
  else if opcode = OP_MULT then some (wrap32 (tmp * tmp2))
  else if opcode = OP_DIV then
    if tmp2 = 0 ∨ (tmp = -2147483648 ∧ tmp2 = -1) then none else some (Int.tdiv tmp tmp2)
  else if opcode = OP_MOD then
    if tmp2 = 0 ∨ (tmp = -2147483648 ∧ tmp2 = -1) then none else some (Int.tmod tmp tmp2)
  else if opcode = OP_AND then some (Int.land tmp tmp2)
  else if opcode = OP_OR then some (Int.lor tmp tmp2)
  else if opcode = OP_EOR then some (Int.xor tmp tmp2)
  else some tmp

/-- The shared head of the two binary groups: `ic->sp--; assert(ic->sp >= 0);
tmp = ic->stack[ic->sp]; tmp2 = ic->stack[ic->sp + 1];`, then the group's inner switch
`f`, then `ic->stack[ic->sp] = tmp; break;`. -/
def binaryOp {κ : Type} (x : Host κ) (s : Exec κ) (ip : Int) (f : Int → Int → Option Int) :
    Outcome (Exec κ) :=
  let s1 : Exec κ := { s with ic := { s.ic with sp := s.ic.sp - 1 } }
  if 0 ≤ s1.ic.sp then
    match stackRead s1.ic.stack s1.ic.sp, stackRead s1.ic.stack (s1.ic.sp + 1) with
    | some tmp, some tmp2 =>
      match f tmp tmp2 with
      | some r =>
        match stackWrite s1.ic.stack s1.ic.sp r with
        | some st => endOfPass x { s1 with ic := { s1.ic with stack := st } } ip
        | none => .fatal .stackAccess s1
      | none => .fatal .divide s1
    | _, _ => .fatal .stackAccess s1
  else .fatal .operandCheck s1

/-- The top-of-stack operations `ic->stack[ic->sp] = f(ic->stack[ic->sp]); break;`. -/
def unaryOp {κ : Type} (x : Host κ) (s : Exec κ) (ip : Int) (f : Int → Int) :
    Outcome (Exec κ) :=
  match stackRead s.ic.stack s.ic.sp with
  | some v =>
    match stackWrite s.ic.stack s.ic.sp (f v) with
    | some st => endOfPass x { s with ic := { s.ic with stack := st } } ip
    | none => .fatal .stackAccess s
  | none => .fatal .stackAccess s

/-- The conditional jumps: `tmp = Fetch(...); if (ic->stack[ic->sp--] <cond> 0) ip = tmp;`.
`taken v` says whether the popped value `v` satisfies the condition. -/
def condJump {κ : Type} (x : Host κ) (s : Exec κ) (tmp ip : Int) (taken : Int → Bool) :
    Outcome (Exec κ) :=
  match stackRead s.ic.stack s.ic.sp with
  | some v =>
    endOfPass x { s with ic := { s.ic with sp := s.ic.sp - 1 } } (if taken v then tmp else ip)
  | none => .fatal .stackAccess s

/-- The statements of `OP_LIBCALL` after `if (coroParam) return;`, for the stack delta
`tmp2`: `ic->sp += tmp2; LockCode(ic); if (TinselV2 && (ic->resumeState == RES_1))
ic->resumeState = RES_NOT;`. -/
def afterLibrary {κ : Type} (x : Host κ) (hMasterScript : Nat) (ic : INT_CONTEXT) (tmp2 : Int) :
    INT_CONTEXT :=
  let ic3 := LockCode x hMasterScript { ic with sp := ic.sp + tmp2 }
  if x.TinselV2 ∧ ic3.resumeState = RESUME_STATE.RES_1 then
    { ic3 with resumeState := RESUME_STATE.RES_NOT }
  else ic3

/-- One pass of the body of the `do ... while` loop of `Interpret`: fetch the opcode at
`ic->ip`, execute it, check the stack pointer and write `ip` back. `suspended` is the
`return` inside `OP_LIBCALL`. -/
def InterpretBody {κ : Type} (x : Host κ) (s : Exec κ) : Outcome (Exec κ) :=
  match s.ic.code with
  | none => .fatal .codeAccess s
  | some code =>
    match readByte code s.ic.ip with
    | none => .fatal .codeAccess s
    | some opcode =>
      let ip := s.ic.ip + 1
      let op := opcode &&& OPMASK
      if op = OP_HALT then
        endOfPass x { s with ic := { s.ic with bHalt := true } } ip
      else if op = OP_IMM ∨ op = OP_STR ∨ op = OP_FILM ∨ op = OP_CDFILM ∨ op = OP_FONT
          ∨ op = OP_PAL then
        match Fetch opcode code ip with
        | some (v, ip1) => push x s v ip1
        | none => .fatal .codeAccess s
      else if op = OP_ZERO then push x s 0 ip
      else if op = OP_ONE then push x s 1 ip
      else if op = OP_MINUSONE then push x s (-1) ip
      else if op = OP_LOAD then
        match Fetch opcode code ip with
        | some (off, ip1) =>
          match stackRead s.ic.stack (s.ic.bp + off) with
          | some v => push x s v ip1
          | none => .fatal .stackAccess s
        | none => .fatal .codeAccess s
      else if op = OP_GLOAD then
        match Fetch opcode code ip with
        | some (tmp, ip1) =>
          if 0 ≤ tmp ∧ tmp < s.numGlobals then
            match globalRead s.pGlobals tmp with
            | some v => push x s v ip1
            | none => .fatal .globalAccess s
          else .fatal .globalCheck s
        | none => .fatal .codeAccess s
      else if op = OP_STORE then
        match Fetch opcode code ip with
        | some (off, ip1) =>
          match stackRead s.ic.stack s.ic.sp with
          | some v =>
            match stackWrite s.ic.stack (s.ic.bp + off) v with
            | some st =>
              endOfPass x { s with ic := { s.ic with stack := st, sp := s.ic.sp - 1 } } ip1
            | none => .fatal .stackAccess s
          | none => .fatal .stackAccess s
        | none => .fatal .codeAccess s
      else if op = OP_GSTORE then
        match Fetch opcode code ip with
        | some (tmp, ip1) =>
          if 0 ≤ tmp ∧ tmp < s.numGlobals then
            match stackRead s.ic.stack s.ic.sp with
            | some v =>
              match globalWrite s.pGlobals tmp v with
              | some g =>
                endOfPass x { s with ic := { s.ic with sp := s.ic.sp - 1 }, pGlobals := some g }
                  ip1
              | none => .fatal .globalAccess s
            | none => .fatal .stackAccess s
          else .fatal .globalCheck s
        | none => .fatal .codeAccess s
      else if op = OP_CALL then
        match Fetch opcode code ip with
        | some (tmp, ip1) =>
          match stackWrite s.ic.stack (s.ic.sp + 1) 0 with
          | some st1 =>
            match stackWrite st1 (s.ic.sp + 2) s.ic.bp with
            | some st2 =>
              match stackWrite st2 (s.ic.sp + 3) ip1 with
              | some st3 =>
                endOfPass x { s with ic := { s.ic with stack := st3, bp := s.ic.sp + 1 } } tmp
              | none => .fatal .stackAccess s
            | none => .fatal .stackAccess s
          | none => .fatal .stackAccess s
        | none => .fatal .codeAccess s
      else if op = OP_LIBCALL then
        match Fetch opcode code ip with
        | some (tmp, ip1) =>
          let r := x.CallLibraryRoutine s.coroParam tmp s.ic
          let ic1 : INT_CONTEXT := { s.ic with stack := r.stack, resumeState := r.resumeState }
          if r.coroParam.isSome then
            .suspended { s with ic := ic1, coroParam := r.coroParam }
          else
            endOfPass x
              { s with ic := afterLibrary x s.hMasterScript ic1 r.ret, coroParam := r.coroParam }
              ip1
        | none => .fatal .codeAccess s
      else if op = OP_RET then
        let sp := s.ic.bp - 1
        match stackRead s.ic.stack (sp + 3), stackRead s.ic.stack (sp + 2) with
        | some ra, some dl => endOfPass x { s with ic := { s.ic with sp := sp, bp := dl } } ra
        | _, _ => .fatal .stackAccess s
      else if op = OP_ALLOC then
        match Fetch opcode code ip with
        | some (n, ip1) => endOfPass x { s with ic := { s.ic with sp := s.ic.sp + n } } ip1
        | none => .fatal .codeAccess s
      else if op = OP_JUMP then
        match Fetch opcode code ip with
        | some (tmp, _) => endOfPass x s tmp
        | none => .fatal .codeAccess s
      else if op = OP_JMPFALSE then
        match Fetch opcode code ip with
        | some (tmp, ip1) => condJump x s tmp ip1 (fun v => decide (v = 0))
        | none => .fatal .codeAccess s
      else if op = OP_JMPTRUE then
        match Fetch opcode code ip with
        | some (tmp, ip1) => condJump x s tmp ip1 (fun v => decide (v ≠ 0))
        | none => .fatal .codeAccess s
      else if op = OP_EQUAL ∨ op = OP_LESS ∨ op = OP_LEQUAL ∨ op = OP_NEQUAL ∨ op = OP_GEQUAL
          ∨ op = OP_GREAT ∨ op = OP_LOR ∨ op = OP_LAND then
        binaryOp x s ip (fun tmp tmp2 => some (compareOp opcode tmp tmp2))
      else if op = OP_PLUS ∨ op = OP_MINUS ∨ op = OP_MULT ∨ op = OP_DIV ∨ op = OP_MOD
          ∨ op = OP_AND ∨ op = OP_OR ∨ op = OP_EOR then
        binaryOp x s ip (arithOp opcode)
      else if op = OP_NOT then unaryOp x s ip (fun v => boolInt (v = 0))
      else if op = OP_COMP then unaryOp x s ip Int.lnot
      else if op = OP_NEG then unaryOp x s ip (fun v => wrap32 (-v))
      else if op = OP_DUP then
        match stackRead s.ic.stack s.ic.sp with
        | some v =>
          match stackWrite s.ic.stack (s.ic.sp + 1) v with
          | some st => endOfPass x { s with ic := { s.ic with stack := st, sp := s.ic.sp + 1 } } ip
          | none => .fatal .stackAccess s
        | none => .fatal .stackAccess s
      else if op = OP_ESCON then
        endOfPass x
          { s with bNoPause := true,
                   ic := { s.ic with escOn := true, myEscape := x.GetEscEvents } } ip
      else if op = OP_ESCOFF then
        endOfPass x { s with ic := { s.ic with escOn := false, myEscape := 0 } } ip
      else .fatal .unknownOpcode s

/-- The loop `do { ... } while (!ic->bHalt);` of `Interpret`, bounded by `fuel` passes. -/
def InterpretLoop {κ : Type} (x : Host κ) : Nat → Exec κ → Outcome (Exec κ)
  | 0, s => .timeout s
  | fuel + 1, s =>
    match InterpretBody x s with
    | .ok s1 => if s1.ic.bHalt then .ok s1 else InterpretLoop x fuel s1
    | o => o

/-! ## The pool of interpret contexts -/

/-- The bytes of a context after `memset(pic, 0, sizeof(INT_CONTEXT))`. -/
def zeroed (pic : INT_CONTEXT) : INT_CONTEXT :=
  { pProc := 0, GSort := GSORT.GS_NONE, hCode := 0, code := none, event := 0, hPoly := 0,
    idActor := 0, pinvo := 0, stack := List.replicate pic.stack.length 0, sp := 0, bp := 0,
    ip := 0, bHalt := false, escOn := false, myEscape := 0, waitNumber1 := 0,
    waitNumber2 := 0, resumeCode := RESCODE.RES_WAITING, resumeState := RESUME_STATE.RES_NOT }

/-- Apply `f` to slot `i` of the pool. -/
def updateSlot (f : INT_CONTEXT → INT_CONTEXT) : Nat → List INT_CONTEXT → List INT_CONTEXT
  | _, [] => []
  | 0, pic :: rest => f pic :: rest
  | i + 1, pic :: rest => pic :: updateSlot f i rest

/-- Find a free interpret context and allocate it to the calling process `cur`
(`g_scheduler->getCurrentProcess()`). Returns the index of the slot and the new pool. -/
def AllocateInterpretContext {κ : Type} (x : Host κ) (cur : Nat) (gsort : GSORT) :
    List INT_CONTEXT → Except Fault (Nat × List INT_CONTEXT)
  | [] => .error .outOfContexts
  | pic :: rest =>
    if pic.GSort = GSORT.GS_NONE then
      .ok (0, { pic with pProc := cur, GSort := gsort } :: rest)
    else if x.DEBUG ∧ pic.pProc = cur then .error .unreleased
    else
      match AllocateInterpretContext x cur gsort rest with
      | .ok (i, l) => .ok (i + 1, pic :: l)
      | .error f => .error f

/-- The first loop of `FreeWaitCheck`: clear `waitNumber2` of the first context whose
`waitNumber2` is `w`. -/
def clearWaitee (w : Nat) : List INT_CONTEXT → List INT_CONTEXT
  | [] => []
  | c :: rest =>
    if c.waitNumber2 = w then { c with waitNumber2 := 0 } :: rest
    else c :: clearWaitee w rest

/-- The second loop of `FreeWaitCheck`: the first context whose `waitNumber1` is `w` gets
`waitNumber1 = 0` and `resumeCode = rc`. Returns the new pool and that context's `pProc`
(which is rescheduled), or `none` when the loop ends with `i == NUM_INTERPRET`. -/
def notifyWaiter (w : Nat) (rc : RESCODE) : List INT_CONTEXT → Option (List INT_CONTEXT × Nat)
  | [] => none
  | c :: rest =>
    if c.waitNumber1 = w then some ({ c with waitNumber1 := 0, resumeCode := rc } :: rest, c.pProc)
    else
      match notifyWaiter w rc rest with
      | some (l, p) => some (c :: l, p)
      | none => none

/-- `FreeWaitCheck(pic, bVoluntary)` where `pic` is slot `i` of the pool. -/
def FreeWaitCheck (i : Nat) (bVoluntary : Bool) (m : Machine) : Outcome Machine :=
  match m.icList[i]? with
  | none => .fatal .contextAccess m
  | some pic =>
    -- Is this waiting for something?
    let l1 := if pic.waitNumber1 ≠ 0 then clearWaitee pic.waitNumber1 m.icList else m.icList
    let m1 : Machine := { m with icList := l1 }
    -- Is someone waiting for this?
    let pic1 := (l1[i]?).getD pic
    if pic1.waitNumber2 ≠ 0 then
      match notifyWaiter pic1.waitNumber2
          (if bVoluntary then RESCODE.RES_FINISHED else RESCODE.RES_CUTSHORT) l1 with
      | some (l2, p) => .ok { m1 with icList := l2, rescheduled := m1.rescheduled ++ [p] }
      | none => .fatal .noWaiter m1
    else .ok m1

/-- The tail shared by the two release routines: `if (TinselV2) memset(pic, 0, ...);
pic->GSort = GS_NONE;`. -/
def releaseSlot {κ : Type} (x : Host κ) (pic : INT_CONTEXT) : INT_CONTEXT :=
  { (if x.TinselV2 then zeroed pic else pic) with GSort := GSORT.GS_NONE }

/-- Normal release of an interpret context (slot `i`). Called from the end of
`Interpret`. -/
def FreeInterpretContextPi {κ : Type} (x : Host κ) (i : Nat) (m : Machine) : Outcome Machine :=
  match FreeWaitCheck i true m with
  | .ok m1 => .ok { m1 with icList := updateSlot (releaseSlot x) i m1.icList }
  | o => o

/-- The scan `for (i = 0, pic = icList; i < NUM_INTERPRET; i++, pic++)` for the first live
context owned by `pProc`; the result is the length of the pool when there is none. -/
def findContext (pProc : Nat) : List INT_CONTEXT → Nat
  | [] => 0
  | pic :: rest =>
    if pic.GSort ≠ GSORT.GS_NONE ∧ pic.pProc = pProc then 0 else findContext pProc rest + 1

/-- Free interpret context owned by a dying process. -/
def FreeInterpretContextPr {κ : Type} (x : Host κ) (pProc : Nat) (m : Machine) :
    Outcome Machine :=
  let i := findContext pProc m.icList
  if i < m.icList.length then
    match FreeWaitCheck i false m with
    | .ok m1 => .ok { m1 with icList := updateSlot (releaseSlot x) i m1.icList }
    | o => o
  else .ok m

/-- Allocate and initialise an interpret context. Called from a process (`cur`) prior to
`Interpret`. Returns the index of the context and the new state. -/
def InitInterpretContext {κ : Type} (x : Host κ) (cur : Nat) (gsort : GSORT) (hCode : Nat)
    (event : Nat) (hpoly : Int) (actorid : Int) (pinvo : Nat) (myEscape : Int) (m : Machine) :
    Except Fault (Nat × Machine) :=
  match AllocateInterpretContext x cur gsort m.icList with
  | .error f => .error f
  | .ok (i, l) =>
    let init (ic : INT_CONTEXT) : INT_CONTEXT :=
      let ic1 := LockCode x m.hMasterScript { ic with hCode := hCode }
      { ic1 with event := event, hPoly := hpoly, idActor := actorid, pinvo := pinvo,
                 bHalt := false, escOn := decide (myEscape > 0), myEscape := myEscape,
                 sp := 0, bp := 0 + 1, ip := 0, resumeState := RESUME_STATE.RES_NOT }
    .ok (i, { m with icList := updateSlot init i l })

/-- The state one pass of `Interpret` works on, for the context in slot `i`. -/
def Machine.toExec {κ : Type} (m : Machine) (ic : INT_CONTEXT) (coroParam : Option κ) : Exec κ :=
  { ic := ic, pGlobals := m.pGlobals, numGlobals := m.numGlobals,
    hMasterScript := m.hMasterScript, bNoPause := m.bNoPause, coroParam := coroParam }

/-- The file-scope data as the passes of `Interpret` on slot `i` left them. -/
def Machine.ofExec {κ : Type} (m : Machine) (i : Nat) (e : Exec κ) : Machine :=
  { m with pGlobals := e.pGlobals, bNoPause := e.bNoPause, icList := m.icList.set i e.ic }

/-- Interprets the PCODE instructions in the code array: `Interpret(coroParam, ic)` where
`ic` is slot `i` of the pool, with at most `fuel` passes of the loop. The result is the
state and the coroutine parameter; `suspended` means that `Interpret` returned from the
library call with `coroParam` set. -/
def Interpret {κ : Type} (x : Host κ) (fuel : Nat) (coroParam : Option κ) (i : Nat)
    (m : Machine) : Outcome (Machine × Option κ) :=
  match m.icList[i]? with
  | none => .fatal .contextAccess (m, coroParam)
  | some ic =>
    match InterpretLoop x fuel (m.toExec ic coroParam) with
    | .ok e =>
      -- make sure stack is unwound
      if e.ic.sp = 0 then
        match FreeInterpretContextPi x i (m.ofExec i e) with
        | .ok m1 => .ok (m1, e.coroParam)
        | .suspended m1 => .suspended (m1, e.coroParam)
        | .fatal f m1 => .fatal f (m1, e.coroParam)
        | .timeout m1 => .timeout (m1, e.coroParam)
      else .fatal .notUnwound (m.ofExec i e, e.coroParam)
    | .suspended e => .suspended (m.ofExec i e, e.coroParam)
    | .fatal f e => .fatal f (m.ofExec i e, e.coroParam)
    | .timeout e => .timeout (m.ofExec i e, e.coroParam)

/-! ## Rendezvous -/

/-- The inner scan of `UniqueWaitNumber`: is `retval` some context's wait number? -/
def waitNumberInUse (retval : Nat) (l : List INT_CONTEXT) : Bool :=
  l.any fun c => decide (c.waitNumber1 = retval ∨ c.waitNumber2 = retval)

/-- Generate a number that isn't being used, starting from `retval` (initially
`DwGetCurrentTime()`), with at most `fuel` passes of the outer loop. -/
def UniqueWaitNumber (l : List INT_CONTEXT) : Nat → Nat → Option Nat
  | 0, _ => none
  | fuel + 1, retval =>
    let retval := if retval % 4294967296 = 0 then 4294967295 else retval % 4294967296
    if waitNumberInUse retval l then UniqueWaitNumber l fuel (retval - 1) else some retval

/-- The part of `WaitInterpret` before `CORO_GIVE_WAY`: `cur` is the calling (waiter)
process, `pWaitProc` the process waited for, `time` the value of `DwGetCurrentTime()`.
Returns the new state and `_ctx->picWaiter` (a pool index). -/
def WaitInterpretSetup (fuel : Nat) (cur pWaitProc time : Nat) (m : Machine) :
    Outcome (Machine × Nat) :=
  let picWaiter := findContext cur m.icList
  let picWaitee := findContext pWaitProc m.icList
  if cur = 0 then .fatal .noCurrentProcess (m, picWaiter)
  else if cur = pWaitProc then .fatal .waitForSelf (m, picWaiter)
  else
    match m.icList[picWaitee]? with
    | none => .fatal .contextAccess (m, picWaiter)
    | some waitee =>
      if waitee.waitNumber2 = 0 then
        match UniqueWaitNumber m.icList fuel time with
        | none => .timeout (m, picWaiter)
        | some w =>
          if picWaiter < m.icList.length then
            let l1 := updateSlot (fun c => { c with waitNumber2 := w }) picWaitee m.icList
            let l2 := updateSlot (fun c => { c with waitNumber1 := w }) picWaiter l1
            let l3 := updateSlot (fun c => { c with resumeCode := RESCODE.RES_WAITING })
              picWaiter l2
            .ok ({ m with icList := l3 }, picWaiter)
          else .fatal .contextAccess (m, picWaiter)
      else .fatal .waiteeBusy (m, picWaiter)

/-- The part of `WaitInterpret` after `CORO_GIVE_WAY`, each time the scheduler resumes the
coroutine: `none` when it sleeps again (`resumeCode` is still `RES_WAITING`), otherwise the
value stored in `*result`. `picWaiter` is the pool index kept in the coroutine context. -/
def WaitInterpretResume (picWaiter : Nat) (m : Machine) : Option Bool :=
  match m.icList[picWaiter]? with
  | none => none
  | some waiter =>
    if waiter.resumeCode = RESCODE.RES_WAITING then none
    else some (decide (waiter.resumeCode = RESCODE.RES_FINISHED))

/-! ## Bulk release and restore -/

/-- The statements `memset(pic, 0, sizeof(INT_CONTEXT)); pic->GSort = GS_NONE;`. -/
def wipeSlot (pic : INT_CONTEXT) : INT_CONTEXT :=
  { zeroed pic with GSort := GSORT.GS_NONE }

/-- Free all interpret contexts except for the master script's. -/
def FreeMostInterpretContexts (m : Machine) : Machine :=
  { m with icList := m.icList.map fun pic =>
      if pic.GSort ≠ GSORT.GS_MASTER ∧ pic.GSort ≠ GSORT.GS_GPROCESS then wipeSlot pic else pic }

/-- The loop of `FreeMasterInterpretContext`, which returns after the first context of sort
`GS_MASTER` or `GS_GPROCESS`. -/
def freeMasterLoop : List INT_CONTEXT → List INT_CONTEXT
  | [] => []
  | pic :: rest =>
    if pic.GSort = GSORT.GS_MASTER ∨ pic.GSort = GSORT.GS_GPROCESS then wipeSlot pic :: rest
    else pic :: freeMasterLoop rest

/-- Free the master script's interpret context. -/
def FreeMasterInterpretContext (m : Machine) : Machine :=
  { m with icList := freeMasterLoop m.icList }

/-- Allocate and initialise an interpret context with restored data: `ric` is copied over
the slot (`memcpy`), then the owner, `resumeState` and the code pointer are set. -/
def RestoreInterpretContext {κ : Type} (x : Host κ) (cur : Nat) (ric : INT_CONTEXT)
    (m : Machine) : Except Fault (Nat × Machine) :=
  match AllocateInterpretContext x cur GSORT.GS_NONE m.icList with
  | .error f => .error f
  | .ok (i, l) =>
    let restored : INT_CONTEXT :=
      LockCode x m.hMasterScript { ric with pProc := cur, resumeState := RESUME_STATE.RES_1 }
    .ok (i, { m with icList := updateSlot (fun _ => restored) i l })

/-! ## The global variables -/

/-- Further constants and collaborators of `RegisterGlobals`: the constant `NUM_INTERPRET`
of `pcode.h`, the value `READ_LE_UINT32(FindChunk(MASTER_SCNHANDLE, CHUNK_MASTER_SCRIPT))`,
and the file `GLOBALS_FILENAME` as the sequence of values that `readSint32LE` yields from it
(`none` when the file cannot be opened). -/
structure Startup where
  NUM_INTERPRET : Nat
  masterScript : Nat
  globalsFile : Option (List Int)

/-- A slot of the pool as `calloc` returns it. -/
def callocContext {κ : Type} (x : Host κ) : INT_CONTEXT :=
  { pProc := 0, GSort := GSORT.GS_NONE, hCode := 0, code := none, event := 0, hPoly := 0,
    idActor := 0, pinvo := 0, stack := List.replicate x.PCODE_STACK_SIZE 0, sp := 0, bp := 0,
    ip := 0, bHalt := false, escOn := false, myEscape := 0, waitNumber1 := 0,
    waitNumber2 := 0, resumeCode := RESCODE.RES_WAITING, resumeState := RESUME_STATE.RES_NOT }

/-- The first part of `RegisterGlobals`: allocate the globals and the pool when `pGlobals`
is `NULL`, otherwise check the count and zero both. -/
def registerOrReset {κ : Type} (x : Host κ) (st : Startup) (num : Int) (m : Machine) :
    Outcome Machine :=
  match m.pGlobals with
  | none =>
    if num < 0 then .fatal .cannotAllocate { m with numGlobals := num }
    else
      .ok { m with numGlobals := num,
                   hMasterScript := if x.TinselV2 then st.masterScript else 0,
                   pGlobals := some (List.replicate num.toNat 0),
                   icList := List.replicate st.NUM_INTERPRET (callocContext x) }
  | some g =>
    -- Check size is still the same
    if m.numGlobals = num then
      if 0 ≤ m.numGlobals ∧ m.numGlobals.toNat ≤ g.length then
        .ok { m with pGlobals := some (List.replicate m.numGlobals.toNat 0 ++
                                        g.drop m.numGlobals.toNat),
                     icList := m.icList.map zeroed }
      else .fatal .globalAccess m
    else .fatal .globalsCount m

/-- The assignments `pGlobals[i] = v` for the values `vals` and `i = 0, 1, ...`. -/
def storePrefix (vals : List Int) (g : List Int) : List Int :=
  vals ++ g.drop vals.length

/-- Allocates enough RAM to hold the global Glitter variables (and the pool); when
`TinselV2`, reads the initial values from the globals file. The calls
`g_scheduler->setResourceCallback(FreeInterpretContextPr)` and `CdCD(nullContext)` do not
touch the data of this model and are left out. -/
def RegisterGlobals {κ : Type} (x : Host κ) (st : Startup) (num : Int) (m : Machine) :
    Outcome Machine :=
  match registerOrReset x st num m with
  | .ok m1 =>
    if x.TinselV2 then
      -- read initial values
      match st.globalsFile, m1.pGlobals with
      | none, _ => .fatal .cannotFindFile m1
      | some [], _ => .fatal .fileIsCorrupt m1
      | some (length :: values), some g =>
        if length ≠ num then .fatal .fileIsCorrupt m1
        else if num.toNat ≤ values.length then
          .ok { m1 with pGlobals := some (storePrefix (values.take num.toNat) g) }
        else .fatal .fileIsCorrupt { m1 with pGlobals := some (storePrefix values g) }
      | some (_ :: _), none => .fatal .globalAccess m1
    else .ok m1
  | o => o

/-- `FreeGlobals`: both arrays are freed and their pointers set to `NULL`. The freed pool
is the pool without slots. -/
def FreeGlobals (m : Machine) : Machine :=
  { m with pGlobals := none, icList := [] }

/-- The four bytes of a 32-bit value, least significant first. -/
def encodeLE32 (v : Int) : List Nat :=
  let u := (v % 4294967296).toNat
  [u % 256, u / 256 % 256, u / 65536 % 256, u / 16777216 % 256]

/-- Modelled from the spec: the class `Serializer` is declared in `serializer.h`, which
`pcode.cpp` only uses. A serializer either loads from a stream of bytes or saves to one;
`saving out` holds the bytes written so far. -/
inductive Serializer where
  | loading (stream : List Nat)
  | saving (out : List Nat)
  deriving DecidableEq, Repr

/-- Modelled from the spec: `Serializer::isLoading`. -/
def Serializer.isLoading : Serializer → Bool
  | .loading _ => true
  | .saving _ => false

/-- Modelled from the spec: `Serializer::syncAsSint32LE(val)`: when saving, the value is
written as a 32-bit little-endian word; when loading, the next such word replaces it
(`none` when the stream ends before). Returns the serializer and the value of `val`. -/
def Serializer.syncAsSint32LE (s : Serializer) (val : Int) : Option (Serializer × Int) :=
  match s with
  | .saving out => some (.saving (out ++ encodeLE32 val), val)
  | .loading (b0 :: b1 :: b2 :: b3 :: rest) =>
    some (.loading rest,
      castInt32 (b0 % 256 + 256 * (b1 % 256) + 65536 * (b2 % 256) + 16777216 * (b3 % 256)))
  | .loading _ => none

/-- The loop `for (int i = 0; i < numGlobals; i++) s.syncAsSint32LE(pGlobals[i]);` over the
array from index `i` on, with `n` values still to go; `none` when the array or the stream
ends before. -/
def syncGlobalsLoop : Nat → Serializer → List Int → Option (Serializer × List Int)
  | 0, s, g => some (s, g)
  | _ + 1, _, [] => none
  | n + 1, s, v :: rest =>
    match s.syncAsSint32LE v with
    | none => none
    | some (s1, v1) =>
      match syncGlobalsLoop n s1 rest with
      | none => none
      | some (s2, rest2) => some (s2, v1 :: rest2)

/-- (Un)serialize the global data for save/restore game. -/
def syncGlobInfo (s : Serializer) (m : Machine) : Option (Serializer × Machine) :=
  match m.pGlobals with
  | none => if m.numGlobals ≤ 0 then some (s, m) else none
  | some g =>
    match syncGlobalsLoop m.numGlobals.toNat s g with
    | none => none
    | some (s1, g1) => some (s1, { m with pGlobals := some g1 })

/-! ## Predicates used by the theorems -/

/-- The state an outcome carries. -/
def Outcome.state {σ : Type} : Outcome σ → σ
  | .ok s => s
  | .suspended s => s
  | .fatal _ s => s
  | .timeout s => s

/-- The check `ic->sp >= 0 && ic->sp < PCODE_STACK_SIZE` as a property of a context. -/
def spInRange {κ : Type} (x : Host κ) (ic : INT_CONTEXT) : Prop :=
  0 ≤ ic.sp ∧ ic.sp < x.PCODE_STACK_SIZE

/-- The states of one context reachable from `s` through passes of the loop of `Interpret`
that do not fail: passes that end normally, passes that return from a library call with
the coroutine parameter set, and, between two runs, any change that leaves the context
itself as it is (the coroutine parameter, other contexts writing globals). -/
inductive Reaches {κ : Type} (x : Host κ) : Exec κ → Exec κ → Prop where
  | start (s : Exec κ) : Reaches x s s
  | pass (s t u : Exec κ) : Reaches x s t → InterpretBody x t = .ok u → Reaches x s u
  | suspend (s t u : Exec κ) : Reaches x s t → InterpretBody x t = .suspended u → Reaches x s u
  | between (s t u : Exec κ) : Reaches x s t → u.ic = t.ic → Reaches x s u

/-! ## Example states -/

/-- A host for the examples: a stack of eight words, and a library bridge that asks for a
coroutine step when first invoked (no coroutine context yet) and on the retry completes
with the stack delta `+1`. -/
def sampleHost : Host Nat :=
  { TinselV2 := true, DEBUG := false, PCODE_STACK_SIZE := 8, LockMem := fun _ => none,
    masterPcode := none, GetEscEvents := 0,
    CallLibraryRoutine := fun coro _ ic =>
      match coro with
      | none => { coroParam := some 0, ret := 0, stack := ic.stack,
                  resumeState := ic.resumeState }
      | some _ => { coroParam := none, ret := 1, stack := ic.stack,
                    resumeState := ic.resumeState } }

/-- A context for the examples, about to execute the first byte of `code` with the two
words `2` and `3` on top of its stack. -/
def sampleContext (code : List Nat) : INT_CONTEXT :=
  { pProc := 1, GSort := GSORT.GS_OTHER 0, hCode := 0, code := some code, event := 0,
    hPoly := 0, idActor := 0, pinvo := 0, stack := [0, 2, 3, 0, 0, 0, 0, 0], sp := 2, bp := 1,
    ip := 0, bHalt := false, escOn := false, myEscape := 0, waitNumber1 := 0,
    waitNumber2 := 0, resumeCode := RESCODE.RES_WAITING, resumeState := RESUME_STATE.RES_NOT }

/-- The state of one pass on `sampleContext code`, with no globals registered. -/
def sampleExec (code : List Nat) : Exec Nat :=
  { ic := sampleContext code, pGlobals := none, numGlobals := 0, hMasterScript := 0,
    bNoPause := false, coroParam := none }

/-- The example code `CALL 5` (8-bit operand) at address 0 and `RET` at address 5. -/
def sampleCallCode : List Nat := [OP_CALL + OPSIZE8, 5, OP_HALT, OP_HALT, OP_HALT, OP_RET]

/-- The state `sampleExec sampleCallCode` after its `CALL 5`, about to execute the `RET`:
the linkage words `0, 1, 2` (static link, old `bp`, return address) are at `stack[3..5]`
and `bp` is `3`. -/
def sampleCallee : Exec Nat :=
  { sampleExec sampleCallCode with
    ic := { sampleContext sampleCallCode with
      stack := [0, 2, 3, 0, 1, 2, 0, 0], bp := 3, ip := 5 } }

/-- A pool for the examples whose only slot holds `sampleContext code`. -/
def sampleMachine (code : List Nat) : Machine :=
  { pGlobals := none, numGlobals := 0, icList := [sampleContext code], hMasterScript := 0,
    bNoPause := false, rescheduled := [] }

/-- A pool for the examples: the context in slot 0 (process 1) waits, with token 7, for
the context in slot 1 (process 2). -/
def sampleWaitMachine : Machine :=
  { pGlobals := none, numGlobals := 0,
    icList := [{ sampleContext [] with pProc := 1, waitNumber1 := 7 },
               { sampleContext [] with pProc := 2, waitNumber2 := 7 }],
    hMasterScript := 0, bNoPause := false, rescheduled := [] }

/-- A pool for the examples whose only context is about to execute `OP_HALT` with an
unwound stack (`sp = 0`). -/
def sampleUnwoundMachine : Machine :=
  { pGlobals := none, numGlobals := 0, icList := [{ sampleContext [OP_HALT] with sp := 0 }],
    hMasterScript := 0, bNoPause := false, rescheduled := [] }

/-- The state `m` with every slot of the pool zeroed. -/
def zeroedMachine (m : Machine) : Machine :=
  { m with icList := m.icList.map zeroed }

/-- The program `[PUSH 2, PUSH 3, PLUS, HALT]`: two `OP_IMM` with 8-bit operands, `OP_PLUS`
and `OP_HALT`. -/
def scenarioCode : List Nat := [OP_IMM + OPSIZE8, 2, OP_IMM + OPSIZE8, 3, OP_PLUS, OP_HALT]

/-- A host whose memory manager resolves every code handle to `scenarioCode`. -/
def scenarioHost : Host Nat :=
  { sampleHost with LockMem := fun _ => some scenarioCode }

/-- The state after `RegisterGlobals(0)` for `scenarioHost` with a pool of one slot: no
globals, the slot zero-filled. -/
def freshMachine : Machine :=
  { pGlobals := some [], numGlobals := 0, icList := [zeroed (sampleContext [])],
    hMasterScript := 0, bNoPause := false, rescheduled := [] }

/-- The context `InitInterpretContext` yields in the slot of `freshMachine` for process 1,
sort `GS_OTHER 0` and zero for every other argument, with `scenarioHost`. -/
def scenarioContext : INT_CONTEXT :=
  { zeroed (sampleContext []) with
    pProc := 1, GSort := GSORT.GS_OTHER 0, code := some scenarioCode, bp := 1 }

/-- The state `freshMachine` after that call of `InitInterpretContext`. -/
def scenarioMachine : Machine :=
  { freshMachine with icList := [scenarioContext] }

/-- A pool for the examples: the master script's context in slot 0, a scene context with a
wait token in slot 1 and a global process's context in slot 2. -/
def sampleMixedMachine : Machine :=
  { pGlobals := none, numGlobals := 0,
    icList := [{ sampleContext [] with pProc := 1, GSort := GSORT.GS_MASTER },
               { sampleContext [] with pProc := 2, waitNumber2 := 7 },
               { sampleContext [] with pProc := 3, GSort := GSORT.GS_GPROCESS }],
    hMasterScript := 0, bNoPause := false, rescheduled := [] }

/-- A sequence of `AllocateInterpretContext` calls without any release in between: each
request is the calling process and the sort asked for. -/
def allocateAll {κ : Type} (x : Host κ) :
    List (Nat × GSORT) → List INT_CONTEXT → Except Fault (List INT_CONTEXT)
  | [], l => .ok l
  | (cur, gsort) :: rest, l =>
    match AllocateInterpretContext x cur gsort l with
    | .error f => .error f
    | .ok (_, l1) => allocateAll x rest l1

/-- The number of free slots of a pool. -/
def freeCount (l : List INT_CONTEXT) : Nat :=
  l.countP fun c => decide (c.GSort = GSORT.GS_NONE)

/-- The example host built with `DEBUG` defined. -/
def debugHost : Host Nat :=
  { sampleHost with DEBUG := true }

/-- A pool for the examples: slot 0 is owned by process 1, slot 1 is free. -/
def sampleOwnedPool : List INT_CONTEXT :=
  [sampleContext [], zeroed (sampleContext [])]

/-- The fields that tie a context to its owner and to a rendezvous (the wait numbers and
`resumeCode`) are the same in `a` and `b`. -/
def SameLinks (a b : INT_CONTEXT) : Prop :=
  b.waitNumber1 = a.waitNumber1 ∧ b.waitNumber2 = a.waitNumber2 ∧ b.GSort = a.GSort ∧
    b.pProc = a.pProc ∧ b.resumeCode = a.resumeCode

/-- What one pass of the loop started in `s` guarantees about its outcome `o`: the links of
the context are kept, a pass that ends normally leaves the stack pointer in range,
`error("Unknown opcode")` is raised only with the state untouched and when `u` holds, and
a pass that returns from inside a library call leaves the stack pointer as it was. -/
def PassFacts {κ : Type} (x : Host κ) (s : Exec κ) (u : Prop) (o : Outcome (Exec κ)) : Prop :=
  SameLinks s.ic o.state.ic ∧ (∀ t, o = .ok t → spInRange x t.ic) ∧
    (∀ t, o = .fatal .unknownOpcode t → t = s ∧ u) ∧
    (∀ t, o = .suspended t → t.ic.sp = s.ic.sp)

/-- A state for the examples: two globals `[10, 20]`, and a context whose code stores the
top of stack in global 1 and loads global 1 again. -/
def sampleGlobalExec : Exec Nat :=
  { sampleExec [OP_GSTORE + OPSIZE8, 1, OP_GLOAD + OPSIZE8, 1] with
    pGlobals := some [10, 20], numGlobals := 2 }

/-- Start-up data for the examples: a pool of two slots and a globals file that holds the
count 2 and the initial values 5 and -7. -/
def sampleStartup : Startup :=
  { NUM_INTERPRET := 2, masterScript := 0, globalsFile := some [2, 5, -7] }

/-- A state for the examples in which two globals are registered, with the values 40 and
41, and the pool holds two live contexts. -/
def sampleRegistered : Machine :=
  { pGlobals := some [40, 41], numGlobals := 2,
    icList := [sampleContext [], { sampleContext [] with pProc := 2 }],
    hMasterScript := 0, bNoPause := false, rescheduled := [] }

/-- The example host as a Tinsel 1 engine. -/
def sampleHostV1 : Host Nat :=
  { sampleHost with TinselV2 := false }

/-- The assignments `pGlobals[i] = v0; pGlobals[i + 1] = v1; ...` for the values
`vals`. -/
def storeGlobals : List Int → Int → Option (List Int) → Option (List Int)
  | [], _, g => g
  | v :: rest, i, g =>
    match globalWrite g i v with
    | some g1 => storeGlobals rest (i + 1) (some g1)
    | none => none

/-- A state for the examples in which nothing is registered yet. -/
def unregisteredMachine : Machine :=
  { pGlobals := none, numGlobals := 0, icList := [], hMasterScript := 0, bNoPause := false,
    rescheduled := [] }

/-- The state after `RegisterGlobals(2)` on `unregisteredMachine`, for `sampleHost` and
`sampleStartup`: the two globals hold the initial values of the file. -/
def sampleFresh : Machine :=
  { pGlobals := some [5, -7], numGlobals := 2,
    icList := List.replicate 2 (callocContext sampleHost), hMasterScript := 0,
    bNoPause := false, rescheduled := [] }

/-- No two live slots of the pool have the same owner. -/
def UniqueOwners (l : List INT_CONTEXT) : Prop :=
  ∀ (i j : Nat) (c d : INT_CONTEXT), l[i]? = some c → l[j]? = some d →
    c.GSort ≠ GSORT.GS_NONE → d.GSort ≠ GSORT.GS_NONE → c.pProc = d.pProc → i = j

/-- The process `cur` owns no live slot of the pool. -/
def OwnsNone (cur : Nat) (l : List INT_CONTEXT) : Prop :=
  ∀ (j : Nat) (d : INT_CONTEXT), l[j]? = some d → d.GSort ≠ GSORT.GS_NONE → d.pProc ≠ cur

/-- The states reachable from a pool of free slots through `InitInterpretContext` and
`RestoreInterpretContext`, each called by a process that owns no live context at the time
of the call, and through the release operations. -/
inductive Disciplined {κ : Type} (x : Host κ) : Machine → Prop where
  | empty (m : Machine) (h : ∀ c, c ∈ m.icList → c.GSort = GSORT.GS_NONE) : Disciplined x m
  | init (m m1 : Machine) (cur : Nat) (gsort : GSORT) (hCode event : Nat) (hpoly actorid : Int)
      (pinvo : Nat) (myEscape : Int) (i : Nat) (hm : Disciplined x m)
      (hown : OwnsNone cur m.icList)
      (h : InitInterpretContext x cur gsort hCode event hpoly actorid pinvo myEscape m
        = .ok (i, m1)) : Disciplined x m1
  | restore (m m1 : Machine) (cur : Nat) (ric : INT_CONTEXT) (i : Nat) (hm : Disciplined x m)
      (hown : OwnsNone cur m.icList)
      (h : RestoreInterpretContext x cur ric m = .ok (i, m1)) : Disciplined x m1
  | freePi (m m1 : Machine) (i : Nat) (hm : Disciplined x m)
      (h : FreeInterpretContextPi x i m = .ok m1) : Disciplined x m1
  | freePr (m m1 : Machine) (p : Nat) (hm : Disciplined x m)
      (h : FreeInterpretContextPr x p m = .ok m1) : Disciplined x m1
  | freeMost (m : Machine) (hm : Disciplined x m) : Disciplined x (FreeMostInterpretContexts m)
  | freeMaster (m : Machine) (hm : Disciplined x m) :
      Disciplined x (FreeMasterInterpretContext m)

/-- The wait-pair invariant among live contexts: for every live context, a non-zero
`waitNumber2` is the `waitNumber1` of exactly one live context, and a non-zero
`waitNumber1` is the `waitNumber2` of exactly one live context. -/
def WaitPaired (l : List INT_CONTEXT) : Prop :=
  ∀ (j : Nat) (c : INT_CONTEXT), l[j]? = some c → c.GSort ≠ GSORT.GS_NONE →
    (c.waitNumber2 ≠ 0 → ∃ (k : Nat) (d : INT_CONTEXT), l[k]? = some d ∧
      d.GSort ≠ GSORT.GS_NONE ∧ d.waitNumber1 = c.waitNumber2 ∧
      ∀ (k2 : Nat) (d2 : INT_CONTEXT), l[k2]? = some d2 → d2.GSort ≠ GSORT.GS_NONE →
        d2.waitNumber1 = c.waitNumber2 → k2 = k) ∧
    (c.waitNumber1 ≠ 0 → ∃ (k : Nat) (d : INT_CONTEXT), l[k]? = some d ∧
      d.GSort ≠ GSORT.GS_NONE ∧ d.waitNumber2 = c.waitNumber1 ∧
      ∀ (k2 : Nat) (d2 : INT_CONTEXT), l[k2]? = some d2 → d2.GSort ≠ GSORT.GS_NONE →
        d2.waitNumber2 = c.waitNumber1 → k2 = k)

/-- The wait-pair invariant over all slots: for every live context, a non-zero
`waitNumber2` is the `waitNumber1` of exactly one slot of the pool, which is live, and a
non-zero `waitNumber1` is the `waitNumber2` of exactly one slot of the pool, which is
live. -/
def WaitPairedStrict (l : List INT_CONTEXT) : Prop :=
  ∀ (j : Nat) (c : INT_CONTEXT), l[j]? = some c → c.GSort ≠ GSORT.GS_NONE →
    (c.waitNumber2 ≠ 0 → ∃ (k : Nat) (d : INT_CONTEXT), l[k]? = some d ∧
      d.GSort ≠ GSORT.GS_NONE ∧ d.waitNumber1 = c.waitNumber2 ∧
      ∀ (k2 : Nat) (d2 : INT_CONTEXT), l[k2]? = some d2 →
        d2.waitNumber1 = c.waitNumber2 → k2 = k) ∧
    (c.waitNumber1 ≠ 0 → ∃ (k : Nat) (d : INT_CONTEXT), l[k]? = some d ∧
      d.GSort ≠ GSORT.GS_NONE ∧ d.waitNumber2 = c.waitNumber1 ∧
      ∀ (k2 : Nat) (d2 : INT_CONTEXT), l[k2]? = some d2 →
        d2.waitNumber2 = c.waitNumber1 → k2 = k)

/-- A pool for the examples: slot 0 is free but still carries the wait number 7 as its
`waitNumber2`; the context in slot 1 (process 1) waits, with token 7, for the context in
slot 2 (process 2). -/
def staleWaitMachine : Machine :=
  { pGlobals := none, numGlobals := 0,
    icList := [{ sampleContext [] with pProc := 3, GSort := GSORT.GS_NONE, waitNumber2 := 7 },
               { sampleContext [] with pProc := 1, waitNumber1 := 7 },
               { sampleContext [] with pProc := 2, waitNumber2 := 7 }],
    hMasterScript := 0, bNoPause := false, rescheduled := [] }

/-- A state for the examples: about to execute `OP_DIV` with -7 below the top of stack and
2 on top. -/
def sampleDivExec : Exec Nat :=
  { sampleExec [OP_DIV] with
    ic := { sampleContext [OP_DIV] with stack := [0, -7, 2, 0, 0, 0, 0, 0] } }

/-- A state for the examples: about to execute `JMPFALSE 9` (8-bit operand) with the value
0 on top of the stack (`sp = 3`). -/
def sampleJumpExec : Exec Nat :=
  { sampleExec [OP_JMPFALSE + OPSIZE8, 9] with
    ic := { sampleContext [OP_JMPFALSE + OPSIZE8, 9] with sp := 3 } }

/-- A state for the examples: about to execute `OP_ZERO` with `sp` at the last word of the
stack array (`sp = PCODE_STACK_SIZE - 1 = 7`). -/
def sampleFullExec : Exec Nat :=
  { sampleExec [OP_ZERO] with ic := { sampleContext [OP_ZERO] with sp := 7 } }

/-- The inner loop of the first check of `CheckOutWaiters`: is there a live context whose
`waitNumber1` is `w`? -/
def liveWaiterExists (w : Nat) (l : List INT_CONTEXT) : Bool :=
  l.any fun c => decide (c.GSort ≠ GSORT.GS_NONE ∧ c.waitNumber1 = w)

/-- The inner loop of the second check of `CheckOutWaiters`: is there a live context whose
`waitNumber2` is `w`? -/
def liveWaiteeExists (w : Nat) (l : List INT_CONTEXT) : Bool :=
  l.any fun c => decide (c.GSort ≠ GSORT.GS_NONE ∧ c.waitNumber2 = w)

/-- `CheckOutWaiters`: every live context somebody is supposedly waiting for has a live
waiter, and every live context that waits has a live context to wait for; otherwise an
assertion fails. -/
def CheckOutWaiters (m : Machine) : Outcome Machine :=
  -- Check all waited for have someone waiting
  if m.icList.all (fun c =>
      if c.GSort ≠ GSORT.GS_NONE ∧ c.waitNumber2 ≠ 0 then liveWaiterExists c.waitNumber2 m.icList
      else true) then
    -- Check waiting for someone to wait for
    if m.icList.all (fun c =>
        if c.GSort ≠ GSORT.GS_NONE ∧ c.waitNumber1 ≠ 0 then
          liveWaiteeExists c.waitNumber1 m.icList
        else true) then .ok m
    else .fatal .waiteeMissing m
  else .fatal .waiterMissing m

/-- A pool for the examples: the scene context in slot 1 (process 2) waits, with token 7,
for the master script's context in slot 0 (process 1). -/
def sampleLinkedMaster : Machine :=
  { pGlobals := none, numGlobals := 0,
    icList := [{ sampleContext [] with GSort := GSORT.GS_MASTER, waitNumber2 := 7 },
               { sampleContext [] with pProc := 2, waitNumber1 := 7 }],
    hMasterScript := 0, bNoPause := false, rescheduled := [] }

/-- The sequence of candidate tokens as the spec words it: `waitCandidate t k` is the
`k`-th value of `t, t - 1, t - 2, ...` as 32-bit unsigned numbers, in which 0 is replaced
by `0xFFFFFFFF` and the counting continues down from there. -/
def waitCandidate : Nat → Nat → Nat
  | t, 0 => if t % 4294967296 = 0 then 4294967295 else t % 4294967296
  | t, k + 1 =>
    waitCandidate ((if t % 4294967296 = 0 then 4294967295 else t % 4294967296) - 1) k

/-! ## Saving and loading a context -/

/-- Modelled from the spec: `Serializer::syncAsUint32LE(val)` of `serializer.h`: when
saving, the value is written as a 32-bit little-endian word; when loading, the next such
word replaces it (`none` when the stream ends before). Returns the serializer and the
value of `val`. -/
def Serializer.syncAsUint32LE (s : Serializer) (val : Nat) : Option (Serializer × Nat) :=
  match s with
  | .saving out => some (.saving (out ++ encodeLE32 val), val)
  | .loading (b0 :: b1 :: b2 :: b3 :: rest) =>
    some (.loading rest,
      b0 % 256 + 256 * (b1 % 256) + 65536 * (b2 % 256) + 16777216 * (b3 % 256))
  | .loading _ => none

/-- Modelled from the spec: the numeric values of the enumeration `GSORT` of `pcode.h`,
as the conversions to and from `uint32` inside `syncAsUint32LE(GSort)` use them. -/
structure GSortCodes where
  toCode : GSORT → Nat
  ofCode : Nat → GSORT

/-- The value of a `bool` converted to `uint32`. -/
def boolCode (b : Bool) : Nat := if b then 1 else 0

/-- The loop `for (int i = 0; i < PCODE_STACK_SIZE; ++i) s.syncAsSint32LE(stack[i]);`: the
loop of `syncGlobInfo`, over the stack array. -/
def syncStackLoop (n : Nat) (s : Serializer) (stack : List Int) :
    Option (Serializer × List Int) :=
  syncGlobalsLoop n s stack

/-- The first statements of the part "Write out used fields" of `syncWithSerializer`:
`s.syncAsUint32LE(GSort); s.syncAsUint32LE(hCode); s.syncAsUint32LE(event);
s.syncAsSint32LE(hPoly); s.syncAsSint32LE(idActor);`. A field keeps its value when saving
and takes the value read when loading. -/
def syncHead (g : GSortCodes) (s : Serializer) (ic : INT_CONTEXT) :
    Option (Serializer × INT_CONTEXT) :=
  match s.syncAsUint32LE (g.toCode ic.GSort) with
  | none => none
  | some (s1, vGSort) =>
    match s1.syncAsUint32LE ic.hCode with
    | none => none
    | some (s2, vhCode) =>
      match s2.syncAsUint32LE ic.event with
      | none => none
      | some (s3, vevent) =>
        match s3.syncAsSint32LE ic.hPoly with
        | none => none
        | some (s4, vhPoly) =>
          match s4.syncAsSint32LE ic.idActor with
          | none => none
          | some (s5, vidActor) =>
            some (s5, { ic with
              GSort := if s.isLoading then g.ofCode vGSort else ic.GSort,
              hCode := vhCode, event := vevent, hPoly := vhPoly, idActor := vidActor })

/-- The last statements of `syncWithSerializer`: `s.syncAsSint32LE(sp);
s.syncAsSint32LE(bp); s.syncAsSint32LE(ip); s.syncAsUint32LE(bHalt);
s.syncAsUint32LE(escOn); s.syncAsSint32LE(myEscape);`. -/
def syncTail (s : Serializer) (ic : INT_CONTEXT) : Option (Serializer × INT_CONTEXT) :=
  match s.syncAsSint32LE ic.sp with
  | none => none
  | some (s1, vsp) =>
    match s1.syncAsSint32LE ic.bp with
    | none => none
    | some (s2, vbp) =>
      match s2.syncAsSint32LE ic.ip with
      | none => none
      | some (s3, vip) =>
        match s3.syncAsUint32LE (boolCode ic.bHalt) with
        | none => none
        | some (s4, vbHalt) =>
          match s4.syncAsUint32LE (boolCode ic.escOn) with
          | none => none
          | some (s5, vescOn) =>
            match s5.syncAsSint32LE ic.myEscape with
            | none => none
            | some (s6, vmyEscape) =>
              some (s6, { ic with
                sp := vsp, bp := vbp, ip := vip,
                bHalt := if s.isLoading then decide (vbHalt ≠ 0) else ic.bHalt,
                escOn := if s.isLoading then decide (vescOn ≠ 0) else ic.escOn,
                myEscape := vmyEscape })

/-- (Un)serialize an interpreter context for save/restore game: null out the pointer
fields when loading, then sync the used fields in the order of the source. -/
def INT_CONTEXT.syncWithSerializer {κ : Type} (x : Host κ) (g : GSortCodes) (s : Serializer)
    (ic : INT_CONTEXT) : Option (Serializer × INT_CONTEXT) :=
  -- Null out the pointer fields
  let ic0 := if s.isLoading then { ic with pProc := 0, code := none, pinvo := 0 } else ic
  -- Write out used fields
  match syncHead g s ic0 with
  | none => none
  | some (s1, ic1) =>
    match syncStackLoop x.PCODE_STACK_SIZE s1 ic1.stack with
    | none => none
    | some (s2, vstack) => syncTail s2 { ic1 with stack := vstack }

/-- The saved record of a context as the spec words it: the value fields in this order,
each one 32-bit word. -/
def contextWords (g : GSortCodes) (c : INT_CONTEXT) : List Int :=
  [(g.toCode c.GSort : Int), (c.hCode : Int), (c.event : Int), c.hPoly, c.idActor] ++ c.stack ++
    [c.sp, c.bp, c.ip, (boolCode c.bHalt : Int), (boolCode c.escOn : Int), c.myEscape]

/-- Every integer field of the context holds a value of its C type (`uint32` for the code
handle and the event, `int` for the others), and the stack array has `PCODE_STACK_SIZE`
words. -/
def FitsRecord {κ : Type} (x : Host κ) (c : INT_CONTEXT) : Prop :=
  c.hCode < 4294967296 ∧ c.event < 4294967296 ∧
  (-2147483648 ≤ c.hPoly ∧ c.hPoly ≤ 2147483647) ∧
  (-2147483648 ≤ c.idActor ∧ c.idActor ≤ 2147483647) ∧
  (-2147483648 ≤ c.sp ∧ c.sp ≤ 2147483647) ∧
  (-2147483648 ≤ c.bp ∧ c.bp ≤ 2147483647) ∧
  (-2147483648 ≤ c.ip ∧ c.ip ≤ 2147483647) ∧
  (-2147483648 ≤ c.myEscape ∧ c.myEscape ≤ 2147483647) ∧
  (∀ a, a ∈ c.stack → -2147483648 ≤ a ∧ a ≤ 2147483647) ∧
  c.stack.length = x.PCODE_STACK_SIZE

/-- Numeric values for the sorts, for the examples. -/
def sampleCodes : GSortCodes :=
  { toCode := fun g =>
      match g with
      | .GS_NONE => 0
      | .GS_MASTER => 1
      | .GS_GPROCESS => 2
      | .GS_OTHER tag => tag + 3,
    ofCode := fun n =>
      match n with
      | 0 => .GS_NONE
      | 1 => .GS_MASTER
      | 2 => .GS_GPROCESS
      | k + 3 => .GS_OTHER k }

/-- A context for the examples that is being waited for: the target of a load. -/
def sampleTarget : INT_CONTEXT :=
  { sampleContext [OP_HALT] with pProc := 9, pinvo := 4, sp := 5, waitNumber2 := 7 }

/-- Every free slot of the pool has `waitNumber1 = 0` and `waitNumber2 = 0`. -/
def FreeSlotsClean (l : List INT_CONTEXT) : Prop :=
  ∀ (j : Nat) (c : INT_CONTEXT), l[j]? = some c → c.GSort = GSORT.GS_NONE →
    c.waitNumber1 = 0 ∧ c.waitNumber2 = 0

/-- The operations on the pool after `RegisterGlobals`: `InitInterpretContext`,
`WaitInterpret` (its part before the first yield, the only one that writes), `Interpret`
and the release operations, each with its arguments. -/
inductive PoolOp (κ : Type) where
  | init (cur : Nat) (gsort : GSORT) (hCode event : Nat) (hpoly actorid : Int) (pinvo : Nat)
      (myEscape : Int)
  | wait (fuel cur pWaitProc time : Nat)
  | interpret (fuel : Nat) (coroParam : Option κ) (i : Nat)
  | freePi (i : Nat)
  | freePr (pProc : Nat)
  | freeMost
  | freeMaster

/-- The state in which an operation returns to its caller (for `Interpret` also when it
returns from inside a library call); `none` when it ends in `error(...)`, in a failed
assertion or without fuel. -/
def applyOp {κ : Type} (x : Host κ) : PoolOp κ → Machine → Option Machine
  | .init cur gsort hCode event hpoly actorid pinvo myEscape, m =>
    match InitInterpretContext x cur gsort hCode event hpoly actorid pinvo myEscape m with
    | .ok (_, m1) => some m1
    | .error _ => none
  | .wait fuel cur pWaitProc time, m =>
    match WaitInterpretSetup fuel cur pWaitProc time m with
    | .ok (m1, _) => some m1
    | _ => none
  | .interpret fuel coroParam i, m =>
    match Interpret x fuel coroParam i m with
    | .ok (m1, _) => some m1
    | .suspended (m1, _) => some m1
    | _ => none
  | .freePi i, m =>
    match FreeInterpretContextPi x i m with
    | .ok m1 => some m1
    | _ => none
  | .freePr pProc, m =>
    match FreeInterpretContextPr x pProc m with
    | .ok m1 => some m1
    | _ => none
  | .freeMost, m => some (FreeMostInterpretContexts m)
  | .freeMaster, m => some (FreeMasterInterpretContext m)

/-- The states reachable from a successful `RegisterGlobals` through the operations of
`PoolOp`. -/
inductive Runs {κ : Type} (x : Host κ) (st : Startup) : Machine → Prop where
  | register (m0 m : Machine) (num : Int) (h : RegisterGlobals x st num m0 = .ok m) :
      Runs x st m
  | step (m m1 : Machine) (op : PoolOp κ) (hm : Runs x st m) (h : applyOp x op m = some m1) :
      Runs x st m1

/-- What an operation other than a wait does to a slot, `c` before and `c1` after: each
wait number is kept or cleared, and a slot that is free afterwards was free before or (in a
Tinsel 2 engine, `v2`) has both wait numbers 0. -/
def SlotKept (v2 : Bool) (c c1 : INT_CONTEXT) : Prop :=
  (c1.waitNumber1 = c.waitNumber1 ∨ c1.waitNumber1 = 0) ∧
  (c1.waitNumber2 = c.waitNumber2 ∨ c1.waitNumber2 = 0) ∧
  (c1.GSort = GSORT.GS_NONE →
    c.GSort = GSORT.GS_NONE ∨ (v2 = true → c1.waitNumber1 = 0 ∧ c1.waitNumber2 = 0))

/-- What operation `op`, applied in state `m`, does to slot `j`: either `SlotKept`, or the
operation is a wait, the slot is live and stays so, and it is the slot of the process
waited for or the slot of the caller (whose `waitNumber2` is kept). -/
def SlotStep {κ : Type} (x : Host κ) (op : PoolOp κ) (m : Machine) (j : Nat)
    (c c1 : INT_CONTEXT) : Prop :=
  SlotKept x.TinselV2 c c1 ∨
  (c.GSort ≠ GSORT.GS_NONE ∧ c1.GSort = c.GSort ∧
    ∃ fuel cur p time : Nat, op = PoolOp.wait fuel cur p time ∧
      (findContext p m.icList = j ∨
        (findContext cur m.icList = j ∧ c1.waitNumber2 = c.waitNumber2)))

/-- The operations `ops` one after the other; `none` when one of them does not return. -/
def runOps {κ : Type} (x : Host κ) : List (PoolOp κ) → Machine → Option Machine
  | [], m => some m
  | op :: rest, m =>
    match applyOp x op m with
    | some m1 => runOps x rest m1
    | none => none

/-- No operation of `ops`, run from `m`, is a wait for the process whose context is in
slot `j` at that time. -/
def Untargeted {κ : Type} (x : Host κ) (j : Nat) : List (PoolOp κ) → Machine → Prop
  | [], _ => True
  | op :: rest, m =>
    (∀ fuel cur p time : Nat, op = PoolOp.wait fuel cur p time → findContext p m.icList ≠ j) ∧
    ∀ m1 : Machine, applyOp x op m = some m1 → Untargeted x j rest m1

/-- Operations for the examples: process 1 and process 2 each get a context, process 1
waits for process 2 (the time is 700), and the context of process 2 (slot 1) is
released. -/
def sampleOps : List (PoolOp Nat) :=
  [PoolOp.init 1 (GSORT.GS_OTHER 0) 0 0 0 0 0 0, PoolOp.init 2 (GSORT.GS_OTHER 0) 0 0 0 0 0 0,
   PoolOp.wait 5 1 2 700, PoolOp.freePi 1]

/-- The state after `RegisterGlobals(2)` on `unregisteredMachine` in the Tinsel 1 example
engine. -/
def sampleFreshV1 : Machine :=
  { pGlobals := some [0, 0], numGlobals := 2,
    icList := List.replicate 2 (callocContext sampleHostV1), hMasterScript := 0,
    bNoPause := false, rescheduled := [] }

/-- The state after `sampleOps` in the Tinsel 1 example engine. -/
def staleSlotMachine : Machine :=
  (runOps sampleHostV1 sampleOps sampleFreshV1).getD unregisteredMachine

/-- The state after `sampleOps` in the Tinsel 2 example engine. -/
def cleanSlotMachine : Machine :=
  (runOps sampleHost sampleOps sampleFresh).getD unregisteredMachine

/-- A state for the examples whose pool is `sampleOwnedPool`: slot 0 is owned by process 1,
slot 1 is free. -/
def sampleOwnedMachine : Machine :=
  { pGlobals := none, numGlobals := 0, icList := sampleOwnedPool, hMasterScript := 0,
    bNoPause := false, rescheduled := [] }

/-- What an operation from state `m` to state `m1` does to the `resumeCode` of a slot, `c`
before and `c1` after: it is kept, or it is set to `RES_WAITING` (by `WaitInterpret`, or by
a `memset`), or a notification is posted to the slot: the slot waited (`waitNumber1 != 0`),
its `waitNumber1` is cleared, its `resumeCode` is set to `RES_FINISHED` or `RES_CUTSHORT`
and its process is rescheduled. -/
def ResumeStep (m m1 : Machine) (c c1 : INT_CONTEXT) : Prop :=
  c1.resumeCode = c.resumeCode ∨ c1.resumeCode = RESCODE.RES_WAITING ∨
  (m1.rescheduled = m.rescheduled ++ [c.pProc] ∧ c.waitNumber1 ≠ 0 ∧ c1.waitNumber1 = 0 ∧
    (c1.resumeCode = RESCODE.RES_FINISHED ∨ c1.resumeCode = RESCODE.RES_CUTSHORT))

/-- A pool for the examples: the context in slot 1 (process 1) waits, with token 7, for the
context in slot 2 (process 2), and the free slot 0 still carries 7 as its `waitNumber1`. -/
def sampleShadowMachine : Machine :=
  { pGlobals := none, numGlobals := 0,
    icList := [{ sampleContext [] with pProc := 3, GSort := GSORT.GS_NONE, waitNumber1 := 7 },
               { sampleContext [] with pProc := 1, waitNumber1 := 7 },
               { sampleContext [] with pProc := 2, waitNumber2 := 7 }],
    hMasterScript := 0, bNoPause := false, rescheduled := [] }

/-! ## Theorems -/

/-! ### Memory and dispatch lemmas -/

theorem stackRead_write_same (st st1 : List Int) (i v : Int)
    (h : stackWrite st i v = some st1) : stackRead st1 i = some v := by
  unfold stackWrite at h
  split at h
  · rename_i hc
    injection h with h
    subst h
    simp [stackRead, hc.1, hc.2]
  · cases h

theorem stackRead_write_other (st st1 : List Int) (i j v : Int)
    (h : stackWrite st i v = some st1) (hne : j ≠ i) : stackRead st1 j = stackRead st j := by
  unfold stackWrite at h
  split at h
  · rename_i hc
    injection h with h
    subst h
    unfold stackRead
    split
    · rename_i hj
      have : i.toNat ≠ j.toNat := by omega
      simp [List.getElem?_set_ne this]
    · rfl
  · cases h

theorem stackWrite_length (st st1 : List Int) (i v : Int)
    (h : stackWrite st i v = some st1) : st1.length = st.length := by
  unfold stackWrite at h
  split at h
  · injection h with h; subst h; simp
  · cases h

theorem stackWrite_of_read (st : List Int) (i a v : Int) (h : stackRead st i = some a) :
    ∃ st1, stackWrite st i v = some st1 := by
  unfold stackRead at h
  split at h
  · rename_i hi
    have hlt : i.toNat < st.length := by
      by_contra hcon
      rw [List.getElem?_eq_none (by omega)] at h
      cases h
    exact ⟨st.set i.toNat v, by simp [stackWrite, hi, hlt]⟩
  · cases h

theorem stackRead_lt (st : List Int) (i a : Int) (h : stackRead st i = some a) :
    0 ≤ i ∧ i < st.length := by
  unfold stackRead at h
  split at h
  · rename_i hi
    have hlt : i.toNat < st.length := by
      by_contra hcon
      rw [List.getElem?_eq_none (by omega)] at h
      cases h
    omega
  · cases h

/-- A binary operation on a stack that holds both operands. -/
theorem binaryOp_ok {κ : Type} (x : Host κ) (s : Exec κ) (ip : Int) (f : Int → Int → Option Int)
    (a b r : Int) (hsp : 1 ≤ s.ic.sp) (hlen : s.ic.stack.length ≤ x.PCODE_STACK_SIZE)
    (ha : stackRead s.ic.stack (s.ic.sp - 1) = some a)
    (hb : stackRead s.ic.stack s.ic.sp = some b) (hf : f a b = some r) :
    ∃ st, stackWrite s.ic.stack (s.ic.sp - 1) r = some st ∧
      binaryOp x s ip f =
        .ok { s with ic := { s.ic with sp := s.ic.sp - 1, stack := st, ip := ip } } := by
  obtain ⟨st, hst⟩ := stackWrite_of_read s.ic.stack (s.ic.sp - 1) a r ha
  refine ⟨st, hst, ?_⟩
  have hb2 := stackRead_lt _ _ _ hb
  have h0 : (0 : Int) ≤ s.ic.sp - 1 := by omega
  have hlt : s.ic.sp - 1 < (x.PCODE_STACK_SIZE : Int) := by omega
  simp [binaryOp, h0, ha, hb, hf, hst, endOfPass, hlt]

/-- Dispatch of the arithmetic and bitwise group. -/
theorem InterpretBody_arith {κ : Type} (x : Host κ) (s : Exec κ) (code : List Nat) (opcode : Nat)
    (hcode : s.ic.code = some code) (hop : readByte code s.ic.ip = some opcode)
    (hg : opcode &&& OPMASK = OP_PLUS ∨ opcode &&& OPMASK = OP_MINUS ∨
      opcode &&& OPMASK = OP_MULT ∨ opcode &&& OPMASK = OP_DIV ∨ opcode &&& OPMASK = OP_MOD ∨
      opcode &&& OPMASK = OP_AND ∨ opcode &&& OPMASK = OP_OR ∨ opcode &&& OPMASK = OP_EOR) :
    InterpretBody x s = binaryOp x s (s.ic.ip + 1) (arithOp opcode) := by
  unfold InterpretBody
  simp only [hcode, hop]
  rcases hg with h | h | h | h | h | h | h | h <;> simp [h]

/-- Dispatch of the comparison and logical group. -/
theorem InterpretBody_compare {κ : Type} (x : Host κ) (s : Exec κ) (code : List Nat)
    (opcode : Nat) (hcode : s.ic.code = some code) (hop : readByte code s.ic.ip = some opcode)
    (hg : opcode &&& OPMASK = OP_EQUAL ∨ opcode &&& OPMASK = OP_LESS ∨
      opcode &&& OPMASK = OP_LEQUAL ∨ opcode &&& OPMASK = OP_NEQUAL ∨
      opcode &&& OPMASK = OP_GEQUAL ∨ opcode &&& OPMASK = OP_GREAT ∨
      opcode &&& OPMASK = OP_LOR ∨ opcode &&& OPMASK = OP_LAND) :
    InterpretBody x s =
      binaryOp x s (s.ic.ip + 1) (fun tmp tmp2 => some (compareOp opcode tmp tmp2)) := by
  unfold InterpretBody
  simp only [hcode, hop]
  rcases hg with h | h | h | h | h | h | h | h <;> simp [h]

/-! ### Operand fetch -/

theorem readByte_eq (code : List Nat) (ip : Int) (x : Nat) (hip : 0 ≤ ip)
    (hx : code[ip.toNat]? = some x) (hlt : x < 256) : readByte code ip = some x := by
  simp [readByte, hip, hx, Nat.mod_eq_of_lt hlt]

theorem castInt8_spec (x : Nat) (h : x < 256) :
    -128 ≤ castInt8 x ∧ castInt8 x ≤ 127 ∧ castInt8 x % 256 = x ∧ (128 ≤ x → castInt8 x < 0) ∧
      ∀ v : Int, -128 ≤ v → v ≤ 127 → v % 256 = x → v = castInt8 x := by
  unfold castInt8
  rw [Nat.mod_eq_of_lt h]
  split <;> refine ⟨by omega, by omega, by omega, by omega, ?_⟩ <;> intro v h1 h2 h3 <;> omega

theorem castInt16_spec (w : Nat) (h : w < 65536) :
    -32768 ≤ castInt16 w ∧ castInt16 w ≤ 32767 ∧ castInt16 w % 65536 = w ∧
      (32768 ≤ w → castInt16 w < 0) ∧
      ∀ v : Int, -32768 ≤ v → v ≤ 32767 → v % 65536 = w → v = castInt16 w := by
  unfold castInt16
  rw [Nat.mod_eq_of_lt h]
  split <;> refine ⟨by omega, by omega, by omega, by omega, ?_⟩ <;> intro v h1 h2 h3 <;> omega

theorem castInt32_spec (w : Nat) (h : w < 4294967296) :
    -2147483648 ≤ castInt32 w ∧ castInt32 w ≤ 2147483647 ∧ castInt32 w % 4294967296 = w ∧
      ∀ v : Int, -2147483648 ≤ v → v ≤ 2147483647 → v % 4294967296 = w → v = castInt32 w := by
  unfold castInt32
  rw [Nat.mod_eq_of_lt h]
  split <;> refine ⟨by omega, by omega, by omega, ?_⟩ <;> intro v h1 h2 h3 <;> omega

/-- C7. Fetch sign extension. With the 8-bit size tag, `Fetch` on a code byte `x` returns
the unique `v` in `[-128, 127]` with `v mod 256 = x` (negative when the high bit of `x` is
set, `-1` for `0xFF`) and advances `ip` by 1. With the 16-bit tag and no 8-bit tag, on the
bytes `lo, hi` it returns the unique `v` in `[-32768, 32767]` with
`v mod 65536 = lo + 256 * hi` and advances `ip` by 2. With no size tag it returns the
little-endian 32-bit value of the four bytes, as a signed 32-bit number, and advances `ip`
by 4. -/
theorem Fetch_sign_extension (opcode : Nat) (code : List Nat) (ip : Int) (hip : 0 ≤ ip) :
    (∀ x : Nat, x < 256 → opcode &&& OPSIZE8 ≠ 0 → code[ip.toNat]? = some x →
      ∃ v : Int, Fetch opcode code ip = some (v, ip + 1) ∧ -128 ≤ v ∧ v ≤ 127 ∧ v % 256 = x ∧
        (128 ≤ x → v < 0) ∧ (x = 0xFF → v = -1) ∧
        ∀ u : Int, -128 ≤ u → u ≤ 127 → u % 256 = x → u = v) ∧
    (∀ lo hi : Nat, lo < 256 → hi < 256 → opcode &&& OPSIZE8 = 0 → opcode &&& OPSIZE16 ≠ 0 →
      code[ip.toNat]? = some lo → code[(ip + 1).toNat]? = some hi →
      ∃ v : Int, Fetch opcode code ip = some (v, ip + 2) ∧ -32768 ≤ v ∧ v ≤ 32767 ∧
        v % 65536 = lo + 256 * hi ∧ (128 ≤ hi → v < 0) ∧
        ∀ u : Int, -32768 ≤ u → u ≤ 32767 → u % 65536 = lo + 256 * hi → u = v) ∧
    (∀ b0 b1 b2 b3 : Nat, b0 < 256 → b1 < 256 → b2 < 256 → b3 < 256 →
      opcode &&& OPSIZE8 = 0 → opcode &&& OPSIZE16 = 0 →
      code[ip.toNat]? = some b0 → code[(ip + 1).toNat]? = some b1 →
      code[(ip + 2).toNat]? = some b2 → code[(ip + 3).toNat]? = some b3 →
      ∃ v : Int, Fetch opcode code ip = some (v, ip + 4) ∧ -2147483648 ≤ v ∧ v ≤ 2147483647 ∧
        v % 4294967296 = b0 + 256 * b1 + 65536 * b2 + 16777216 * b3 ∧
        ∀ u : Int, -2147483648 ≤ u → u ≤ 2147483647 →
          u % 4294967296 = b0 + 256 * b1 + 65536 * b2 + 16777216 * b3 → u = v) := by
  refine ⟨?_, ?_, ?_⟩
  · intro x hx h8 hc
    have hs := castInt8_spec x hx
    refine ⟨castInt8 x, ?_, hs.1, hs.2.1, hs.2.2.1, hs.2.2.2.1, ?_, hs.2.2.2.2⟩
    · simp [Fetch, h8, readByte_eq code ip x hip hc hx]
    · intro h; subst h; decide
  · intro lo hi hlo hhi h8 h16 hc0 hc1
    have hs := castInt16_spec (lo + 256 * hi) (by omega)
    refine ⟨castInt16 (lo + 256 * hi), ?_, hs.1, hs.2.1, ?_, ?_, ?_⟩
    · simp [Fetch, h8, h16, READ_LE_UINT16, readByte_eq code ip lo hip hc0 hlo,
        readByte_eq code (ip + 1) hi (by omega) hc1 hhi]
    · have := hs.2.2.1; push_cast at this ⊢; exact this
    · intro h; exact hs.2.2.2.1 (by omega)
    · intro u h1 h2 h3; apply hs.2.2.2.2 u h1 h2; push_cast; exact h3
  · intro b0 b1 b2 b3 h0 h1 h2 h3 h8 h16 hc0 hc1 hc2 hc3
    have hs := castInt32_spec (b0 + 256 * b1 + 65536 * b2 + 16777216 * b3) (by omega)
    refine ⟨castInt32 (b0 + 256 * b1 + 65536 * b2 + 16777216 * b3), ?_, hs.1, hs.2.1, ?_, ?_⟩
    · simp [Fetch, h8, h16, READ_LE_UINT32, readByte_eq code ip b0 hip hc0 h0,
        readByte_eq code (ip + 1) b1 (by omega) hc1 h1,
        readByte_eq code (ip + 2) b2 (by omega) hc2 h2,
        readByte_eq code (ip + 3) b3 (by omega) hc3 h3]
    · have := hs.2.2.1; push_cast at this ⊢; exact this
    · intro u h1 h2 h3; apply hs.2.2.2 u h1 h2; push_cast; exact h3

theorem Fetch_sign_extension_witness :
    ∃ v : Int, Fetch 0x41 [0x41, 0xFF] 1 = some (v, 1 + 1) ∧ -128 ≤ v ∧ v ≤ 127 ∧
      v % 256 = (0xFF : Nat) ∧ (128 ≤ 0xFF → v < 0) ∧ (0xFF = 0xFF → v = -1) ∧
      ∀ u : Int, -128 ≤ u → u ≤ 127 → u % 256 = (0xFF : Nat) → u = v :=
  (Fetch_sign_extension 0x41 [0x41, 0xFF] 1 (by decide)).1 0xFF (by decide) (by decide)
    (by decide)

/-! ### Binary operations -/

theorem wrap32_spec (v : Int) :
    -2147483648 ≤ wrap32 v ∧ wrap32 v ≤ 2147483647 ∧ wrap32 v % 4294967296 = v % 4294967296 ∧
      (-2147483648 ≤ v → v ≤ 2147483647 → wrap32 v = v) := by
  unfold wrap32
  refine ⟨by omega, by omega, by omega, by omega⟩

/-- C5. Arithmetic. Let the context be about to execute `OP_PLUS`, `OP_MINUS` or `OP_MULT`
with `sp ≥ 1`, `a` in `stack[sp - 1]` (the deeper operand) and `b` in `stack[sp]` (the top),
and let `r` be `a + b`, `a - b` or `a * b` respectively. The pass ends normally, `sp` is
decremented by one, and the new top of stack is `wrap32 r`: the 32-bit value congruent to
`r` modulo `2 ^ 32` (and `r` itself when `r` fits in 32 bits). Every other stack word and
`bp` are unchanged. -/
theorem arithmetic_wraps {κ : Type} (x : Host κ) (s : Exec κ) (code : List Nat)
    (opcode : Nat) (a b r : Int)
    (hcode : s.ic.code = some code) (hip : 0 ≤ s.ic.ip)
    (hop : code[s.ic.ip.toNat]? = some opcode)
    (hr : (opcode = OP_PLUS ∧ r = a + b) ∨ (opcode = OP_MINUS ∧ r = a - b) ∨
      (opcode = OP_MULT ∧ r = a * b))
    (hlen : s.ic.stack.length = x.PCODE_STACK_SIZE) (hsp : 1 ≤ s.ic.sp)
    (ha : stackRead s.ic.stack (s.ic.sp - 1) = some a)
    (hb : stackRead s.ic.stack s.ic.sp = some b) :
    ∃ s1 : Exec κ, InterpretBody x s = .ok s1 ∧ s1.ic.sp = s.ic.sp - 1 ∧
      stackRead s1.ic.stack s1.ic.sp = some (wrap32 r) ∧
      -2147483648 ≤ wrap32 r ∧ wrap32 r ≤ 2147483647 ∧
      wrap32 r % 4294967296 = r % 4294967296 ∧
      (-2147483648 ≤ r → r ≤ 2147483647 → wrap32 r = r) ∧
      (∀ j : Int, j ≠ s.ic.sp - 1 → stackRead s1.ic.stack j = stackRead s.ic.stack j) ∧
      s1.ic.bp = s.ic.bp := by
  have hlt : opcode < 256 := by rcases hr with h | h | h <;> (rw [h.1]; decide)
  have hrd := readByte_eq code s.ic.ip opcode hip hop hlt
  have hg : opcode &&& OPMASK = OP_PLUS ∨ opcode &&& OPMASK = OP_MINUS ∨
      opcode &&& OPMASK = OP_MULT ∨ opcode &&& OPMASK = OP_DIV ∨ opcode &&& OPMASK = OP_MOD ∨
      opcode &&& OPMASK = OP_AND ∨ opcode &&& OPMASK = OP_OR ∨ opcode &&& OPMASK = OP_EOR := by
    rcases hr with h | h | h <;> (rw [h.1]; decide)
  have hf : arithOp opcode a b = some (wrap32 r) := by
    rcases hr with h | h | h <;> (rw [h.1, h.2]; simp [arithOp])
  obtain ⟨st, hst, hrun⟩ := binaryOp_ok x s (s.ic.ip + 1) (arithOp opcode) a b (wrap32 r) hsp
    (le_of_eq hlen) ha hb hf
  have hw := wrap32_spec r
  refine ⟨_, (InterpretBody_arith x s code opcode hcode hrd hg).trans hrun, rfl, ?_, hw.1,
    hw.2.1, hw.2.2.1, hw.2.2.2, ?_, rfl⟩
  · exact stackRead_write_same _ _ _ _ hst
  · intro j hj
    exact stackRead_write_other _ _ _ _ _ hst hj

/-- C6. Comparisons and logical operations. Let the context be about to execute one of
`OP_EQUAL`, `OP_LESS`, `OP_LEQUAL`, `OP_NEQUAL`, `OP_GEQUAL`, `OP_GREAT`, `OP_LOR`, `OP_LAND`
with `sp ≥ 1`, `a` in `stack[sp - 1]` (the deeper operand, the left-hand side) and `b` in
`stack[sp]`, and let `p` be `a = b`, `a < b`, `a ≤ b`, `a ≠ b`, `a ≥ b`, `a > b`,
`a ≠ 0 ∨ b ≠ 0`, `a ≠ 0 ∧ b ≠ 0` respectively. The pass ends normally, `sp` is decremented
by one, and the new top of stack is 1 if `p` holds and 0 otherwise; every other stack word
is unchanged. -/
theorem comparisons_canonical {κ : Type} (x : Host κ) (s : Exec κ) (code : List Nat)
    (opcode : Nat) (a b : Int) (p : Prop) [Decidable p]
    (hcode : s.ic.code = some code) (hip : 0 ≤ s.ic.ip)
    (hop : code[s.ic.ip.toNat]? = some opcode)
    (hp : (opcode = OP_EQUAL ∧ (p ↔ a = b)) ∨ (opcode = OP_LESS ∧ (p ↔ a < b)) ∨
      (opcode = OP_LEQUAL ∧ (p ↔ a ≤ b)) ∨ (opcode = OP_NEQUAL ∧ (p ↔ a ≠ b)) ∨
      (opcode = OP_GEQUAL ∧ (p ↔ a ≥ b)) ∨ (opcode = OP_GREAT ∧ (p ↔ a > b)) ∨
      (opcode = OP_LOR ∧ (p ↔ (a ≠ 0 ∨ b ≠ 0))) ∨ (opcode = OP_LAND ∧ (p ↔ (a ≠ 0 ∧ b ≠ 0))))
    (hlen : s.ic.stack.length = x.PCODE_STACK_SIZE) (hsp : 1 ≤ s.ic.sp)
    (ha : stackRead s.ic.stack (s.ic.sp - 1) = some a)
    (hb : stackRead s.ic.stack s.ic.sp = some b) :
    ∃ (s1 : Exec κ) (v : Int), InterpretBody x s = .ok s1 ∧ s1.ic.sp = s.ic.sp - 1 ∧
      stackRead s1.ic.stack s1.ic.sp = some v ∧ (v = 0 ∨ v = 1) ∧ (v = 1 ↔ p) ∧ (v = 0 ↔ ¬ p) ∧
      (∀ j : Int, j ≠ s.ic.sp - 1 → stackRead s1.ic.stack j = stackRead s.ic.stack j) := by
  have hlt : opcode < 256 := by
    rcases hp with h | h | h | h | h | h | h | h <;> (rw [h.1]; decide)
  have hrd := readByte_eq code s.ic.ip opcode hip hop hlt
  have hg : opcode &&& OPMASK = OP_EQUAL ∨ opcode &&& OPMASK = OP_LESS ∨
      opcode &&& OPMASK = OP_LEQUAL ∨ opcode &&& OPMASK = OP_NEQUAL ∨
      opcode &&& OPMASK = OP_GEQUAL ∨ opcode &&& OPMASK = OP_GREAT ∨
      opcode &&& OPMASK = OP_LOR ∨ opcode &&& OPMASK = OP_LAND := by
    rcases hp with h | h | h | h | h | h | h | h <;> (rw [h.1]; decide)
  have hf : compareOp opcode a b = boolInt p := by
    rcases hp with h | h | h | h | h | h | h | h <;>
      (rw [h.1]; simp only [compareOp, boolInt]; simp [h.2])
  obtain ⟨st, hst, hrun⟩ := binaryOp_ok x s (s.ic.ip + 1)
    (fun tmp tmp2 => some (compareOp opcode tmp tmp2)) a b (boolInt p) hsp
    (le_of_eq hlen) ha hb (by simp [hf])
  refine ⟨_, boolInt p, (InterpretBody_compare x s code opcode hcode hrd hg).trans hrun, rfl,
    ?_, ?_, ?_, ?_, ?_⟩
  · exact stackRead_write_same _ _ _ _ hst
  · unfold boolInt; split <;> simp
  · unfold boolInt; split <;> simp [*]
  · unfold boolInt; split <;> simp [*]
  · intro j hj
    exact stackRead_write_other _ _ _ _ _ hst hj

theorem arithmetic_wraps_witness :
    ∃ s1 : Exec Nat, InterpretBody sampleHost (sampleExec [OP_PLUS]) = .ok s1 ∧
      s1.ic.sp = 1 ∧ stackRead s1.ic.stack s1.ic.sp = some 5 := by
  obtain ⟨s1, h1, h2, h3, _, _, _, h4, _⟩ :=
    arithmetic_wraps sampleHost (sampleExec [OP_PLUS]) [OP_PLUS] OP_PLUS 2 3 (2 + 3) rfl
      (by decide) rfl (Or.inl ⟨rfl, rfl⟩) rfl (by decide) rfl rfl
  exact ⟨s1, h1, h2, by rw [h3, h4 (by decide) (by decide)]; rfl⟩

theorem comparisons_canonical_witness :
    ∃ (s1 : Exec Nat) (v : Int), InterpretBody sampleHost (sampleExec [OP_LESS]) = .ok s1 ∧
      s1.ic.sp = 1 ∧ stackRead s1.ic.stack s1.ic.sp = some v ∧ v = 1 := by
  obtain ⟨s1, v, h1, h2, h3, _, h4, _⟩ :=
    comparisons_canonical sampleHost (sampleExec [OP_LESS]) [OP_LESS] OP_LESS 2 3
      ((2 : Int) < 3) rfl (by decide) rfl (Or.inr (Or.inl ⟨rfl, Iff.rfl⟩)) rfl (by decide)
      rfl rfl
  exact ⟨s1, v, h1, h2, h3, h4.mpr (by decide)⟩

/-! ### Procedure call and return -/

theorem stackWrite_ok (st : List Int) (i v : Int) (h0 : 0 ≤ i) (h1 : i < st.length) :
    stackWrite st i v = some (st.set i.toNat v) := by
  have : i.toNat < st.length := by omega
  simp [stackWrite, h0, this]

theorem stackRead_set_same (st : List Int) (i v : Int) (h0 : 0 ≤ i) (h1 : i < st.length) :
    stackRead (st.set i.toNat v) i = some v := by
  have : i.toNat < st.length := by omega
  simp [stackRead, h0, this]

theorem stackRead_set_other (st : List Int) (i j v : Int) (h0 : 0 ≤ i) (hne : j ≠ i) :
    stackRead (st.set i.toNat v) j = stackRead st j := by
  unfold stackRead
  split
  · have : i.toNat ≠ j.toNat := by omega
    simp [List.getElem?_set_ne this]
  · rfl

/-- What `OP_CALL` does when the three linkage words fit in the stack array. -/
theorem InterpretBody_call {κ : Type} (x : Host κ) (s : Exec κ) (code : List Nat)
    (opcode : Nat) (t ip1 : Int) (hcode : s.ic.code = some code)
    (hop : readByte code s.ic.ip = some opcode) (hcall : opcode &&& OPMASK = OP_CALL)
    (hfetch : Fetch opcode code (s.ic.ip + 1) = some (t, ip1))
    (hsp : 0 ≤ s.ic.sp) (hroom : s.ic.sp + 3 < s.ic.stack.length)
    (hlen : s.ic.stack.length ≤ x.PCODE_STACK_SIZE) :
    InterpretBody x s = .ok { s with ic := { s.ic with
      stack := ((s.ic.stack.set (s.ic.sp + 1).toNat 0).set (s.ic.sp + 2).toNat s.ic.bp).set
        (s.ic.sp + 3).toNat ip1,
      bp := s.ic.sp + 1, ip := t } } := by
  have w1 := stackWrite_ok s.ic.stack (s.ic.sp + 1) 0 (by omega) (by omega)
  have w2 := stackWrite_ok (s.ic.stack.set (s.ic.sp + 1).toNat 0) (s.ic.sp + 2) s.ic.bp
    (by omega) (by simp; omega)
  have w3 := stackWrite_ok ((s.ic.stack.set (s.ic.sp + 1).toNat 0).set (s.ic.sp + 2).toNat s.ic.bp)
    (s.ic.sp + 3) ip1 (by omega) (by simp; omega)
  have hlt : s.ic.sp < (x.PCODE_STACK_SIZE : Int) := by omega
  unfold InterpretBody
  simp only [hcode, hop]
  simp [hcall, hfetch, w1, w2, w3, endOfPass, hsp, hlt]

/-- What `OP_RET` does when the linkage words are inside the stack array. -/
theorem InterpretBody_ret {κ : Type} (x : Host κ) (s : Exec κ) (code : List Nat)
    (opcode : Nat) (ra dl : Int) (hcode : s.ic.code = some code)
    (hop : readByte code s.ic.ip = some opcode) (hret : opcode &&& OPMASK = OP_RET)
    (hra : stackRead s.ic.stack (s.ic.bp - 1 + 3) = some ra)
    (hdl : stackRead s.ic.stack (s.ic.bp - 1 + 2) = some dl)
    (hsp : 0 ≤ s.ic.bp - 1) (hlt : s.ic.bp - 1 < x.PCODE_STACK_SIZE) :
    InterpretBody x s = .ok { s with ic := { s.ic with sp := s.ic.bp - 1, bp := dl, ip := ra } } := by
  unfold InterpretBody
  simp only [hcode, hop]
  simp [hret, hra, hdl, endOfPass, hsp, hlt]

/-- C4. Call/return stack discipline. Let `s` be a context state about to execute `OP_CALL`
with target operand `t` (the operand ends at `ip1`) and room for the three linkage words
in the stack array. The call leaves `sp` as it was, sets `bp = sp + 1`, `ip = t` and stores
`0`, the old `bp` and `ip1` at `stack[sp+1..sp+3]`. If a later state `s2` executes `OP_RET`
with that `bp` and with the dynamic-link and return-address words unmodified, the return
yields `sp` and `bp` as they were immediately before the call and `ip = ip1`, the address
following the call's operand; it computes `sp = bp - 1`, `ip = stack[sp + 3]`,
`bp = stack[sp + 2]`. -/
theorem call_return_discipline {κ : Type} (x : Host κ) (s s2 : Exec κ) (code code2 : List Nat)
    (opcode opcode2 : Nat) (t ip1 : Int)
    (hcode : s.ic.code = some code) (hop : readByte code s.ic.ip = some opcode)
    (hcall : opcode &&& OPMASK = OP_CALL)
    (hfetch : Fetch opcode code (s.ic.ip + 1) = some (t, ip1))
    (hsp : 0 ≤ s.ic.sp) (hroom : s.ic.sp + 3 < s.ic.stack.length)
    (hlen : s.ic.stack.length = x.PCODE_STACK_SIZE)
    (hcode2 : s2.ic.code = some code2) (hop2 : readByte code2 s2.ic.ip = some opcode2)
    (hret : opcode2 &&& OPMASK = OP_RET)
    (hbp2 : s2.ic.bp = s.ic.sp + 1)
    (hdl2 : stackRead s2.ic.stack (s.ic.sp + 2) = some s.ic.bp)
    (hra2 : stackRead s2.ic.stack (s.ic.sp + 3) = some ip1) :
    ∃ s1 s3 : Exec κ,
      InterpretBody x s = .ok s1 ∧ s1.ic.sp = s.ic.sp ∧ s1.ic.bp = s.ic.sp + 1 ∧ s1.ic.ip = t ∧
      stackRead s1.ic.stack (s.ic.sp + 1) = some 0 ∧
      stackRead s1.ic.stack (s.ic.sp + 2) = some s.ic.bp ∧
      stackRead s1.ic.stack (s.ic.sp + 3) = some ip1 ∧
      InterpretBody x s2 = .ok s3 ∧
      s3.ic.sp = s.ic.sp ∧ s3.ic.bp = s.ic.bp ∧ s3.ic.ip = ip1 ∧
      s3.ic.sp = s2.ic.bp - 1 ∧ stackRead s2.ic.stack (s3.ic.sp + 3) = some s3.ic.ip ∧
      stackRead s2.ic.stack (s3.ic.sp + 2) = some s3.ic.bp := by
  have h1 := InterpretBody_call x s code opcode t ip1 hcode hop hcall hfetch hsp hroom
    (le_of_eq hlen)
  have e3 : s2.ic.bp - 1 + 3 = s.ic.sp + 3 := by omega
  have e2 : s2.ic.bp - 1 + 2 = s.ic.sp + 2 := by omega
  have h3 := InterpretBody_ret x s2 code2 opcode2 ip1 s.ic.bp hcode2 hop2 hret
    (by rw [e3]; exact hra2) (by rw [e2]; exact hdl2) (by omega) (by omega)
  refine ⟨_, _, h1, rfl, rfl, rfl, ?_, ?_, ?_, h3, ?_, rfl, rfl, rfl, ?_, ?_⟩
  · show stackRead (((s.ic.stack.set (s.ic.sp + 1).toNat 0).set (s.ic.sp + 2).toNat
      s.ic.bp).set (s.ic.sp + 3).toNat ip1) (s.ic.sp + 1) = some 0
    rw [stackRead_set_other _ _ _ _ (by omega) (by omega),
      stackRead_set_other _ _ _ _ (by omega) (by omega)]
    exact stackRead_set_same _ _ _ (by omega) (by omega)
  · show stackRead (((s.ic.stack.set (s.ic.sp + 1).toNat 0).set (s.ic.sp + 2).toNat
      s.ic.bp).set (s.ic.sp + 3).toNat ip1) (s.ic.sp + 2) = some s.ic.bp
    rw [stackRead_set_other _ _ _ _ (by omega) (by omega)]
    exact stackRead_set_same _ _ _ (by omega) (by simp; omega)
  · show stackRead (((s.ic.stack.set (s.ic.sp + 1).toNat 0).set (s.ic.sp + 2).toNat
      s.ic.bp).set (s.ic.sp + 3).toNat ip1) (s.ic.sp + 3) = some ip1
    exact stackRead_set_same _ _ _ (by omega) (by simp; omega)
  · show s2.ic.bp - 1 = s.ic.sp
    omega
  · show stackRead s2.ic.stack (s2.ic.bp - 1 + 3) = some ip1
    rw [e3]; exact hra2
  · show stackRead s2.ic.stack (s2.ic.bp - 1 + 2) = some s.ic.bp
    rw [e2]; exact hdl2

theorem call_return_discipline_witness :
    ∃ s1 s3 : Exec Nat,
      InterpretBody sampleHost (sampleExec sampleCallCode) = .ok s1 ∧ s1.ic.ip = 5 ∧
      InterpretBody sampleHost sampleCallee = .ok s3 ∧
      s3.ic.sp = 2 ∧ s3.ic.bp = 1 ∧ s3.ic.ip = 2 := by
  obtain ⟨s1, s3, h1, _, _, h2, _, _, _, h3, h4, h5, h6, _⟩ :=
    call_return_discipline sampleHost (sampleExec sampleCallCode) sampleCallee sampleCallCode
      sampleCallCode (OP_CALL + OPSIZE8) OP_RET 5 2 rfl rfl (by decide) rfl (by decide)
      (by decide) rfl rfl rfl (by decide) rfl rfl rfl
  exact ⟨s1, s3, h1, h2, h3, h4, h5, h6⟩

/-! ### Library calls -/

theorem LockCode_fields {κ : Type} (x : Host κ) (h : Nat) (ic : INT_CONTEXT) :
    (LockCode x h ic).sp = ic.sp ∧ (LockCode x h ic).ip = ic.ip ∧
      (LockCode x h ic).bHalt = ic.bHalt ∧ (LockCode x h ic).stack = ic.stack ∧
      (LockCode x h ic).bp = ic.bp := by
  unfold LockCode
  split
  · split <;> simp
  · simp

theorem afterLibrary_fields {κ : Type} (x : Host κ) (h : Nat) (ic : INT_CONTEXT) (d : Int) :
    (afterLibrary x h ic d).sp = ic.sp + d ∧ (afterLibrary x h ic d).ip = ic.ip ∧
      (afterLibrary x h ic d).bHalt = ic.bHalt ∧ (afterLibrary x h ic d).stack = ic.stack ∧
      (afterLibrary x h ic d).bp = ic.bp := by
  have hl := LockCode_fields x h { ic with sp := ic.sp + d }
  unfold afterLibrary
  simp only []
  split <;> simp [hl]

/-- `OP_LIBCALL` when the library routine leaves `coroParam` set: `Interpret` returns
before `ic->sp += tmp2` and before `ic->ip = ip`. -/
theorem InterpretBody_libcall_suspend {κ : Type} (x : Host κ) (s : Exec κ) (code : List Nat)
    (opcode : Nat) (tmp ip1 : Int) (r : LibResult κ) (k : κ) (hcode : s.ic.code = some code)
    (hop : readByte code s.ic.ip = some opcode) (hlib : opcode &&& OPMASK = OP_LIBCALL)
    (hfetch : Fetch opcode code (s.ic.ip + 1) = some (tmp, ip1))
    (hr : x.CallLibraryRoutine s.coroParam tmp s.ic = r) (hk : r.coroParam = some k) :
    InterpretBody x s = .suspended
      { s with ic := { s.ic with stack := r.stack, resumeState := r.resumeState },
               coroParam := some k } := by
  unfold InterpretBody
  simp only [hcode, hop]
  simp [hlib, hfetch, hr, hk]

/-- `OP_LIBCALL` when the library routine completes with `coroParam` clear. -/
theorem InterpretBody_libcall_done {κ : Type} (x : Host κ) (s : Exec κ) (code : List Nat)
    (opcode : Nat) (tmp ip1 : Int) (r : LibResult κ) (hcode : s.ic.code = some code)
    (hop : readByte code s.ic.ip = some opcode) (hlib : opcode &&& OPMASK = OP_LIBCALL)
    (hfetch : Fetch opcode code (s.ic.ip + 1) = some (tmp, ip1))
    (hr : x.CallLibraryRoutine s.coroParam tmp s.ic = r) (hnone : r.coroParam = none)
    (h0 : 0 ≤ s.ic.sp + r.ret) (h1 : s.ic.sp + r.ret < x.PCODE_STACK_SIZE) :
    ∃ s2 : Exec κ, InterpretBody x s = .ok s2 ∧ s2.ic.sp = s.ic.sp + r.ret ∧ s2.ic.ip = ip1 ∧
      s2.coroParam = none ∧ s2.ic.bHalt = s.ic.bHalt ∧ s2.numGlobals = s.numGlobals ∧
      s2.hMasterScript = s.hMasterScript := by
  have ht : (afterLibrary x s.hMasterScript
      { s.ic with stack := r.stack, resumeState := r.resumeState } r.ret).sp = s.ic.sp + r.ret ∧
      (afterLibrary x s.hMasterScript
      { s.ic with stack := r.stack, resumeState := r.resumeState } r.ret).bHalt = s.ic.bHalt :=
    ⟨(afterLibrary_fields x s.hMasterScript _ r.ret).1,
      (afterLibrary_fields x s.hMasterScript _ r.ret).2.2.1⟩
  have hb : InterpretBody x s = endOfPass x
      { s with ic := afterLibrary x s.hMasterScript
                 { s.ic with stack := r.stack, resumeState := r.resumeState } r.ret,
               coroParam := none } ip1 := by
    unfold InterpretBody
    simp only [hcode, hop]
    simp [hlib, hfetch, hr, hnone]
  generalize afterLibrary x s.hMasterScript
      { s.ic with stack := r.stack, resumeState := r.resumeState } r.ret = q at ht hb
  rw [hb]
  have hq0 : 0 ≤ q.sp := by rw [ht.1]; exact h0
  have hq1 : q.sp < (x.PCODE_STACK_SIZE : Int) := by rw [ht.1]; exact h1
  exact ⟨{ s with ic := { q with ip := ip1 }, coroParam := none },
    by simp [endOfPass, hq0, hq1], ht.1, rfl, rfl, ht.2, rfl, rfl⟩

/-- One pass that ends normally without halting, seen from `Interpret`: the run goes on
from the state that pass left. -/
theorem Interpret_succ {κ : Type} (x : Host κ) (n : Nat) (c : Option κ) (i : Nat) (m : Machine)
    (ic : INT_CONTEXT) (s2 : Exec κ) (hic : m.icList[i]? = some ic)
    (hbody : InterpretBody x (m.toExec ic c) = .ok s2) (hhalt : s2.ic.bHalt = false)
    (hn : s2.numGlobals = m.numGlobals) (hh : s2.hMasterScript = m.hMasterScript) :
    Interpret x (n + 1) c i m = Interpret x n s2.coroParam i (m.ofExec i s2) := by
  have hlt : i < m.icList.length := by
    by_contra hcon
    rw [List.getElem?_eq_none (by omega)] at hic
    cases hic
  have hget : (m.ofExec i s2).icList[i]? = some s2.ic := by
    simp [Machine.ofExec, hlt]
  have hexec : (m.ofExec i s2).toExec s2.ic s2.coroParam = s2 := by
    cases s2
    simp only [Machine.toExec, Machine.ofExec] at *
    simp [hn, hh]
  have hof : ∀ e : Exec κ, (m.ofExec i s2).ofExec i e = m.ofExec i e := by
    intro e
    simp [Machine.ofExec]
  unfold Interpret
  simp only [hic, hget, hexec, hof]
  simp only [InterpretLoop, hbody, hhalt]
  simp

/-- C1. Library-call suspend/retry. Let slot `i` of the pool hold a context `ic` whose
`ip` addresses an `OP_LIBCALL` (operand `tmp`, ending at `ip1`), and let the bridge leave
`coroParam` set (to `k`) when first invoked and, invoked again with that `coroParam` on
the context as the first invocation left it, complete with `coroParam` clear and stack
delta `d` (with `sp + d` inside the stack). Then the first run of `Interpret` returns
suspended with `ip` and `sp` of the context unchanged, still addressing that opcode. A
second run starts with one pass that executes that `OP_LIBCALL` and leaves
`sp = old sp + d` (the delta applied once) and `ip = ip1`, just past the operand, with
`coroParam` clear; the run then goes on from that state, so the call is not executed
again. -/
theorem libcall_suspend_retry {κ : Type} (x : Host κ) (m : Machine) (i : Nat)
    (ic : INT_CONTEXT) (coro : Option κ) (code : List Nat) (opcode : Nat) (tmp ip1 : Int)
    (r1 r2 : LibResult κ) (k : κ) (d : Int) (fuel fuel2 : Nat)
    (hic : m.icList[i]? = some ic) (hcode : ic.code = some code)
    (hop : readByte code ic.ip = some opcode) (hlib : opcode &&& OPMASK = OP_LIBCALL)
    (hfetch : Fetch opcode code (ic.ip + 1) = some (tmp, ip1))
    (hfirst : x.CallLibraryRoutine coro tmp ic = r1) (hk : r1.coroParam = some k)
    (hretry : x.CallLibraryRoutine (some k) tmp
      { ic with stack := r1.stack, resumeState := r1.resumeState } = r2)
    (hdone : r2.coroParam = none) (hd : r2.ret = d)
    (h0 : 0 ≤ ic.sp + d) (h1 : ic.sp + d < x.PCODE_STACK_SIZE) :
    ∃ (m1 : Machine) (ic1 : INT_CONTEXT) (s2 : Exec κ),
      Interpret x (fuel + 1) coro i m = .suspended (m1, some k) ∧
      m1.icList[i]? = some ic1 ∧ ic1.ip = ic.ip ∧ ic1.sp = ic.sp ∧ ic1.code = some code ∧
      readByte code ic1.ip = some opcode ∧
      InterpretBody x (m1.toExec ic1 (some k)) = .ok s2 ∧
      s2.ic.sp = ic.sp + d ∧ s2.ic.ip = ip1 ∧ s2.coroParam = none ∧
      InterpretLoop x (fuel2 + 1) (m1.toExec ic1 (some k)) =
        (if s2.ic.bHalt then .ok s2 else InterpretLoop x fuel2 s2) ∧
      (s2.ic.bHalt = false →
        Interpret x (fuel2 + 1) (some k) i m1 = Interpret x fuel2 none i (m1.ofExec i s2)) := by
  have hlt : i < m.icList.length := by
    by_contra hcon
    rw [List.getElem?_eq_none (by omega)] at hic
    cases hic
  have hs := InterpretBody_libcall_suspend x (m.toExec ic coro) code opcode tmp ip1 r1 k hcode
    hop hlib hfetch hfirst hk
  obtain ⟨s2, hb, hsp, hip, hco, hh, hn, hm⟩ :=
    InterpretBody_libcall_done x
      ((m.ofExec i { m.toExec ic coro with
          ic := { ic with stack := r1.stack, resumeState := r1.resumeState },
          coroParam := some k }).toExec
        { ic with stack := r1.stack, resumeState := r1.resumeState } (some k))
      code opcode tmp ip1 r2 hcode hop hlib hfetch hretry hdone (by rw [hd]; exact h0)
      (by rw [hd]; exact h1)
  refine ⟨_, { ic with stack := r1.stack, resumeState := r1.resumeState }, s2, ?_, ?_, rfl, rfl,
    hcode, hop, hb, by rw [hsp, hd]; rfl, hip, hco, ?_, ?_⟩
  · unfold Interpret
    simp only [hic, InterpretLoop, hs]
    rfl
  · simp [Machine.ofExec, hlt]
  · simp only [InterpretLoop, hb]
  · intro hhalt
    have := Interpret_succ x fuel2 (some k) i _ _ s2 (by simp [Machine.ofExec, hlt]) hb hhalt hn hm
    rw [this, hco]

theorem libcall_suspend_retry_witness :
    ∃ (m1 : Machine) (ic1 : INT_CONTEXT) (s2 : Exec Nat),
      Interpret sampleHost 1 none 0 (sampleMachine [OP_LIBCALL + OPSIZE8, 7, OP_HALT]) =
        .suspended (m1, some 0) ∧
      m1.icList[0]? = some ic1 ∧ ic1.ip = 0 ∧ ic1.sp = 2 ∧
      InterpretBody sampleHost (m1.toExec ic1 (some 0)) = .ok s2 ∧
      s2.ic.sp = 2 + 1 ∧ s2.ic.ip = 2 ∧ s2.coroParam = none := by
  obtain ⟨m1, ic1, s2, h1, h2, h3, h4, _, _, h5, h6, h7, h8, _⟩ :=
    libcall_suspend_retry sampleHost (sampleMachine [OP_LIBCALL + OPSIZE8, 7, OP_HALT]) 0
      (sampleContext [OP_LIBCALL + OPSIZE8, 7, OP_HALT]) none
      [OP_LIBCALL + OPSIZE8, 7, OP_HALT] (OP_LIBCALL + OPSIZE8) 7 2 _ _ 0 1 0 0 rfl rfl rfl
      (by decide) rfl rfl rfl rfl rfl rfl (by decide) (by decide)
  exact ⟨m1, ic1, s2, h1, h2, h3, h4, h5, h6, h7, h8⟩

/-! ### The operand size tag -/

/-- The inner switches compare the whole opcode byte: with a size-tag bit set no case of
the comparison group matches and `tmp` keeps the deeper operand. -/
theorem compareOp_tagged (opcode : Nat) (a b : Int) (h : 64 ≤ opcode) :
    compareOp opcode a b = a := by
  unfold compareOp
  simp only [OP_EQUAL, OP_LESS, OP_LEQUAL, OP_NEQUAL, OP_GEQUAL, OP_GREAT, OP_LOR, OP_LAND]
  repeat' split
  all_goals first | rfl | omega

/-- The same for the arithmetic and bitwise group. -/
theorem arithOp_tagged (opcode : Nat) (a b : Int) (h : 64 ≤ opcode) :
    arithOp opcode a b = some a := by
  unfold arithOp
  simp only [OP_PLUS, OP_MINUS, OP_MULT, OP_DIV, OP_MOD, OP_AND, OP_OR, OP_EOR]
  repeat' split
  all_goals first | rfl | omega

/-- C8, at the failing input. The code byte `OP_PLUS | OPSIZE8` (`0x5A`) is dispatched to
the arithmetic group like `OP_PLUS`, but on the stack `..., 2, 3` it leaves `2` on top,
where the untagged `OP_PLUS` leaves `5`: the resulting stacks differ. The same happens for
a tagged comparison (`OP_LESS | OPSIZE16` leaves `2`, `OP_LESS` leaves `1`). -/
theorem size_tag_changes_binary_result :
    (∃ s1 : Exec Nat, InterpretBody sampleHost (sampleExec [OP_PLUS]) = .ok s1 ∧
      s1.ic.sp = 1 ∧ s1.ic.stack = [0, 5, 3, 0, 0, 0, 0, 0]) ∧
    (∃ s1 : Exec Nat, InterpretBody sampleHost (sampleExec [OP_PLUS + OPSIZE8]) = .ok s1 ∧
      s1.ic.sp = 1 ∧ s1.ic.stack = [0, 2, 3, 0, 0, 0, 0, 0]) ∧
    (∃ s1 : Exec Nat, InterpretBody sampleHost (sampleExec [OP_LESS]) = .ok s1 ∧
      s1.ic.sp = 1 ∧ s1.ic.stack = [0, 1, 3, 0, 0, 0, 0, 0]) ∧
    (∃ s1 : Exec Nat, InterpretBody sampleHost (sampleExec [OP_LESS + OPSIZE16]) = .ok s1 ∧
      s1.ic.sp = 1 ∧ s1.ic.stack = [0, 2, 3, 0, 0, 0, 0, 0]) :=
  ⟨⟨_, rfl, rfl, rfl⟩, ⟨_, rfl, rfl, rfl⟩, ⟨_, rfl, rfl, rfl⟩, ⟨_, rfl, rfl, rfl⟩⟩

/-! ### The pool -/

theorem getElem?_lt {α : Type} (l : List α) (i : Nat) (c : α) (h : l[i]? = some c) :
    i < l.length := by
  by_contra hcon
  rw [List.getElem?_eq_none (by omega)] at h
  cases h

theorem updateSlot_eq_set (f : INT_CONTEXT → INT_CONTEXT) (l : List INT_CONTEXT) (i : Nat)
    (c : INT_CONTEXT) (h : l[i]? = some c) : updateSlot f i l = l.set i (f c) := by
  induction l generalizing i with
  | nil => simp at h
  | cons d rest ih =>
    cases i with
    | zero => simp at h; subst h; rfl
    | succ j => simp at h; simp [updateSlot, ih j h]

/-- The first loop of `FreeWaitCheck` either finds no context or clears `waitNumber2` of
the first context whose `waitNumber2` is `w`. -/
theorem clearWaitee_cases (w : Nat) (l : List INT_CONTEXT) :
    ((∀ (j : Nat) (c : INT_CONTEXT), l[j]? = some c → c.waitNumber2 ≠ w) ∧ clearWaitee w l = l) ∨
    ∃ (j : Nat) (c : INT_CONTEXT), l[j]? = some c ∧ c.waitNumber2 = w ∧
      (∀ (j2 : Nat) (c2 : INT_CONTEXT), j2 < j → l[j2]? = some c2 → c2.waitNumber2 ≠ w) ∧
      clearWaitee w l = l.set j { c with waitNumber2 := 0 } := by
  induction l with
  | nil => left; simp [clearWaitee]
  | cons d rest ih =>
    by_cases hd : d.waitNumber2 = w
    · right
      refine ⟨0, d, by simp, hd, ?_, ?_⟩
      · intro j2 c2 h; omega
      · simp [clearWaitee, hd]
    · rcases ih with ⟨hnone, heq⟩ | ⟨j, c, hj, hc, hfirst, heq⟩
      · left
        refine ⟨?_, by simp [clearWaitee, hd, heq]⟩
        intro j c hj
        cases j with
        | zero => simp at hj; subst hj; exact hd
        | succ k => simp at hj; exact hnone k c hj
      · right
        refine ⟨j + 1, c, by simpa using hj, hc, ?_, by simp [clearWaitee, hd, heq]⟩
        intro j2 c2 hlt h2
        cases j2 with
        | zero => simp at h2; subst h2; exact hd
        | succ k => simp at h2; exact hfirst k c2 (by omega) h2

/-- The second loop of `FreeWaitCheck` either finds no context (`i == NUM_INTERPRET`) or
notifies the first context whose `waitNumber1` is `w`. -/
theorem notifyWaiter_cases (w : Nat) (rc : RESCODE) (l : List INT_CONTEXT) :
    ((∀ (j : Nat) (c : INT_CONTEXT), l[j]? = some c → c.waitNumber1 ≠ w) ∧ notifyWaiter w rc l = none) ∨
    ∃ (j : Nat) (c : INT_CONTEXT), l[j]? = some c ∧ c.waitNumber1 = w ∧
      (∀ (j2 : Nat) (c2 : INT_CONTEXT), j2 < j → l[j2]? = some c2 → c2.waitNumber1 ≠ w) ∧
      notifyWaiter w rc l = some (l.set j { c with waitNumber1 := 0, resumeCode := rc }, c.pProc) := by
  induction l with
  | nil => left; simp [notifyWaiter]
  | cons d rest ih =>
    by_cases hd : d.waitNumber1 = w
    · right
      refine ⟨0, d, by simp, hd, ?_, ?_⟩
      · intro j2 c2 h; omega
      · simp [notifyWaiter, hd]
    · rcases ih with ⟨hnone, heq⟩ | ⟨j, c, hj, hc, hfirst, heq⟩
      · left
        refine ⟨?_, by simp [notifyWaiter, hd, heq]⟩
        intro j c hj
        cases j with
        | zero => simp at hj; subst hj; exact hd
        | succ k => simp at hj; exact hnone k c hj
      · right
        refine ⟨j + 1, c, by simpa using hj, hc, ?_, by simp [notifyWaiter, hd, heq]⟩
        intro j2 c2 hlt h2
        cases j2 with
        | zero => simp at h2; subst h2; exact hd
        | succ k => simp at h2; exact hfirst k c2 (by omega) h2

/-- The scan for the context of a process stops at the first live slot it owns. -/
theorem findContext_eq (p : Nat) (l : List INT_CONTEXT) (b : Nat) (c : INT_CONTEXT)
    (hb : l[b]? = some c) (hlive : c.GSort ≠ GSORT.GS_NONE) (hp : c.pProc = p)
    (hfirst : ∀ (j : Nat) (d : INT_CONTEXT), j < b → l[j]? = some d → ¬ (d.GSort ≠ GSORT.GS_NONE ∧ d.pProc = p)) :
    findContext p l = b := by
  induction l generalizing b with
  | nil => simp at hb
  | cons d rest ih =>
    cases b with
    | zero =>
      simp at hb; subst hb
      simp [findContext, hlive, hp]
    | succ k =>
      have hd := hfirst 0 d (by omega) (by simp)
      simp only [findContext, hd, if_false]
      simp at hb
      rw [ih k hb (fun j e hj he => hfirst (j + 1) e (by omega) (by simpa using he))]

/-- What the scan for the context of a process returns: a live slot owned by the process,
with no such slot before it, or the length of the pool. -/
theorem findContext_spec (p : Nat) (l : List INT_CONTEXT) :
    (findContext p l = l.length ∧ ∀ (j : Nat) (d : INT_CONTEXT), l[j]? = some d → ¬ (d.GSort ≠ GSORT.GS_NONE ∧ d.pProc = p)) ∨
    (∃ c, l[findContext p l]? = some c ∧ c.GSort ≠ GSORT.GS_NONE ∧ c.pProc = p ∧
      ∀ (j : Nat) (d : INT_CONTEXT), j < findContext p l → l[j]? = some d → ¬ (d.GSort ≠ GSORT.GS_NONE ∧ d.pProc = p)) := by
  induction l with
  | nil => left; simp [findContext]
  | cons d rest ih =>
    by_cases hd : d.GSort ≠ GSORT.GS_NONE ∧ d.pProc = p
    · right
      refine ⟨d, by simp [findContext, hd], hd.1, hd.2, ?_⟩
      intro j e hj
      simp [findContext, hd] at hj
    · rcases ih with ⟨hlen, hnone⟩ | ⟨c, hc, hl, hp, hfirst⟩
      · left
        refine ⟨by simp [findContext, hd, hlen], ?_⟩
        intro j e he
        cases j with
        | zero => simp at he; subst he; exact hd
        | succ k => simp at he; exact hnone k e he
      · right
        refine ⟨c, by simp only [findContext, hd, if_false]; simpa using hc, hl, hp, ?_⟩
        intro j e hj he
        simp only [findContext, hd, if_false] at hj
        cases j with
        | zero => simp at he; subst he; exact hd
        | succ k => simp at he; exact hfirst k e (by omega) he

/-! ### Rendezvous -/

/-- The first loop of `FreeWaitCheck` keeps the length of the pool and changes nothing
but `waitNumber2` fields, which it can only clear. -/
theorem clearWaitee_get (w : Nat) (l : List INT_CONTEXT) :
    (clearWaitee w l).length = l.length ∧
    ∀ (j : Nat) (c : INT_CONTEXT), l[j]? = some c →
      ∃ c1 : INT_CONTEXT, (clearWaitee w l)[j]? = some c1 ∧
        c1 = { c with waitNumber2 := c1.waitNumber2 } ∧
        (c1.waitNumber2 = c.waitNumber2 ∨ (c.waitNumber2 = w ∧ c1.waitNumber2 = 0)) := by
  rcases clearWaitee_cases w l with ⟨_, heq⟩ | ⟨k, d, hk, hd, _, heq⟩
  · rw [heq]
    exact ⟨rfl, fun j c hj => ⟨c, hj, rfl, Or.inl rfl⟩⟩
  · rw [heq]
    refine ⟨by simp, ?_⟩
    intro j c hj
    by_cases hjk : k = j
    · subst hjk
      rw [hk] at hj
      injection hj with hj
      subst hj
      exact ⟨{ d with waitNumber2 := 0 }, by simp [getElem?_lt _ _ _ hk], rfl, Or.inr ⟨hd, rfl⟩⟩
    · exact ⟨c, by rw [List.getElem?_set_ne hjk]; exact hj, rfl, Or.inl rfl⟩

/-- The first part of `FreeWaitCheck` ("is this waiting for something?"). -/
theorem freeWaitCheck_first (w1 : Nat) (l : List INT_CONTEXT) :
    (if w1 ≠ 0 then clearWaitee w1 l else l).length = l.length ∧
    ∀ (j : Nat) (c : INT_CONTEXT), l[j]? = some c →
      ∃ c1 : INT_CONTEXT, (if w1 ≠ 0 then clearWaitee w1 l else l)[j]? = some c1 ∧
        c1 = { c with waitNumber2 := c1.waitNumber2 } ∧
        (c1.waitNumber2 = c.waitNumber2 ∨ (c.waitNumber2 = w1 ∧ w1 ≠ 0 ∧ c1.waitNumber2 = 0)) := by
  by_cases h : w1 ≠ 0
  · rw [if_pos h]
    refine ⟨(clearWaitee_get w1 l).1, ?_⟩
    intro j c hj
    obtain ⟨c1, h1, h2, h3⟩ := (clearWaitee_get w1 l).2 j c hj
    refine ⟨c1, h1, h2, ?_⟩
    rcases h3 with h3 | h3
    · exact Or.inl h3
    · exact Or.inr ⟨h3.1, h, h3.2⟩
  · rw [if_neg h]
    exact ⟨rfl, fun j c hj => ⟨c, hj, rfl, Or.inl rfl⟩⟩

theorem same_but_waitee_fields (c c1 : INT_CONTEXT)
    (h : c1 = { c with waitNumber2 := c1.waitNumber2 }) :
    c1.waitNumber1 = c.waitNumber1 ∧ c1.pProc = c.pProc ∧ c1.GSort = c.GSort ∧
      c1.resumeCode = c.resumeCode := by
  rw [h]
  exact ⟨rfl, rfl, rfl, rfl⟩

/-- `FreeWaitCheck` on the context a unique waiter waits for: the waiter is notified. -/
theorem FreeWaitCheck_notifies (bVoluntary : Bool) (m : Machine) (a b : Nat)
    (A B : INT_CONTEXT) (w : Nat) (hA : m.icList[a]? = some A) (hB : m.icList[b]? = some B)
    (hab : a ≠ b) (hw : w ≠ 0) (hA1 : A.waitNumber1 = w) (hB2 : B.waitNumber2 = w)
    (huniq : ∀ (j : Nat) (c : INT_CONTEXT), m.icList[j]? = some c → c.waitNumber1 = w → j = a) :
    ∃ (m1 : Machine) (A1 B1 : INT_CONTEXT), FreeWaitCheck b bVoluntary m = .ok m1 ∧
      m1.icList[a]? = some A1 ∧ m1.icList[b]? = some B1 ∧
      A1.resumeCode = (if bVoluntary then RESCODE.RES_FINISHED else RESCODE.RES_CUTSHORT) ∧
      A1.waitNumber1 = 0 ∧ A1.pProc = A.pProc ∧
      m1.rescheduled = m.rescheduled ++ [A.pProc] := by
  obtain ⟨hlen, hget⟩ := freeWaitCheck_first B.waitNumber1 m.icList
  have hBw1 : B.waitNumber1 ≠ w := fun h => hab (huniq b B hB h).symm
  obtain ⟨B1, hB1, hB1eq, hB1w⟩ := hget b B hB
  obtain ⟨A0, hA0, hA0eq, _⟩ := hget a A hA
  have hB1w2 : B1.waitNumber2 = w := by
    rcases hB1w with h | h
    · rw [h, hB2]
    · exact absurd (h.1.symm.trans hB2) hBw1
  generalize hl1 : (if B.waitNumber1 ≠ 0 then clearWaitee B.waitNumber1 m.icList else m.icList)
    = l1 at hlen hget hB1 hA0
  have hfw : FreeWaitCheck b bVoluntary m =
      match notifyWaiter w (if bVoluntary then RESCODE.RES_FINISHED else RESCODE.RES_CUTSHORT)
          l1 with
      | some (l2, p) => .ok { m with icList := l2, rescheduled := m.rescheduled ++ [p] }
      | none => .fatal .noWaiter { m with icList := l1 } := by
    unfold FreeWaitCheck
    simp only [hB, hl1, hB1, Option.getD_some, hB1w2, hw, ne_eq, not_false_eq_true, if_true]
    try rfl
  rcases notifyWaiter_cases w (if bVoluntary then RESCODE.RES_FINISHED else RESCODE.RES_CUTSHORT)
    l1 with ⟨hnone, _⟩ | ⟨j, c, hj, hc, _, heq⟩
  · exact absurd ((same_but_waitee_fields A A0 hA0eq).1.trans hA1) (hnone a A0 hA0)
  · have hjl : j < m.icList.length := by rw [← hlen]; exact getElem?_lt _ _ _ hj
    obtain ⟨c0, hc0⟩ : ∃ c0, m.icList[j]? = some c0 := ⟨m.icList[j], by simp [hjl]⟩
    obtain ⟨c1, hc1, hc1eq, _⟩ := hget j c0 hc0
    rw [hj] at hc1
    injection hc1 with hc1
    subst hc1
    have hja : j = a := huniq j c0 hc0 ((same_but_waitee_fields c0 c hc1eq).1.symm.trans hc)
    subst hja
    rw [hA] at hc0
    injection hc0 with hc0
    subst hc0
    rw [hfw, heq]
    have hp : c.pProc = A.pProc := (same_but_waitee_fields A c hc1eq).2.1
    refine ⟨_, { c with waitNumber1 := 0, resumeCode :=
      (if bVoluntary then RESCODE.RES_FINISHED else RESCODE.RES_CUTSHORT) }, B1, rfl, ?_, ?_,
      rfl, rfl, hp, by simp [hp]⟩
    · simp [getElem?_lt _ _ _ hj]
    · show (l1.set j _)[b]? = some B1
      rw [List.getElem?_set_ne hab]; exact hB1

theorem releaseSlot_GSort {κ : Type} (x : Host κ) (c : INT_CONTEXT) :
    (releaseSlot x c).GSort = GSORT.GS_NONE := rfl

/-! ### Teardown of a waiter -/

/-- The scan for the context of a process depends only on which slots are live and owned
by that process. -/
theorem findContext_congr (p : Nat) (l l2 : List INT_CONTEXT) (hlen : l2.length = l.length)
    (h : ∀ (j : Nat) (c c2 : INT_CONTEXT), l[j]? = some c → l2[j]? = some c2 →
      ((c2.GSort ≠ GSORT.GS_NONE ∧ c2.pProc = p) ↔ (c.GSort ≠ GSORT.GS_NONE ∧ c.pProc = p))) :
    findContext p l2 = findContext p l := by
  induction l generalizing l2 with
  | nil =>
    cases l2 with
    | nil => rfl
    | cons d r => simp at hlen
  | cons c rest ih =>
    cases l2 with
    | nil => simp at hlen
    | cons c2 rest2 =>
      have h0 := h 0 c c2 (by simp) (by simp)
      have hr := ih rest2 (by simpa using hlen)
        (fun j d d2 hd hd2 => h (j + 1) d d2 (by simpa using hd) (by simpa using hd2))
      unfold findContext
      by_cases hc : c.GSort ≠ GSORT.GS_NONE ∧ c.pProc = p
      · rw [if_pos hc, if_pos (h0.mpr hc)]
      · rw [if_neg hc, if_neg (fun hc2 => hc (h0.mp hc2)), hr]

/-- `FreeWaitCheck` keeps the length of the pool, and the sort and the owner of every
context. -/
theorem FreeWaitCheck_frame (i : Nat) (v : Bool) (m m1 : Machine)
    (h : FreeWaitCheck i v m = .ok m1) :
    m1.icList.length = m.icList.length ∧
    ∀ (j : Nat) (c : INT_CONTEXT), m.icList[j]? = some c →
      ∃ c1 : INT_CONTEXT, m1.icList[j]? = some c1 ∧ c1.GSort = c.GSort ∧ c1.pProc = c.pProc := by
  unfold FreeWaitCheck at h
  split at h
  · cases h
  · rename_i pic hpic
    obtain ⟨hlen, hget⟩ := freeWaitCheck_first pic.waitNumber1 m.icList
    generalize (if pic.waitNumber1 ≠ 0 then clearWaitee pic.waitNumber1 m.icList else m.icList)
      = l1 at hlen hget h
    simp only at h
    split at h
    · rename_i hw2
      rcases notifyWaiter_cases ((l1[i]?).getD pic).waitNumber2
        (if v then RESCODE.RES_FINISHED else RESCODE.RES_CUTSHORT) l1 with
        ⟨_, heq⟩ | ⟨k, d, hk, _, _, heq⟩
      · rw [heq] at h; cases h
      · rw [heq] at h
        injection h with h
        subst h
        refine ⟨by simp [hlen], ?_⟩
        intro j c hj
        obtain ⟨c1, h1, h2, _⟩ := hget j c hj
        have hf := same_but_waitee_fields c c1 h2
        by_cases hkj : k = j
        · subst hkj
          rw [hk] at h1
          injection h1 with h1
          subst h1
          exact ⟨{ d with waitNumber1 := 0, resumeCode :=
            (if v then RESCODE.RES_FINISHED else RESCODE.RES_CUTSHORT) },
            by simp [getElem?_lt _ _ _ hk], hf.2.2.1, hf.2.1⟩
        · exact ⟨c1, by simp [List.getElem?_set_ne hkj, h1], hf.2.2.1, hf.2.1⟩
    · injection h with h
      subst h
      refine ⟨hlen, ?_⟩
      intro j c hj
      obtain ⟨c1, h1, h2, _⟩ := hget j c hj
      have hf := same_but_waitee_fields c c1 h2
      exact ⟨c1, h1, hf.2.2.1, hf.2.1⟩

/-- `FreeWaitCheck` on a context nobody waits for: no notification, whatever the kind of
release. Only `waitNumber2` fields can change. -/
theorem FreeWaitCheck_no_waiter (v : Bool) (m : Machine) (b : Nat) (B : INT_CONTEXT)
    (hB : m.icList[b]? = some B) (h0 : B.waitNumber2 = 0) :
    ∃ l1 : List INT_CONTEXT, FreeWaitCheck b v m = .ok { m with icList := l1 } ∧
      l1.length = m.icList.length ∧
      ∀ (j : Nat) (c : INT_CONTEXT), m.icList[j]? = some c →
        ∃ c1 : INT_CONTEXT, l1[j]? = some c1 ∧ c1 = { c with waitNumber2 := c1.waitNumber2 } := by
  obtain ⟨hlen, hget⟩ := freeWaitCheck_first B.waitNumber1 m.icList
  obtain ⟨B1, hB1, _, hB1w⟩ := hget b B hB
  have hz : B1.waitNumber2 = 0 := by
    rcases hB1w with h | h
    · rw [h, h0]
    · exact h.2.2
  refine ⟨if B.waitNumber1 ≠ 0 then clearWaitee B.waitNumber1 m.icList else m.icList, ?_, hlen,
    fun j c hj => ?_⟩
  · unfold FreeWaitCheck
    simp only [hB, hB1, Option.getD_some, hz, ne_eq, not_true_eq_false, if_false]
  · obtain ⟨c1, h1, h2, _⟩ := hget j c hj
    exact ⟨c1, h1, h2⟩

/-- Releasing a context nobody waits for, voluntarily or for its dying process: nobody is
notified, no process is rescheduled, and in every other slot only `waitNumber2` can have
changed. -/
theorem release_unwaited {κ : Type} (x : Host κ) (m : Machine) (b : Nat) (B : INT_CONTEXT)
    (hB : m.icList[b]? = some B) (h0 : B.waitNumber2 = 0) :
    (∃ m2 : Machine, FreeInterpretContextPi x b m = .ok m2 ∧ m2.rescheduled = m.rescheduled ∧
      ∀ (j : Nat) (c : INT_CONTEXT), j ≠ b → m.icList[j]? = some c →
        ∃ c2 : INT_CONTEXT, m2.icList[j]? = some c2 ∧ c2.resumeCode = c.resumeCode ∧
          c2 = { c with waitNumber2 := c2.waitNumber2 }) ∧
    (∀ p : Nat, findContext p m.icList = b →
      ∃ m2 : Machine, FreeInterpretContextPr x p m = .ok m2 ∧ m2.rescheduled = m.rescheduled ∧
        ∀ (j : Nat) (c : INT_CONTEXT), j ≠ b → m.icList[j]? = some c →
          ∃ c2 : INT_CONTEXT, m2.icList[j]? = some c2 ∧ c2.resumeCode = c.resumeCode ∧
            c2 = { c with waitNumber2 := c2.waitNumber2 }) := by
  have key : ∀ v : Bool, ∃ l1 : List INT_CONTEXT,
      FreeWaitCheck b v m = .ok { m with icList := l1 } ∧
      ∀ (j : Nat) (c : INT_CONTEXT), j ≠ b → m.icList[j]? = some c →
        ∃ c2 : INT_CONTEXT, (updateSlot (releaseSlot x) b l1)[j]? = some c2 ∧
          c2.resumeCode = c.resumeCode ∧ c2 = { c with waitNumber2 := c2.waitNumber2 } := by
    intro v
    obtain ⟨l1, hf, _, hget⟩ := FreeWaitCheck_no_waiter v m b B hB h0
    refine ⟨l1, hf, ?_⟩
    intro j c hjb hj
    obtain ⟨c1, h1, h2⟩ := hget j c hj
    obtain ⟨B1, hB1, _⟩ := hget b B hB
    refine ⟨c1, ?_, (same_but_waitee_fields c c1 h2).2.2.2, h2⟩
    rw [updateSlot_eq_set (releaseSlot x) l1 b B1 hB1, List.getElem?_set_ne (Ne.symm hjb)]
    exact h1
  constructor
  · obtain ⟨l1, hf, hq⟩ := key true
    exact ⟨{ m with icList := updateSlot (releaseSlot x) b l1 },
      by simp [FreeInterpretContextPi, hf], rfl, hq⟩
  · intro p hp
    obtain ⟨l1, hf, hq⟩ := key false
    exact ⟨{ m with icList := updateSlot (releaseSlot x) b l1 },
      by simp [FreeInterpretContextPr, hp, getElem?_lt _ _ _ hB, hf], rfl, hq⟩

/-- `FreeWaitCheck` on a waiter unlinks the context it waits for. -/
theorem FreeWaitCheck_unlinks (m : Machine) (a b : Nat) (A B : INT_CONTEXT) (w : Nat)
    (hA : m.icList[a]? = some A) (hB : m.icList[b]? = some B) (hab : a ≠ b) (hw : w ≠ 0)
    (hA1 : A.waitNumber1 = w) (hB2 : B.waitNumber2 = w)
    (huniq : ∀ (j : Nat) (c : INT_CONTEXT), m.icList[j]? = some c → c.waitNumber2 = w → j = b)
    (hAw : A.waitNumber2 = 0 ∨
      ∃ (j : Nat) (c : INT_CONTEXT), m.icList[j]? = some c ∧ c.waitNumber1 = A.waitNumber2) :
    ∃ (m1 : Machine) (B1 : INT_CONTEXT), FreeWaitCheck a false m = .ok m1 ∧
      m1.icList[b]? = some B1 ∧ B1.waitNumber2 = 0 := by
  have hw1 : A.waitNumber1 ≠ 0 := by rw [hA1]; exact hw
  rcases clearWaitee_cases w m.icList with ⟨hnone, _⟩ | ⟨j, c, hj, hc, _, heq⟩
  · exact absurd hB2 (hnone b B hB)
  · have hjb := huniq j c hj hc
    subst hjb
    rw [hB] at hj
    injection hj with hj
    subst hj
    have hbl := getElem?_lt _ _ _ hB
    have hl1a : (m.icList.set j { B with waitNumber2 := 0 })[a]? = some A := by
      rw [List.getElem?_set_ne (Ne.symm hab)]; exact hA
    have hl1b : (m.icList.set j { B with waitNumber2 := 0 })[j]? =
        some { B with waitNumber2 := 0 } := by simp [hbl]
    by_cases hz : A.waitNumber2 = 0
    · refine ⟨{ m with icList := m.icList.set j { B with waitNumber2 := 0 } },
        { B with waitNumber2 := 0 }, ?_, hl1b, rfl⟩
      unfold FreeWaitCheck
      simp only [hA, hA1, hw, ne_eq, not_false_eq_true, if_true, heq, hl1a, Option.getD_some, hz,
        not_true_eq_false, if_false]
    · rcases notifyWaiter_cases A.waitNumber2 RESCODE.RES_CUTSHORT
        (m.icList.set j { B with waitNumber2 := 0 }) with ⟨hnone, _⟩ | ⟨k, d, hk, _, _, hn⟩
      · rcases hAw with h | ⟨i, e, hi, he⟩
        · exact absurd h hz
        · by_cases hij : j = i
          · subst hij
            rw [hB] at hi
            injection hi with hi
            subst hi
            exact absurd he (hnone j { B with waitNumber2 := 0 } hl1b)
          · exact absurd he (hnone i e (by rw [List.getElem?_set_ne hij]; exact hi))
      · have hfw : FreeWaitCheck a false m = .ok
            { m with
              icList := ((m.icList.set j { B with waitNumber2 := 0 }).set k
                { d with waitNumber1 := 0, resumeCode := RESCODE.RES_CUTSHORT }),
              rescheduled := m.rescheduled ++ [d.pProc] } := by
          unfold FreeWaitCheck
          simp only [hA, hA1, hw, ne_eq, not_false_eq_true, if_true, heq, hl1a,
            Option.getD_some, hz, Bool.false_eq_true, if_false, hn]
          try rfl
        by_cases hkj : k = j
        · subst hkj
          rw [hl1b] at hk
          injection hk with hk
          subst hk
          exact ⟨_,
            { B with waitNumber2 := 0, waitNumber1 := 0, resumeCode := RESCODE.RES_CUTSHORT },
            hfw, by simp [hbl], rfl⟩
        · exact ⟨_, { B with waitNumber2 := 0 }, hfw,
            by simp [List.getElem?_set_ne hkj, hbl], rfl⟩

/-- C10, as stated, does not hold. In this pool the context of process 1 (slot 1) waits,
with token 7, for the context of process 2 (slot 2), and the free slot 0 still carries 7
as its `waitNumber2`. `FreeInterpretContextPr(1)` clears the `waitNumber2` of slot 0, the
first slot that holds the token, and stops: the context of process 2 keeps
`waitNumber2 = 7`. In a Tinsel 2 engine its later release, voluntary or forced, finds no
waiter and fails in `assert(i < NUM_INTERPRET)`; in a Tinsel 1 engine the released slot 1
keeps `waitNumber1 = 7`, so the later release notifies that free slot and reschedules the
dead process 1. -/
theorem teardown_leaves_waitee_linked :
    (staleWaitMachine.icList[1]?.map fun c => (c.GSort, c.pProc, c.waitNumber1)) =
      some (GSORT.GS_OTHER 0, 1, 7) ∧
    (staleWaitMachine.icList[2]?.map fun c => (c.GSort, c.pProc, c.waitNumber2)) =
      some (GSORT.GS_OTHER 0, 2, 7) ∧
    (∃ m1 : Machine, FreeInterpretContextPr sampleHost 1 staleWaitMachine = .ok m1 ∧
      (m1.icList[2]?.map fun c => (c.GSort, c.waitNumber2)) = some (GSORT.GS_OTHER 0, 7) ∧
      FreeInterpretContextPi sampleHost 2 m1 = .fatal .noWaiter m1 ∧
      FreeInterpretContextPr sampleHost 2 m1 = .fatal .noWaiter m1) ∧
    (∃ m1 m2 : Machine, FreeInterpretContextPr sampleHostV1 1 staleWaitMachine = .ok m1 ∧
      (m1.icList[1]?.map fun c => (c.GSort, c.waitNumber1)) = some (GSORT.GS_NONE, 7) ∧
      (m1.icList[2]?.map fun c => (c.GSort, c.waitNumber2)) = some (GSORT.GS_OTHER 0, 7) ∧
      m1.rescheduled = [] ∧
      FreeInterpretContextPi sampleHostV1 2 m1 = .ok m2 ∧ m2.rescheduled = [1]) :=
  ⟨rfl, rfl, ⟨_, rfl, rfl, rfl, rfl⟩, ⟨_, _, rfl, rfl, rfl, rfl, rfl, rfl⟩⟩

/-- C10 (amended). Waiter teardown. Let `A` (slot `a`, the live context
`FreeInterpretContextPr` finds for `A.pProc`) wait on `B` (slot `b`): `A.waitNumber1 =
B.waitNumber2 = w ≠ 0`, `B` is the only slot of the pool (free slots included) whose
`waitNumber2` is `w`, and a waiter of `A` itself exists if `A.waitNumber2 ≠ 0`. Then
`FreeInterpretContextPr(A.pProc)` succeeds and leaves `B.waitNumber2 = 0`. Releasing `B`
afterwards, voluntarily (`FreeInterpretContextPi`) or by `FreeInterpretContextPr` for its
process, succeeds (the assertion that a waiter exists is not reached), reschedules no process and changes in no other context anything but
possibly `waitNumber2`, in particular no `resumeCode`; the same holds in every later
state in which `B.waitNumber2` is still 0. -/
theorem waiter_teardown {κ : Type} (x : Host κ) (m : Machine) (a b : Nat) (A B : INT_CONTEXT)
    (w : Nat) (hA : m.icList[a]? = some A) (hB : m.icList[b]? = some B) (hab : a ≠ b)
    (hw : w ≠ 0) (hA1 : A.waitNumber1 = w) (hB2 : B.waitNumber2 = w)
    (hAlive : A.GSort ≠ GSORT.GS_NONE)
    (hAfirst : ∀ (j : Nat) (d : INT_CONTEXT), j < a → m.icList[j]? = some d →
      ¬ (d.GSort ≠ GSORT.GS_NONE ∧ d.pProc = A.pProc))
    (huniq : ∀ (j : Nat) (c : INT_CONTEXT), m.icList[j]? = some c → c.waitNumber2 = w → j = b)
    (hAw : A.waitNumber2 = 0 ∨
      ∃ (j : Nat) (c : INT_CONTEXT), m.icList[j]? = some c ∧ c.waitNumber1 = A.waitNumber2) :
    ∃ (m1 : Machine) (B1 : INT_CONTEXT),
      FreeInterpretContextPr x A.pProc m = .ok m1 ∧ m1.icList[b]? = some B1 ∧
      B1.waitNumber2 = 0 ∧
      (∃ m2 : Machine, FreeInterpretContextPi x b m1 = .ok m2 ∧
        m2.rescheduled = m1.rescheduled ∧
        ∀ (j : Nat) (c : INT_CONTEXT), j ≠ b → m1.icList[j]? = some c →
          ∃ c2 : INT_CONTEXT, m2.icList[j]? = some c2 ∧ c2.resumeCode = c.resumeCode ∧
            c2 = { c with waitNumber2 := c2.waitNumber2 }) ∧
      (B.GSort ≠ GSORT.GS_NONE →
        (∀ (j : Nat) (d : INT_CONTEXT), j < b → m.icList[j]? = some d →
          ¬ (d.GSort ≠ GSORT.GS_NONE ∧ d.pProc = B.pProc)) →
        ∃ m2 : Machine, FreeInterpretContextPr x B.pProc m1 = .ok m2 ∧
          m2.rescheduled = m1.rescheduled ∧
          ∀ (j : Nat) (c : INT_CONTEXT), j ≠ b → m1.icList[j]? = some c →
            ∃ c2 : INT_CONTEXT, m2.icList[j]? = some c2 ∧ c2.resumeCode = c.resumeCode ∧
              c2 = { c with waitNumber2 := c2.waitNumber2 }) ∧
      (∀ (m3 : Machine) (B3 : INT_CONTEXT), m3.icList[b]? = some B3 → B3.waitNumber2 = 0 →
        (∃ m2 : Machine, FreeInterpretContextPi x b m3 = .ok m2 ∧
          m2.rescheduled = m3.rescheduled ∧
          ∀ (j : Nat) (c : INT_CONTEXT), j ≠ b → m3.icList[j]? = some c →
            ∃ c2 : INT_CONTEXT, m2.icList[j]? = some c2 ∧ c2.resumeCode = c.resumeCode ∧
              c2 = { c with waitNumber2 := c2.waitNumber2 }) ∧
        (∀ p : Nat, findContext p m3.icList = b →
          ∃ m2 : Machine, FreeInterpretContextPr x p m3 = .ok m2 ∧
            m2.rescheduled = m3.rescheduled ∧
            ∀ (j : Nat) (c : INT_CONTEXT), j ≠ b → m3.icList[j]? = some c →
              ∃ c2 : INT_CONTEXT, m2.icList[j]? = some c2 ∧ c2.resumeCode = c.resumeCode ∧
                c2 = { c with waitNumber2 := c2.waitNumber2 })) := by
  obtain ⟨m0, B0, hf, hB0, hB0z⟩ :=
    FreeWaitCheck_unlinks m a b A B w hA hB hab hw hA1 hB2 huniq hAw
  obtain ⟨hlen, hframe⟩ := FreeWaitCheck_frame a false m m0 hf
  have hfindA := findContext_eq A.pProc m.icList a A hA hAlive rfl hAfirst
  have hal := getElem?_lt _ _ _ hA
  obtain ⟨A0, hA0, _, _⟩ := hframe a A hA
  have hset := updateSlot_eq_set (releaseSlot x) m0.icList a A0 hA0
  have hB1 : (updateSlot (releaseSlot x) a m0.icList)[b]? = some B0 := by
    rw [hset, List.getElem?_set_ne hab]; exact hB0
  have hpr : FreeInterpretContextPr x A.pProc m =
      .ok { m0 with icList := updateSlot (releaseSlot x) a m0.icList } := by
    simp [FreeInterpretContextPr, hfindA, hal, hf]
  have hrel := release_unwaited x { m0 with icList := updateSlot (releaseSlot x) a m0.icList }
    b B0 hB1 hB0z
  refine ⟨{ m0 with icList := updateSlot (releaseSlot x) a m0.icList }, B0, hpr, hB1, hB0z,
    hrel.1, ?_, fun m3 B3 h3 hz => release_unwaited x m3 b B3 h3 hz⟩
  intro hBlive hBfirst
  apply hrel.2
  have hfindB := findContext_eq B.pProc m.icList b B hB hBlive rfl hBfirst
  have hpne : A.pProc ≠ B.pProc := by
    intro hp
    rw [hp] at hfindA
    exact hab (hfindA.symm.trans hfindB)
  rw [← hfindB]
  apply findContext_congr
  · show (updateSlot (releaseSlot x) a m0.icList).length = m.icList.length
    rw [hset]; simp [hlen]
  · intro j c c2 hj hj2
    have hj2b : (updateSlot (releaseSlot x) a m0.icList)[j]? = some c2 := hj2
    rw [hset] at hj2b
    by_cases haj : a = j
    · subst haj
      rw [hA] at hj
      injection hj with hj
      subst hj
      have hl0 := getElem?_lt _ _ _ hA0
      simp [hl0] at hj2b
      subst hj2b
      constructor
      · intro h; exact absurd (releaseSlot_GSort x A0) h.1
      · intro h; exact absurd h.2 hpne
    · rw [List.getElem?_set_ne haj] at hj2b
      obtain ⟨c1, h1, hg, hp⟩ := hframe j c hj
      rw [h1] at hj2b
      injection hj2b with hj2b
      subst hj2b
      rw [hg, hp]

theorem waiter_teardown_witness :
    ∃ (m1 : Machine) (B1 : INT_CONTEXT),
      FreeInterpretContextPr sampleHost 1 sampleWaitMachine = .ok m1 ∧
      m1.icList[1]? = some B1 ∧ B1.waitNumber2 = 0 ∧
      ∃ m2 : Machine, FreeInterpretContextPi sampleHost 1 m1 = .ok m2 ∧
        m2.rescheduled = m1.rescheduled := by
  obtain ⟨m1, B1, h1, h2, h3, ⟨m2, h4, h5, _⟩, _⟩ :=
    waiter_teardown sampleHost sampleWaitMachine 0 1
      { sampleContext [] with pProc := 1, waitNumber1 := 7 }
      { sampleContext [] with pProc := 2, waitNumber2 := 7 } 7 rfl rfl (by decide) (by decide)
      rfl rfl (by simp [sampleContext])
      (by intro j d hj; omega)
      (by
        intro j c hj hc
        rcases j with _ | _ | j
        · simp [sampleWaitMachine] at hj
          subst hj
          simp [sampleContext] at hc
        · rfl
        · simp [sampleWaitMachine] at hj)
      (Or.inl rfl)
  exact ⟨m1, B1, h1, h2, h3, m2, h4, h5⟩

/-! ### Halting -/

/-- The loop of `Interpret` ends normally only with `bHalt` set. -/
theorem InterpretLoop_ok_halt {κ : Type} (x : Host κ) (fuel : Nat) (s e : Exec κ)
    (h : InterpretLoop x fuel s = .ok e) : e.ic.bHalt = true := by
  induction fuel generalizing s with
  | zero => simp [InterpretLoop] at h
  | succ n ih =>
    cases hb : InterpretBody x s with
    | ok s1 =>
      simp only [InterpretLoop, hb] at h
      by_cases hhalt : s1.ic.bHalt = true
      · rw [if_pos hhalt] at h
        injection h with h
        subst h
        exact hhalt
      · rw [if_neg hhalt] at h
        exact ih s1 h
    | suspended s1 => simp [InterpretLoop, hb] at h
    | fatal f s1 => simp [InterpretLoop, hb] at h
    | timeout s1 => simp [InterpretLoop, hb] at h

/-- What `OP_HALT` does: `ic->bHalt = true`, then the end of the pass. -/
theorem InterpretBody_halt {κ : Type} (x : Host κ) (s : Exec κ) (code : List Nat)
    (opcode : Nat) (hcode : s.ic.code = some code) (hop : readByte code s.ic.ip = some opcode)
    (hhalt : opcode &&& OPMASK = OP_HALT) :
    InterpretBody x s = endOfPass x { s with ic := { s.ic with bHalt := true } } (s.ic.ip + 1) := by
  unfold InterpretBody
  simp only [hcode, hop]
  simp [hhalt]

/-- A voluntary release that succeeds leaves the slot free. -/
theorem FreeInterpretContextPi_free {κ : Type} (x : Host κ) (i : Nat) (m m1 : Machine)
    (ic : INT_CONTEXT) (hic : m.icList[i]? = some ic)
    (h : FreeInterpretContextPi x i m = .ok m1) :
    ∃ slot : INT_CONTEXT, m1.icList[i]? = some slot ∧ slot.GSort = GSORT.GS_NONE := by
  cases hm0 : FreeWaitCheck i true m with
  | ok m0 =>
    simp only [FreeInterpretContextPi, hm0] at h
    obtain ⟨_, hframe⟩ := FreeWaitCheck_frame i true m m0 hm0
    obtain ⟨c1, hc1, _, _⟩ := hframe i ic hic
    injection h with h
    subst h
    refine ⟨releaseSlot x c1, ?_, rfl⟩
    show (updateSlot (releaseSlot x) i m0.icList)[i]? = some (releaseSlot x c1)
    rw [updateSlot_eq_set (releaseSlot x) m0.icList i c1 hc1]
    simp [getElem?_lt _ _ _ hc1]
  | suspended s1 => simp [FreeInterpretContextPi, hm0] at h
  | fatal f s1 => simp [FreeInterpretContextPi, hm0] at h
  | timeout s1 => simp [FreeInterpretContextPi, hm0] at h

/-- C2. Halt post-condition. If a run of `Interpret` on slot `i` completes normally, the
loop ended with `bHalt` set and `sp = 0` (the value `sp` had when the halt was executed,
since `OP_HALT` does not change it), and afterwards slot `i` is free (`GS_NONE`).
Conversely, if the context's `ip` addresses an `OP_HALT` and `sp ≠ 0`, the run ends in a
fatal assertion and the slot is not released (its sort and `sp` are as before, no process
is rescheduled): the assertion is "stack not unwound" whenever `sp` lies within the stack,
`0 ≤ sp < PCODE_STACK_SIZE`, which the check after every instruction maintains; for an
`sp` outside the stack that check itself fails first. -/
theorem halt_postcondition {κ : Type} (x : Host κ) (fuel : Nat) (coro : Option κ) (i : Nat)
    (m : Machine) :
    (∀ (m1 : Machine) (c1 : Option κ), Interpret x fuel coro i m = .ok (m1, c1) →
      ∃ (ic : INT_CONTEXT) (e : Exec κ) (slot : INT_CONTEXT), m.icList[i]? = some ic ∧
        InterpretLoop x fuel (m.toExec ic coro) = .ok e ∧ e.ic.bHalt = true ∧ e.ic.sp = 0 ∧
        m1.icList[i]? = some slot ∧ slot.GSort = GSORT.GS_NONE) ∧
    (∀ (ic : INT_CONTEXT) (code : List Nat) (opcode : Nat), m.icList[i]? = some ic →
      ic.code = some code → readByte code ic.ip = some opcode →
      opcode &&& OPMASK = OP_HALT → ic.sp ≠ 0 →
      ∃ (f : Fault) (m1 : Machine) (slot : INT_CONTEXT),
        Interpret x (fuel + 1) coro i m = .fatal f (m1, coro) ∧
        m1.icList[i]? = some slot ∧ slot.GSort = ic.GSort ∧ slot.sp = ic.sp ∧
        m1.rescheduled = m.rescheduled ∧
        ((0 ≤ ic.sp ∧ ic.sp < x.PCODE_STACK_SIZE) → f = Fault.notUnwound) ∧
        (¬ (0 ≤ ic.sp ∧ ic.sp < x.PCODE_STACK_SIZE) → f = Fault.stackCheck)) := by
  constructor
  · intro m1 c1 h
    cases hic : m.icList[i]? with
    | none => simp [Interpret, hic] at h
    | some ic =>
      have hlt := getElem?_lt _ _ _ hic
      cases hl : InterpretLoop x fuel (m.toExec ic coro) with
      | ok e =>
        simp only [Interpret, hic, hl] at h
        by_cases hsp : e.ic.sp = 0
        · rw [if_pos hsp] at h
          cases hf : FreeInterpretContextPi x i (m.ofExec i e) with
          | ok m2 =>
            simp only [hf] at h
            injection h with h
            injection h with h1 h2
            subst h1
            obtain ⟨slot, hs, hg⟩ := FreeInterpretContextPi_free x i (m.ofExec i e) m2 e.ic
              (by simp [Machine.ofExec, hlt]) hf
            exact ⟨ic, e, slot, rfl, hl, InterpretLoop_ok_halt x fuel _ e hl, hsp, hs, hg⟩
          | suspended m2 => simp [hf] at h
          | fatal f m2 => simp [hf] at h
          | timeout m2 => simp [hf] at h
        · rw [if_neg hsp] at h
          cases h
      | suspended e => simp [Interpret, hic, hl] at h
      | fatal f e => simp [Interpret, hic, hl] at h
      | timeout e => simp [Interpret, hic, hl] at h
  · intro ic code opcode hic hcode hop hhalt hsp
    have hlt := getElem?_lt _ _ _ hic
    have hb := InterpretBody_halt x (m.toExec ic coro) code opcode hcode hop hhalt
    by_cases hr : 0 ≤ ic.sp ∧ ic.sp < x.PCODE_STACK_SIZE
    · have hb2 : InterpretBody x (m.toExec ic coro) =
          .ok { m.toExec ic coro with ic := { ic with bHalt := true, ip := ic.ip + 1 } } := by
        rw [hb]
        simp [endOfPass, Machine.toExec, hr]
      refine ⟨Fault.notUnwound,
        m.ofExec i { m.toExec ic coro with ic := { ic with bHalt := true, ip := ic.ip + 1 } },
        { ic with bHalt := true, ip := ic.ip + 1 }, ?_, by simp [Machine.ofExec, hlt], rfl, rfl,
        rfl, fun _ => rfl, fun h => absurd hr h⟩
      unfold Interpret
      simp only [hic, InterpretLoop, hb2]
      simp [hsp, Machine.toExec]
    · have hb2 : InterpretBody x (m.toExec ic coro) =
          .fatal .stackCheck { m.toExec ic coro with ic := { ic with bHalt := true } } := by
        rw [hb]
        simp only [endOfPass, Machine.toExec]
        rw [if_neg hr]
      refine ⟨Fault.stackCheck,
        m.ofExec i { m.toExec ic coro with ic := { ic with bHalt := true } },
        { ic with bHalt := true }, ?_, by simp [Machine.ofExec, hlt], rfl, rfl,
        rfl, fun h => absurd h hr, fun _ => rfl⟩
      unfold Interpret
      simp only [hic, InterpretLoop, hb2]
      simp [Machine.toExec]

theorem halt_postcondition_witness :
    (∃ (ic : INT_CONTEXT) (e : Exec Nat) (slot : INT_CONTEXT),
      sampleUnwoundMachine.icList[0]? = some ic ∧
      InterpretLoop sampleHost 1 (sampleUnwoundMachine.toExec ic none) = .ok e ∧
      e.ic.bHalt = true ∧ e.ic.sp = 0 ∧
      (zeroedMachine sampleUnwoundMachine).icList[0]? = some slot ∧
      slot.GSort = GSORT.GS_NONE) ∧
    (∃ (f : Fault) (m1 : Machine) (slot : INT_CONTEXT),
      Interpret sampleHost 1 none 0 (sampleMachine [OP_HALT]) = .fatal f (m1, none) ∧
      m1.icList[0]? = some slot ∧ slot.GSort = GSORT.GS_OTHER 0 ∧ f = Fault.notUnwound) := by
  constructor
  · exact (halt_postcondition sampleHost 1 none 0 sampleUnwoundMachine).1
      (zeroedMachine sampleUnwoundMachine) none rfl
  · obtain ⟨f, m1, slot, h1, h2, h3, _, _, h4, _⟩ :=
      (halt_postcondition sampleHost 0 none 0 (sampleMachine [OP_HALT])).2
        (sampleContext [OP_HALT]) [OP_HALT] OP_HALT rfl rfl rfl (by decide) (by decide)
    exact ⟨f, m1, slot, h1, h2, h3, h4 (by decide)⟩

/-! ### Allocation, initialisation and the scenario program -/

/-- What a successful allocation did: slot `i` was the first free slot, and it is now
owned by `cur` with sort `gsort`; nothing else changed. -/
theorem AllocateInterpretContext_ok {κ : Type} (x : Host κ) (cur : Nat) (gsort : GSORT)
    (l l1 : List INT_CONTEXT) (i : Nat)
    (h : AllocateInterpretContext x cur gsort l = .ok (i, l1)) :
    ∃ slot : INT_CONTEXT, l[i]? = some slot ∧ slot.GSort = GSORT.GS_NONE ∧
      l1 = l.set i { slot with pProc := cur, GSort := gsort } ∧
      ∀ (j : Nat) (d : INT_CONTEXT), j < i → l[j]? = some d → d.GSort ≠ GSORT.GS_NONE := by
  induction l generalizing i l1 with
  | nil => simp [AllocateInterpretContext] at h
  | cons pic rest ih =>
    unfold AllocateInterpretContext at h
    by_cases hfree : pic.GSort = GSORT.GS_NONE
    · rw [if_pos hfree] at h
      injection h with h
      injection h with h1 h2
      subst h1 h2
      exact ⟨pic, by simp, hfree, by simp, fun j d hj _ => by omega⟩
    · rw [if_neg hfree] at h
      by_cases hdbg : x.DEBUG = true ∧ pic.pProc = cur
      · rw [if_pos hdbg] at h
        cases h
      · rw [if_neg hdbg] at h
        cases hr : AllocateInterpretContext x cur gsort rest with
        | error f => simp [hr] at h
        | ok r =>
          obtain ⟨k, l2⟩ := r
          simp only [hr] at h
          injection h with h
          injection h with h1 h2
          subst h1 h2
          obtain ⟨slot, hs, hg, hl, hfirst⟩ := ih l2 k hr
          refine ⟨slot, by simpa using hs, hg, by simp [hl], ?_⟩
          intro j d hj hd
          cases j with
          | zero => simp at hd; subst hd; exact hfree
          | succ n => simp at hd; exact hfirst n d (by omega) hd

/-- The context `InitInterpretContext` returns, in terms of the free slot it took. -/
theorem InitInterpretContext_ok {κ : Type} (x : Host κ) (cur : Nat) (gsort : GSORT)
    (hCode event : Nat) (hpoly actorid : Int) (pinvo : Nat) (myEscape : Int) (m m0 : Machine)
    (i : Nat)
    (h : InitInterpretContext x cur gsort hCode event hpoly actorid pinvo myEscape m =
      .ok (i, m0)) :
    ∃ slot ic0 : INT_CONTEXT, m.icList[i]? = some slot ∧ slot.GSort = GSORT.GS_NONE ∧
      m0.icList[i]? = some ic0 ∧
      ic0 = { LockCode x m.hMasterScript
                { slot with pProc := cur, GSort := gsort, hCode := hCode } with
              event := event, hPoly := hpoly, idActor := actorid, pinvo := pinvo,
              bHalt := false, escOn := decide (myEscape > 0), myEscape := myEscape,
              sp := 0, bp := 0 + 1, ip := 0, resumeState := RESUME_STATE.RES_NOT } ∧
      m0 = { m with icList := m.icList.set i ic0 } := by
  unfold InitInterpretContext at h
  cases ha : AllocateInterpretContext x cur gsort m.icList with
  | error f => simp [ha] at h
  | ok r =>
    obtain ⟨k, l⟩ := r
    simp only [ha] at h
    injection h with h
    injection h with h1 h2
    subst h1
    obtain ⟨slot, hs, hg, hl, _⟩ := AllocateInterpretContext_ok x cur gsort m.icList l k ha
    have hlt := getElem?_lt _ _ _ hs
    have hk : l[k]? = some { slot with pProc := cur, GSort := gsort } := by
      rw [hl]; simp [hlt]
    rw [updateSlot_eq_set _ l k _ hk] at h2
    subst h2
    refine ⟨slot, _, hs, hg, ?_, rfl, ?_⟩
    · simp [hl, hlt]
    · simp [hl]

/-- What the literal pushes with an operand do (`OP_IMM`, `OP_STR`, `OP_FILM`, `OP_CDFILM`,
`OP_FONT`, `OP_PAL`) when the new top of stack is inside the array. -/
theorem InterpretBody_literal {κ : Type} (x : Host κ) (s : Exec κ) (code : List Nat)
    (opcode : Nat) (v ip1 : Int) (hcode : s.ic.code = some code)
    (hop : readByte code s.ic.ip = some opcode)
    (hg : opcode &&& OPMASK = OP_IMM ∨ opcode &&& OPMASK = OP_STR ∨
      opcode &&& OPMASK = OP_FILM ∨ opcode &&& OPMASK = OP_CDFILM ∨
      opcode &&& OPMASK = OP_FONT ∨ opcode &&& OPMASK = OP_PAL)
    (hfetch : Fetch opcode code (s.ic.ip + 1) = some (v, ip1))
    (h0 : 0 ≤ s.ic.sp + 1) (h1 : s.ic.sp + 1 < s.ic.stack.length)
    (h2 : s.ic.sp + 1 < x.PCODE_STACK_SIZE) :
    InterpretBody x s = .ok { s with ic := { s.ic with
      stack := s.ic.stack.set (s.ic.sp + 1).toNat v, sp := s.ic.sp + 1, ip := ip1 } } := by
  have hw := stackWrite_ok s.ic.stack (s.ic.sp + 1) v h0 h1
  unfold InterpretBody
  simp only [hcode, hop]
  rcases hg with h | h | h | h | h | h <;>
    simp [h, hfetch, push, hw, endOfPass, h0, h2, hcode]

/-- A pass that ends normally without `bHalt`: the loop goes on. -/
theorem InterpretLoop_step {κ : Type} (x : Host κ) (n : Nat) (s s1 : Exec κ)
    (h : InterpretBody x s = .ok s1) (hh : s1.ic.bHalt = false) :
    InterpretLoop x (n + 1) s = InterpretLoop x n s1 := by
  simp only [InterpretLoop, h, hh]
  simp

/-- A pass that ends normally with `bHalt`: the loop ends. -/
theorem InterpretLoop_last {κ : Type} (x : Host κ) (n : Nat) (s s1 : Exec κ)
    (h : InterpretBody x s = .ok s1) (hh : s1.ic.bHalt = true) :
    InterpretLoop x (n + 1) s = .ok s1 := by
  simp only [InterpretLoop, h, hh]
  simp

/-- What an arithmetic or bitwise operation does on a stack that holds both operands. -/
theorem InterpretBody_arith_ok {κ : Type} (x : Host κ) (s : Exec κ) (code : List Nat)
    (opcode : Nat) (a b r : Int) (hcode : s.ic.code = some code)
    (hop : readByte code s.ic.ip = some opcode)
    (hg : opcode &&& OPMASK = OP_PLUS ∨ opcode &&& OPMASK = OP_MINUS ∨
      opcode &&& OPMASK = OP_MULT ∨ opcode &&& OPMASK = OP_DIV ∨ opcode &&& OPMASK = OP_MOD ∨
      opcode &&& OPMASK = OP_AND ∨ opcode &&& OPMASK = OP_OR ∨ opcode &&& OPMASK = OP_EOR)
    (hsp : 1 ≤ s.ic.sp) (hlen : s.ic.stack.length ≤ x.PCODE_STACK_SIZE)
    (ha : stackRead s.ic.stack (s.ic.sp - 1) = some a)
    (hb : stackRead s.ic.stack s.ic.sp = some b) (hf : arithOp opcode a b = some r) :
    InterpretBody x s = .ok { s with ic := { s.ic with
      sp := s.ic.sp - 1, stack := s.ic.stack.set (s.ic.sp - 1).toNat r, ip := s.ic.ip + 1 } } := by
  obtain ⟨st, hst, hrun⟩ := binaryOp_ok x s (s.ic.ip + 1) (arithOp opcode) a b r hsp hlen ha hb hf
  have hr := stackRead_lt _ _ _ ha
  rw [stackWrite_ok _ _ _ hr.1 hr.2] at hst
  injection hst with hst
  subst hst
  exact (InterpretBody_arith x s code opcode hcode hop hg).trans hrun

/-- The four passes of the scenario program on a context at `ip = 0` with `sp = 0`. -/
theorem scenario_loop {κ : Type} (x : Host κ) (s : Exec κ) (n : Nat)
    (hcode : s.ic.code = some scenarioCode) (hip : s.ic.ip = 0) (hsp : s.ic.sp = 0)
    (hhalt : s.ic.bHalt = false) (hlen : s.ic.stack.length = x.PCODE_STACK_SIZE)
    (hsize : 3 ≤ x.PCODE_STACK_SIZE) :
    InterpretLoop x (n + 4) s = .ok { s with ic := { s.ic with
      stack := ((s.ic.stack.set 1 2).set 2 3).set 1 5, sp := 1, ip := 6, bHalt := true } } := by
  obtain ⟨ic, g, ng, hm, np, co⟩ := s
  obtain ⟨pProc, GSort, hCode, code, event, hPoly, idActor, pinvo, stack, sp, bp, ip, bHalt,
    escOn, myEscape, w1, w2, rc, rs⟩ := ic
  simp only at hcode hip hsp hhalt hlen
  subst hcode hip hsp hhalt
  have hl : (3 : Int) ≤ stack.length := by omega
  have hP : (3 : Int) ≤ x.PCODE_STACK_SIZE := by omega
  have hl1 : 1 < stack.length := by omega
  have hl2 : 2 < stack.length := by omega
  have key : ∀ mk : List Int → Int → Int → Bool → Exec κ,
      (∀ st p q h, mk st p q h = ⟨⟨pProc, GSort, hCode, some scenarioCode, event, hPoly, idActor,
        pinvo, st, p, bp, q, h, escOn, myEscape, w1, w2, rc, rs⟩, g, ng, hm, np, co⟩) →
      InterpretLoop x (n + 4) (mk stack 0 0 false) =
        .ok (mk (((stack.set 1 2).set 2 3).set 1 5) 1 6 true) := by
    intro mk hmk
    have e1 : InterpretBody x (mk stack 0 0 false) = .ok (mk (stack.set 1 2) 1 2 false) := by
      have := InterpretBody_literal x (mk stack 0 0 false) scenarioCode 65 2 2
        (by rw [hmk]) (by rw [hmk]; rfl) (by decide) (by rw [hmk]; rfl)
        (by rw [hmk]; show (0 : Int) ≤ 0 + 1; decide)
        (by rw [hmk]; show (0 : Int) + 1 < (stack.length : Int); omega)
        (by rw [hmk]; show (0 : Int) + 1 < (x.PCODE_STACK_SIZE : Int); omega)
      rw [this]
      simp only [hmk]
      rfl
    have e2 : InterpretBody x (mk (stack.set 1 2) 1 2 false) =
        .ok (mk ((stack.set 1 2).set 2 3) 2 4 false) := by
      have := InterpretBody_literal x (mk (stack.set 1 2) 1 2 false) scenarioCode 65 3 4
        (by rw [hmk]) (by rw [hmk]; rfl) (by decide) (by rw [hmk]; rfl)
        (by rw [hmk]; show (0 : Int) ≤ 1 + 1; decide)
        (by rw [hmk]; show (1 : Int) + 1 < ((stack.set 1 2).length : Int); simp; omega)
        (by rw [hmk]; show (1 : Int) + 1 < (x.PCODE_STACK_SIZE : Int); omega)
      rw [this]
      simp only [hmk]
      rfl
    have e3 : InterpretBody x (mk ((stack.set 1 2).set 2 3) 2 4 false) =
        .ok (mk (((stack.set 1 2).set 2 3).set 1 5) 1 5 false) := by
      have := InterpretBody_arith_ok x (mk ((stack.set 1 2).set 2 3) 2 4 false) scenarioCode 26
        2 3 5 (by rw [hmk]) (by rw [hmk]; rfl) (by decide)
        (by rw [hmk]; show (1 : Int) ≤ 2; decide)
        (by rw [hmk]; show ((stack.set 1 2).set 2 3).length ≤ x.PCODE_STACK_SIZE; simp; omega)
        (by rw [hmk]; show stackRead ((stack.set 1 2).set 2 3) (2 - 1) = some 2
            simp [stackRead, hl1])
        (by rw [hmk]; show stackRead ((stack.set 1 2).set 2 3) 2 = some 3
            simp [stackRead, hl2])
        rfl
      rw [this]
      simp only [hmk]
      rfl
    have e4 : InterpretBody x (mk (((stack.set 1 2).set 2 3).set 1 5) 1 5 false) =
        .ok (mk (((stack.set 1 2).set 2 3).set 1 5) 1 6 true) := by
      have := InterpretBody_halt x (mk (((stack.set 1 2).set 2 3).set 1 5) 1 5 false)
        scenarioCode 0 (by rw [hmk]) (by rw [hmk]; rfl) (by decide)
      rw [this]
      simp only [hmk, endOfPass]
      rw [if_pos ⟨by decide, by show (1 : Int) < (x.PCODE_STACK_SIZE : Int); omega⟩]
      rfl
    rw [InterpretLoop_step x (n + 3) _ _ e1 (by rw [hmk]),
      InterpretLoop_step x (n + 2) _ _ e2 (by rw [hmk]),
      InterpretLoop_step x (n + 1) _ _ e3 (by rw [hmk]),
      InterpretLoop_last x n _ _ e4 (by rw [hmk])]
  exact key (fun st p q h => ⟨⟨pProc, GSort, hCode, some scenarioCode, event, hPoly, idActor,
        pinvo, st, p, bp, q, h, escOn, myEscape, w1, w2, rc, rs⟩, g, ng, hm, np, co⟩)
    (fun _ _ _ _ => rfl)

theorem LockCode_GSort {κ : Type} (x : Host κ) (h : Nat) (ic : INT_CONTEXT) :
    (LockCode x h ic).GSort = ic.GSort := by
  unfold LockCode
  split
  · split <;> rfl
  · rfl

/-- The scenario program run by `Interpret` on a context at `ip = 0` with `sp = 0`: the
four instructions are executed, and the run ends in the assertion that the stack is
unwound, with the context, as the loop left it, still in its slot. -/
theorem scenario_run {κ : Type} (x : Host κ) (m0 : Machine) (i : Nat) (ic0 : INT_CONTEXT)
    (coro : Option κ) (n : Nat) (hslot : m0.icList[i]? = some ic0)
    (hcode : ic0.code = some scenarioCode) (hip : ic0.ip = 0) (hsp : ic0.sp = 0)
    (hhalt : ic0.bHalt = false) (hlen : ic0.stack.length = x.PCODE_STACK_SIZE)
    (hsize : 3 ≤ x.PCODE_STACK_SIZE) :
    InterpretLoop x (n + 4) (m0.toExec ic0 coro) = .ok { m0.toExec ic0 coro with ic := { ic0 with
      stack := ((ic0.stack.set 1 2).set 2 3).set 1 5, sp := 1, ip := 6, bHalt := true } } ∧
    Interpret x (n + 4) coro i m0 = .fatal .notUnwound
      (m0.ofExec i { m0.toExec ic0 coro with ic := { ic0 with
        stack := ((ic0.stack.set 1 2).set 2 3).set 1 5, sp := 1, ip := 6, bHalt := true } },
       coro) := by
  have hl := scenario_loop x (m0.toExec ic0 coro) n hcode hip hsp hhalt hlen hsize
  refine ⟨hl, ?_⟩
  unfold Interpret
  simp only [hslot, hl]
  simp [Machine.toExec]

/-- C3, as amended. On a freshly initialised context (`InitInterpretContext`, whose code
handle resolves to `[PUSH 2, PUSH 3, PLUS, HALT]`, with a stack of at least three words)
`Interpret` executes the four instructions and has the value 5 on top of the operand stack
(`sp = 1`) when the halt is executed. Since the stack is then not unwound, the run ends in
the fatal "stack not unwound" assertion, before the release: the context stays in its slot
with the sort it was given, and no process is rescheduled. -/
theorem scenario_push_plus_halt {κ : Type} (x : Host κ) (cur : Nat) (gsort : GSORT)
    (hCode event : Nat) (hpoly actorid : Int) (pinvo : Nat) (myEscape : Int) (m m0 : Machine)
    (i : Nat) (ic0 : INT_CONTEXT) (coro : Option κ) (n : Nat)
    (hinit : InitInterpretContext x cur gsort hCode event hpoly actorid pinvo myEscape m =
      .ok (i, m0))
    (hslot : m0.icList[i]? = some ic0) (hcode : ic0.code = some scenarioCode)
    (hlen : ic0.stack.length = x.PCODE_STACK_SIZE) (hsize : 3 ≤ x.PCODE_STACK_SIZE) :
    ∃ (e : Exec κ) (m1 : Machine) (slot : INT_CONTEXT),
      InterpretLoop x (n + 4) (m0.toExec ic0 coro) = .ok e ∧ e.ic.bHalt = true ∧
      e.ic.sp = 1 ∧ stackRead e.ic.stack e.ic.sp = some 5 ∧ e.ic.ip = 6 ∧
      Interpret x (n + 4) coro i m0 = .fatal .notUnwound (m1, coro) ∧
      m1.icList[i]? = some slot ∧ slot = e.ic ∧ slot.GSort = gsort ∧
      m1.rescheduled = m0.rescheduled := by
  obtain ⟨slot0, ic1, _, _, h1, h2, _⟩ :=
    InitInterpretContext_ok x cur gsort hCode event hpoly actorid pinvo myEscape m m0 i hinit
  rw [hslot] at h1
  injection h1 with h1
  subst h1
  have hip : ic0.ip = 0 := by rw [h2]
  have hsp : ic0.sp = 0 := by rw [h2]
  have hhalt : ic0.bHalt = false := by rw [h2]
  have hg : ic0.GSort = gsort := by
    rw [h2]
    exact LockCode_GSort x m.hMasterScript _
  obtain ⟨hl, hr⟩ := scenario_run x m0 i ic0 coro n hslot hcode hip hsp hhalt hlen hsize
  have hlt := getElem?_lt _ _ _ hslot
  have h1l : 1 < ic0.stack.length := by omega
  refine ⟨_, _,
    { ic0 with stack := ((ic0.stack.set 1 2).set 2 3).set 1 5, sp := 1, ip := 6, bHalt := true },
    hl, rfl, rfl, ?_, rfl, hr, ?_, rfl, hg, rfl⟩
  · simp [stackRead, h1l]
  · simp [Machine.ofExec, hlt]

theorem scenario_push_plus_halt_witness :
    ∃ (m0 : Machine) (ic0 : INT_CONTEXT) (e : Exec Nat) (m1 : Machine) (slot : INT_CONTEXT),
      InitInterpretContext scenarioHost 1 (GSORT.GS_OTHER 0) 0 0 0 0 0 0 freshMachine =
        .ok (0, m0) ∧ m0.icList[0]? = some ic0 ∧
      InterpretLoop scenarioHost 4 (m0.toExec ic0 none) = .ok e ∧
      stackRead e.ic.stack e.ic.sp = some 5 ∧
      Interpret scenarioHost 4 none 0 m0 = .fatal .notUnwound (m1, none) ∧
      m1.icList[0]? = some slot ∧ slot.GSort = GSORT.GS_OTHER 0 := by
  obtain ⟨e, m1, slot, h1, _, _, h2, _, h3, h4, _, h5, _⟩ :=
    scenario_push_plus_halt scenarioHost 1 (GSORT.GS_OTHER 0) 0 0 0 0 0 0 freshMachine _ 0 _ none 0
      rfl rfl rfl rfl (by decide)
  exact ⟨_, _, e, m1, slot, rfl, rfl, h1, h2, h3, h4, h5⟩

/-- C3, as stated, fails. With `scenarioHost` (a stack of eight words) and a pool of one
free slot, `InitInterpretContext` yields `scenarioMachine`, and `Interpret` on
`[PUSH 2, PUSH 3, PLUS, HALT]` never completes normally, whatever the fuel: after the four
instructions the run stops at the assertion `sp == 0` with `sp = 1` and 5 on top of the
stack, and the context is still live in its slot. -/
theorem scenario_does_not_complete :
    InitInterpretContext scenarioHost 1 (GSORT.GS_OTHER 0) 0 0 0 0 0 0 freshMachine =
      .ok (0, scenarioMachine) ∧
    (∀ (fuel : Nat) (m1 : Machine) (c : Option Nat),
      Interpret scenarioHost fuel none 0 scenarioMachine ≠ .ok (m1, c)) ∧
    ∃ (m1 : Machine) (slot : INT_CONTEXT),
      Interpret scenarioHost 4 none 0 scenarioMachine = .fatal .notUnwound (m1, none) ∧
      m1.icList[0]? = some slot ∧ slot.GSort ≠ GSORT.GS_NONE ∧ slot.sp = 1 ∧
      stackRead slot.stack 1 = some 5 := by
  refine ⟨rfl, ?_, _, _, rfl, rfl, by decide, rfl, rfl⟩
  intro fuel m1 c h
  match fuel, h with
  | 0, h => cases h
  | 1, h => cases h
  | 2, h => cases h
  | 3, h => cases h
  | n + 4, h =>
    have hr := (scenario_run scenarioHost scenarioMachine 0 scenarioContext none n rfl rfl rfl
      rfl rfl rfl (by decide)).2
    rw [hr] at h
    cases h

/-! ### Releasing all but the master contexts -/

/-- C20: after `FreeMostInterpretContexts` the pool has the same slots; every slot whose
sort was neither `GS_MASTER` nor `GS_GPROCESS` is zero in every field, so its sort is
`GS_NONE` (free); every slot whose sort was `GS_MASTER` or `GS_GPROCESS` is the same
context as before; nothing but the pool changes. -/
theorem FreeMostInterpretContexts_spec (m : Machine) :
    (FreeMostInterpretContexts m).icList.length = m.icList.length ∧
    (∀ (i : Nat) (pic : INT_CONTEXT), m.icList[i]? = some pic →
      (pic.GSort ≠ GSORT.GS_MASTER ∧ pic.GSort ≠ GSORT.GS_GPROCESS →
        (FreeMostInterpretContexts m).icList[i]? = some (zeroed pic) ∧
        (zeroed pic).GSort = GSORT.GS_NONE) ∧
      (pic.GSort = GSORT.GS_MASTER ∨ pic.GSort = GSORT.GS_GPROCESS →
        (FreeMostInterpretContexts m).icList[i]? = some pic)) ∧
    { FreeMostInterpretContexts m with icList := m.icList } = m := by
  refine ⟨by simp [FreeMostInterpretContexts], ?_, rfl⟩
  intro i pic hi
  constructor
  · intro h
    refine ⟨?_, rfl⟩
    simp [FreeMostInterpretContexts, List.getElem?_map, hi, h.1, h.2, wipeSlot, zeroed]
  · intro h
    have h2 : ¬ (pic.GSort ≠ GSORT.GS_MASTER ∧ pic.GSort ≠ GSORT.GS_GPROCESS) := by
      rcases h with h | h <;> simp [h]
    simp only [FreeMostInterpretContexts, List.getElem?_map, hi, Option.map_some', if_neg h2]

theorem FreeMostInterpretContexts_spec_witness :
    (FreeMostInterpretContexts sampleMixedMachine).icList[1]? =
        some (zeroed { sampleContext [] with pProc := 2, waitNumber2 := 7 }) ∧
    (FreeMostInterpretContexts sampleMixedMachine).icList[0]? =
        some { sampleContext [] with pProc := 1, GSort := GSORT.GS_MASTER } ∧
    (FreeMostInterpretContexts sampleMixedMachine).icList[2]? =
        some { sampleContext [] with pProc := 3, GSort := GSORT.GS_GPROCESS } :=
  ⟨(((FreeMostInterpretContexts_spec sampleMixedMachine).2.1 1 _ rfl).1
      ⟨by decide, by decide⟩).1,
   ((FreeMostInterpretContexts_spec sampleMixedMachine).2.1 0 _ rfl).2 (Or.inl rfl),
   ((FreeMostInterpretContexts_spec sampleMixedMachine).2.1 2 _ rfl).2 (Or.inr rfl)⟩

/-! ### Allocation and initialisation -/

theorem LockCode_eq {κ : Type} (x : Host κ) (h : Nat) (ic : INT_CONTEXT) :
    LockCode x h ic = { ic with code := (LockCode x h ic).code } := by
  unfold LockCode
  split
  · split <;> rfl
  · rfl

/-- The caller-visible condition under which the scan of `AllocateInterpretContext` ends in
`error(...)`: no slot is free, or (debug build) a slot owned by the caller is met while no
free slot has been met. -/
theorem AllocateInterpretContext_error_iff {κ : Type} (x : Host κ) (cur : Nat) (gsort : GSORT)
    (l : List INT_CONTEXT) :
    (∃ f, AllocateInterpretContext x cur gsort l = .error f) ↔
      ((∀ (k : Nat) (d : INT_CONTEXT), l[k]? = some d → d.GSort ≠ GSORT.GS_NONE) ∨
       (x.DEBUG = true ∧ ∃ (j : Nat) (c : INT_CONTEXT), l[j]? = some c ∧ c.pProc = cur ∧
          ∀ (k : Nat) (d : INT_CONTEXT), k ≤ j → l[k]? = some d → d.GSort ≠ GSORT.GS_NONE)) := by
  induction l with
  | nil =>
    constructor
    · intro _
      left
      intro k d hk
      simp at hk
    · intro _
      exact ⟨_, rfl⟩
  | cons pic rest ih =>
    unfold AllocateInterpretContext
    by_cases hfree : pic.GSort = GSORT.GS_NONE
    · rw [if_pos hfree]
      constructor
      · rintro ⟨f, hf⟩
        cases hf
      · rintro (h | ⟨_, j, c, _, _, h⟩)
        · exact absurd hfree (h 0 pic (by simp))
        · exact absurd hfree (h 0 pic (Nat.zero_le _) (by simp))
    · rw [if_neg hfree]
      by_cases hd : x.DEBUG = true ∧ pic.pProc = cur
      · rw [if_pos hd]
        constructor
        · intro _
          right
          refine ⟨hd.1, 0, pic, by simp, hd.2, ?_⟩
          intro k d hk hkd
          have h0 : k = 0 := by omega
          subst h0
          simp at hkd
          subst hkd
          exact hfree
        · intro _
          exact ⟨_, rfl⟩
      · rw [if_neg hd]
        have hshift : ((∀ (k : Nat) (d : INT_CONTEXT), rest[k]? = some d →
              d.GSort ≠ GSORT.GS_NONE) ∨
            (x.DEBUG = true ∧ ∃ (j : Nat) (c : INT_CONTEXT), rest[j]? = some c ∧ c.pProc = cur ∧
              ∀ (k : Nat) (d : INT_CONTEXT), k ≤ j → rest[k]? = some d →
                d.GSort ≠ GSORT.GS_NONE)) ↔
            ((∀ (k : Nat) (d : INT_CONTEXT), (pic :: rest)[k]? = some d →
              d.GSort ≠ GSORT.GS_NONE) ∨
            (x.DEBUG = true ∧ ∃ (j : Nat) (c : INT_CONTEXT), (pic :: rest)[j]? = some c ∧
              c.pProc = cur ∧ ∀ (k : Nat) (d : INT_CONTEXT), k ≤ j → (pic :: rest)[k]? = some d →
                d.GSort ≠ GSORT.GS_NONE)) := by
          constructor
          · rintro (h | ⟨hD, j, c, hj, hc, h⟩)
            · left
              intro k d hk
              cases k with
              | zero =>
                simp at hk
                subst hk
                exact hfree
              | succ k => exact h k d (by simpa using hk)
            · right
              refine ⟨hD, j + 1, c, by simpa using hj, hc, ?_⟩
              intro k d hk hkd
              cases k with
              | zero =>
                simp at hkd
                subst hkd
                exact hfree
              | succ k => exact h k d (by omega) (by simpa using hkd)
          · rintro (h | ⟨hD, j, c, hj, hc, h⟩)
            · left
              intro k d hk
              exact h (k + 1) d (by simpa using hk)
            · right
              cases j with
              | zero =>
                simp at hj
                subst hj
                exact absurd ⟨hD, hc⟩ hd
              | succ j =>
                refine ⟨hD, j, c, by simpa using hj, hc, ?_⟩
                intro k d hk hkd
                exact h (k + 1) d (by omega) (by simpa using hkd)
        rw [← hshift, ← ih]
        cases AllocateInterpretContext x cur gsort rest with
        | error f => simp
        | ok r => simp

/-- The scan succeeds when a slot is free and the debug-build check cannot fire. -/
theorem AllocateInterpretContext_succeeds {κ : Type} (x : Host κ) (cur : Nat) (gsort : GSORT)
    (l : List INT_CONTEXT) (j : Nat) (c : INT_CONTEXT) (hj : l[j]? = some c)
    (hfree : c.GSort = GSORT.GS_NONE)
    (hdbg : x.DEBUG = false ∨ ∀ (k : Nat) (d : INT_CONTEXT), l[k]? = some d →
      d.GSort ≠ GSORT.GS_NONE → d.pProc ≠ cur) :
    ∃ (i : Nat) (l1 : List INT_CONTEXT), AllocateInterpretContext x cur gsort l = .ok (i, l1) := by
  cases ha : AllocateInterpretContext x cur gsort l with
  | ok r => exact ⟨r.1, r.2, rfl⟩
  | error f =>
    exfalso
    rcases (AllocateInterpretContext_error_iff x cur gsort l).1 ⟨f, ha⟩ with h | ⟨hD, k, d, hk, hc, h⟩
    · exact h j c hj hfree
    · rcases hdbg with hdbg | hdbg
      · rw [hdbg] at hD
        cases hD
      · exact hdbg k d hk (h k d (Nat.le_refl _) hk) hc

/-- C17, as stated, does not hold: in a build with `DEBUG` defined, slot 1 of this pool is
free, yet `InitInterpretContext` called by process 1, which owns the live context in slot
0, returns no context: the scan stops at slot 0 with "Found unreleased interpret
context". -/
theorem init_fails_with_free_slot :
    debugHost.DEBUG = true ∧
    (sampleOwnedMachine.icList[1]?.map fun c => c.GSort) = some GSORT.GS_NONE ∧
    InitInterpretContext debugHost 1 (GSORT.GS_OTHER 0) 0 0 0 0 0 0 sampleOwnedMachine =
      .error .unreleased :=
  ⟨rfl, rfl, rfl⟩

/-- C17 (amended): the context that `InitInterpretContext` returns (slot `i` of the new
pool) has `ip = 0`, `sp = 0`, `bp = 1`, `bHalt = false`, `escOn = (myEscape > 0)`,
`myEscape` as given, `resumeState = RES_NOT`, the calling process as owner, and sort, code
handle, event, polygon, actor and inventory object equal to the arguments.
`InitInterpretContext` returns such a context whenever a slot of the pool is free and
either the build is without `DEBUG` or the calling process owns no live context. It fails
exactly when no slot is free or, in a build with `DEBUG`, the scan meets a context of the
calling process before it meets a free slot. -/
theorem InitInterpretContext_fields {κ : Type} (x : Host κ) (cur : Nat) (gsort : GSORT)
    (hCode event : Nat) (hpoly actorid : Int) (pinvo : Nat) (myEscape : Int) (m : Machine) :
    (∀ (i : Nat) (m0 : Machine),
      InitInterpretContext x cur gsort hCode event hpoly actorid pinvo myEscape m = .ok (i, m0) →
      ∃ ic : INT_CONTEXT, m0.icList[i]? = some ic ∧
        ic.ip = 0 ∧ ic.sp = 0 ∧ ic.bp = 1 ∧ ic.bHalt = false ∧
        ic.escOn = decide (myEscape > 0) ∧ ic.myEscape = myEscape ∧
        ic.resumeState = RESUME_STATE.RES_NOT ∧ ic.pProc = cur ∧ ic.GSort = gsort ∧
        ic.hCode = hCode ∧ ic.event = event ∧ ic.hPoly = hpoly ∧ ic.idActor = actorid ∧
        ic.pinvo = pinvo) ∧
    (∀ (j : Nat) (c : INT_CONTEXT), m.icList[j]? = some c → c.GSort = GSORT.GS_NONE →
      (x.DEBUG = false ∨ ∀ (k : Nat) (d : INT_CONTEXT), m.icList[k]? = some d →
        d.GSort ≠ GSORT.GS_NONE → d.pProc ≠ cur) →
      ∃ (i : Nat) (m0 : Machine),
        InitInterpretContext x cur gsort hCode event hpoly actorid pinvo myEscape m
          = .ok (i, m0)) ∧
    ((∃ f : Fault,
        InitInterpretContext x cur gsort hCode event hpoly actorid pinvo myEscape m = .error f) ↔
      ((∀ (k : Nat) (d : INT_CONTEXT), m.icList[k]? = some d → d.GSort ≠ GSORT.GS_NONE) ∨
       (x.DEBUG = true ∧ ∃ (j : Nat) (c : INT_CONTEXT), m.icList[j]? = some c ∧ c.pProc = cur ∧
          ∀ (k : Nat) (d : INT_CONTEXT), k ≤ j → m.icList[k]? = some d →
            d.GSort ≠ GSORT.GS_NONE))) := by
  refine ⟨?_, ?_, ?_⟩
  · intro i m0 h0
    obtain ⟨slot, ic0, _, _, hic, hdef, _⟩ :=
      InitInterpretContext_ok x cur gsort hCode event hpoly actorid pinvo myEscape m m0 i h0
    refine ⟨ic0, hic, ?_⟩
    rw [hdef, LockCode_eq]
    exact ⟨rfl, rfl, rfl, rfl, rfl, rfl, rfl, rfl, rfl, rfl, rfl, rfl, rfl, rfl⟩
  · intro j c hj hfree hdbg
    obtain ⟨i, l1, ha⟩ := AllocateInterpretContext_succeeds x cur gsort m.icList j c hj hfree hdbg
    unfold InitInterpretContext
    rw [ha]
    exact ⟨_, _, rfl⟩
  · rw [← AllocateInterpretContext_error_iff x cur gsort m.icList]
    unfold InitInterpretContext
    cases ha : AllocateInterpretContext x cur gsort m.icList with
    | error f => exact ⟨fun _ => ⟨f, rfl⟩, fun _ => ⟨f, rfl⟩⟩
    | ok r =>
      constructor
      · rintro ⟨f, hf⟩
        cases hf
      · rintro ⟨f, hf⟩
        cases hf

theorem InitInterpretContext_fields_witness :
    (∃ (i : Nat) (m0 : Machine),
      InitInterpretContext scenarioHost 1 (GSORT.GS_OTHER 0) 5 0 0 0 0 3 freshMachine
        = .ok (i, m0)) ∧
    ∃ ic : INT_CONTEXT, scenarioMachine.icList[0]? = some ic ∧
      ic.ip = 0 ∧ ic.sp = 0 ∧ ic.bp = 1 ∧ ic.bHalt = false ∧
      ic.escOn = decide ((0 : Int) > 0) ∧ ic.myEscape = 0 ∧
      ic.resumeState = RESUME_STATE.RES_NOT ∧ ic.pProc = 1 ∧ ic.GSort = GSORT.GS_OTHER 0 ∧
      ic.hCode = 0 ∧ ic.event = 0 ∧ ic.hPoly = 0 ∧ ic.idActor = 0 ∧ ic.pinvo = 0 :=
  ⟨(InitInterpretContext_fields scenarioHost 1 (GSORT.GS_OTHER 0) 5 0 0 0 0 3 freshMachine).2.1
      0 _ rfl rfl (Or.inl rfl),
   (InitInterpretContext_fields scenarioHost 1 (GSORT.GS_OTHER 0) 0 0 0 0 0 0 freshMachine).1
      0 scenarioMachine rfl⟩

/-! ### The allocation scan -/

theorem AllocateInterpretContext_freeCount {κ : Type} (x : Host κ) (cur : Nat) (gsort : GSORT)
    (hg : gsort ≠ GSORT.GS_NONE) (l l1 : List INT_CONTEXT) (i : Nat)
    (h : AllocateInterpretContext x cur gsort l = .ok (i, l1)) :
    freeCount l1 + 1 = freeCount l := by
  induction l generalizing i l1 with
  | nil => simp [AllocateInterpretContext] at h
  | cons pic rest ih =>
    unfold AllocateInterpretContext at h
    by_cases hfree : pic.GSort = GSORT.GS_NONE
    · rw [if_pos hfree] at h
      injection h with h
      injection h with h1 h2
      subst h2
      simp [freeCount, List.countP_cons, hfree, hg]
    · rw [if_neg hfree] at h
      by_cases hd : x.DEBUG = true ∧ pic.pProc = cur
      · rw [if_pos hd] at h
        cases h
      · rw [if_neg hd] at h
        cases hr : AllocateInterpretContext x cur gsort rest with
        | error f => simp [hr] at h
        | ok r =>
          obtain ⟨k, l2⟩ := r
          simp only [hr] at h
          injection h with h
          injection h with h1 h2
          subst h2
          have := ih l2 k hr
          simp only [freeCount, List.countP_cons, hfree, decide_False] at this ⊢
          simpa using this

theorem allocateAll_exhausts {κ : Type} (x : Host κ) (reqs : List (Nat × GSORT))
    (l : List INT_CONTEXT) (hk : ∀ r, r ∈ reqs → r.2 ≠ GSORT.GS_NONE)
    (hn : freeCount l < reqs.length) : ∃ f, allocateAll x reqs l = .error f := by
  induction reqs generalizing l with
  | nil => simp at hn
  | cons r rest ih =>
    obtain ⟨cur, gsort⟩ := r
    unfold allocateAll
    cases ha : AllocateInterpretContext x cur gsort l with
    | error f => exact ⟨f, rfl⟩
    | ok p =>
      obtain ⟨i, l1⟩ := p
      have hc := AllocateInterpretContext_freeCount x cur gsort
        (hk (cur, gsort) (List.mem_cons_self _ _)) l l1 i ha
      have hlen : freeCount l1 < rest.length := by
        simp only [List.length_cons] at hn
        omega
      exact ih l1 (fun r hr => hk r (List.mem_cons_of_mem _ hr)) hlen

theorem allocateAll_fits {κ : Type} (x : Host κ) (hD : x.DEBUG = false)
    (reqs : List (Nat × GSORT)) (l : List INT_CONTEXT)
    (hk : ∀ r, r ∈ reqs → r.2 ≠ GSORT.GS_NONE) (hn : reqs.length ≤ freeCount l) :
    ∃ l1, allocateAll x reqs l = .ok l1 := by
  induction reqs generalizing l with
  | nil => exact ⟨l, rfl⟩
  | cons r rest ih =>
    obtain ⟨cur, gsort⟩ := r
    simp only [List.length_cons] at hn
    have hpos : 0 < freeCount l := by omega
    obtain ⟨c, hc, hfree⟩ := List.countP_pos_iff.1 hpos
    obtain ⟨j, hj⟩ := List.mem_iff_getElem?.1 hc
    obtain ⟨i, l1, ha⟩ := AllocateInterpretContext_succeeds x cur gsort l j c hj
      (by simpa using hfree) (Or.inl hD)
    have hcount := AllocateInterpretContext_freeCount x cur gsort
      (hk (cur, gsort) (List.mem_cons_self _ _)) l l1 i ha
    obtain ⟨l2, h2⟩ := ih l1 (fun r hr => hk r (List.mem_cons_of_mem _ hr)) (by omega)
    refine ⟨l2, ?_⟩
    unfold allocateAll
    rw [ha]
    exact h2

/-- C12, as stated, does not hold: in a debug build the scan fails although slot 1 is
free, because it meets the caller's own live slot first; and a request for the sort
`GS_NONE` (as `RestoreInterpretContext` makes it) leaves the slot free, so two such
requests succeed on a pool of one slot. -/
theorem allocation_fails_with_free_slot :
    (sampleOwnedPool[1]?.map fun c => c.GSort) = some GSORT.GS_NONE ∧
    AllocateInterpretContext debugHost 1 (GSORT.GS_OTHER 0) sampleOwnedPool
      = .error .unreleased ∧
    allocateAll sampleHost [(1, GSORT.GS_NONE), (2, GSORT.GS_NONE)] [zeroed (sampleContext [])]
      = .ok [{ zeroed (sampleContext []) with pProc := 2 }] := by
  refine ⟨rfl, rfl, rfl⟩

/-- C12 (amended): `AllocateInterpretContext` fails fatally if and only if no slot is free
or, in a debug build, a slot owned by the calling process comes before every free slot;
otherwise it returns the lowest-indexed free slot, with the owner set to the calling
process and the sort set to the argument, and every other slot is unchanged. When every
request asks for a sort other than `GS_NONE`, each successful call lowers the number of
free slots by one, so more requests than free slots end in a failure, and in a non-debug
build as many requests as there are free slots all succeed. -/
theorem AllocateInterpretContext_spec {κ : Type} (x : Host κ) (cur : Nat) (gsort : GSORT)
    (l : List INT_CONTEXT) :
    ((∃ f, AllocateInterpretContext x cur gsort l = .error f) ↔
      ((∀ (k : Nat) (d : INT_CONTEXT), l[k]? = some d → d.GSort ≠ GSORT.GS_NONE) ∨
       (x.DEBUG = true ∧ ∃ (j : Nat) (c : INT_CONTEXT), l[j]? = some c ∧ c.pProc = cur ∧
          ∀ (k : Nat) (d : INT_CONTEXT), k ≤ j → l[k]? = some d → d.GSort ≠ GSORT.GS_NONE))) ∧
    (∀ (i : Nat) (l1 : List INT_CONTEXT), AllocateInterpretContext x cur gsort l = .ok (i, l1) →
      ∃ slot : INT_CONTEXT, l[i]? = some slot ∧ slot.GSort = GSORT.GS_NONE ∧
        (∀ (j : Nat) (d : INT_CONTEXT), j < i → l[j]? = some d → d.GSort ≠ GSORT.GS_NONE) ∧
        l1[i]? = some { slot with pProc := cur, GSort := gsort } ∧
        l1.length = l.length ∧ ∀ (j : Nat), j ≠ i → l1[j]? = l[j]?) ∧
    (∀ reqs : List (Nat × GSORT), (∀ r, r ∈ reqs → r.2 ≠ GSORT.GS_NONE) →
      freeCount l < reqs.length → ∃ f, allocateAll x reqs l = .error f) ∧
    (∀ reqs : List (Nat × GSORT), (∀ r, r ∈ reqs → r.2 ≠ GSORT.GS_NONE) →
      x.DEBUG = false → reqs.length ≤ freeCount l → ∃ l1, allocateAll x reqs l = .ok l1) := by
  refine ⟨AllocateInterpretContext_error_iff x cur gsort l, ?_,
    fun reqs hk hn => allocateAll_exhausts x reqs l hk hn,
    fun reqs hk hD hn => allocateAll_fits x hD reqs l hk hn⟩
  intro i l1 h
  obtain ⟨slot, hs, hg, hl, hlow⟩ := AllocateInterpretContext_ok x cur gsort l l1 i h
  have hi : i < l.length := (getElem?_lt l i slot hs)
  refine ⟨slot, hs, hg, hlow, ?_, ?_, ?_⟩
  · rw [hl]
    simp [hi]
  · rw [hl]
    simp
  · intro j hj
    rw [hl]
    exact List.getElem?_set_ne (Ne.symm hj)

theorem AllocateInterpretContext_spec_witness :
    (∃ f, allocateAll sampleHost
        [(1, GSORT.GS_OTHER 0), (2, GSORT.GS_MASTER), (3, GSORT.GS_OTHER 1)]
        [zeroed (sampleContext []), zeroed (sampleContext [])] = .error f) ∧
    (∃ l1, allocateAll sampleHost [(1, GSORT.GS_OTHER 0), (2, GSORT.GS_MASTER)]
        [zeroed (sampleContext []), zeroed (sampleContext [])] = .ok l1) :=
  ⟨(AllocateInterpretContext_spec sampleHost 1 (GSORT.GS_OTHER 0)
      [zeroed (sampleContext []), zeroed (sampleContext [])]).2.2.1
      [(1, GSORT.GS_OTHER 0), (2, GSORT.GS_MASTER), (3, GSORT.GS_OTHER 1)]
      (by decide) (by decide),
   (AllocateInterpretContext_spec sampleHost 1 (GSORT.GS_OTHER 0)
      [zeroed (sampleContext []), zeroed (sampleContext [])]).2.2.2
      [(1, GSORT.GS_OTHER 0), (2, GSORT.GS_MASTER)]
      (by decide) rfl (by decide)⟩

/-! ### One pass of the loop: what every instruction guarantees -/

theorem fatal_facts {κ : Type} (x : Host κ) (s0 s : Exec κ) (u : Prop) (f : Fault)
    (hf : f ≠ .unknownOpcode) (hl : SameLinks s0.ic s.ic) :
    PassFacts x s0 u (.fatal f s) := by
  refine ⟨hl, ?_, ?_, ?_⟩
  · intro t ht
    cases ht
  · intro t ht
    injection ht with h1 h2
    exact absurd h1 hf
  · intro t ht
    cases ht

theorem endOfPass_facts {κ : Type} (x : Host κ) (s0 s : Exec κ) (u : Prop) (ip : Int)
    (hl : SameLinks s0.ic s.ic) : PassFacts x s0 u (endOfPass x s ip) := by
  unfold endOfPass
  split
  · rename_i h
    refine ⟨hl, ?_, ?_, ?_⟩
    · intro t ht
      injection ht with ht
      subst ht
      exact h
    · intro t ht
      cases ht
    · intro t ht
      cases ht
  · exact fatal_facts x s0 s u _ (by decide) hl

theorem push_facts {κ : Type} (x : Host κ) (s0 s : Exec κ) (u : Prop) (v ip : Int)
    (hl : SameLinks s0.ic s.ic) : PassFacts x s0 u (push x s v ip) := by
  unfold push
  split
  · exact endOfPass_facts x s0 _ u ip hl
  · exact fatal_facts x s0 s u _ (by decide) hl

theorem binaryOp_facts {κ : Type} (x : Host κ) (s0 s : Exec κ) (u : Prop) (ip : Int)
    (f : Int → Int → Option Int) (hl : SameLinks s0.ic s.ic) :
    PassFacts x s0 u (binaryOp x s ip f) := by
  unfold binaryOp
  dsimp only
  split
  · split
    · split
      · split
        · exact endOfPass_facts x s0 _ u ip hl
        · exact fatal_facts x s0 _ u _ (by decide) hl
      · exact fatal_facts x s0 _ u _ (by decide) hl
    · exact fatal_facts x s0 _ u _ (by decide) hl
  · exact fatal_facts x s0 _ u _ (by decide) hl

theorem unaryOp_facts {κ : Type} (x : Host κ) (s0 s : Exec κ) (u : Prop) (ip : Int)
    (f : Int → Int) (hl : SameLinks s0.ic s.ic) : PassFacts x s0 u (unaryOp x s ip f) := by
  unfold unaryOp
  split
  · split
    · exact endOfPass_facts x s0 _ u ip hl
    · exact fatal_facts x s0 _ u _ (by decide) hl
  · exact fatal_facts x s0 _ u _ (by decide) hl

theorem condJump_facts {κ : Type} (x : Host κ) (s0 s : Exec κ) (u : Prop) (tmp ip : Int)
    (taken : Int → Bool) (hl : SameLinks s0.ic s.ic) :
    PassFacts x s0 u (condJump x s tmp ip taken) := by
  unfold condJump
  split
  · exact endOfPass_facts x s0 _ u _ hl
  · exact fatal_facts x s0 _ u _ (by decide) hl

theorem afterLibrary_links {κ : Type} (x : Host κ) (h : Nat) (ic : INT_CONTEXT) (tmp2 : Int) :
    SameLinks ic (afterLibrary x h ic tmp2) := by
  unfold afterLibrary
  dsimp only
  split
  · rw [LockCode_eq]
    exact ⟨rfl, rfl, rfl, rfl, rfl⟩
  · rw [LockCode_eq]
    exact ⟨rfl, rfl, rfl, rfl, rfl⟩

theorem suspended_facts {κ : Type} (x : Host κ) (s0 s : Exec κ) (u : Prop)
    (hl : SameLinks s0.ic s.ic) (hsp : s.ic.sp = s0.ic.sp) :
    PassFacts x s0 u (.suspended s) := by
  refine ⟨hl, ?_, ?_, ?_⟩
  · intro t ht
    cases ht
  · intro t ht
    cases ht
  · intro t ht
    injection ht with ht
    subst ht
    exact hsp

theorem ite_facts {κ : Type} (x : Host κ) (s : Exec κ) (u : Prop) (c : Prop) [Decidable c]
    (a b : Outcome (Exec κ)) (ha : c → PassFacts x s u a) (hb : ¬ c → PassFacts x s u b) :
    PassFacts x s u (if c then a else b) := by
  by_cases h : c
  · rw [if_pos h]
    exact ha h
  · rw [if_neg h]
    exact hb h

theorem InterpretBody_facts {κ : Type} (x : Host κ) (s : Exec κ) (code : List Nat)
    (opcode : Nat) (hcode : s.ic.code = some code)
    (hop : readByte code s.ic.ip = some opcode) :
    PassFacts x s (opcode &&& OPMASK = OP_CIMM ∨ 44 ≤ opcode &&& OPMASK) (InterpretBody x s) := by
  have hrefl : SameLinks s.ic s.ic := ⟨rfl, rfl, rfl, rfl, rfl⟩
  have hmask : opcode &&& OPMASK ≤ 63 := Nat.and_le_right
  unfold InterpretBody
  simp only [hcode, hop]
  repeat' first
    | (with_reducible apply ite_facts) <;> intro _
    | (with_reducible refine endOfPass_facts x s _ _ _ ?_) <;>
        first | exact ⟨rfl, rfl, rfl, rfl, rfl⟩ | exact afterLibrary_links x _ _ _
    | with_reducible exact push_facts x s _ _ _ _ hrefl
    | with_reducible exact binaryOp_facts x s _ _ _ _ hrefl
    | with_reducible exact unaryOp_facts x s _ _ _ _ hrefl
    | with_reducible exact condJump_facts x s _ _ _ _ _ hrefl
    | (with_reducible refine fatal_facts x s _ _ _ ?_ hrefl) <;> decide
    | (with_reducible refine suspended_facts x s _ _ ?_ ?_) <;>
        first | exact ⟨rfl, rfl, rfl, rfl, rfl⟩ | rfl
    | split
  refine ⟨hrefl, ?_, ?_, ?_⟩
  · intro t ht
    cases ht
  rotate_left
  · intro t ht
    cases ht
  · intro t ht
    injection ht with _ h2
    refine ⟨h2.symm, ?_⟩
    simp only [OP_HALT, OP_IMM, OP_ZERO, OP_ONE, OP_MINUSONE, OP_STR, OP_FILM, OP_FONT, OP_PAL,
      OP_LOAD, OP_GLOAD, OP_STORE, OP_GSTORE, OP_CALL, OP_LIBCALL, OP_RET, OP_ALLOC, OP_JUMP,
      OP_JMPFALSE, OP_JMPTRUE, OP_EQUAL, OP_LESS, OP_LEQUAL, OP_NEQUAL, OP_GEQUAL, OP_GREAT,
      OP_PLUS, OP_MINUS, OP_LOR, OP_MULT, OP_DIV, OP_MOD, OP_AND, OP_OR, OP_EOR, OP_LAND,
      OP_NOT, OP_COMP, OP_NEG, OP_DUP, OP_ESCON, OP_ESCOFF, OP_CIMM, OP_CDFILM] at *
    omega

/-- What holds for one pass from every state, whether or not an opcode can be read. -/
theorem InterpretBody_frame {κ : Type} (x : Host κ) (s : Exec κ) :
    SameLinks s.ic (InterpretBody x s).state.ic ∧
    (∀ t, InterpretBody x s = .ok t → spInRange x t.ic) ∧
    (∀ t, InterpretBody x s = .suspended t → t.ic.sp = s.ic.sp) := by
  cases hcode : s.ic.code with
  | none =>
    have h : InterpretBody x s = .fatal .codeAccess s := by
      unfold InterpretBody
      simp only [hcode]
    rw [h]
    exact ⟨⟨rfl, rfl, rfl, rfl, rfl⟩, (fun t ht => by cases ht), (fun t ht => by cases ht)⟩
  | some code =>
    cases hop : readByte code s.ic.ip with
    | none =>
      have h : InterpretBody x s = .fatal .codeAccess s := by
        unfold InterpretBody
        simp only [hcode, hop]
      rw [h]
      exact ⟨⟨rfl, rfl, rfl, rfl, rfl⟩, (fun t ht => by cases ht), (fun t ht => by cases ht)⟩
    | some opcode =>
      obtain ⟨h1, h2, _, h4⟩ := InterpretBody_facts x s code opcode hcode hop
      exact ⟨h1, h2, h4⟩

/-- C18: if one pass of the loop of `Interpret` (one instruction) ends without a fatal
error, the resulting `sp` satisfies `0 <= sp < PCODE_STACK_SIZE`, from whatever state it
started; a pass that returns from inside a library call leaves `sp` as it was; hence the
range holds in every state reachable through such passes from a state where it holds, and
so (the stack having at least one entry) in every state reachable from the context that
`InitInterpretContext` returns. -/
theorem stack_pointer_invariant {κ : Type} (x : Host κ) :
    (∀ s t : Exec κ, InterpretBody x s = .ok t → spInRange x t.ic) ∧
    (∀ s0 s : Exec κ, spInRange x s0.ic → Reaches x s0 s → spInRange x s.ic) ∧
    (∀ (cur : Nat) (gsort : GSORT) (hCode event : Nat) (hpoly actorid : Int) (pinvo : Nat)
        (myEscape : Int) (m m0 : Machine) (i : Nat) (ic0 : INT_CONTEXT) (s0 s : Exec κ),
      0 < x.PCODE_STACK_SIZE →
      InitInterpretContext x cur gsort hCode event hpoly actorid pinvo myEscape m = .ok (i, m0) →
      m0.icList[i]? = some ic0 → s0.ic = ic0 → Reaches x s0 s → spInRange x s.ic) := by
  have hstep : ∀ s t : Exec κ, InterpretBody x s = .ok t → spInRange x t.ic :=
    fun s t h => (InterpretBody_frame x s).2.1 t h
  have hreach : ∀ s0 s : Exec κ, spInRange x s0.ic → Reaches x s0 s → spInRange x s.ic := by
    intro s0 s h0 hr
    induction hr with
    | start => exact h0
    | pass t u _ hb _ => exact hstep t u hb
    | suspend t u _ hb ih =>
      have := (InterpretBody_frame x t).2.2 u hb
      unfold spInRange at ih ⊢
      rw [this]
      exact ih
    | between t u _ he ih =>
      unfold spInRange at ih ⊢
      rw [he]
      exact ih
  refine ⟨hstep, hreach, ?_⟩
  intro cur gsort hCode event hpoly actorid pinvo myEscape m m0 i ic0 s0 s hsize hinit hic hs0 hr
  obtain ⟨slot, ic1, _, _, hic1, hdef, _⟩ :=
    InitInterpretContext_ok x cur gsort hCode event hpoly actorid pinvo myEscape m m0 i hinit
  rw [hic] at hic1
  injection hic1 with hic1
  apply hreach s0 s _ hr
  unfold spInRange
  rw [hs0, hic1, hdef]
  show (0 : Int) ≤ 0 ∧ (0 : Int) < x.PCODE_STACK_SIZE
  omega

theorem stack_pointer_invariant_witness :
    spInRange scenarioHost
      (InterpretBody scenarioHost (scenarioMachine.toExec scenarioContext none)).state.ic :=
  (stack_pointer_invariant scenarioHost).2.2 1 (GSORT.GS_OTHER 0) 0 0 0 0 0 0 freshMachine
    scenarioMachine 0 scenarioContext (scenarioMachine.toExec scenarioContext none)
    (InterpretBody scenarioHost (scenarioMachine.toExec scenarioContext none)).state
    (by decide) rfl rfl rfl (Reaches.pass _ _ _ (Reaches.start _) rfl)

/-! ### Unknown opcodes -/

theorem ite_neg_eq {α : Type} (c : Prop) [Decidable c] (a b r : α) (hc : ¬ c) (hb : b = r) :
    (if c then a else b) = r := by
  rw [if_neg hc]
  exact hb

/-- C19: with an opcode byte readable at `ip`, one pass ends in `error("Unknown opcode")`
if and only if the masked opcode is `OP_CIMM` (42), which the enumeration defines but the
switch has no case for, or is 44 or more; the state is then unchanged. So the opcode
`OP_CIMM`, one of the 44 defined opcodes 0..43, is reported as unknown. -/
theorem unknown_opcode_iff {κ : Type} (x : Host κ) (s : Exec κ) (code : List Nat)
    (opcode : Nat) (hcode : s.ic.code = some code)
    (hop : readByte code s.ic.ip = some opcode) :
    ((∃ t, InterpretBody x s = .fatal .unknownOpcode t) ↔
      (opcode &&& OPMASK = OP_CIMM ∨ 44 ≤ opcode &&& OPMASK)) ∧
    (∀ t, InterpretBody x s = .fatal .unknownOpcode t → t = s) := by
  have hf := (InterpretBody_facts x s code opcode hcode hop).2.2.1
  refine ⟨⟨fun ⟨t, ht⟩ => (hf t ht).2, ?_⟩, fun t ht => (hf t ht).1⟩
  intro hu
  refine ⟨s, ?_⟩
  unfold InterpretBody
  simp only [hcode, hop]
  simp only [OP_HALT, OP_IMM, OP_ZERO, OP_ONE, OP_MINUSONE, OP_STR, OP_FILM, OP_FONT, OP_PAL,
    OP_LOAD, OP_GLOAD, OP_STORE, OP_GSTORE, OP_CALL, OP_LIBCALL, OP_RET, OP_ALLOC, OP_JUMP,
    OP_JMPFALSE, OP_JMPTRUE, OP_EQUAL, OP_LESS, OP_LEQUAL, OP_NEQUAL, OP_GEQUAL, OP_GREAT,
    OP_PLUS, OP_MINUS, OP_LOR, OP_MULT, OP_DIV, OP_MOD, OP_AND, OP_OR, OP_EOR, OP_LAND,
    OP_NOT, OP_COMP, OP_NEG, OP_DUP, OP_ESCON, OP_ESCOFF, OP_CIMM, OP_CDFILM] at hu ⊢
  repeat (with_reducible refine ite_neg_eq _ _ _ _ (by omega) ?_)
  rfl

theorem unknown_opcode_iff_witness :
    ∃ t, InterpretBody sampleHost (sampleExec [OP_CIMM]) = .fatal .unknownOpcode t :=
  (unknown_opcode_iff sampleHost (sampleExec [OP_CIMM]) [OP_CIMM] OP_CIMM rfl rfl).1.2
    (Or.inl rfl)

/-! ### Access to the global variables -/

theorem InterpretBody_global_check {κ : Type} (x : Host κ) (s : Exec κ) (code : List Nat)
    (opcode : Nat) (i ip1 : Int) (hcode : s.ic.code = some code)
    (hop : readByte code s.ic.ip = some opcode)
    (hg : opcode &&& OPMASK = OP_GLOAD ∨ opcode &&& OPMASK = OP_GSTORE)
    (hfetch : Fetch opcode code (s.ic.ip + 1) = some (i, ip1))
    (hout : i < 0 ∨ s.numGlobals ≤ i) : InterpretBody x s = .fatal .globalCheck s := by
  have hc : ¬ (0 ≤ i ∧ i < s.numGlobals) := by omega
  unfold InterpretBody
  simp only [hcode, hop]
  rcases hg with h | h <;> simp [h, hfetch, hc]

theorem InterpretBody_gload {κ : Type} (x : Host κ) (s : Exec κ) (code : List Nat)
    (opcode : Nat) (i ip1 v : Int) (hcode : s.ic.code = some code)
    (hop : readByte code s.ic.ip = some opcode) (hg : opcode &&& OPMASK = OP_GLOAD)
    (hfetch : Fetch opcode code (s.ic.ip + 1) = some (i, ip1))
    (hin : 0 ≤ i ∧ i < s.numGlobals) (hv : globalRead s.pGlobals i = some v)
    (h0 : 0 ≤ s.ic.sp + 1) (h1 : s.ic.sp + 1 < s.ic.stack.length)
    (h2 : s.ic.sp + 1 < x.PCODE_STACK_SIZE) :
    InterpretBody x s = .ok { s with ic := { s.ic with
      stack := s.ic.stack.set (s.ic.sp + 1).toNat v, sp := s.ic.sp + 1, ip := ip1 } } := by
  have hw := stackWrite_ok s.ic.stack (s.ic.sp + 1) v h0 h1
  unfold InterpretBody
  simp only [hcode, hop]
  simp [hg, hfetch, hin, hv, push, hw, endOfPass, h0, h2, hcode]

theorem InterpretBody_gstore {κ : Type} (x : Host κ) (s : Exec κ) (code : List Nat)
    (opcode : Nat) (i ip1 v : Int) (g : List Int) (hcode : s.ic.code = some code)
    (hop : readByte code s.ic.ip = some opcode) (hg : opcode &&& OPMASK = OP_GSTORE)
    (hfetch : Fetch opcode code (s.ic.ip + 1) = some (i, ip1))
    (hin : 0 ≤ i ∧ i < s.numGlobals) (hv : stackRead s.ic.stack s.ic.sp = some v)
    (hw : globalWrite s.pGlobals i v = some g)
    (h0 : 1 ≤ s.ic.sp) (h2 : s.ic.sp - 1 < x.PCODE_STACK_SIZE) :
    InterpretBody x s = .ok { s with ic := { s.ic with sp := s.ic.sp - 1, ip := ip1 },
                                     pGlobals := some g } := by
  have h3 : (0 : Int) ≤ s.ic.sp - 1 := by omega
  unfold InterpretBody
  simp only [hcode, hop]
  simp [hg, hfetch, hin, hv, hw, endOfPass, h3, h2]

theorem InterpretBody_global_in_range {κ : Type} (x : Host κ) (s : Exec κ) (code : List Nat)
    (opcode : Nat) (i ip1 : Int) (hcode : s.ic.code = some code)
    (hop : readByte code s.ic.ip = some opcode)
    (hg : opcode &&& OPMASK = OP_GLOAD ∨ opcode &&& OPMASK = OP_GSTORE)
    (hfetch : Fetch opcode code (s.ic.ip + 1) = some (i, ip1))
    (hin : 0 ≤ i ∧ i < s.numGlobals) (t : Exec κ) :
    InterpretBody x s ≠ .fatal .globalCheck t := by
  intro ht
  unfold InterpretBody at ht
  simp only [hcode, hop] at ht
  rcases hg with h | h
  · simp [h, hfetch, hin, push, endOfPass] at ht
    repeat' split at ht
    all_goals cases ht
  · simp [h, hfetch, hin, endOfPass] at ht
    repeat' split at ht
    all_goals cases ht

theorem set_of_getElem? {α : Type} (l : List α) (n : Nat) (a : α) (h : l[n]? = some a) :
    l.set n a = l := by
  apply List.ext_getElem?
  intro j
  by_cases hj : n = j
  · subst hj
    rw [List.getElem?_set_self (getElem?_lt l n a h), h]
  · rw [List.getElem?_set_ne hj]

/-- C15: for `OP_GLOAD` and `OP_GSTORE` with operand `i`, the pass ends in the failed
bounds assertion if and only if `i < 0` or `i >= numGlobals`, and then the state (globals,
stack, `sp`, `ip`) is unchanged. For `0 <= i < numGlobals` (inside the registered array):
`OP_GSTORE` pops the top value into global `i` and leaves every other global and the stack
unchanged; `OP_GLOAD` pushes the value of global `i` and leaves the globals unchanged; and
`OP_GSTORE i` followed by `OP_GLOAD i` ends with the stack and `sp` as they were, so with
the original top of stack. -/
theorem global_access_checked {κ : Type} (x : Host κ) (s : Exec κ) (code : List Nat)
    (opcode : Nat) (i ip1 : Int) (hcode : s.ic.code = some code)
    (hop : readByte code s.ic.ip = some opcode)
    (hg : opcode &&& OPMASK = OP_GLOAD ∨ opcode &&& OPMASK = OP_GSTORE)
    (hfetch : Fetch opcode code (s.ic.ip + 1) = some (i, ip1)) :
    ((∃ t, InterpretBody x s = .fatal .globalCheck t) ↔ (i < 0 ∨ s.numGlobals ≤ i)) ∧
    ((i < 0 ∨ s.numGlobals ≤ i) → InterpretBody x s = .fatal .globalCheck s) ∧
    (∀ (g : List Int) (v : Int), opcode &&& OPMASK = OP_GSTORE → 0 ≤ i → i < s.numGlobals →
      s.pGlobals = some g → i < g.length → stackRead s.ic.stack s.ic.sp = some v →
      1 ≤ s.ic.sp → s.ic.sp - 1 < x.PCODE_STACK_SIZE →
      InterpretBody x s = .ok { s with ic := { s.ic with sp := s.ic.sp - 1, ip := ip1 },
                                       pGlobals := some (g.set i.toNat v) } ∧
      (g.set i.toNat v)[i.toNat]? = some v ∧
      (g.set i.toNat v).length = g.length ∧
      ∀ j : Nat, j ≠ i.toNat → (g.set i.toNat v)[j]? = g[j]?) ∧
    (∀ (g : List Int) (v : Int), opcode &&& OPMASK = OP_GLOAD → 0 ≤ i → i < s.numGlobals →
      s.pGlobals = some g → g[i.toNat]? = some v →
      0 ≤ s.ic.sp + 1 → s.ic.sp + 1 < s.ic.stack.length → s.ic.sp + 1 < x.PCODE_STACK_SIZE →
      InterpretBody x s = .ok { s with ic := { s.ic with
        stack := s.ic.stack.set (s.ic.sp + 1).toNat v, sp := s.ic.sp + 1, ip := ip1 } }) ∧
    (∀ (g : List Int) (v : Int) (opcode2 : Nat) (ip2 : Int),
      opcode &&& OPMASK = OP_GSTORE → 0 ≤ i → i < s.numGlobals →
      s.pGlobals = some g → i < g.length → stackRead s.ic.stack s.ic.sp = some v →
      1 ≤ s.ic.sp → s.ic.sp < x.PCODE_STACK_SIZE →
      readByte code ip1 = some opcode2 → opcode2 &&& OPMASK = OP_GLOAD →
      Fetch opcode2 code (ip1 + 1) = some (i, ip2) →
      ∃ s1 s2 : Exec κ, InterpretBody x s = .ok s1 ∧ InterpretBody x s1 = .ok s2 ∧
        s2.ic.sp = s.ic.sp ∧ s2.ic.stack = s.ic.stack ∧
        stackRead s2.ic.stack s2.ic.sp = some v ∧ s2.ic.ip = ip2 ∧
        s2.pGlobals = some (g.set i.toNat v)) := by
  have hstore : ∀ (g : List Int) (v : Int), opcode &&& OPMASK = OP_GSTORE → 0 ≤ i →
      i < s.numGlobals → s.pGlobals = some g → i < g.length →
      stackRead s.ic.stack s.ic.sp = some v → 1 ≤ s.ic.sp →
      s.ic.sp - 1 < x.PCODE_STACK_SIZE →
      InterpretBody x s = .ok { s with ic := { s.ic with sp := s.ic.sp - 1, ip := ip1 },
                                       pGlobals := some (g.set i.toNat v) } := by
    intro g v h h0 h1 hgl hlen hv hsp hsz
    have hlt : i.toNat < g.length := by omega
    have hw : globalWrite s.pGlobals i v = some (g.set i.toNat v) := by
      simp [globalWrite, hgl, h0, hlt]
    exact InterpretBody_gstore x s code opcode i ip1 v _ hcode hop h hfetch ⟨h0, h1⟩ hv hw hsp hsz
  refine ⟨⟨?_, ?_⟩, ?_, ?_, ?_, ?_⟩
  · rintro ⟨t, ht⟩
    by_contra hcon
    exact InterpretBody_global_in_range x s code opcode i ip1 hcode hop hg hfetch
      (by omega) t ht
  · intro hout
    exact ⟨s, InterpretBody_global_check x s code opcode i ip1 hcode hop hg hfetch hout⟩
  · exact InterpretBody_global_check x s code opcode i ip1 hcode hop hg hfetch
  · intro g v h h0 h1 hgl hlen hv hsp hsz
    have hlt : i.toNat < g.length := by omega
    refine ⟨hstore g v h h0 h1 hgl hlen hv hsp hsz, List.getElem?_set_self hlt, by simp, ?_⟩
    intro j hj
    exact List.getElem?_set_ne (Ne.symm hj)
  · intro g v h h0 h1 hgl hv hs0 hs1 hs2
    have hr : globalRead s.pGlobals i = some v := by
      simp [globalRead, hgl, h0, hv]
    exact InterpretBody_gload x s code opcode i ip1 v hcode hop h hfetch ⟨h0, h1⟩ hr hs0 hs1 hs2
  · intro g v opcode2 ip2 h h0 h1 hgl hlen hv hsp hsz hop2 hg2 hfetch2
    have hlt : i.toNat < g.length := by omega
    have h1st := hstore g v h h0 h1 hgl hlen hv hsp (by omega)
    obtain ⟨hp0, hp1⟩ := stackRead_lt _ _ _ hv
    have hr : globalRead (some (g.set i.toNat v)) i = some v := by
      simp [globalRead, h0, hlt]
    have h2nd := InterpretBody_gload x
      { s with ic := { s.ic with sp := s.ic.sp - 1, ip := ip1 },
               pGlobals := some (g.set i.toNat v) }
      code opcode2 i ip2 v hcode hop2 hg2 hfetch2 ⟨h0, h1⟩ hr
      (show (0 : Int) ≤ s.ic.sp - 1 + 1 by omega)
      (show s.ic.sp - 1 + 1 < s.ic.stack.length by omega)
      (show s.ic.sp - 1 + 1 < x.PCODE_STACK_SIZE by omega)
    have hsame : s.ic.stack.set (s.ic.sp - 1 + 1).toNat v = s.ic.stack := by
      apply set_of_getElem?
      have : s.ic.sp - 1 + 1 = s.ic.sp := by omega
      rw [this]
      simpa [stackRead, hp0] using hv
    refine ⟨_, _, h1st, h2nd, ?_, hsame, ?_, rfl, rfl⟩
    · show s.ic.sp - 1 + 1 = s.ic.sp
      omega
    · show stackRead (s.ic.stack.set (s.ic.sp - 1 + 1).toNat v) (s.ic.sp - 1 + 1) = some v
      rw [hsame]
      have : s.ic.sp - 1 + 1 = s.ic.sp := by omega
      rw [this]
      exact hv

theorem global_access_checked_witness :
    ∃ s1 s2 : Exec Nat, InterpretBody sampleHost sampleGlobalExec = .ok s1 ∧
      InterpretBody sampleHost s1 = .ok s2 ∧
      s2.ic.sp = 2 ∧ s2.ic.stack = [0, 2, 3, 0, 0, 0, 0, 0] ∧
      stackRead s2.ic.stack s2.ic.sp = some 3 ∧ s2.ic.ip = 4 ∧
      s2.pGlobals = some [10, 3] :=
  (global_access_checked sampleHost sampleGlobalExec
    [OP_GSTORE + OPSIZE8, 1, OP_GLOAD + OPSIZE8, 1] (OP_GSTORE + OPSIZE8) 1 2
    rfl rfl (Or.inr rfl) rfl).2.2.2.2 [10, 20] 3 (OP_GLOAD + OPSIZE8) 4
    rfl (by decide) (by decide) rfl (by decide) rfl (by decide) (by decide) rfl rfl rfl

/-! ### Registering the globals -/

/-- C16, as stated, does not hold for Tinsel 2: `RegisterGlobals(2)` on a state with two
registered globals reads the globals file again, so the globals are the file's initial
values 5 and -7 afterwards, not 0. -/
theorem reregistration_reloads :
    sampleHost.TinselV2 = true ∧ sampleRegistered.numGlobals = 2 ∧
    ∃ m1, RegisterGlobals sampleHost sampleStartup 2 sampleRegistered = .ok m1 ∧
      m1.pGlobals = some [5, -7] ∧ globalRead m1.pGlobals 0 = some 5 :=
  ⟨rfl, rfl, _, rfl, rfl, rfl⟩

theorem map_zeroed_free (l : List INT_CONTEXT) (c : INT_CONTEXT) (hc : c ∈ l.map zeroed) :
    c.GSort = GSORT.GS_NONE := by
  obtain ⟨d, _, hd⟩ := List.mem_map.1 hc
  rw [← hd]
  rfl

theorem registerOrReset_again {κ : Type} (x : Host κ) (st : Startup) (num : Int) (m : Machine)
    (g : List Int) (hreg : m.pGlobals = some g) (hn : m.numGlobals = num) (h0 : 0 ≤ num)
    (hlen : num.toNat ≤ g.length) :
    registerOrReset x st num m =
      .ok { m with pGlobals := some (List.replicate num.toNat 0 ++ g.drop num.toNat),
                   icList := m.icList.map zeroed } := by
  unfold registerOrReset
  subst hn
  simp [hreg, h0, hlen]

theorem getElem?_replicate_append (n k : Nat) (rest : List Int) (hk : k < n) :
    (List.replicate n (0 : Int) ++ rest)[k]? = some 0 := by
  rw [List.getElem?_append_left (by simpa using hk)]
  simp [List.getElem?_replicate, hk]

theorem getElem?_storePrefix (vals g : List Int) (k : Nat) (hk : k < vals.length) :
    (storePrefix vals g)[k]? = vals[k]? := by
  unfold storePrefix
  rw [List.getElem?_append_left hk]

/-- C16 (amended): on a state in which `N` globals are registered, `RegisterGlobals` with
another count fails in the assertion on the count. With the same count it zeroes the
globals and every slot of the pool (so every slot is free); without `TinselV2` nothing is
loaded and every global in `[0, N)` is 0; with `TinselV2` the globals file is read again,
so every global in `[0, N)` is the file's initial value (and the call is fatal when the
file cannot be opened or its count is not `N`). -/
theorem RegisterGlobals_again {κ : Type} (x : Host κ) (st : Startup) (num : Int) (m : Machine)
    (g : List Int) (hreg : m.pGlobals = some g) :
    (m.numGlobals ≠ num → RegisterGlobals x st num m = .fatal .globalsCount m) ∧
    (m.numGlobals = num → 0 ≤ num → num.toNat ≤ g.length → x.TinselV2 = false →
      ∃ (m1 : Machine) (g1 : List Int), RegisterGlobals x st num m = .ok m1 ∧
        m1.pGlobals = some g1 ∧ (∀ k : Nat, k < num.toNat → g1[k]? = some 0) ∧
        m1.icList = m.icList.map zeroed ∧
        (∀ c, c ∈ m1.icList → c.GSort = GSORT.GS_NONE) ∧ m1.numGlobals = num) ∧
    (m.numGlobals = num → 0 ≤ num → num.toNat ≤ g.length → x.TinselV2 = true →
      ∀ values : List Int, st.globalsFile = some (num :: values) →
        num.toNat ≤ values.length →
      ∃ (m1 : Machine) (g1 : List Int), RegisterGlobals x st num m = .ok m1 ∧
        m1.pGlobals = some g1 ∧ (∀ k : Nat, k < num.toNat → g1[k]? = values[k]?) ∧
        m1.icList = m.icList.map zeroed ∧
        (∀ c, c ∈ m1.icList → c.GSort = GSORT.GS_NONE) ∧ m1.numGlobals = num) ∧
    (m.numGlobals = num → 0 ≤ num → num.toNat ≤ g.length → x.TinselV2 = true →
      (st.globalsFile = none →
        ∃ m1, RegisterGlobals x st num m = .fatal .cannotFindFile m1) ∧
      (∀ (length : Int) (values : List Int), st.globalsFile = some (length :: values) →
        length ≠ num → ∃ m1, RegisterGlobals x st num m = .fatal .fileIsCorrupt m1)) := by
  refine ⟨?_, ?_, ?_, ?_⟩
  · intro hne
    unfold RegisterGlobals registerOrReset
    simp [hreg, hne]
  · intro hn h0 hlen hv
    have h1 := registerOrReset_again x st num m g hreg hn h0 hlen
    refine ⟨{ m with pGlobals := some (List.replicate num.toNat 0 ++ g.drop num.toNat),
                     icList := m.icList.map zeroed },
      List.replicate num.toNat 0 ++ g.drop num.toNat, ?_, rfl, ?_, rfl, ?_, hn⟩
    · unfold RegisterGlobals
      rw [h1]
      simp [hv]
    · intro k hk
      exact getElem?_replicate_append _ _ _ hk
    · intro c hc
      exact map_zeroed_free _ c hc
  · intro hn h0 hlen hv values hfile hvals
    have h1 := registerOrReset_again x st num m g hreg hn h0 hlen
    refine ⟨{ m with pGlobals := some (storePrefix (values.take num.toNat)
        (List.replicate num.toNat 0 ++ g.drop num.toNat)), icList := m.icList.map zeroed },
      _, ?_, rfl, ?_, rfl, ?_, hn⟩
    · unfold RegisterGlobals
      rw [h1]
      simp [hv, hfile, hvals]
    · intro k hk
      rw [getElem?_storePrefix _ _ _ (by simp; omega)]
      rw [List.getElem?_take_of_lt hk]
    · intro c hc
      exact map_zeroed_free _ c hc
  · intro hn h0 hlen hv
    have h1 := registerOrReset_again x st num m g hreg hn h0 hlen
    constructor
    · intro hfile
      unfold RegisterGlobals
      rw [h1]
      simp only [hv, hfile, if_true]
      exact ⟨_, rfl⟩
    · intro length values hfile hne
      unfold RegisterGlobals
      rw [h1]
      simp only [hv, hfile, if_true, hne, ne_eq, not_false_eq_true]
      exact ⟨_, rfl⟩

theorem RegisterGlobals_again_witness :
    (∃ (m1 : Machine) (g1 : List Int),
      RegisterGlobals sampleHostV1 sampleStartup 2 sampleRegistered = .ok m1 ∧
        m1.pGlobals = some g1 ∧ (∀ k : Nat, k < (2 : Int).toNat → g1[k]? = some 0) ∧
        m1.icList = sampleRegistered.icList.map zeroed ∧
        (∀ c, c ∈ m1.icList → c.GSort = GSORT.GS_NONE) ∧ m1.numGlobals = 2) ∧
    (∃ (m1 : Machine) (g1 : List Int),
      RegisterGlobals sampleHost sampleStartup 2 sampleRegistered = .ok m1 ∧
        m1.pGlobals = some g1 ∧ (∀ k : Nat, k < (2 : Int).toNat → g1[k]? = [5, -7][k]?) ∧
        m1.icList = sampleRegistered.icList.map zeroed ∧
        (∀ c, c ∈ m1.icList → c.GSort = GSORT.GS_NONE) ∧ m1.numGlobals = 2) :=
  ⟨(RegisterGlobals_again sampleHostV1 sampleStartup 2 sampleRegistered [40, 41] rfl).2.1
      rfl (by decide) (by decide) rfl,
   (RegisterGlobals_again sampleHost sampleStartup 2 sampleRegistered [40, 41] rfl).2.2.1
      rfl (by decide) (by decide) rfl [5, -7] rfl (by decide)⟩

/-! ### Saving and loading the globals -/

theorem storeGlobals_spec (v : List Int) (i : Nat) (g : List Int)
    (h : i + v.length ≤ g.length) :
    ∃ g1, storeGlobals v i (some g) = some g1 ∧ g1.length = g.length ∧
      (∀ k : Nat, k < v.length → g1[i + k]? = v[k]?) ∧
      (∀ j : Nat, j < i → g1[j]? = g[j]?) := by
  induction v generalizing i g with
  | nil => exact ⟨g, rfl, rfl, fun k hk => by simp at hk, fun j _ => rfl⟩
  | cons a rest ih =>
    simp only [List.length_cons] at h
    have hi : i < g.length := by omega
    have hw : globalWrite (some g) i a = some (g.set i a) := by
      simp [globalWrite, hi]
    obtain ⟨g1, h1, hlen, hk1, hj1⟩ := ih (i + 1) (g.set i a) (by simp; omega)
    refine ⟨g1, ?_, by simpa using hlen, ?_, ?_⟩
    · unfold storeGlobals
      rw [hw]
      simpa using h1
    · intro k hk
      cases k with
      | zero =>
        rw [Nat.add_zero, hj1 i (by omega), List.getElem?_set_self hi]
        simp
      | succ k =>
        have := hk1 k (by simpa using hk)
        rw [show i + (k + 1) = i + 1 + k by omega, this]
        simp
    · intro j hj
      rw [hj1 j (by omega), List.getElem?_set_ne (by omega)]

theorem storeGlobals_all (v g : List Int) (h : g.length = v.length) :
    storeGlobals v 0 (some g) = some v := by
  obtain ⟨g1, h1, hlen, hk, _⟩ := storeGlobals_spec v 0 g (by omega)
  have : g1 = v := by
    apply List.ext_getElem?
    intro k
    by_cases hkv : k < v.length
    · simpa using hk k hkv
    · rw [List.getElem?_eq_none (by omega), List.getElem?_eq_none (by omega)]
  subst this
  simpa using h1

theorem encodeLE32_decode (a : Int) (h0 : -2147483648 ≤ a) (h1 : a ≤ 2147483647)
    (rest : List Nat) (old : Int) :
    Serializer.syncAsSint32LE (.loading (encodeLE32 a ++ rest)) old =
      some (.loading rest, a) := by
  have hu : (a % 4294967296).toNat < 4294967296 := by omega
  have hsum : (a % 4294967296).toNat % 256 % 256
      + 256 * ((a % 4294967296).toNat / 256 % 256 % 256)
      + 65536 * ((a % 4294967296).toNat / 65536 % 256 % 256)
      + 16777216 * ((a % 4294967296).toNat / 16777216 % 256 % 256)
      = (a % 4294967296).toNat := by omega
  have hc := (castInt32_spec (a % 4294967296).toNat hu).2.2.2 a h0 h1 (by omega)
  simp only [encodeLE32, List.cons_append, List.nil_append, Serializer.syncAsSint32LE, hsum]
  rw [← hc]

theorem syncGlobalsLoop_save (n : Nat) (out : List Nat) (g : List Int) (h : n ≤ g.length) :
    syncGlobalsLoop n (.saving out) g =
      some (.saving (out ++ (g.take n).flatMap encodeLE32), g) := by
  induction n generalizing out g with
  | zero => simp [syncGlobalsLoop]
  | succ n ih =>
    cases g with
    | nil => simp at h
    | cons v rest =>
      simp only [List.length_cons] at h
      simp only [syncGlobalsLoop, Serializer.syncAsSint32LE, ih _ rest (by omega)]
      simp [List.flatMap_cons]

theorem syncGlobalsLoop_load (v : List Int) (rest : List Nat) (g : List Int)
    (hv : ∀ a, a ∈ v → -2147483648 ≤ a ∧ a ≤ 2147483647) (h : v.length ≤ g.length) :
    syncGlobalsLoop v.length (.loading (v.flatMap encodeLE32 ++ rest)) g =
      some (.loading rest, v ++ g.drop v.length) := by
  induction v generalizing g with
  | nil => simp [syncGlobalsLoop]
  | cons a tl ih =>
    cases g with
    | nil => simp at h
    | cons b g1 =>
      simp only [List.length_cons] at h
      obtain ⟨h0, h1⟩ := hv a (List.mem_cons_self _ _)
      have hdec := encodeLE32_decode a h0 h1 (tl.flatMap encodeLE32 ++ rest) b
      have ih1 := ih g1 (fun c hc => hv c (List.mem_cons_of_mem _ hc)) (by omega)
      simp only [List.flatMap_cons, List.append_assoc, List.length_cons, syncGlobalsLoop, hdec,
        ih1]
      simp

/-- A first registration that succeeds: the count is not negative, `numGlobals` is the
count and the array has that many entries; and it succeeds the same way from every other
state in which nothing is registered. -/
theorem RegisterGlobals_fresh {κ : Type} (x : Host κ) (st : Startup) (num : Int)
    (m m1 : Machine) (h0 : m.pGlobals = none) (h : RegisterGlobals x st num m = .ok m1) :
    0 ≤ num ∧ m1.numGlobals = num ∧ (∃ g, m1.pGlobals = some g ∧ g.length = num.toNat) ∧
    ∀ m2 : Machine, m2.pGlobals = none →
      ∃ m3, RegisterGlobals x st num m2 = .ok m3 ∧ m3.numGlobals = num ∧
        ∃ g, m3.pGlobals = some g ∧ g.length = num.toNat := by
  unfold RegisterGlobals registerOrReset at h
  rw [h0] at h
  by_cases hneg : num < 0
  · simp [hneg] at h
  · simp only [hneg, if_false] at h
    have hpos : 0 ≤ num := by omega
    by_cases hv : x.TinselV2 = true
    · simp only [hv, if_true] at h
      cases hfile : st.globalsFile with
      | none => simp [hfile] at h
      | some file =>
        cases file with
        | nil => simp [hfile] at h
        | cons length values =>
          simp only [hfile] at h
          by_cases hl : length = num
          · by_cases hvals : num.toNat ≤ values.length
            · simp only [hl, ne_eq, not_true_eq_false, if_false, hvals, if_true] at h
              injection h with h
              subst h
              refine ⟨hpos, rfl, ⟨_, rfl, ?_⟩, ?_⟩
              · simp [storePrefix, hvals]
              · intro m2 h2
                unfold RegisterGlobals registerOrReset
                rw [h2]
                simp only [hneg, if_false, hv, if_true, hfile, hl, ne_eq, not_true_eq_false,
                  hvals]
                refine ⟨_, rfl, rfl, _, rfl, ?_⟩
                simp [storePrefix, hvals]
            · simp [hl, hvals] at h
          · simp [hl] at h
    · have hv2 : x.TinselV2 = false := by simpa using hv
      simp only [hv2, Bool.false_eq_true, if_false] at h
      injection h with h
      subst h
      refine ⟨hpos, rfl, ⟨_, rfl, by simp⟩, ?_⟩
      intro m2 h2
      unfold RegisterGlobals registerOrReset
      rw [h2]
      simp only [hneg, if_false, hv2, Bool.false_eq_true]
      exact ⟨_, rfl, rfl, _, rfl, by simp⟩

theorem length_flatMap_encodeLE32 (v : List Int) :
    (v.flatMap encodeLE32).length = 4 * v.length := by
  induction v with
  | nil => rfl
  | cons a tl ih =>
    simp only [List.flatMap_cons, List.length_append, ih, List.length_cons]
    simp [encodeLE32]
    omega

/-- C14: let `RegisterGlobals(N)` succeed on a state in which nothing is registered, and
let `v` assign a signed 32-bit value to each index in `[0, N)`. Storing `v[i]` in each
global `i` makes the array equal to `v`; `syncGlobInfo` with a saving serializer writes
exactly the little-endian 32-bit words of `v[0], ..., v[N-1]` in this order (`4 * N` bytes,
no count) and leaves the globals as they are; after `FreeGlobals()`, `RegisterGlobals(N)`
succeeds again, and `syncGlobInfo` with a serializer loading the saved bytes consumes them
all and leaves every global `i` in `[0, N)` equal to `v[i]`. -/
theorem globals_round_trip {κ : Type} (x : Host κ) (st : Startup) (v : List Int)
    (m0 m1 : Machine) (hv : ∀ a, a ∈ v → -2147483648 ≤ a ∧ a ≤ 2147483647)
    (h0 : m0.pGlobals = none) (hreg : RegisterGlobals x st v.length m0 = .ok m1) :
    storeGlobals v 0 m1.pGlobals = some v ∧
    syncGlobInfo (.saving []) { m1 with pGlobals := some v } =
      some (.saving (v.flatMap encodeLE32), { m1 with pGlobals := some v }) ∧
    (v.flatMap encodeLE32).length = 4 * v.length ∧
    ∃ m4 m5 : Machine,
      RegisterGlobals x st v.length (FreeGlobals { m1 with pGlobals := some v }) = .ok m4 ∧
      syncGlobInfo (.loading (v.flatMap encodeLE32)) m4 = some (.loading [], m5) ∧
      m5.pGlobals = some v ∧
      ∀ i : Nat, i < v.length → globalRead m5.pGlobals i = v[i]? := by
  obtain ⟨_, hn, ⟨g1, hg1, hlen1⟩, hagain⟩ := RegisterGlobals_fresh x st v.length m0 m1 h0 hreg
  have hlen1 : g1.length = v.length := by simpa using hlen1
  obtain ⟨m4, h4, hn4, g4, hg4, hlen4⟩ :=
    hagain (FreeGlobals { m1 with pGlobals := some v }) rfl
  have hlen4 : g4.length = v.length := by simpa using hlen4
  refine ⟨?_, ?_, length_flatMap_encodeLE32 v, m4, { m4 with pGlobals := some v }, h4, ?_, rfl,
    ?_⟩
  · rw [hg1]
    exact storeGlobals_all v g1 hlen1
  · unfold syncGlobInfo
    simp only [hn, Int.toNat_ofNat]
    rw [syncGlobalsLoop_save v.length [] v (Nat.le_refl _)]
    simp
  · unfold syncGlobInfo
    simp only [hg4, hn4, Int.toNat_ofNat]
    have hl := syncGlobalsLoop_load v [] g4 hv (by omega)
    rw [List.append_nil] at hl
    rw [hl]
    simp [List.drop_eq_nil_of_le (Nat.le_of_eq hlen4)]
  · intro i hi
    simp [globalRead]

theorem globals_round_trip_witness :
    storeGlobals [3, -4] 0 (some [5, -7]) = some [3, -4] ∧
    syncGlobInfo (.saving []) { sampleFresh with pGlobals := some [3, -4] } =
      some (.saving [3, 0, 0, 0, 252, 255, 255, 255],
        { sampleFresh with pGlobals := some [3, -4] }) ∧
    ∃ m4 m5 : Machine,
      RegisterGlobals sampleHost sampleStartup 2
        (FreeGlobals { sampleFresh with pGlobals := some [3, -4] }) = .ok m4 ∧
      syncGlobInfo (.loading [3, 0, 0, 0, 252, 255, 255, 255]) m4 = some (.loading [], m5) ∧
      m5.pGlobals = some [3, -4] :=
  have h := globals_round_trip sampleHost sampleStartup [3, -4] unregisteredMachine sampleFresh
    (by decide) rfl rfl
  ⟨h.1, h.2.1, h.2.2.2.imp fun _ h4 => h4.imp fun _ h5 => ⟨h5.1, h5.2.1, h5.2.2.1⟩⟩

/-! ### One context per process -/

theorem UniqueOwners_set (l : List INT_CONTEXT) (i : Nat) (c : INT_CONTEXT)
    (h : UniqueOwners l) (hown : OwnsNone c.pProc l) : UniqueOwners (l.set i c) := by
  intro a b ca cb ha hb hla hlb hp
  by_cases hai : i = a
  · by_cases hbi : i = b
    · omega
    · subst hai
      rw [List.getElem?_set_ne hbi] at hb
      have hlt : i < l.length := by
        have := getElem?_lt _ _ _ ha
        simpa using this
      rw [List.getElem?_set_self hlt] at ha
      injection ha with ha
      subst ha
      exact absurd hp.symm (hown b cb hb hlb)
  · rw [List.getElem?_set_ne hai] at ha
    by_cases hbi : i = b
    · subst hbi
      have hlt : i < l.length := by
        have := getElem?_lt _ _ _ hb
        simpa using this
      rw [List.getElem?_set_self hlt] at hb
      injection hb with hb
      subst hb
      exact absurd hp (hown a ca ha hla)
    · rw [List.getElem?_set_ne hbi] at hb
      exact h a b ca cb ha hb hla hlb hp

/-- Every live slot of `l1` is a live slot of `l` with the same owner. -/
theorem UniqueOwners_shrink (l l1 : List INT_CONTEXT) (h : UniqueOwners l)
    (hs : ∀ (j : Nat) (d : INT_CONTEXT), l1[j]? = some d → d.GSort ≠ GSORT.GS_NONE →
      ∃ c : INT_CONTEXT, l[j]? = some c ∧ c.GSort ≠ GSORT.GS_NONE ∧ c.pProc = d.pProc) :
    UniqueOwners l1 := by
  intro a b ca cb ha hb hla hlb hp
  obtain ⟨c, hc, hcl, hcp⟩ := hs a ca ha hla
  obtain ⟨d, hd, hdl, hdp⟩ := hs b cb hb hlb
  exact h a b c d hc hd hcl hdl (by rw [hcp, hdp, hp])

theorem release_shrinks {κ : Type} (x : Host κ) (i : Nat) (v : Bool) (m m1 : Machine)
    (h : FreeWaitCheck i v m = .ok m1) (j : Nat) (d : INT_CONTEXT)
    (hj : (updateSlot (releaseSlot x) i m1.icList)[j]? = some d)
    (hd : d.GSort ≠ GSORT.GS_NONE) :
    ∃ c : INT_CONTEXT, m.icList[j]? = some c ∧ c.GSort ≠ GSORT.GS_NONE ∧ c.pProc = d.pProc := by
  obtain ⟨hlen, hframe⟩ := FreeWaitCheck_frame i v m m1 h
  have hi : ∃ ci, m1.icList[i]? = some ci := by
    unfold FreeWaitCheck at h
    cases hm : m.icList[i]? with
    | none => simp [hm] at h
    | some pic =>
      obtain ⟨c1, h1, _⟩ := hframe i pic hm
      exact ⟨c1, h1⟩
  obtain ⟨ci, hci⟩ := hi
  rw [updateSlot_eq_set _ _ _ _ hci] at hj
  by_cases hij : i = j
  · subst hij
    rw [List.getElem?_set_self (getElem?_lt _ _ _ hci)] at hj
    injection hj with hj
    subst hj
    exact absurd (releaseSlot_GSort x ci) hd
  · rw [List.getElem?_set_ne hij] at hj
    have hjl : j < m.icList.length := by
      rw [← hlen]
      exact getElem?_lt _ _ _ hj
    obtain ⟨c, hc⟩ : ∃ c, m.icList[j]? = some c := ⟨m.icList[j], by simp [hjl]⟩
    obtain ⟨c1, h1, hg, hp⟩ := hframe j c hc
    rw [hj] at h1
    injection h1 with h1
    subst h1
    exact ⟨c, hc, by rw [← hg]; exact hd, hp.symm⟩

theorem freeMasterLoop_live (l : List INT_CONTEXT) (j : Nat) (d : INT_CONTEXT)
    (hj : (freeMasterLoop l)[j]? = some d) (hd : d.GSort ≠ GSORT.GS_NONE) : l[j]? = some d := by
  induction l generalizing j with
  | nil => simp [freeMasterLoop] at hj
  | cons pic rest ih =>
    unfold freeMasterLoop at hj
    split at hj
    · cases j with
      | zero =>
        simp at hj
        subst hj
        exact absurd rfl hd
      | succ k => simpa using hj
    · cases j with
      | zero => simpa using hj
      | succ k =>
        simp only [List.getElem?_cons_succ] at hj ⊢
        exact ih k hj

theorem FreeMost_live (l : List INT_CONTEXT) (j : Nat) (d : INT_CONTEXT)
    (hj : (l.map fun pic => if pic.GSort ≠ GSORT.GS_MASTER ∧ pic.GSort ≠ GSORT.GS_GPROCESS
      then wipeSlot pic else pic)[j]? = some d)
    (hd : d.GSort ≠ GSORT.GS_NONE) : l[j]? = some d := by
  rw [List.getElem?_map] at hj
  cases hc : l[j]? with
  | none => simp [hc] at hj
  | some c =>
    simp only [hc, Option.map_some'] at hj
    injection hj with hj
    split at hj
    · subst hj
      exact absurd rfl hd
    · rw [hj]

theorem Disciplined_unique {κ : Type} (x : Host κ) (m : Machine) (h : Disciplined x m) :
    UniqueOwners m.icList := by
  induction h with
  | empty m h =>
    intro a b ca cb ha _ hla _ _
    exact absurd (h ca (List.mem_iff_getElem?.2 ⟨a, ha⟩)) hla
  | init m m1 cur gsort hCode event hpoly actorid pinvo myEscape i _ hown h ih =>
    obtain ⟨slot, ic0, _, _, _, hdef, hm1⟩ :=
      InitInterpretContext_ok x cur gsort hCode event hpoly actorid pinvo myEscape m m1 i h
    rw [hm1]
    apply UniqueOwners_set _ _ _ ih
    have hp : ic0.pProc = cur := by
      rw [hdef, LockCode_eq]
    rw [hp]
    exact hown
  | restore m m1 cur ric i _ hown h ih =>
    unfold RestoreInterpretContext at h
    cases ha : AllocateInterpretContext x cur GSORT.GS_NONE m.icList with
    | error f => simp [ha] at h
    | ok r =>
      obtain ⟨k, l⟩ := r
      simp only [ha] at h
      injection h with h
      injection h with h1 h2
      subst h2
      obtain ⟨slot, hs, _, hl, _⟩ := AllocateInterpretContext_ok x cur _ m.icList l k ha
      have hk : k < m.icList.length := getElem?_lt _ _ _ hs
      have hlk : l[k]? = some { slot with pProc := cur, GSort := GSORT.GS_NONE } := by
        rw [hl]
        exact List.getElem?_set_self hk
      show UniqueOwners (updateSlot _ k l)
      rw [updateSlot_eq_set _ _ _ _ hlk, hl, List.set_set]
      apply UniqueOwners_set _ _ _ ih
      have hp : (LockCode x m.hMasterScript
          { ric with pProc := cur, resumeState := RESUME_STATE.RES_1 }).pProc = cur := by
        rw [LockCode_eq]
      rw [hp]
      exact hown
  | freePi m m1 i _ h ih =>
    unfold FreeInterpretContextPi at h
    cases hf : FreeWaitCheck i true m with
    | ok m2 =>
      simp only [hf] at h
      injection h with h
      subst h
      exact UniqueOwners_shrink _ _ ih (release_shrinks x i true m m2 hf)
    | suspended m2 => simp [hf] at h
    | fatal f m2 => simp [hf] at h
    | timeout m2 => simp [hf] at h
  | freePr m m1 p _ h ih =>
    unfold FreeInterpretContextPr at h
    simp only at h
    split at h
    · cases hf : FreeWaitCheck (findContext p m.icList) false m with
      | ok m2 =>
        simp only [hf] at h
        injection h with h
        subst h
        exact UniqueOwners_shrink _ _ ih (release_shrinks x _ false m m2 hf)
      | suspended m2 => simp [hf] at h
      | fatal f m2 => simp [hf] at h
      | timeout m2 => simp [hf] at h
    · injection h with h
      subst h
      exact ih
  | freeMost m _ ih =>
    exact UniqueOwners_shrink _ _ ih
      (fun j d hj hd => ⟨d, FreeMost_live m.icList j d hj hd, hd, rfl⟩)
  | freeMaster m _ ih =>
    exact UniqueOwners_shrink _ _ ih
      (fun j d hj hd => ⟨d, freeMasterLoop_live m.icList j d hj hd, hd, rfl⟩)

theorem OwnsNone_of_free (cur : Nat) (l : List INT_CONTEXT)
    (h : ∀ c, c ∈ l → c.GSort = GSORT.GS_NONE) : OwnsNone cur l := by
  intro j d hj hd
  exact absurd (h d (List.mem_iff_getElem?.2 ⟨j, hj⟩)) hd

/-- C13, as stated, does not hold. In a debug build: process 1 and process 2 each get a
context (slots 0 and 1), the context of process 1 is released, and process 2 asks for
another context; the scan returns the free slot 0 before it meets slot 1, so both live
slots are owned by process 2. In a non-debug build the scan never looks at the owner:
process 1 simply gets two contexts. -/
theorem second_context_for_owner :
    (∃ m1 m2 m3 m4 : Machine,
      InitInterpretContext debugHost 1 (GSORT.GS_OTHER 0) 0 0 0 0 0 0 sampleFresh
        = .ok (0, m1) ∧
      InitInterpretContext debugHost 2 (GSORT.GS_OTHER 0) 0 0 0 0 0 0 m1 = .ok (1, m2) ∧
      FreeInterpretContextPr debugHost 1 m2 = .ok m3 ∧
      InitInterpretContext debugHost 2 (GSORT.GS_OTHER 0) 0 0 0 0 0 0 m3 = .ok (0, m4) ∧
      (m4.icList.map fun c => (c.GSort, c.pProc))
        = [(GSORT.GS_OTHER 0, 2), (GSORT.GS_OTHER 0, 2)]) ∧
    (∃ m1 m2 : Machine,
      InitInterpretContext sampleHost 1 (GSORT.GS_OTHER 0) 0 0 0 0 0 0 sampleFresh
        = .ok (0, m1) ∧
      InitInterpretContext sampleHost 1 (GSORT.GS_OTHER 0) 0 0 0 0 0 0 m1 = .ok (1, m2) ∧
      (m2.icList.map fun c => (c.GSort, c.pProc))
        = [(GSORT.GS_OTHER 0, 1), (GSORT.GS_OTHER 0, 1)]) :=
  ⟨⟨_, _, _, _, rfl, rfl, rfl, rfl, rfl⟩, ⟨_, _, rfl, rfl, rfl⟩⟩

/-- C13 (amended): in every pool state reachable from a pool of free slots through
`InitInterpretContext` and `RestoreInterpretContext` called by processes that own no live
context at the time of the call, and through the release operations, no two live slots
have the same owner. The allocation scan itself rejects a request of a process that owns
a live context only in a debug build, and only when that context comes before the first
free slot. -/
theorem one_context_per_process {κ : Type} (x : Host κ) (m : Machine) :
    (Disciplined x m → UniqueOwners m.icList) ∧
    (x.DEBUG = true → ∀ (cur : Nat) (gsort : GSORT) (hCode event : Nat) (hpoly actorid : Int)
        (pinvo : Nat) (myEscape : Int) (j : Nat) (c : INT_CONTEXT),
      m.icList[j]? = some c → c.pProc = cur →
      (∀ (k : Nat) (d : INT_CONTEXT), k ≤ j → m.icList[k]? = some d →
        d.GSort ≠ GSORT.GS_NONE) →
      ∃ f, InitInterpretContext x cur gsort hCode event hpoly actorid pinvo myEscape m
        = .error f) := by
  refine ⟨Disciplined_unique x m, ?_⟩
  intro hD cur gsort hCode event hpoly actorid pinvo myEscape j c hj hc hlive
  obtain ⟨f, hf⟩ := (AllocateInterpretContext_error_iff x cur gsort m.icList).2
    (Or.inr ⟨hD, j, c, hj, hc, hlive⟩)
  refine ⟨f, ?_⟩
  unfold InitInterpretContext
  rw [hf]

theorem one_context_per_process_witness :
    ∃ m1 : Machine,
      InitInterpretContext sampleHost 1 (GSORT.GS_OTHER 0) 0 0 0 0 0 0 sampleFresh
        = .ok (0, m1) ∧ UniqueOwners m1.icList :=
  ⟨_, rfl, (one_context_per_process sampleHost _).1
    (Disciplined.init sampleFresh _ 1 (GSORT.GS_OTHER 0) 0 0 0 0 0 0 0
      (Disciplined.empty sampleFresh (by decide))
      (OwnsNone_of_free 1 _ (by decide)) rfl)⟩

/-! ### The wait-pair invariant under release -/

/-- The first loop of `FreeWaitCheck` when at most one slot has the token: pointwise. -/
theorem clearWaitee_pointwise (w : Nat) (l : List INT_CONTEXT) (cI : Nat)
    (huniq : ∀ (k : Nat) (d : INT_CONTEXT), l[k]? = some d → d.waitNumber2 = w → k = cI) :
    (clearWaitee w l).length = l.length ∧
    ∀ (j : Nat) (c : INT_CONTEXT), l[j]? = some c →
      (clearWaitee w l)[j]? =
        some { c with waitNumber2 := if c.waitNumber2 = w then 0 else c.waitNumber2 } := by
  rcases clearWaitee_cases w l with ⟨hnone, heq⟩ | ⟨k, d, hk, hd, _, heq⟩
  · rw [heq]
    refine ⟨rfl, ?_⟩
    intro j c hj
    rw [if_neg (hnone j c hj), hj]
  · rw [heq]
    refine ⟨by simp, ?_⟩
    intro j c hj
    by_cases hjk : k = j
    · subst hjk
      rw [hk] at hj
      injection hj with hj
      subst hj
      rw [List.getElem?_set_self (getElem?_lt _ _ _ hk), if_pos hd]
    · rw [List.getElem?_set_ne hjk, hj]
      have hne : c.waitNumber2 ≠ w := by
        intro hc
        have h1 := huniq j c hj hc
        have h2 := huniq k d hk hd
        omega
      rw [if_neg hne]

/-- The second loop of `FreeWaitCheck` when exactly one slot has the token: pointwise. -/
theorem notifyWaiter_pointwise (w : Nat) (rc : RESCODE) (l : List INT_CONTEXT) (a : Nat)
    (A : INT_CONTEXT) (hA : l[a]? = some A) (hAw : A.waitNumber1 = w)
    (huniq : ∀ (k : Nat) (d : INT_CONTEXT), l[k]? = some d → d.waitNumber1 = w → k = a) :
    ∃ l2 : List INT_CONTEXT, notifyWaiter w rc l = some (l2, A.pProc) ∧
      l2.length = l.length ∧
      ∀ (j : Nat) (c : INT_CONTEXT), l[j]? = some c →
        ∃ c2 : INT_CONTEXT, l2[j]? = some c2 ∧ c2.GSort = c.GSort ∧
          c2.waitNumber2 = c.waitNumber2 ∧
          c2.waitNumber1 = (if c.waitNumber1 = w then 0 else c.waitNumber1) := by
  rcases notifyWaiter_cases w rc l with ⟨hnone, _⟩ | ⟨k, d, hk, hd, _, heq⟩
  · exact absurd hAw (hnone a A hA)
  · have hka : k = a := huniq k d hk hd
    subst hka
    rw [hk] at hA
    injection hA with hA
    subst hA
    refine ⟨_, heq, by simp, ?_⟩
    intro j c hj
    by_cases hjk : k = j
    · subst hjk
      rw [hk] at hj
      injection hj with hj
      subst hj
      refine ⟨_, List.getElem?_set_self (getElem?_lt _ _ _ hk), rfl, rfl, ?_⟩
      rw [if_pos hd]
    · refine ⟨c, by rw [List.getElem?_set_ne hjk, hj], rfl, rfl, ?_⟩
      have hne : c.waitNumber1 ≠ w := by
        intro hc
        exact hjk (huniq j c hj hc).symm
      rw [if_neg hne]

/-- The first part of `FreeWaitCheck` for a live context of a paired pool: pointwise. -/
theorem freeWaitCheck_first_paired (l : List INT_CONTEXT) (b : Nat) (B : INT_CONTEXT)
    (hB : l[b]? = some B) (hlive : B.GSort ≠ GSORT.GS_NONE) (hinv : WaitPairedStrict l) :
    (if B.waitNumber1 ≠ 0 then clearWaitee B.waitNumber1 l else l).length = l.length ∧
    ∀ (j : Nat) (c : INT_CONTEXT), l[j]? = some c →
      (if B.waitNumber1 ≠ 0 then clearWaitee B.waitNumber1 l else l)[j]? =
        some { c with waitNumber2 :=
          if B.waitNumber1 ≠ 0 ∧ c.waitNumber2 = B.waitNumber1 then 0 else c.waitNumber2 } := by
  by_cases hw1 : B.waitNumber1 ≠ 0
  · obtain ⟨cI, C, _, _, _, huniq⟩ := (hinv b B hB hlive).2 hw1
    obtain ⟨hlen, hp⟩ := clearWaitee_pointwise B.waitNumber1 l cI huniq
    rw [if_pos hw1]
    refine ⟨hlen, ?_⟩
    intro j c hj
    rw [hp j c hj]
    by_cases hc : c.waitNumber2 = B.waitNumber1
    · rw [if_pos hc, if_pos ⟨hw1, hc⟩]
    · rw [if_neg hc, if_neg (fun h => hc h.2)]
  · rw [if_neg hw1]
    refine ⟨rfl, ?_⟩
    intro j c hj
    rw [if_neg (fun h => hw1 h.1), hj]

/-- What `FreeWaitCheck` does to a paired pool, for a live context `B` in slot `b`: it
does not fail; every slot keeps its sort; `waitNumber2` is cleared exactly in the slot
`B` waits for, and `waitNumber1` exactly in the slot that waits for `B`. -/
theorem FreeWaitCheck_paired (v : Bool) (m : Machine) (b : Nat) (B : INT_CONTEXT)
    (hB : m.icList[b]? = some B) (hlive : B.GSort ≠ GSORT.GS_NONE)
    (hinv : WaitPairedStrict m.icList) :
    ∃ m1 : Machine, FreeWaitCheck b v m = .ok m1 ∧ m1.icList.length = m.icList.length ∧
      ∀ (j : Nat) (c : INT_CONTEXT), m.icList[j]? = some c →
        ∃ c1 : INT_CONTEXT, m1.icList[j]? = some c1 ∧ c1.GSort = c.GSort ∧
          c1.waitNumber2 =
            (if B.waitNumber1 ≠ 0 ∧ c.waitNumber2 = B.waitNumber1 then 0
              else c.waitNumber2) ∧
          c1.waitNumber1 =
            (if (if B.waitNumber1 ≠ 0 ∧ B.waitNumber2 = B.waitNumber1 then 0
                  else B.waitNumber2) ≠ 0 ∧
                c.waitNumber1 = (if B.waitNumber1 ≠ 0 ∧ B.waitNumber2 = B.waitNumber1 then 0
                  else B.waitNumber2) then 0
              else c.waitNumber1) := by
  obtain ⟨hlen1, hp1⟩ := freeWaitCheck_first_paired m.icList b B hB hlive hinv
  have hpic : ((if B.waitNumber1 ≠ 0 then clearWaitee B.waitNumber1 m.icList
      else m.icList)[b]?).getD B = { B with waitNumber2 :=
        if B.waitNumber1 ≠ 0 ∧ B.waitNumber2 = B.waitNumber1 then 0 else B.waitNumber2 } := by
    rw [hp1 b B hB]
    rfl
  unfold FreeWaitCheck
  simp only [hB, hpic]
  by_cases hW : (if B.waitNumber1 ≠ 0 ∧ B.waitNumber2 = B.waitNumber1 then 0
      else B.waitNumber2) ≠ 0
  · rw [if_pos hW]
    have hW2 : (if B.waitNumber1 ≠ 0 ∧ B.waitNumber2 = B.waitNumber1 then 0
        else B.waitNumber2) = B.waitNumber2 := by
      split
      · rename_i h
        rw [if_pos h] at hW
        exact absurd rfl hW
      · rfl
    rw [hW2] at hW ⊢
    obtain ⟨a, A, hA, _, hAw, huniq⟩ := (hinv b B hB hlive).1 hW
    have huniq1 : ∀ (k : Nat) (d : INT_CONTEXT),
        (if B.waitNumber1 ≠ 0 then clearWaitee B.waitNumber1 m.icList else m.icList)[k]?
          = some d → d.waitNumber1 = B.waitNumber2 → k = a := by
      intro k d hk hd
      have hkl : k < m.icList.length := by
        rw [← hlen1]
        exact getElem?_lt _ _ _ hk
      have hc : m.icList[k]? = some m.icList[k] := by simp [hkl]
      rw [hp1 k _ hc] at hk
      injection hk with hk
      subst hk
      exact huniq k _ hc hd
    obtain ⟨l2, hn, hlen2, hp2⟩ := notifyWaiter_pointwise B.waitNumber2
      (if v then RESCODE.RES_FINISHED else RESCODE.RES_CUTSHORT) _ a _ (hp1 a A hA) hAw huniq1
    simp only [hn]
    refine ⟨_, rfl, by rw [hlen2, hlen1], ?_⟩
    intro j c hj
    obtain ⟨c2, h2, hg, hw2, hw1⟩ := hp2 j _ (hp1 j c hj)
    dsimp only at hg hw2 hw1
    refine ⟨c2, h2, hg, hw2, ?_⟩
    rw [hw1]
    by_cases hc : c.waitNumber1 = B.waitNumber2
    · rw [if_pos hc, if_pos ⟨hW, hc⟩]
    · rw [if_neg hc, if_neg (fun h => hc h.2)]
  · rw [if_neg hW]
    refine ⟨_, rfl, hlen1, ?_⟩
    intro j c hj
    refine ⟨_, hp1 j c hj, rfl, rfl, ?_⟩
    dsimp only
    rw [if_neg (fun h => hW h.1)]

theorem getElem?_of_length_eq {α : Type} (l l1 : List α) (hlen : l1.length = l.length)
    (k : Nat) (d : α) (hk : l[k]? = some d) : ∃ d1, l1[k]? = some d1 := by
  have hkl : k < l1.length := by
    rw [hlen]
    exact getElem?_lt _ _ _ hk
  exact ⟨l1[k], by simp [hkl]⟩

/-- The invariant after a release, from a pointwise description of the new pool `l1`:
slot `b` is free; in the other slots `waitNumber2` is cleared exactly where it is the
released context's `waitNumber1`, and `waitNumber1` exactly where it is the released
context's `waitNumber2` (as left by the first loop, `W2`); no wait number changes except
to 0. -/
theorem paired_after (l l1 : List INT_CONTEXT) (b : Nat) (B : INT_CONTEXT) (W2 : Nat)
    (hB : l[b]? = some B) (hinv : WaitPairedStrict l)
    (hW2 : W2 = if B.waitNumber1 ≠ 0 ∧ B.waitNumber2 = B.waitNumber1 then 0
      else B.waitNumber2)
    (hlen : l1.length = l.length)
    (hb : ∀ d1 : INT_CONTEXT, l1[b]? = some d1 → d1.GSort = GSORT.GS_NONE)
    (hweak : ∀ (k : Nat) (d d1 : INT_CONTEXT), l[k]? = some d → l1[k]? = some d1 →
      (d1.waitNumber1 = 0 ∨ d1.waitNumber1 = d.waitNumber1) ∧
      (d1.waitNumber2 = 0 ∨ d1.waitNumber2 = d.waitNumber2))
    (hother : ∀ (k : Nat) (d d1 : INT_CONTEXT), k ≠ b → l[k]? = some d → l1[k]? = some d1 →
      d1.GSort = d.GSort ∧
      d1.waitNumber2 = (if B.waitNumber1 ≠ 0 ∧ d.waitNumber2 = B.waitNumber1 then 0
        else d.waitNumber2) ∧
      d1.waitNumber1 = (if W2 ≠ 0 ∧ d.waitNumber1 = W2 then 0 else d.waitNumber1)) :
    WaitPairedStrict l1 := by
  have hWB : W2 ≠ 0 → W2 = B.waitNumber2 := by
    intro h0
    rw [hW2] at h0 ⊢
    split
    · rename_i h
      rw [if_pos h] at h0
      exact absurd rfl h0
    · rfl
  intro j c1 hj1 hlive1
  have hjb : j ≠ b := by
    intro h
    subst h
    exact hlive1 (hb c1 hj1)
  obtain ⟨c, hj⟩ := getElem?_of_length_eq l1 l hlen.symm j c1 hj1
  obtain ⟨hg, h2, h1⟩ := hother j c c1 hjb hj hj1
  have hcl : c.GSort ≠ GSORT.GS_NONE := by
    rw [← hg]
    exact hlive1
  constructor
  · intro ht
    have hcond : ¬ (B.waitNumber1 ≠ 0 ∧ c.waitNumber2 = B.waitNumber1) := by
      intro hc
      rw [h2, if_pos hc] at ht
      exact ht rfl
    have hc2 : c1.waitNumber2 = c.waitNumber2 := by rw [h2, if_neg hcond]
    rw [hc2] at ht ⊢
    obtain ⟨k, d, hk, hdl, hdw, huniq⟩ := (hinv j c hj hcl).1 ht
    have hkb : k ≠ b := by
      intro h
      subst h
      rw [hB] at hk
      injection hk with hk
      subst hk
      exact hcond ⟨by rw [hdw]; exact ht, hdw.symm⟩
    obtain ⟨d1, hk1⟩ := getElem?_of_length_eq l l1 hlen k d hk
    obtain ⟨hg1, _, h11⟩ := hother k d d1 hkb hk hk1
    have hcondW : ¬ (W2 ≠ 0 ∧ d.waitNumber1 = W2) := by
      rintro ⟨hW0, hdW⟩
      have hWb := hWB hW0
      obtain ⟨k3, d3, _, _, _, hu3⟩ := (hinv k d hk hdl).2 (by rw [hdw]; exact ht)
      have e1 := hu3 j c hj hdw.symm
      have e2 := hu3 b B hB (by rw [← hWb]; exact hdW.symm)
      exact hjb (e1.trans e2.symm)
    refine ⟨k, d1, hk1, by rw [hg1]; exact hdl, by rw [h11, if_neg hcondW]; exact hdw, ?_⟩
    intro k2 e1 hk21 he1
    obtain ⟨e, hk2⟩ := getElem?_of_length_eq l1 l hlen.symm k2 e1 hk21
    rcases (hweak k2 e e1 hk2 hk21).1 with h0 | he
    · rw [h0] at he1
      exact absurd he1.symm ht
    · exact huniq k2 e hk2 (by rw [← he]; exact he1)
  · intro ht
    have hcond : ¬ (W2 ≠ 0 ∧ c.waitNumber1 = W2) := by
      intro hc
      rw [h1, if_pos hc] at ht
      exact ht rfl
    have hc1 : c1.waitNumber1 = c.waitNumber1 := by rw [h1, if_neg hcond]
    rw [hc1] at ht ⊢
    obtain ⟨k, d, hk, hdl, hdw, huniq⟩ := (hinv j c hj hcl).2 ht
    have hcondB : ¬ (B.waitNumber1 ≠ 0 ∧ d.waitNumber2 = B.waitNumber1) := by
      rintro ⟨hB0, hdB⟩
      obtain ⟨k3, d3, _, _, _, hu3⟩ := (hinv k d hk hdl).1 (by rw [hdw]; exact ht)
      have e1 := hu3 j c hj hdw.symm
      have e2 := hu3 b B hB hdB.symm
      exact hjb (e1.trans e2.symm)
    have hkb : k ≠ b := by
      intro h
      subst h
      rw [hB] at hk
      injection hk with hk
      subst hk
      by_cases hself : B.waitNumber1 ≠ 0 ∧ B.waitNumber2 = B.waitNumber1
      · exact hcondB hself
      · rw [if_neg hself] at hW2
        exact hcond ⟨by rw [hW2, hdw]; exact ht, by rw [hW2, hdw]⟩
    obtain ⟨d1, hk1⟩ := getElem?_of_length_eq l l1 hlen k d hk
    obtain ⟨hg1, h21, _⟩ := hother k d d1 hkb hk hk1
    refine ⟨k, d1, hk1, by rw [hg1]; exact hdl, by rw [h21, if_neg hcondB]; exact hdw, ?_⟩
    intro k2 e1 hk21 he1
    obtain ⟨e, hk2⟩ := getElem?_of_length_eq l1 l hlen.symm k2 e1 hk21
    rcases (hweak k2 e e1 hk2 hk21).2 with h0 | he
    · rw [h0] at he1
      exact absurd he1.symm ht
    · exact huniq k2 e hk2 (by rw [← he]; exact he1)

theorem releaseSlot_waits {κ : Type} (x : Host κ) (c : INT_CONTEXT) :
    ((releaseSlot x c).waitNumber1 = 0 ∨ (releaseSlot x c).waitNumber1 = c.waitNumber1) ∧
    ((releaseSlot x c).waitNumber2 = 0 ∨ (releaseSlot x c).waitNumber2 = c.waitNumber2) := by
  unfold releaseSlot
  by_cases hv : x.TinselV2 = true
  · rw [if_pos hv]
    exact ⟨Or.inl rfl, Or.inl rfl⟩
  · rw [if_neg hv]
    exact ⟨Or.inr rfl, Or.inr rfl⟩

theorem ite_zero_or (p : Prop) [Decidable p] (n : Nat) (k : Nat)
    (h : k = if p then 0 else n) : k = 0 ∨ k = n := by
  by_cases hp : p
  · rw [if_pos hp] at h
    exact Or.inl h
  · rw [if_neg hp] at h
    exact Or.inr h

/-- Releasing a live context of a paired pool, voluntarily or not: the wait check does not
fail and the pool is paired afterwards. -/
theorem release_paired {κ : Type} (x : Host κ) (v : Bool) (m : Machine) (b : Nat)
    (B : INT_CONTEXT) (hB : m.icList[b]? = some B) (hlive : B.GSort ≠ GSORT.GS_NONE)
    (hinv : WaitPairedStrict m.icList) :
    ∃ m1 : Machine, FreeWaitCheck b v m = .ok m1 ∧
      WaitPairedStrict (updateSlot (releaseSlot x) b m1.icList) := by
  obtain ⟨m1, hf, hlen, hp⟩ := FreeWaitCheck_paired v m b B hB hlive hinv
  refine ⟨m1, hf, ?_⟩
  obtain ⟨B1, hB1, _, hB12, hB11⟩ := hp b B hB
  rw [updateSlot_eq_set _ _ _ _ hB1]
  have hb1 : b < m1.icList.length := getElem?_lt _ _ _ hB1
  apply paired_after m.icList _ b B _ hB hinv rfl
  · simp [hlen]
  · intro d1 hd1
    rw [List.getElem?_set_self hb1] at hd1
    injection hd1 with hd1
    rw [← hd1]
    rfl
  · intro k d d1 hk hk1
    by_cases hkb : b = k
    · subst hkb
      rw [List.getElem?_set_self hb1] at hk1
      injection hk1 with hk1
      subst hk1
      rw [hB] at hk
      injection hk with hk
      subst hk
      obtain ⟨hr1, hr2⟩ := releaseSlot_waits x B1
      constructor
      · rcases hr1 with h | h
        · exact Or.inl h
        · rw [h]
          exact ite_zero_or _ _ _ hB11
      · rcases hr2 with h | h
        · exact Or.inl h
        · rw [h]
          exact ite_zero_or _ _ _ hB12
    · rw [List.getElem?_set_ne hkb] at hk1
      obtain ⟨c1, hc1, _, h2, h1⟩ := hp k d hk
      rw [hk1] at hc1
      injection hc1 with hc1
      subst hc1
      exact ⟨ite_zero_or _ _ _ h1, ite_zero_or _ _ _ h2⟩
  · intro k d d1 hkb hk hk1
    rw [List.getElem?_set_ne (Ne.symm hkb)] at hk1
    obtain ⟨c1, hc1, hg, h2, h1⟩ := hp k d hk
    rw [hk1] at hc1
    injection hc1 with hc1
    subst hc1
    exact ⟨hg, h2, h1⟩

/-- The strict invariant implies the invariant among live contexts. -/
theorem WaitPairedStrict_live (l : List INT_CONTEXT) (h : WaitPairedStrict l) :
    WaitPaired l := by
  intro j c hj hl
  obtain ⟨h2, h1⟩ := h j c hj hl
  constructor
  · intro ht
    obtain ⟨k, d, hk, hdl, hdw, hu⟩ := h2 ht
    exact ⟨k, d, hk, hdl, hdw, fun k2 d2 hk2 _ hd2 => hu k2 d2 hk2 hd2⟩
  · intro ht
    obtain ⟨k, d, hk, hdl, hdw, hu⟩ := h1 ht
    exact ⟨k, d, hk, hdl, hdw, fun k2 d2 hk2 _ hd2 => hu k2 d2 hk2 hd2⟩

/-- The strict invariant depends only on the sort and the wait numbers of the slots. -/
theorem WaitPairedStrict_congr (l l2 : List INT_CONTEXT) (hlen : l2.length = l.length)
    (hs : ∀ (k : Nat) (d d2 : INT_CONTEXT), l[k]? = some d → l2[k]? = some d2 →
      SameLinks d d2) (h : WaitPairedStrict l) : WaitPairedStrict l2 := by
  intro j c2 hj2 hl2
  obtain ⟨c, hj⟩ := getElem?_of_length_eq l2 l hlen.symm j c2 hj2
  obtain ⟨hw1, hw2, hg, _⟩ := hs j c c2 hj hj2
  obtain ⟨h2, h1⟩ := h j c hj (by rw [← hg]; exact hl2)
  constructor
  · intro ht
    rw [hw2] at ht ⊢
    obtain ⟨k, d, hk, hdl, hdw, hu⟩ := h2 ht
    obtain ⟨d2, hk2⟩ := getElem?_of_length_eq l l2 hlen k d hk
    obtain ⟨e1, _, eg, _⟩ := hs k d d2 hk hk2
    refine ⟨k, d2, hk2, by rw [eg]; exact hdl, by rw [e1]; exact hdw, ?_⟩
    intro k3 d3 hk3 hd3
    obtain ⟨d4, hk4⟩ := getElem?_of_length_eq l2 l hlen.symm k3 d3 hk3
    obtain ⟨f1, _, _, _⟩ := hs k3 d4 d3 hk4 hk3
    exact hu k3 d4 hk4 (by rw [← f1]; exact hd3)
  · intro ht
    rw [hw1] at ht ⊢
    obtain ⟨k, d, hk, hdl, hdw, hu⟩ := h1 ht
    obtain ⟨d2, hk2⟩ := getElem?_of_length_eq l l2 hlen k d hk
    obtain ⟨_, e2, eg, _⟩ := hs k d d2 hk hk2
    refine ⟨k, d2, hk2, by rw [eg]; exact hdl, by rw [e2]; exact hdw, ?_⟩
    intro k3 d3 hk3 hd3
    obtain ⟨d4, hk4⟩ := getElem?_of_length_eq l2 l hlen.symm k3 d3 hk3
    obtain ⟨_, f2, _, _⟩ := hs k3 d4 d3 hk4 hk3
    exact hu k3 d4 hk4 (by rw [← f2]; exact hd3)

/-- The loop of `Interpret` keeps the links of the context it runs. -/
theorem InterpretLoop_links {κ : Type} (x : Host κ) (fuel : Nat) (s : Exec κ) :
    SameLinks s.ic (InterpretLoop x fuel s).state.ic := by
  induction fuel generalizing s with
  | zero => exact ⟨rfl, rfl, rfl, rfl, rfl⟩
  | succ n ih =>
    have hb := (InterpretBody_frame x s).1
    unfold InterpretLoop
    cases hr : InterpretBody x s with
    | ok s1 =>
      rw [hr] at hb
      simp only
      split
      · exact hb
      · obtain ⟨a1, a2, a3, a4, a5⟩ := ih s1
        obtain ⟨b1, b2, b3, b4, b5⟩ := hb
        exact ⟨a1.trans b1, a2.trans b2, a3.trans b3, a4.trans b4, a5.trans b5⟩
    | suspended s1 =>
      rw [hr] at hb
      exact hb
    | fatal f s1 =>
      rw [hr] at hb
      exact hb
    | timeout s1 =>
      rw [hr] at hb
      exact hb

theorem getElem?_three {α : Type} (a b c : α) (k : Nat) (d : α)
    (h : [a, b, c][k]? = some d) : (k = 0 ∧ d = a) ∨ (k = 1 ∧ d = b) ∨ (k = 2 ∧ d = c) := by
  match k, h with
  | 0, h => exact Or.inl ⟨rfl, by simpa using h.symm⟩
  | 1, h => exact Or.inr (Or.inl ⟨rfl, by simpa using h.symm⟩)
  | 2, h => exact Or.inr (Or.inr ⟨rfl, by simpa using h.symm⟩)
  | k + 3, h => simp at h

theorem getElem?_two {α : Type} (a b : α) (k : Nat) (d : α)
    (h : [a, b][k]? = some d) : (k = 0 ∧ d = a) ∨ (k = 1 ∧ d = b) := by
  match k, h with
  | 0, h => exact Or.inl ⟨rfl, by simpa using h.symm⟩
  | 1, h => exact Or.inr ⟨rfl, by simpa using h.symm⟩
  | k + 2, h => simp at h

/-- C11, as stated, does not hold. In this pool the live contexts are paired: slot 1
waits with token 7 for slot 2. But the free slot 0 still carries 7 as its `waitNumber2`,
and the loops of `FreeWaitCheck` look at every slot, free or not: when process 1 dies,
`FreeInterpretContextPr(1)` clears the `waitNumber2` of slot 0 and stops, so the live
context in slot 2 keeps `waitNumber2 = 7` while no live context has `waitNumber1 = 7`. -/
theorem stale_slot_breaks_pairing :
    WaitPaired staleWaitMachine.icList ∧
    ∃ m1 : Machine, FreeInterpretContextPr sampleHost 1 staleWaitMachine = .ok m1 ∧
      m1.icList =
        [{ sampleContext [] with pProc := 3, GSort := GSORT.GS_NONE },
         zeroed (sampleContext []),
         { sampleContext [] with pProc := 2, waitNumber2 := 7 }] ∧
      ¬ WaitPaired m1.icList := by
  constructor
  · intro j c hj hl
    rcases getElem?_three _ _ _ j c hj with ⟨rfl, rfl⟩ | ⟨rfl, rfl⟩ | ⟨rfl, rfl⟩
    · exact absurd rfl hl
    · refine ⟨fun h => absurd rfl h, fun _ => ⟨2, _, rfl, by decide, rfl, ?_⟩⟩
      intro k2 d2 hk2 hl2 hd2
      rcases getElem?_three _ _ _ k2 d2 hk2 with ⟨rfl, rfl⟩ | ⟨rfl, rfl⟩ | ⟨rfl, rfl⟩
      · exact absurd rfl hl2
      · exact absurd hd2 (by decide)
      · rfl
    · refine ⟨fun _ => ⟨1, _, rfl, by decide, rfl, ?_⟩, fun h => absurd rfl h⟩
      intro k2 d2 hk2 hl2 hd2
      rcases getElem?_three _ _ _ k2 d2 hk2 with ⟨rfl, rfl⟩ | ⟨rfl, rfl⟩ | ⟨rfl, rfl⟩
      · exact absurd rfl hl2
      · rfl
      · exact absurd hd2 (by decide)
  · refine ⟨_, rfl, rfl, ?_⟩
    intro h
    obtain ⟨k, d, hk, hdl, hdw, _⟩ :=
      (h 2 { sampleContext [] with pProc := 2, waitNumber2 := 7 } rfl (by decide)).1
        (by decide)
    rcases getElem?_three _ _ _ k d hk with ⟨rfl, rfl⟩ | ⟨rfl, rfl⟩ | ⟨rfl, rfl⟩
    · exact absurd rfl hdl
    · exact absurd rfl hdl
    · exact absurd hdw (by decide)

theorem FreeInterpretContextPi_paired {κ : Type} (x : Host κ) (m : Machine) (i : Nat)
    (ic : INT_CONTEXT) (hic : m.icList[i]? = some ic) (hlive : ic.GSort ≠ GSORT.GS_NONE)
    (hinv : WaitPairedStrict m.icList) :
    ∃ m1 : Machine, FreeInterpretContextPi x i m = .ok m1 ∧ WaitPairedStrict m1.icList := by
  obtain ⟨m1, hf, hp⟩ := release_paired x true m i ic hic hlive hinv
  refine ⟨{ m1 with icList := updateSlot (releaseSlot x) i m1.icList }, ?_, hp⟩
  unfold FreeInterpretContextPi
  rw [hf]

theorem FreeInterpretContextPr_paired {κ : Type} (x : Host κ) (m : Machine) (p : Nat)
    (hinv : WaitPairedStrict m.icList) :
    ∃ m1 : Machine, FreeInterpretContextPr x p m = .ok m1 ∧ WaitPairedStrict m1.icList := by
  rcases findContext_spec p m.icList with ⟨hnone, _⟩ | ⟨c, hc, hlive, _, _⟩
  · refine ⟨m, ?_, hinv⟩
    unfold FreeInterpretContextPr
    simp [hnone]
  · obtain ⟨m1, hf, hp⟩ := release_paired x false m _ c hc hlive hinv
    refine ⟨{ m1 with icList := updateSlot (releaseSlot x) (findContext p m.icList) m1.icList },
      ?_, hp⟩
    unfold FreeInterpretContextPr
    simp [getElem?_lt _ _ _ hc, hf]

/-- C11 (amended): let every live context of the pool be paired over all slots: a non-zero
`waitNumber2` is the `waitNumber1` of exactly one slot of the pool, a non-zero
`waitNumber1` is the `waitNumber2` of exactly one slot, and that slot is live. Then
`FreeInterpretContextPr(p)` succeeds for every process `p`, the voluntary release
`FreeInterpretContextPi` of a live context succeeds, and so does the release at the end of
an `Interpret` run of a live context whose loop ends halted with the stack unwound; after
each of them the pool is paired in the same way, and therefore also paired among its live
contexts: no dangling waiter and no dangling waitee remains. -/
theorem wait_pairs_preserved {κ : Type} (x : Host κ) (m : Machine)
    (hinv : WaitPairedStrict m.icList) :
    (∀ p : Nat, ∃ m1 : Machine, FreeInterpretContextPr x p m = .ok m1 ∧
      WaitPairedStrict m1.icList ∧ WaitPaired m1.icList) ∧
    (∀ (i : Nat) (ic : INT_CONTEXT), m.icList[i]? = some ic → ic.GSort ≠ GSORT.GS_NONE →
      ∃ m1 : Machine, FreeInterpretContextPi x i m = .ok m1 ∧
        WaitPairedStrict m1.icList ∧ WaitPaired m1.icList) ∧
    (∀ (fuel : Nat) (coroParam : Option κ) (i : Nat) (ic : INT_CONTEXT) (e : Exec κ),
      m.icList[i]? = some ic → ic.GSort ≠ GSORT.GS_NONE →
      InterpretLoop x fuel (m.toExec ic coroParam) = .ok e → e.ic.sp = 0 →
      ∃ m1 : Machine, Interpret x fuel coroParam i m = .ok (m1, e.coroParam) ∧
        WaitPairedStrict m1.icList ∧ WaitPaired m1.icList) := by
  refine ⟨?_, ?_, ?_⟩
  · intro p
    obtain ⟨m1, h1, h2⟩ := FreeInterpretContextPr_paired x m p hinv
    exact ⟨m1, h1, h2, WaitPairedStrict_live _ h2⟩
  · intro i ic hic hlive
    obtain ⟨m1, h1, h2⟩ := FreeInterpretContextPi_paired x m i ic hic hlive hinv
    exact ⟨m1, h1, h2, WaitPairedStrict_live _ h2⟩
  · intro fuel coroParam i ic e hic hlive hloop hsp
    have hlinks : SameLinks ic e.ic := by
      have := InterpretLoop_links x fuel (m.toExec ic coroParam)
      rw [hloop] at this
      exact this
    have hil : i < m.icList.length := getElem?_lt _ _ _ hic
    have hinv2 : WaitPairedStrict (m.ofExec i e).icList := by
      apply WaitPairedStrict_congr m.icList _ _ _ hinv
      · show (m.icList.set i e.ic).length = m.icList.length
        simp
      · intro k d d2 hk hk2
        have hk2 : (m.icList.set i e.ic)[k]? = some d2 := hk2
        by_cases hik : i = k
        · subst hik
          rw [List.getElem?_set_self hil] at hk2
          injection hk2 with hk2
          subst hk2
          rw [hic] at hk
          injection hk with hk
          subst hk
          exact hlinks
        · rw [List.getElem?_set_ne hik, hk] at hk2
          injection hk2 with hk2
          subst hk2
          exact ⟨rfl, rfl, rfl, rfl, rfl⟩
    have hslot : (m.ofExec i e).icList[i]? = some e.ic := by
      show (m.icList.set i e.ic)[i]? = some e.ic
      exact List.getElem?_set_self hil
    have hlive2 : e.ic.GSort ≠ GSORT.GS_NONE := by
      rw [hlinks.2.2.1]
      exact hlive
    obtain ⟨m1, h1, h2⟩ := FreeInterpretContextPi_paired x _ i e.ic hslot hlive2 hinv2
    refine ⟨m1, ?_, h2, WaitPairedStrict_live _ h2⟩
    unfold Interpret
    simp only [hic, hloop, hsp, if_true, h1]

/-- The example pool in which slot 0 waits for slot 1 is paired. -/
theorem sampleWaitMachine_paired : WaitPairedStrict sampleWaitMachine.icList := by
  intro j c hj hl
  rcases getElem?_two _ _ j c hj with ⟨rfl, rfl⟩ | ⟨rfl, rfl⟩
  · refine ⟨fun h => absurd rfl h, fun _ => ⟨1, _, rfl, by decide, rfl, ?_⟩⟩
    intro k2 d2 hk2 hd2
    rcases getElem?_two _ _ k2 d2 hk2 with ⟨rfl, rfl⟩ | ⟨rfl, rfl⟩
    · exact absurd hd2 (by decide)
    · rfl
  · refine ⟨fun _ => ⟨0, _, rfl, by decide, rfl, ?_⟩, fun h => absurd rfl h⟩
    intro k2 d2 hk2 hd2
    rcases getElem?_two _ _ k2 d2 hk2 with ⟨rfl, rfl⟩ | ⟨rfl, rfl⟩
    · rfl
    · exact absurd hd2 (by decide)

theorem wait_pairs_preserved_witness :
    (∃ m1 : Machine, FreeInterpretContextPr sampleHost 2 sampleWaitMachine = .ok m1 ∧
      WaitPairedStrict m1.icList ∧ WaitPaired m1.icList) ∧
    (∃ m1 : Machine, FreeInterpretContextPr sampleHost 1 sampleWaitMachine = .ok m1 ∧
      WaitPairedStrict m1.icList ∧ WaitPaired m1.icList) :=
  ⟨(wait_pairs_preserved sampleHost sampleWaitMachine sampleWaitMachine_paired).1 2,
   (wait_pairs_preserved sampleHost sampleWaitMachine sampleWaitMachine_paired).1 1⟩

/-! ### Division and modulus -/

theorem tmod_of_nonneg (a b : Int) (ha : 0 ≤ a) (hb : b ≠ 0) :
    0 ≤ Int.tmod a b ∧ (Int.tmod a b).natAbs < b.natAbs := by
  have h0 := Int.tmod_nonneg b ha
  refine ⟨h0, ?_⟩
  by_cases hpos : 0 < b
  · have := Int.tmod_lt_of_pos a hpos
    omega
  · have hneg : 0 < -b := by omega
    have := Int.tmod_lt_of_pos a hneg
    rw [Int.tmod_neg] at this
    omega

theorem tmod_neg_left (a b : Int) : Int.tmod (-a) b = -Int.tmod a b := by
  rw [Int.tmod_def, Int.tmod_def, Int.neg_tdiv]
  ring

theorem tmod_sign_bound (a b : Int) (hb : b ≠ 0) :
    (Int.tmod a b).natAbs < b.natAbs ∧ (0 ≤ a → 0 ≤ Int.tmod a b) ∧
      (a ≤ 0 → Int.tmod a b ≤ 0) := by
  by_cases ha : 0 ≤ a
  · obtain ⟨h0, h1⟩ := tmod_of_nonneg a b ha hb
    refine ⟨h1, fun _ => h0, fun h => ?_⟩
    have : a = 0 := by omega
    subst this
    simp
  · obtain ⟨h0, h1⟩ := tmod_of_nonneg (-a) b (by omega) hb
    rw [tmod_neg_left] at h0 h1
    refine ⟨by omega, fun h => absurd h ha, fun _ => by omega⟩

theorem tdiv_sign (a b : Int) :
    (0 ≤ a * b → 0 ≤ Int.tdiv a b) ∧ (a * b ≤ 0 → Int.tdiv a b ≤ 0) := by
  have hnn : ∀ c d : Int, 0 ≤ c → 0 ≤ d → 0 ≤ Int.tdiv c d := fun c d hc hd =>
    Int.tdiv_nonneg hc hd
  by_cases ha : 0 ≤ a
  · by_cases hb : 0 ≤ b
    · refine ⟨fun _ => hnn a b ha hb, fun h => ?_⟩
      have h0 : a * b = 0 := le_antisymm h (mul_nonneg ha hb)
      rcases mul_eq_zero.1 h0 with h1 | h1
      · subst h1
        simp
      · subst h1
        simp
    · have hq : Int.tdiv a b = -Int.tdiv a (-b) := by
        rw [Int.tdiv_neg]
        ring
      have h1 := hnn a (-b) ha (by omega)
      refine ⟨fun h => ?_, fun _ => by omega⟩
      by_cases ha0 : a = 0
      · subst ha0
        simp
      · have : a * b < 0 := mul_neg_of_pos_of_neg (by omega) (by omega)
        omega
  · have hq : Int.tdiv a b = -Int.tdiv (-a) b := by
      rw [Int.neg_tdiv]
      ring
    by_cases hb : 0 ≤ b
    · have h1 := hnn (-a) b (by omega) hb
      refine ⟨fun h => ?_, fun _ => by omega⟩
      by_cases hb0 : b = 0
      · subst hb0
        simp
      · have : a * b < 0 := mul_neg_of_neg_of_pos (by omega) (by omega)
        omega
    · have hq2 : Int.tdiv a b = Int.tdiv (-a) (-b) := by
        rw [Int.neg_tdiv, Int.tdiv_neg]
        ring
      have h1 := hnn (-a) (-b) (by omega) (by omega)
      refine ⟨fun _ => by omega, fun h => ?_⟩
      have : 0 < a * b := mul_pos_of_neg_of_neg (by omega) (by omega)
      omega

/-- C27: let the context be about to execute `OP_DIV` or `OP_MOD` with the dividend `a`
below the top of stack and the divisor `b` on top, `b != 0` and not (`a = -2^31` and
`b = -1`). Then the pass pops one word and leaves, for `OP_DIV`, the quotient `q` rounded
toward zero (`|q| = |a| / |b|` rounded down, with the sign of `a * b`) and, for `OP_MOD`,
`r = a - b * q`; `r` has the sign of `a` or is 0, `|r| < |b|` and `q * b + r = a`. For
example `-7 / 2 = -3` and `-7 % 2 = -1`. -/
theorem division_truncates {κ : Type} (x : Host κ) (s : Exec κ) (code : List Nat)
    (opcode : Nat) (a b : Int) (hcode : s.ic.code = some code)
    (hop : readByte code s.ic.ip = some opcode) (hsp : 1 ≤ s.ic.sp)
    (hlen : s.ic.stack.length ≤ x.PCODE_STACK_SIZE)
    (ha : stackRead s.ic.stack (s.ic.sp - 1) = some a)
    (hb : stackRead s.ic.stack s.ic.sp = some b)
    (hb0 : b ≠ 0) (hov : ¬ (a = -2147483648 ∧ b = -1)) :
    (opcode = OP_DIV → InterpretBody x s = .ok { s with ic := { s.ic with
      sp := s.ic.sp - 1, stack := s.ic.stack.set (s.ic.sp - 1).toNat (Int.tdiv a b),
      ip := s.ic.ip + 1 } }) ∧
    (opcode = OP_MOD → InterpretBody x s = .ok { s with ic := { s.ic with
      sp := s.ic.sp - 1, stack := s.ic.stack.set (s.ic.sp - 1).toNat (Int.tmod a b),
      ip := s.ic.ip + 1 } }) ∧
    (Int.tdiv a b).natAbs = a.natAbs / b.natAbs ∧
    (0 ≤ a * b → 0 ≤ Int.tdiv a b) ∧ (a * b ≤ 0 → Int.tdiv a b ≤ 0) ∧
    Int.tmod a b = a - b * Int.tdiv a b ∧
    Int.tdiv a b * b + Int.tmod a b = a ∧
    (Int.tmod a b).natAbs < b.natAbs ∧
    (0 ≤ a → 0 ≤ Int.tmod a b) ∧ (a ≤ 0 → Int.tmod a b ≤ 0) ∧
    Int.tdiv (-7) 2 = -3 ∧ Int.tmod (-7) 2 = -1 := by
  have hc : ¬ (b = 0 ∨ (a = -2147483648 ∧ b = -1)) := by
    rintro (h | h)
    · exact hb0 h
    · exact hov h
  obtain ⟨hr1, hr2, hr3⟩ := tmod_sign_bound a b hb0
  refine ⟨?_, ?_, Int.natAbs_tdiv a b, ?_, ?_, Int.tmod_def a b, ?_, hr1, hr2, hr3, rfl, rfl⟩
  · intro h
    subst h
    exact InterpretBody_arith_ok x s code OP_DIV a b _ hcode hop
      (Or.inr (Or.inr (Or.inr (Or.inl rfl)))) hsp hlen ha hb (by simp [arithOp, hc])
  · intro h
    subst h
    exact InterpretBody_arith_ok x s code OP_MOD a b _ hcode hop
      (Or.inr (Or.inr (Or.inr (Or.inr (Or.inl rfl))))) hsp hlen ha hb (by simp [arithOp, hc])
  · exact (tdiv_sign a b).1
  · exact (tdiv_sign a b).2
  · have := Int.tdiv_add_tmod a b
    linarith [mul_comm b (Int.tdiv a b)]

theorem division_truncates_witness :
    ∃ t : Exec Nat, InterpretBody sampleHost sampleDivExec = .ok t ∧
      t.ic.stack = [0, -3, 2, 0, 0, 0, 0, 0] ∧ t.ic.sp = 1 ∧ t.ic.ip = 1 :=
  ⟨_, (division_truncates sampleHost sampleDivExec [OP_DIV] OP_DIV (-7) 2 rfl rfl (by decide)
    (by decide) (by decide) (by decide) (by decide) (by decide)).1 rfl,
    by decide, by decide, by decide⟩

/-! ### Procedure call and jumps -/

/-- C25, as stated, does not hold: after `CALL 5` executed with `sp = 2` the linkage words
are `stack[3..5]` and the frame pointer is 3, the index of the first linkage word (the
static link), not 6, the index past the three linkage words; `sp` is still 2. -/
theorem call_frame_pointer_at_linkage :
    (sampleExec sampleCallCode).ic.sp = 2 ∧
    ∃ t : Exec Nat, InterpretBody sampleHost (sampleExec sampleCallCode) = .ok t ∧
      t.ic.stack = [0, 2, 3, 0, 1, 2, 0, 0] ∧ t.ic.bp = 3 ∧ t.ic.bp ≠ 2 + 4 ∧
      t.ic.sp = 2 ∧ stackRead t.ic.stack t.ic.bp = some 0 :=
  ⟨rfl, _, rfl, by decide, by decide, by decide, by decide, by decide⟩

/-- C25 (amended): with old `sp = s`, old `bp = f` and call operand `t`, `OP_CALL` writes
the three linkage words directly above the current top (static link 0 at `stack[s+1]`,
dynamic link `f` at `stack[s+2]`, the address just past the call's operand at
`stack[s+3]`) and changes no other stack word, leaves `sp` at `s`, sets `bp = s + 1`,
the index of the first linkage word, and sets `ip = t`. -/
theorem call_linkage {κ : Type} (x : Host κ) (s : Exec κ) (code : List Nat)
    (opcode : Nat) (t ip1 : Int) (hcode : s.ic.code = some code)
    (hop : readByte code s.ic.ip = some opcode) (hcall : opcode &&& OPMASK = OP_CALL)
    (hfetch : Fetch opcode code (s.ic.ip + 1) = some (t, ip1))
    (hsp : 0 ≤ s.ic.sp) (hroom : s.ic.sp + 3 < s.ic.stack.length)
    (hlen : s.ic.stack.length ≤ x.PCODE_STACK_SIZE) :
    ∃ u : Exec κ, InterpretBody x s = .ok u ∧
      stackRead u.ic.stack (s.ic.sp + 1) = some 0 ∧
      stackRead u.ic.stack (s.ic.sp + 2) = some s.ic.bp ∧
      stackRead u.ic.stack (s.ic.sp + 3) = some ip1 ∧
      (∀ j : Int, j ≠ s.ic.sp + 1 → j ≠ s.ic.sp + 2 → j ≠ s.ic.sp + 3 →
        stackRead u.ic.stack j = stackRead s.ic.stack j) ∧
      u.ic.sp = s.ic.sp ∧ u.ic.bp = s.ic.sp + 1 ∧ u.ic.ip = t := by
  refine ⟨_, InterpretBody_call x s code opcode t ip1 hcode hop hcall hfetch hsp hroom hlen,
    ?_, ?_, ?_, ?_, rfl, rfl, rfl⟩
  · show stackRead (((s.ic.stack.set (s.ic.sp + 1).toNat 0).set (s.ic.sp + 2).toNat s.ic.bp).set
      (s.ic.sp + 3).toNat ip1) (s.ic.sp + 1) = some 0
    rw [stackRead_set_other _ _ _ _ (by omega) (by omega),
      stackRead_set_other _ _ _ _ (by omega) (by omega)]
    exact stackRead_set_same _ _ _ (by omega) (by omega)
  · show stackRead (((s.ic.stack.set (s.ic.sp + 1).toNat 0).set (s.ic.sp + 2).toNat s.ic.bp).set
      (s.ic.sp + 3).toNat ip1) (s.ic.sp + 2) = some s.ic.bp
    rw [stackRead_set_other _ _ _ _ (by omega) (by omega)]
    exact stackRead_set_same _ _ _ (by omega) (by simp; omega)
  · show stackRead (((s.ic.stack.set (s.ic.sp + 1).toNat 0).set (s.ic.sp + 2).toNat s.ic.bp).set
      (s.ic.sp + 3).toNat ip1) (s.ic.sp + 3) = some ip1
    exact stackRead_set_same _ _ _ (by omega) (by simp; omega)
  · intro j h1 h2 h3
    show stackRead (((s.ic.stack.set (s.ic.sp + 1).toNat 0).set (s.ic.sp + 2).toNat s.ic.bp).set
      (s.ic.sp + 3).toNat ip1) j = stackRead s.ic.stack j
    rw [stackRead_set_other _ _ _ _ (by omega) h3, stackRead_set_other _ _ _ _ (by omega) h2,
      stackRead_set_other _ _ _ _ (by omega) h1]

theorem call_linkage_witness :
    ∃ u : Exec Nat, InterpretBody sampleHost (sampleExec sampleCallCode) = .ok u ∧
      stackRead u.ic.stack (2 + 1) = some 0 ∧
      stackRead u.ic.stack (2 + 2) = some 1 ∧
      stackRead u.ic.stack (2 + 3) = some 2 ∧
      (∀ j : Int, j ≠ 2 + 1 → j ≠ 2 + 2 → j ≠ 2 + 3 →
        stackRead u.ic.stack j = stackRead [0, 2, 3, 0, 0, 0, 0, 0] j) ∧
      u.ic.sp = 2 ∧ u.ic.bp = 2 + 1 ∧ u.ic.ip = 5 :=
  call_linkage sampleHost (sampleExec sampleCallCode) sampleCallCode (OP_CALL + OPSIZE8) 5 2
    rfl rfl rfl rfl (by decide) (by decide) (by decide)

/-- C26: with the value `v` on top of the stack and the jump operand `t`, `OP_JMPFALSE`
sets `ip = t` if `v == 0` and otherwise leaves `ip` just past the operand, `OP_JMPTRUE`
sets `ip = t` if `v != 0` and otherwise leaves `ip` just past the operand, and both
decrement `sp` by one in either case; `OP_JUMP` sets `ip = t` and leaves `sp` unchanged.
Nothing else changes. -/
theorem jumps {κ : Type} (x : Host κ) (s : Exec κ) (code : List Nat)
    (opcode : Nat) (t ip1 : Int) (hcode : s.ic.code = some code)
    (hop : readByte code s.ic.ip = some opcode)
    (hfetch : Fetch opcode code (s.ic.ip + 1) = some (t, ip1)) :
    (∀ v : Int, opcode &&& OPMASK = OP_JMPFALSE → stackRead s.ic.stack s.ic.sp = some v →
      1 ≤ s.ic.sp → s.ic.sp - 1 < x.PCODE_STACK_SIZE →
      InterpretBody x s = .ok { s with ic := { s.ic with
        sp := s.ic.sp - 1, ip := if v = 0 then t else ip1 } }) ∧
    (∀ v : Int, opcode &&& OPMASK = OP_JMPTRUE → stackRead s.ic.stack s.ic.sp = some v →
      1 ≤ s.ic.sp → s.ic.sp - 1 < x.PCODE_STACK_SIZE →
      InterpretBody x s = .ok { s with ic := { s.ic with
        sp := s.ic.sp - 1, ip := if v ≠ 0 then t else ip1 } }) ∧
    (opcode &&& OPMASK = OP_JUMP → 0 ≤ s.ic.sp → s.ic.sp < x.PCODE_STACK_SIZE →
      InterpretBody x s = .ok { s with ic := { s.ic with ip := t } }) := by
  refine ⟨?_, ?_, ?_⟩
  · intro v h hv h1 h2
    have h3 : (0 : Int) ≤ s.ic.sp - 1 := by omega
    unfold InterpretBody
    simp only [hcode, hop]
    by_cases hz : v = 0 <;> simp [h, hfetch, condJump, hv, endOfPass, h3, h2, hz, hcode]
  · intro v h hv h1 h2
    have h3 : (0 : Int) ≤ s.ic.sp - 1 := by omega
    unfold InterpretBody
    simp only [hcode, hop]
    by_cases hz : v = 0 <;> simp [h, hfetch, condJump, hv, endOfPass, h3, h2, hz, hcode]
  · intro h h1 h2
    unfold InterpretBody
    simp only [hcode, hop]
    simp [h, hfetch, endOfPass, h1, h2, hcode]

theorem jumps_witness :
    InterpretBody sampleHost sampleJumpExec =
      .ok { sampleJumpExec with ic := { sampleJumpExec.ic with
        sp := 3 - 1, ip := if (0 : Int) = 0 then 9 else 2 } } :=
  (jumps sampleHost sampleJumpExec [OP_JMPFALSE + OPSIZE8, 9] (OP_JMPFALSE + OPSIZE8) 9 2
    rfl rfl rfl).1 0 rfl (by decide) (by decide) (by decide)

/-! ### Stack accesses without a check -/

theorem stackWrite_outside (st : List Int) (i v : Int) (h : i < 0 ∨ (st.length : Int) ≤ i) :
    stackWrite st i v = none := by
  unfold stackWrite
  rw [if_neg]
  omega

theorem stackRead_outside (st : List Int) (i : Int) (h : i < 0 ∨ (st.length : Int) ≤ i) :
    stackRead st i = none := by
  unfold stackRead
  split
  · rw [List.getElem?_eq_none (by omega)]
  · rfl

/-- C28: the stack accesses of the pushes, of `OP_CALL`, `OP_DUP`, `OP_LOAD` and `OP_STORE`
are not guarded. With `0 <= sp < PCODE_STACK_SIZE` and a stack array of
`PCODE_STACK_SIZE` words, a push at `sp = PCODE_STACK_SIZE - 1`, an `OP_CALL` at
`sp >= PCODE_STACK_SIZE - 3`, an `OP_DUP` at the top slot and an `OP_LOAD` or `OP_STORE`
whose `bp + offset` lies outside the array all reach the access `ic->stack[i]` with `i`
outside the array: no assertion and no `error` ends the pass before it (the outcome is
`stackAccess`, which stands for the access outside the array, with the state at the
start of the pass). -/
theorem unchecked_stack_access {κ : Type} (x : Host κ) (s : Exec κ) (code : List Nat)
    (opcode : Nat) (hcode : s.ic.code = some code)
    (hop : readByte code s.ic.ip = some opcode)
    (hlen : s.ic.stack.length = x.PCODE_STACK_SIZE)
    (h0 : 0 ≤ s.ic.sp) (h1 : s.ic.sp < x.PCODE_STACK_SIZE) :
    (opcode &&& OPMASK = OP_ZERO ∨ opcode &&& OPMASK = OP_ONE ∨
        opcode &&& OPMASK = OP_MINUSONE →
      s.ic.sp = x.PCODE_STACK_SIZE - 1 → InterpretBody x s = .fatal .stackAccess s) ∧
    (∀ v ip1 : Int, opcode &&& OPMASK = OP_IMM ∨ opcode &&& OPMASK = OP_STR ∨
        opcode &&& OPMASK = OP_FILM ∨ opcode &&& OPMASK = OP_CDFILM ∨
        opcode &&& OPMASK = OP_FONT ∨ opcode &&& OPMASK = OP_PAL →
      Fetch opcode code (s.ic.ip + 1) = some (v, ip1) →
      s.ic.sp = x.PCODE_STACK_SIZE - 1 → InterpretBody x s = .fatal .stackAccess s) ∧
    (∀ t ip1 : Int, opcode &&& OPMASK = OP_CALL →
      Fetch opcode code (s.ic.ip + 1) = some (t, ip1) →
      (x.PCODE_STACK_SIZE : Int) - 3 ≤ s.ic.sp → InterpretBody x s = .fatal .stackAccess s) ∧
    (opcode &&& OPMASK = OP_DUP →
      s.ic.sp = x.PCODE_STACK_SIZE - 1 → InterpretBody x s = .fatal .stackAccess s) ∧
    (∀ off ip1 : Int, opcode &&& OPMASK = OP_LOAD ∨ opcode &&& OPMASK = OP_STORE →
      Fetch opcode code (s.ic.ip + 1) = some (off, ip1) →
      (s.ic.bp + off < 0 ∨ (x.PCODE_STACK_SIZE : Int) ≤ s.ic.bp + off) →
      InterpretBody x s = .fatal .stackAccess s) := by
  have hw : ∀ v : Int, s.ic.sp = x.PCODE_STACK_SIZE - 1 →
      stackWrite s.ic.stack (s.ic.sp + 1) v = none := by
    intro v hs
    exact stackWrite_outside _ _ _ (by omega)
  have htop : ∃ top, stackRead s.ic.stack s.ic.sp = some top := by
    have hlt : s.ic.sp.toNat < s.ic.stack.length := by omega
    exact ⟨s.ic.stack[s.ic.sp.toNat], by simp [stackRead, h0, hlt]⟩
  obtain ⟨top, htop⟩ := htop
  refine ⟨?_, ?_, ?_, ?_, ?_⟩
  · intro h hs
    unfold InterpretBody
    simp only [hcode, hop]
    rcases h with h | h | h <;> simp [h, push, hw _ hs]
  · intro v ip1 h hf hs
    unfold InterpretBody
    simp only [hcode, hop]
    rcases h with h | h | h | h | h | h <;> simp [h, hf, push, hw _ hs]
  · intro t ip1 h hf hs
    unfold InterpretBody
    simp only [hcode, hop]
    cases hw1 : stackWrite s.ic.stack (s.ic.sp + 1) 0 with
    | none => simp [h, hf, hw1]
    | some st1 =>
      have l1 := stackWrite_length _ _ _ _ hw1
      cases hw2 : stackWrite st1 (s.ic.sp + 2) s.ic.bp with
      | none => simp [h, hf, hw1, hw2]
      | some st2 =>
        have l2 := stackWrite_length _ _ _ _ hw2
        have hw3 : stackWrite st2 (s.ic.sp + 3) ip1 = none :=
          stackWrite_outside _ _ _ (by omega)
        simp [h, hf, hw1, hw2, hw3]
  · intro h hs
    unfold InterpretBody
    simp only [hcode, hop]
    simp [h, htop, hw _ hs]
  · intro off ip1 h hf hout
    unfold InterpretBody
    simp only [hcode, hop]
    rcases h with h | h
    · simp [h, hf, stackRead_outside _ _ (by omega : s.ic.bp + off < 0 ∨ (s.ic.stack.length : Int) ≤ s.ic.bp + off)]
    · simp [h, hf, htop, stackWrite_outside _ _ _ (by omega : s.ic.bp + off < 0 ∨ (s.ic.stack.length : Int) ≤ s.ic.bp + off)]

theorem unchecked_stack_access_witness :
    InterpretBody sampleHost sampleFullExec = .fatal .stackAccess sampleFullExec :=
  (unchecked_stack_access sampleHost sampleFullExec [OP_ZERO] OP_ZERO rfl rfl rfl
    (by decide) (by decide)).1 (Or.inl rfl) rfl

/-! ### The bulk releases -/

/-- The loop of `FreeMasterInterpretContext` either finds no context of sort `GS_MASTER`
or `GS_GPROCESS`, or wipes the first one and nothing else. -/
theorem freeMasterLoop_cases (l : List INT_CONTEXT) :
    ((∀ (j : Nat) (c : INT_CONTEXT), l[j]? = some c →
        ¬ (c.GSort = GSORT.GS_MASTER ∨ c.GSort = GSORT.GS_GPROCESS)) ∧ freeMasterLoop l = l) ∨
    ∃ (i : Nat) (c : INT_CONTEXT), l[i]? = some c ∧
      (c.GSort = GSORT.GS_MASTER ∨ c.GSort = GSORT.GS_GPROCESS) ∧
      (∀ (j : Nat) (d : INT_CONTEXT), j < i → l[j]? = some d →
        ¬ (d.GSort = GSORT.GS_MASTER ∨ d.GSort = GSORT.GS_GPROCESS)) ∧
      freeMasterLoop l = l.set i (wipeSlot c) := by
  induction l with
  | nil =>
    left
    exact ⟨fun j c hj => by simp at hj, rfl⟩
  | cons pic rest ih =>
    unfold freeMasterLoop
    by_cases hm : pic.GSort = GSORT.GS_MASTER ∨ pic.GSort = GSORT.GS_GPROCESS
    · right
      rw [if_pos hm]
      exact ⟨0, pic, by simp, hm, fun j d hj => by omega, by simp⟩
    · rw [if_neg hm]
      rcases ih with ⟨hnone, heq⟩ | ⟨i, c, hi, hc, hfirst, heq⟩
      · left
        refine ⟨?_, by rw [heq]⟩
        intro j c hj
        cases j with
        | zero =>
          simp at hj
          subst hj
          exact hm
        | succ k => exact hnone k c (by simpa using hj)
      · right
        refine ⟨i + 1, c, by simpa using hi, hc, ?_, by rw [heq]; simp⟩
        intro j d hj hd
        cases j with
        | zero =>
          simp at hd
          subst hd
          exact hm
        | succ k => exact hfirst k d (by omega) (by simpa using hd)

theorem FreeMost_get (l : List INT_CONTEXT) (j : Nat) (c : INT_CONTEXT) (hj : l[j]? = some c) :
    (l.map fun pic => if pic.GSort ≠ GSORT.GS_MASTER ∧ pic.GSort ≠ GSORT.GS_GPROCESS
      then wipeSlot pic else pic)[j]? =
      some (if c.GSort ≠ GSORT.GS_MASTER ∧ c.GSort ≠ GSORT.GS_GPROCESS then wipeSlot c else c) := by
  rw [List.getElem?_map, hj]
  rfl

/-- C21: what the full flush does. `FreeMostInterpretContexts` followed by
`FreeMasterInterpretContext` wipes every slot whose sort is neither `GS_MASTER` nor
`GS_GPROCESS`, and of the slots of sort `GS_MASTER` or `GS_GPROCESS` only the first one:
the loop of `FreeMasterInterpretContext` returns after its first match. Every later slot
of these sorts is unchanged and still live. So every slot is free afterwards when at most
one slot had the sort `GS_MASTER` or `GS_GPROCESS`, but not in general. -/
theorem flush_frees_first_master_only (m : Machine) :
    (∀ (j : Nat) (c : INT_CONTEXT), m.icList[j]? = some c →
      ¬ (c.GSort = GSORT.GS_MASTER ∨ c.GSort = GSORT.GS_GPROCESS) →
      (FreeMasterInterpretContext (FreeMostInterpretContexts m)).icList[j]? =
        some (wipeSlot c)) ∧
    (∀ (i j : Nat) (c d : INT_CONTEXT), i < j → m.icList[i]? = some c → m.icList[j]? = some d →
      (c.GSort = GSORT.GS_MASTER ∨ c.GSort = GSORT.GS_GPROCESS) →
      (d.GSort = GSORT.GS_MASTER ∨ d.GSort = GSORT.GS_GPROCESS) →
      (FreeMasterInterpretContext (FreeMostInterpretContexts m)).icList[j]? = some d) ∧
    ((∀ (i j : Nat) (c d : INT_CONTEXT), m.icList[i]? = some c → m.icList[j]? = some d →
        (c.GSort = GSORT.GS_MASTER ∨ c.GSort = GSORT.GS_GPROCESS) →
        (d.GSort = GSORT.GS_MASTER ∨ d.GSort = GSORT.GS_GPROCESS) → i = j) →
      ∀ (j : Nat) (c : INT_CONTEXT),
        (FreeMasterInterpretContext (FreeMostInterpretContexts m)).icList[j]? = some c →
        c.GSort = GSORT.GS_NONE) := by
  have hkeep : ∀ c : INT_CONTEXT, (c.GSort = GSORT.GS_MASTER ∨ c.GSort = GSORT.GS_GPROCESS) →
      (if c.GSort ≠ GSORT.GS_MASTER ∧ c.GSort ≠ GSORT.GS_GPROCESS then wipeSlot c else c) = c := by
    intro c hc
    rw [if_neg]
    rcases hc with h | h <;> simp [h]
  have hwipe : ∀ c : INT_CONTEXT, ¬ (c.GSort = GSORT.GS_MASTER ∨ c.GSort = GSORT.GS_GPROCESS) →
      (if c.GSort ≠ GSORT.GS_MASTER ∧ c.GSort ≠ GSORT.GS_GPROCESS then wipeSlot c else c)
        = wipeSlot c := by
    intro c hc
    rw [if_pos]
    exact ⟨fun h => hc (Or.inl h), fun h => hc (Or.inr h)⟩
  have hnm : ∀ c : INT_CONTEXT,
      ¬ ((wipeSlot c).GSort = GSORT.GS_MASTER ∨ (wipeSlot c).GSort = GSORT.GS_GPROCESS) := by
    intro c h
    rcases h with h | h <;> cases h
  show (∀ (j : Nat) (c : INT_CONTEXT), m.icList[j]? = some c → _ →
      (freeMasterLoop (m.icList.map _))[j]? = some (wipeSlot c)) ∧
    (∀ (i j : Nat) (c d : INT_CONTEXT), i < j → m.icList[i]? = some c → m.icList[j]? = some d →
      _ → _ → (freeMasterLoop (m.icList.map _))[j]? = some d) ∧
    (_ → ∀ (j : Nat) (c : INT_CONTEXT), (freeMasterLoop (m.icList.map _))[j]? = some c →
      c.GSort = GSORT.GS_NONE)
  refine ⟨?_, ?_, ?_⟩
  · intro j c hj hc
    have h1 := FreeMost_get m.icList j c hj
    rw [hwipe c hc] at h1
    rcases freeMasterLoop_cases (m.icList.map _) with ⟨_, heq⟩ | ⟨i, e, hi, he, _, heq⟩
    · rw [heq]
      exact h1
    · rw [heq]
      by_cases hij : i = j
      · subst hij
        rw [h1] at hi
        injection hi with hi
        subst hi
        exact absurd he (hnm c)
      · rw [List.getElem?_set_ne hij]
        exact h1
  · intro i j c d hij hi hj hc hd
    have h1 := FreeMost_get m.icList i c hi
    rw [hkeep c hc] at h1
    have h2 := FreeMost_get m.icList j d hj
    rw [hkeep d hd] at h2
    rcases freeMasterLoop_cases (m.icList.map _) with ⟨hnone, _⟩ | ⟨k, e, hk, he, hfirst, heq⟩
    · exact absurd hc (hnone i c h1)
    · rw [heq]
      have hki : k ≤ i := by
        by_contra hcon
        exact hfirst i c (by omega) h1 hc
      rw [List.getElem?_set_ne (by omega)]
      exact h2
  · intro huniq j c hj
    have hjl : j < m.icList.length := by
      have := getElem?_lt _ _ _ hj
      rcases freeMasterLoop_cases (m.icList.map _) with ⟨_, heq⟩ | ⟨k, e, _, _, _, heq⟩
      · rw [heq] at this
        simpa using this
      · rw [heq] at this
        simpa using this
    have hd : m.icList[j]? = some m.icList[j] := by simp [hjl]
    have h1 := FreeMost_get m.icList j _ hd
    by_cases hm : (m.icList[j]).GSort = GSORT.GS_MASTER ∨ (m.icList[j]).GSort = GSORT.GS_GPROCESS
    · rw [hkeep _ hm] at h1
      rcases freeMasterLoop_cases (m.icList.map _) with ⟨hnone, _⟩ | ⟨k, e, hk, he, _, heq⟩
      · exact absurd hm (hnone j _ h1)
      · have hkl : k < m.icList.length := by
          have := getElem?_lt _ _ _ hk
          simpa using this
        have hdk : m.icList[k]? = some m.icList[k] := by simp [hkl]
        have h3 := FreeMost_get m.icList k _ hdk
        rw [hk] at h3
        injection h3 with h3
        have hmk : (m.icList[k]).GSort = GSORT.GS_MASTER ∨
            (m.icList[k]).GSort = GSORT.GS_GPROCESS := by
          by_contra hcon
          rw [hwipe _ hcon] at h3
          rw [h3] at he
          exact hnm _ he
        have hkj : k = j := huniq k j _ _ hdk hd hmk hm
        subst hkj
        rw [heq, List.getElem?_set_self (getElem?_lt _ _ _ hk)] at hj
        injection hj with hj
        rw [← hj]
        rfl
    · rw [hwipe _ hm] at h1
      rcases freeMasterLoop_cases (m.icList.map _) with ⟨_, heq⟩ | ⟨k, e, hk, he, _, heq⟩
      · rw [heq, h1] at hj
        injection hj with hj
        rw [← hj]
        rfl
      · rw [heq] at hj
        by_cases hkj : k = j
        · subst hkj
          rw [List.getElem?_set_self (getElem?_lt _ _ _ hk)] at hj
          injection hj with hj
          rw [← hj]
          rfl
        · rw [List.getElem?_set_ne hkj, h1] at hj
          injection hj with hj
          rw [← hj]
          rfl

theorem flush_frees_first_master_only_witness :
    (FreeMasterInterpretContext (FreeMostInterpretContexts sampleMixedMachine)).icList[2]? =
      some { sampleContext [] with pProc := 3, GSort := GSORT.GS_GPROCESS } :=
  (flush_frees_first_master_only sampleMixedMachine).2.1 0 2 _ _ (by decide) rfl rfl
    (Or.inl rfl) (Or.inr rfl)

/-- C30: `FreeMostInterpretContexts` wipes contexts without the wait check that the
releases `FreeInterpretContextPi` and `FreeInterpretContextPr` make. If a context of sort
`GS_MASTER` or `GS_GPROCESS` is waited for (`waitNumber2 != 0`) only by contexts of other
sorts, then after `FreeMostInterpretContexts` it still has its `waitNumber2` but no live
context has that `waitNumber1`: the first assertion of `CheckOutWaiters` fails, whether or
not `CheckOutWaiters` passed before. -/
theorem FreeMost_breaks_wait_check (m : Machine) (i : Nat) (c : INT_CONTEXT)
    (hi : m.icList[i]? = some c)
    (hm : c.GSort = GSORT.GS_MASTER ∨ c.GSort = GSORT.GS_GPROCESS) (hw : c.waitNumber2 ≠ 0)
    (honly : ∀ d : INT_CONTEXT, d ∈ m.icList → d.waitNumber1 = c.waitNumber2 →
      ¬ (d.GSort = GSORT.GS_MASTER ∨ d.GSort = GSORT.GS_GPROCESS)) :
    CheckOutWaiters (FreeMostInterpretContexts m) =
      .fatal .waiterMissing (FreeMostInterpretContexts m) := by
  have hlive : c.GSort ≠ GSORT.GS_NONE := by
    rcases hm with h | h <;> rw [h] <;> decide
  have hkept : c ∈ (FreeMostInterpretContexts m).icList := by
    apply List.mem_iff_getElem?.2
    refine ⟨i, ?_⟩
    have h1 := FreeMost_get m.icList i c hi
    rw [if_neg (by rcases hm with h | h <;> simp [h])] at h1
    exact h1
  have hno : liveWaiterExists c.waitNumber2 (FreeMostInterpretContexts m).icList = false := by
    rw [Bool.eq_false_iff]
    intro hex
    unfold liveWaiterExists at hex
    rw [List.any_eq_true] at hex
    obtain ⟨e, he, hp⟩ := hex
    have hp := of_decide_eq_true hp
    obtain ⟨d, hd, hde⟩ := List.mem_map.1 he
    by_cases hdm : d.GSort ≠ GSORT.GS_MASTER ∧ d.GSort ≠ GSORT.GS_GPROCESS
    · rw [if_pos hdm] at hde
      rw [← hde] at hp
      exact hp.1 rfl
    · rw [if_neg hdm] at hde
      subst hde
      apply honly d hd hp.2
      by_contra hcon
      exact hdm ⟨fun h => hcon (Or.inl h), fun h => hcon (Or.inr h)⟩
  unfold CheckOutWaiters
  rw [if_neg]
  intro hall
  rw [List.all_eq_true] at hall
  have := hall c hkept
  rw [if_pos ⟨hlive, hw⟩, hno] at this
  cases this

theorem FreeMost_breaks_wait_check_witness :
    CheckOutWaiters sampleLinkedMaster = .ok sampleLinkedMaster ∧
    CheckOutWaiters (FreeMostInterpretContexts sampleLinkedMaster) =
      .fatal .waiterMissing (FreeMostInterpretContexts sampleLinkedMaster) :=
  ⟨by decide, FreeMost_breaks_wait_check sampleLinkedMaster 0 _ rfl (Or.inl rfl) (by decide)
    (by decide)⟩

/-! ### The unique wait number -/

theorem waitCandidate_closed (t k : Nat) :
    waitCandidate t k =
      ((if t % 4294967296 = 0 then 4294967295 else t % 4294967296) - 1
        + (4294967295 - k % 4294967295)) % 4294967295 + 1 := by
  induction k generalizing t with
  | zero =>
    unfold waitCandidate
    split <;> omega
  | succ k ih =>
    unfold waitCandidate
    rw [ih]
    split <;> split <;> omega

theorem waitCandidate_range (t k : Nat) :
    waitCandidate t k ≠ 0 ∧ waitCandidate t k < 4294967296 := by
  rw [waitCandidate_closed]
  omega

theorem waitCandidate_inj (t j k : Nat) (hj : j < 4294967295) (hk : k < 4294967295)
    (h : waitCandidate t j = waitCandidate t k) : j = k := by
  rw [waitCandidate_closed, waitCandidate_closed] at h
  split at h <;> omega
theorem waitNumberInUse_iff (r : Nat) (l : List INT_CONTEXT) :
    waitNumberInUse r l = true ↔
      r ∈ l.flatMap (fun c => [c.waitNumber1, c.waitNumber2]) := by
  unfold waitNumberInUse
  rw [List.any_eq_true, List.mem_flatMap]
  constructor
  · rintro ⟨c, hc, hp⟩
    have hp := of_decide_eq_true hp
    refine ⟨c, hc, ?_⟩
    rcases hp with h | h
    · simp [h]
    · simp [h]
  · rintro ⟨c, hc, hm⟩
    refine ⟨c, hc, decide_eq_true ?_⟩
    simp at hm
    rcases hm with h | h
    · exact Or.inl h.symm
    · exact Or.inr h.symm

theorem waitNumberInUse_false (r : Nat) (l : List INT_CONTEXT)
    (h : waitNumberInUse r l = false) (c : INT_CONTEXT) (hc : c ∈ l) :
    c.waitNumber1 ≠ r ∧ c.waitNumber2 ≠ r := by
  unfold waitNumberInUse at h
  rw [List.any_eq_false] at h
  have := h c hc
  simp at this
  exact this

theorem length_wait_numbers (l : List INT_CONTEXT) :
    (l.flatMap (fun c => [c.waitNumber1, c.waitNumber2])).length = 2 * l.length := by
  induction l with
  | nil => rfl
  | cons c rest ih =>
    simp only [List.flatMap_cons, List.length_append, ih, List.length_cons]
    simp
    omega

/-- Among the first `2 * NUM_INTERPRET + 1` candidates one is not in use. -/
theorem waitCandidate_free (l : List INT_CONTEXT) (t : Nat)
    (hsize : 2 * l.length < 4294967295) :
    ∃ k, k ≤ 2 * l.length ∧ waitNumberInUse (waitCandidate t k) l = false := by
  by_contra hcon
  have hall : ∀ k, k ≤ 2 * l.length → waitNumberInUse (waitCandidate t k) l = true := by
    intro k hk
    by_contra h
    exact hcon ⟨k, hk, by simpa using h⟩
  have hnodup : ((List.range (2 * l.length + 1)).map (waitCandidate t)).Nodup := by
    apply List.Nodup.map_on _ (List.nodup_range _)
    intro a ha b hb hab
    rw [List.mem_range] at ha hb
    exact waitCandidate_inj t a b (by omega) (by omega) hab
  have hsub : (List.range (2 * l.length + 1)).map (waitCandidate t) ⊆
      l.flatMap (fun c => [c.waitNumber1, c.waitNumber2]) := by
    intro r hr
    obtain ⟨k, hk, hkr⟩ := List.mem_map.1 hr
    rw [List.mem_range] at hk
    rw [← hkr]
    exact (waitNumberInUse_iff _ l).1 (hall k (by omega))
  have hle := (List.subperm_of_subset hnodup hsub).length_le
  rw [length_wait_numbers] at hle
  simp at hle

/-- The loop of `UniqueWaitNumber` returns the first candidate that is not in use, when it
has fuel for that many passes. -/
theorem UniqueWaitNumber_run (l : List INT_CONTEXT) (k t fuel : Nat)
    (hused : ∀ j, j < k → waitNumberInUse (waitCandidate t j) l = true)
    (hfree : waitNumberInUse (waitCandidate t k) l = false) (hfuel : k < fuel) :
    UniqueWaitNumber l fuel t = some (waitCandidate t k) := by
  induction k generalizing t fuel with
  | zero =>
    cases fuel with
    | zero => omega
    | succ f =>
      unfold waitCandidate at hfree
      unfold UniqueWaitNumber waitCandidate
      simp only [hfree]
      simp
  | succ k ih =>
    cases fuel with
    | zero => omega
    | succ f =>
      have h0 := hused 0 (by omega)
      unfold waitCandidate at h0
      unfold UniqueWaitNumber
      simp only [h0, if_true]
      rw [ih _ f (fun j hj => hused (j + 1) (by omega)) hfree (by omega)]
      rfl
/-- C24: for a pool whose `2 * NUM_INTERPRET` wait numbers cannot cover the non-zero 32-bit
values, and every start time `t`, `UniqueWaitNumber` terminates: there is a `k`, at most
`2 * NUM_INTERPRET`, such that with fuel for more than `k` passes the loop returns
`r = waitCandidate t k`, the first value of the sequence `t, t - 1, ...` (0 replaced by
`0xFFFFFFFF`) that is not in use: all earlier candidates are in use, `r` is non-zero, a
32-bit value, and differs from `waitNumber1` and `waitNumber2` of every slot. -/
theorem UniqueWaitNumber_first_free (l : List INT_CONTEXT) (t : Nat)
    (hsize : 2 * l.length < 4294967295) :
    ∃ k : Nat, k ≤ 2 * l.length ∧
      (∀ fuel : Nat, k < fuel → UniqueWaitNumber l fuel t = some (waitCandidate t k)) ∧
      (∀ j : Nat, j < k → waitNumberInUse (waitCandidate t j) l = true) ∧
      waitCandidate t k ≠ 0 ∧ waitCandidate t k < 4294967296 ∧
      (∀ c : INT_CONTEXT, c ∈ l →
        c.waitNumber1 ≠ waitCandidate t k ∧ c.waitNumber2 ≠ waitCandidate t k) ∧
      waitCandidate t 0 = (if t % 4294967296 = 0 then 4294967295 else t % 4294967296) ∧
      (∀ j : Nat, waitCandidate t (j + 1) =
        (if waitCandidate t j = 1 then 4294967295 else waitCandidate t j - 1)) := by
  have hex := waitCandidate_free l t hsize
  have hex2 : ∃ k, waitNumberInUse (waitCandidate t k) l = false := by
    obtain ⟨k, _, hk⟩ := hex
    exact ⟨k, hk⟩
  have hspec := Nat.find_spec hex2
  have hmin : ∀ j, j < Nat.find hex2 → waitNumberInUse (waitCandidate t j) l = true := by
    intro j hj
    have := Nat.find_min hex2 hj
    simpa using this
  have hle : Nat.find hex2 ≤ 2 * l.length := by
    obtain ⟨k, hk, hkf⟩ := hex
    exact le_trans (Nat.find_min' hex2 hkf) hk
  refine ⟨Nat.find hex2, hle, ?_, hmin, (waitCandidate_range t _).1, (waitCandidate_range t _).2,
    fun c hc => waitNumberInUse_false _ l hspec c hc, rfl, ?_⟩
  · intro fuel hfuel
    exact UniqueWaitNumber_run l _ t fuel hmin hspec hfuel
  · intro j
    rw [waitCandidate_closed, waitCandidate_closed]
    split <;> split <;> omega

theorem UniqueWaitNumber_first_free_witness :
    ∃ k : Nat, k ≤ 2 * sampleWaitMachine.icList.length ∧
      (∀ fuel : Nat, k < fuel →
        UniqueWaitNumber sampleWaitMachine.icList fuel 7 = some (waitCandidate 7 k)) ∧
      (∀ j : Nat, j < k → waitNumberInUse (waitCandidate 7 j) sampleWaitMachine.icList = true) ∧
      waitCandidate 7 k ≠ 0 ∧ waitCandidate 7 k < 4294967296 ∧
      (∀ c : INT_CONTEXT, c ∈ sampleWaitMachine.icList →
        c.waitNumber1 ≠ waitCandidate 7 k ∧ c.waitNumber2 ≠ waitCandidate 7 k) ∧
      waitCandidate 7 0 = (if 7 % 4294967296 = 0 then 4294967295 else 7 % 4294967296) ∧
      (∀ j : Nat, waitCandidate 7 (j + 1) =
        (if waitCandidate 7 j = 1 then 4294967295 else waitCandidate 7 j - 1)) :=
  UniqueWaitNumber_first_free sampleWaitMachine.icList 7 (by decide)

/-! ### Setting up a wait -/

/-- With fuel for `2 * NUM_INTERPRET + 1` passes `UniqueWaitNumber` returns a non-zero
number that no slot uses. -/
theorem UniqueWaitNumber_total (l : List INT_CONTEXT) (t fuel : Nat)
    (hsize : 2 * l.length < 4294967295) (hfuel : 2 * l.length < fuel) :
    ∃ w : Nat, UniqueWaitNumber l fuel t = some w ∧ w ≠ 0 ∧
      ∀ c : INT_CONTEXT, c ∈ l → c.waitNumber1 ≠ w ∧ c.waitNumber2 ≠ w := by
  have hex := waitCandidate_free l t hsize
  have hex2 : ∃ k, waitNumberInUse (waitCandidate t k) l = false := by
    obtain ⟨k, _, hk⟩ := hex
    exact ⟨k, hk⟩
  have hspec := Nat.find_spec hex2
  have hmin : ∀ j, j < Nat.find hex2 → waitNumberInUse (waitCandidate t j) l = true := by
    intro j hj
    have := Nat.find_min hex2 hj
    simpa using this
  have hle : Nat.find hex2 ≤ 2 * l.length := by
    obtain ⟨k, hk, hkf⟩ := hex
    exact le_trans (Nat.find_min' hex2 hkf) hk
  exact ⟨_, UniqueWaitNumber_run l _ t fuel hmin hspec (by omega), (waitCandidate_range t _).1,
    fun c hc => waitNumberInUse_false _ l hspec c hc⟩

/-- C23, as stated, does not hold: a process that owns a live context whose `waitNumber2`
is 0 and waits for itself fails in `assert(currentProcess != pWaitProc)`. -/
theorem wait_for_self_fails :
    ((sampleMachine []).icList[findContext 1 (sampleMachine []).icList]?.map
      fun c => (c.GSort, c.pProc, c.waitNumber2)) = some (GSORT.GS_OTHER 0, 1, 0) ∧
    WaitInterpretSetup 10 1 1 5 (sampleMachine []) = .fatal .waitForSelf (sampleMachine [], 0) :=
  ⟨rfl, rfl⟩

/-- C23 (amended): let the calling process `cur` (not `NULL`) and another process
`pWaitProc` each own a live context, `A` in slot `a` and `B` in slot `b` (the slots the
scans of `WaitInterpret` find). If `B.waitNumber2` is non-zero the call fails in its
assertion, and it fails only then. Otherwise, before its first yield, it stores one and
the same token `w`, non-zero and used by no slot before, in `A.waitNumber1` and
`B.waitNumber2`, sets `A.resumeCode` to `RES_WAITING`, and changes nothing else in the
pool. -/
theorem WaitInterpret_setup (fuel cur pWaitProc time : Nat) (m : Machine)
    (A B : INT_CONTEXT) (hcur : cur ≠ 0) (hne : cur ≠ pWaitProc)
    (hA : m.icList[findContext cur m.icList]? = some A)
    (hB : m.icList[findContext pWaitProc m.icList]? = some B)
    (hsize : 2 * m.icList.length < 4294967295) (hfuel : 2 * m.icList.length < fuel) :
    (A.GSort ≠ GSORT.GS_NONE ∧ A.pProc = cur ∧ B.GSort ≠ GSORT.GS_NONE ∧ B.pProc = pWaitProc) ∧
    (B.waitNumber2 ≠ 0 → WaitInterpretSetup fuel cur pWaitProc time m =
      .fatal .waiteeBusy (m, findContext cur m.icList)) ∧
    (B.waitNumber2 = 0 → ∃ (w : Nat) (m1 : Machine),
      WaitInterpretSetup fuel cur pWaitProc time m = .ok (m1, findContext cur m.icList) ∧
      w ≠ 0 ∧ (∀ c : INT_CONTEXT, c ∈ m.icList → c.waitNumber1 ≠ w ∧ c.waitNumber2 ≠ w) ∧
      m1.icList[findContext cur m.icList]? =
        some { A with waitNumber1 := w, resumeCode := RESCODE.RES_WAITING } ∧
      m1.icList[findContext pWaitProc m.icList]? = some { B with waitNumber2 := w } ∧
      m1.icList.length = m.icList.length ∧
      (∀ j : Nat, j ≠ findContext cur m.icList → j ≠ findContext pWaitProc m.icList →
        m1.icList[j]? = m.icList[j]?) ∧
      { m1 with icList := m.icList } = m) ∧
    ((∃ f r, WaitInterpretSetup fuel cur pWaitProc time m = .fatal f r) ↔
      B.waitNumber2 ≠ 0) := by
  have hal : findContext cur m.icList < m.icList.length := getElem?_lt _ _ _ hA
  have hbl : findContext pWaitProc m.icList < m.icList.length := getElem?_lt _ _ _ hB
  have hAs : A.GSort ≠ GSORT.GS_NONE ∧ A.pProc = cur := by
    rcases findContext_spec cur m.icList with ⟨h, _⟩ | ⟨c, hc, h1, h2, _⟩
    · omega
    · rw [hA] at hc
      injection hc with hc
      subst hc
      exact ⟨h1, h2⟩
  have hBs : B.GSort ≠ GSORT.GS_NONE ∧ B.pProc = pWaitProc := by
    rcases findContext_spec pWaitProc m.icList with ⟨h, _⟩ | ⟨c, hc, h1, h2, _⟩
    · omega
    · rw [hB] at hc
      injection hc with hc
      subst hc
      exact ⟨h1, h2⟩
  have hab : findContext pWaitProc m.icList ≠ findContext cur m.icList := by
    intro h
    rw [h, hA] at hB
    injection hB with hB
    subst hB
    exact hne (hAs.2.symm.trans hBs.2)
  have hbusy : B.waitNumber2 ≠ 0 → WaitInterpretSetup fuel cur pWaitProc time m =
      .fatal .waiteeBusy (m, findContext cur m.icList) := by
    intro hw
    unfold WaitInterpretSetup
    simp only [hcur, hne, hB, hw, if_false]
  have hfree : B.waitNumber2 = 0 → ∃ (w : Nat) (m1 : Machine),
      WaitInterpretSetup fuel cur pWaitProc time m = .ok (m1, findContext cur m.icList) ∧
      w ≠ 0 ∧ (∀ c : INT_CONTEXT, c ∈ m.icList → c.waitNumber1 ≠ w ∧ c.waitNumber2 ≠ w) ∧
      m1.icList[findContext cur m.icList]? =
        some { A with waitNumber1 := w, resumeCode := RESCODE.RES_WAITING } ∧
      m1.icList[findContext pWaitProc m.icList]? = some { B with waitNumber2 := w } ∧
      m1.icList.length = m.icList.length ∧
      (∀ j : Nat, j ≠ findContext cur m.icList → j ≠ findContext pWaitProc m.icList →
        m1.icList[j]? = m.icList[j]?) ∧
      { m1 with icList := m.icList } = m := by
    intro hw
    obtain ⟨w, hu, hw0, hunused⟩ := UniqueWaitNumber_total m.icList time fuel hsize hfuel
    have e1 := updateSlot_eq_set (fun c => { c with waitNumber2 := w }) m.icList _ B hB
    have hA1 : (m.icList.set (findContext pWaitProc m.icList) { B with waitNumber2 := w })[
        findContext cur m.icList]? = some A := by
      rw [List.getElem?_set_ne hab]
      exact hA
    have e2 := updateSlot_eq_set (fun c => { c with waitNumber1 := w }) _ _ A hA1
    have hA2 : ((m.icList.set (findContext pWaitProc m.icList) { B with waitNumber2 := w }).set
        (findContext cur m.icList) { A with waitNumber1 := w })[findContext cur m.icList]?
          = some { A with waitNumber1 := w } := by
      apply List.getElem?_set_self
      simp [hal]
    have e3 := updateSlot_eq_set (fun c => { c with resumeCode := RESCODE.RES_WAITING }) _ _ _ hA2
    obtain ⟨l3, hl3⟩ : ∃ l3 : List INT_CONTEXT, l3 =
        ((m.icList.set (findContext pWaitProc m.icList) { B with waitNumber2 := w }).set
          (findContext cur m.icList) { A with waitNumber1 := w }).set
          (findContext cur m.icList)
          { A with waitNumber1 := w, resumeCode := RESCODE.RES_WAITING } := ⟨_, rfl⟩
    rw [← hl3] at e3
    refine ⟨w, { m with icList := l3 }, ?_, hw0, hunused, ?_, ?_, ?_, ?_, rfl⟩
    all_goals try subst hl3
    · unfold WaitInterpretSetup
      simp only [hcur, hne, hB, hw, hu, hal, if_true, if_false, e1, e2, e3]
    · apply List.getElem?_set_self
      simp [hal]
    · show (((m.icList.set _ _).set _ _).set _ _)[findContext pWaitProc m.icList]? = _
      rw [List.getElem?_set_ne hab.symm, List.getElem?_set_ne hab.symm]
      exact List.getElem?_set_self hbl
    · simp
    · intro j hja hjb
      show (((m.icList.set _ _).set _ _).set _ _)[j]? = _
      rw [List.getElem?_set_ne (Ne.symm hja), List.getElem?_set_ne (Ne.symm hja),
        List.getElem?_set_ne (Ne.symm hjb)]
  refine ⟨⟨hAs.1, hAs.2, hBs.1, hBs.2⟩, hbusy, hfree, ?_, ?_⟩
  · rintro ⟨f, r, hf⟩
    by_contra hw
    obtain ⟨w, m1, hok, _⟩ := hfree hw
    rw [hok] at hf
    cases hf
  · intro hw
    exact ⟨_, _, hbusy hw⟩

theorem WaitInterpret_setup_witness :
    WaitInterpretSetup 5 1 2 700 sampleWaitMachine = .fatal .waiteeBusy (sampleWaitMachine, 0) ∧
    ∃ (w : Nat) (m1 : Machine),
      WaitInterpretSetup 5 1 2 700 sampleRegistered = .ok (m1, 0) ∧ w ≠ 0 ∧
      m1.icList[0]? =
        some { sampleContext [] with waitNumber1 := w, resumeCode := RESCODE.RES_WAITING } ∧
      m1.icList[1]? = some { sampleContext [] with pProc := 2, waitNumber2 := w } :=
  ⟨(WaitInterpret_setup 5 1 2 700 sampleWaitMachine _ _ (by decide) (by decide) rfl rfl
      (by decide) (by decide)).2.1 (by decide),
   ((WaitInterpret_setup 5 1 2 700 sampleRegistered _ _ (by decide) (by decide) rfl rfl
      (by decide) (by decide)).2.2.1 rfl).imp fun _ h => h.imp fun _ h1 =>
        ⟨h1.1, h1.2.1, h1.2.2.2.1, h1.2.2.2.2.1⟩⟩

/-! ### Saving and loading a context -/

theorem syncAsUint32LE_decode (v : Int) (rest : List Nat) (old : Nat) :
    Serializer.syncAsUint32LE (.loading (encodeLE32 v ++ rest)) old =
      some (.loading rest, (v % 4294967296).toNat) := by
  have hu : (v % 4294967296).toNat < 4294967296 := by omega
  have hsum : (v % 4294967296).toNat % 256 % 256
      + 256 * ((v % 4294967296).toNat / 256 % 256 % 256)
      + 65536 * ((v % 4294967296).toNat / 65536 % 256 % 256)
      + 16777216 * ((v % 4294967296).toNat / 16777216 % 256 % 256)
      = (v % 4294967296).toNat := by omega
  simp only [encodeLE32, List.cons_append, List.nil_append, Serializer.syncAsUint32LE, hsum]

theorem syncAsUint32LE_decode_nat (n : Nat) (hn : n < 4294967296) (rest : List Nat)
    (old : Nat) :
    Serializer.syncAsUint32LE (.loading (encodeLE32 (n : Int) ++ rest)) old =
      some (.loading rest, n) := by
  rw [syncAsUint32LE_decode]
  have : ((n : Int) % 4294967296).toNat = n := by omega
  rw [this]

theorem syncHead_save (g : GSortCodes) (out : List Nat) (c : INT_CONTEXT) :
    syncHead g (.saving out) c =
      some (.saving (out ++ ([(g.toCode c.GSort : Int), (c.hCode : Int), (c.event : Int),
        c.hPoly, c.idActor].flatMap encodeLE32)), c) := by
  unfold syncHead
  simp only [Serializer.syncAsUint32LE, Serializer.syncAsSint32LE, Serializer.isLoading,
    Bool.false_eq_true, if_false]
  simp [List.flatMap_cons]

theorem syncTail_save (out : List Nat) (c : INT_CONTEXT) :
    syncTail (.saving out) c =
      some (.saving (out ++ ([c.sp, c.bp, c.ip, (boolCode c.bHalt : Int),
        (boolCode c.escOn : Int), c.myEscape].flatMap encodeLE32)), c) := by
  unfold syncTail
  simp only [Serializer.syncAsUint32LE, Serializer.syncAsSint32LE, Serializer.isLoading,
    Bool.false_eq_true, if_false]
  simp [List.flatMap_cons]

theorem syncWithSerializer_save {κ : Type} (x : Host κ) (g : GSortCodes) (out : List Nat)
    (c : INT_CONTEXT) (hlen : c.stack.length = x.PCODE_STACK_SIZE) :
    INT_CONTEXT.syncWithSerializer x g (.saving out) c =
      some (.saving (out ++ (contextWords g c).flatMap encodeLE32), c) := by
  have hs : ∀ o : List Nat, syncGlobalsLoop x.PCODE_STACK_SIZE (.saving o) c.stack =
      some (.saving (o ++ c.stack.flatMap encodeLE32), c.stack) := by
    intro o
    rw [syncGlobalsLoop_save _ _ _ (Nat.le_of_eq hlen.symm), ← hlen, List.take_length]
  unfold INT_CONTEXT.syncWithSerializer
  simp only [Serializer.isLoading, Bool.false_eq_true, if_false, syncHead_save, syncStackLoop, hs,
    syncTail_save]
  simp [contextWords, List.flatMap_append]

theorem syncHead_load (g : GSortCodes) (c d : INT_CONTEXT) (rest : List Nat)
    (hG : g.ofCode (g.toCode c.GSort % 4294967296) = c.GSort)
    (h1 : c.hCode < 4294967296) (h2 : c.event < 4294967296)
    (h3 : -2147483648 ≤ c.hPoly ∧ c.hPoly ≤ 2147483647)
    (h4 : -2147483648 ≤ c.idActor ∧ c.idActor ≤ 2147483647) :
    syncHead g (.loading (([(g.toCode c.GSort : Int), (c.hCode : Int), (c.event : Int),
        c.hPoly, c.idActor].flatMap encodeLE32) ++ rest)) d =
      some (.loading rest, { d with
        GSort := c.GSort, hCode := c.hCode, event := c.event, hPoly := c.hPoly,
        idActor := c.idActor }) := by
  have hcode : ((g.toCode c.GSort : Int) % 4294967296).toNat = g.toCode c.GSort % 4294967296 := by
    omega
  unfold syncHead
  simp only [List.flatMap_cons, List.flatMap_nil, List.append_nil, List.append_assoc]
  rw [syncAsUint32LE_decode]
  simp only
  rw [syncAsUint32LE_decode_nat _ h1]
  simp only
  rw [syncAsUint32LE_decode_nat _ h2]
  simp only
  rw [encodeLE32_decode _ h3.1 h3.2]
  simp only
  rw [encodeLE32_decode _ h4.1 h4.2]
  simp only [Serializer.isLoading, if_true, hcode, hG]

theorem boolCode_decode (b : Bool) :
    boolCode b < 4294967296 ∧ decide (boolCode b ≠ 0) = b := by
  cases b <;> simp [boolCode]

theorem syncTail_load (c d : INT_CONTEXT) (rest : List Nat)
    (h1 : -2147483648 ≤ c.sp ∧ c.sp ≤ 2147483647)
    (h2 : -2147483648 ≤ c.bp ∧ c.bp ≤ 2147483647)
    (h3 : -2147483648 ≤ c.ip ∧ c.ip ≤ 2147483647)
    (h4 : -2147483648 ≤ c.myEscape ∧ c.myEscape ≤ 2147483647) :
    syncTail (.loading (([c.sp, c.bp, c.ip, (boolCode c.bHalt : Int),
        (boolCode c.escOn : Int), c.myEscape].flatMap encodeLE32) ++ rest)) d =
      some (.loading rest, { d with
        sp := c.sp, bp := c.bp, ip := c.ip, bHalt := c.bHalt, escOn := c.escOn,
        myEscape := c.myEscape }) := by
  unfold syncTail
  simp only [List.flatMap_cons, List.flatMap_nil, List.append_nil, List.append_assoc]
  rw [encodeLE32_decode _ h1.1 h1.2]
  simp only
  rw [encodeLE32_decode _ h2.1 h2.2]
  simp only
  rw [encodeLE32_decode _ h3.1 h3.2]
  simp only
  rw [syncAsUint32LE_decode_nat _ (boolCode_decode c.bHalt).1]
  simp only
  rw [syncAsUint32LE_decode_nat _ (boolCode_decode c.escOn).1]
  simp only
  rw [encodeLE32_decode _ h4.1 h4.2]
  simp only [Serializer.isLoading, if_true, (boolCode_decode c.bHalt).2,
    (boolCode_decode c.escOn).2]

theorem length_contextWords {κ : Type} (x : Host κ) (g : GSortCodes) (c : INT_CONTEXT)
    (hlen : c.stack.length = x.PCODE_STACK_SIZE) :
    (contextWords g c).length = 11 + x.PCODE_STACK_SIZE := by
  simp [contextWords, hlen]
  omega

/-- C22: for a context `c` whose fields hold values of their C types, saving `c` with
`syncWithSerializer` leaves `c` as it is and writes exactly the record `contextWords`:
sort, code handle, event, polygon, actor, the `PCODE_STACK_SIZE` stack words, `sp`, `bp`,
`ip`, `bHalt`, `escOn`, `myEscape`, in this order, each as one 32-bit little-endian word
(`11 + PCODE_STACK_SIZE` words, no pointer field among them). Loading these bytes into any
context `d` consumes them all and yields `d` with these fields equal to those of `c` and
with `pProc`, `code` and `pinvo` null; the fields that are not part of the record
(the wait numbers, `resumeCode`, `resumeState`) stay as they are in `d`. -/
theorem context_round_trip {κ : Type} (x : Host κ) (g : GSortCodes) (c d : INT_CONTEXT)
    (hG : g.ofCode (g.toCode c.GSort % 4294967296) = c.GSort) (hc : FitsRecord x c)
    (hd : d.stack.length = x.PCODE_STACK_SIZE) :
    INT_CONTEXT.syncWithSerializer x g (.saving []) c =
      some (.saving ((contextWords g c).flatMap encodeLE32), c) ∧
    (contextWords g c).length = 11 + x.PCODE_STACK_SIZE ∧
    ((contextWords g c).flatMap encodeLE32).length = 4 * (11 + x.PCODE_STACK_SIZE) ∧
    INT_CONTEXT.syncWithSerializer x g (.loading ((contextWords g c).flatMap encodeLE32)) d =
      some (.loading [], { d with
        pProc := 0, code := none, pinvo := 0, GSort := c.GSort, hCode := c.hCode,
        event := c.event, hPoly := c.hPoly, idActor := c.idActor, stack := c.stack,
        sp := c.sp, bp := c.bp, ip := c.ip, bHalt := c.bHalt, escOn := c.escOn,
        myEscape := c.myEscape }) := by
  obtain ⟨h1, h2, h3, h4, h5, h6, h7, h8, hst, hlen⟩ := hc
  have hsave := syncWithSerializer_save x g [] c hlen
  rw [List.nil_append] at hsave
  have hwords := length_contextWords x g c hlen
  refine ⟨hsave, hwords, ?_, ?_⟩
  · rw [length_flatMap_encodeLE32, hwords]
  · have hbytes : (contextWords g c).flatMap encodeLE32 =
        ([(g.toCode c.GSort : Int), (c.hCode : Int), (c.event : Int), c.hPoly,
            c.idActor].flatMap encodeLE32) ++
          (c.stack.flatMap encodeLE32 ++
            (([c.sp, c.bp, c.ip, (boolCode c.bHalt : Int), (boolCode c.escOn : Int),
              c.myEscape].flatMap encodeLE32) ++ [])) := by
      simp [contextWords, List.flatMap_append]
    rw [hbytes]
    unfold INT_CONTEXT.syncWithSerializer
    simp only [Serializer.isLoading, if_true]
    rw [syncHead_load g c _ _ hG h1 h2 h3 h4]
    simp only [syncStackLoop]
    rw [← hlen, syncGlobalsLoop_load c.stack _ _ hst (by show c.stack.length ≤ d.stack.length; omega)]
    simp only
    rw [syncTail_load c _ _ h5 h6 h7 h8]
    have hdrop : List.drop c.stack.length d.stack = [] :=
      List.drop_eq_nil_of_le (by omega)
    simp [hdrop]

theorem context_round_trip_witness :
    INT_CONTEXT.syncWithSerializer sampleHost sampleCodes (.saving []) (sampleContext []) =
      some (.saving ((contextWords sampleCodes (sampleContext [])).flatMap encodeLE32),
        sampleContext []) ∧
    ((contextWords sampleCodes (sampleContext [])).flatMap encodeLE32).length = 4 * (11 + 8) ∧
    INT_CONTEXT.syncWithSerializer sampleHost sampleCodes
        (.loading ((contextWords sampleCodes (sampleContext [])).flatMap encodeLE32))
        sampleTarget =
      some (.loading [], { sampleContext [] with
        pProc := 0, code := none, pinvo := 0, waitNumber2 := 7 }) :=
  have h := context_round_trip sampleHost sampleCodes (sampleContext []) sampleTarget rfl
    (by unfold FitsRecord; decide) rfl
  ⟨h.1, h.2.2.1, h.2.2.2⟩

/-! ### Wait numbers of free slots -/

/-- `FreeWaitCheck` keeps the sort of every context and changes wait numbers only to 0. -/
theorem FreeWaitCheck_weak (i : Nat) (v : Bool) (m m1 : Machine)
    (h : FreeWaitCheck i v m = .ok m1) :
    m1.icList.length = m.icList.length ∧
    ∀ (j : Nat) (c : INT_CONTEXT), m.icList[j]? = some c →
      ∃ c1 : INT_CONTEXT, m1.icList[j]? = some c1 ∧ c1.GSort = c.GSort ∧
        (c1.waitNumber1 = c.waitNumber1 ∨ c1.waitNumber1 = 0) ∧
        (c1.waitNumber2 = c.waitNumber2 ∨ c1.waitNumber2 = 0) := by
  unfold FreeWaitCheck at h
  split at h
  · cases h
  · rename_i pic hpic
    obtain ⟨hlen, hget⟩ := freeWaitCheck_first pic.waitNumber1 m.icList
    generalize (if pic.waitNumber1 ≠ 0 then clearWaitee pic.waitNumber1 m.icList else m.icList)
      = l1 at hlen hget h
    simp only at h
    have hw : ∀ (c c1 : INT_CONTEXT),
        (c1.waitNumber2 = c.waitNumber2 ∨
          (c.waitNumber2 = pic.waitNumber1 ∧ pic.waitNumber1 ≠ 0 ∧ c1.waitNumber2 = 0)) →
        (c1.waitNumber2 = c.waitNumber2 ∨ c1.waitNumber2 = 0) := by
      intro c c1 h3
      rcases h3 with h3 | h3
      · exact Or.inl h3
      · exact Or.inr h3.2.2
    split at h
    · rename_i hw2
      rcases notifyWaiter_cases ((l1[i]?).getD pic).waitNumber2
        (if v then RESCODE.RES_FINISHED else RESCODE.RES_CUTSHORT) l1 with
        ⟨_, heq⟩ | ⟨k, d, hk, _, _, heq⟩
      · rw [heq] at h
        cases h
      · rw [heq] at h
        injection h with h
        subst h
        refine ⟨by simp [hlen], ?_⟩
        intro j c hj
        obtain ⟨c1, h1, h2, h3⟩ := hget j c hj
        have hf := same_but_waitee_fields c c1 h2
        by_cases hkj : k = j
        · subst hkj
          rw [hk] at h1
          injection h1 with h1
          subst h1
          exact ⟨{ d with waitNumber1 := 0, resumeCode :=
            (if v then RESCODE.RES_FINISHED else RESCODE.RES_CUTSHORT) },
            by simp [getElem?_lt _ _ _ hk], hf.2.2.1, Or.inr rfl, hw c d h3⟩
        · exact ⟨c1, by simp [List.getElem?_set_ne hkj, h1], hf.2.2.1, Or.inl hf.1, hw c c1 h3⟩
    · injection h with h
      subst h
      refine ⟨hlen, ?_⟩
      intro j c hj
      obtain ⟨c1, h1, h2, h3⟩ := hget j c hj
      have hf := same_but_waitee_fields c c1 h2
      exact ⟨c1, h1, hf.2.2.1, Or.inl hf.1, hw c c1 h3⟩

theorem SlotKept_refl (v2 : Bool) (c : INT_CONTEXT) : SlotKept v2 c c :=
  ⟨Or.inl rfl, Or.inl rfl, fun h => Or.inl h⟩

theorem updateSlot_get (f : INT_CONTEXT → INT_CONTEXT) (i : Nat) (l : List INT_CONTEXT)
    (j : Nat) : (updateSlot f i l)[j]? = if j = i then (l[j]?).map f else l[j]? := by
  induction l generalizing i j with
  | nil => cases i <;> simp [updateSlot]
  | cons d rest ih =>
    cases i with
    | zero =>
      cases j with
      | zero => simp [updateSlot]
      | succ k => simp [updateSlot]
    | succ n =>
      cases j with
      | zero => simp [updateSlot]
      | succ k => simp [updateSlot, ih n k]

theorem length_updateSlot (f : INT_CONTEXT → INT_CONTEXT) (i : Nat) (l : List INT_CONTEXT) :
    (updateSlot f i l).length = l.length := by
  induction l generalizing i with
  | nil => cases i <;> rfl
  | cons d rest ih =>
    cases i with
    | zero => rfl
    | succ n => simp [updateSlot, ih n]

/-- A release (`FreeWaitCheck`, then the tail shared by the two release routines) keeps or
clears the wait numbers of every slot; in a Tinsel 2 engine the released slot has none. -/
theorem release_slots {κ : Type} (x : Host κ) (i : Nat) (v : Bool) (m m2 : Machine)
    (h : FreeWaitCheck i v m = .ok m2) :
    (updateSlot (releaseSlot x) i m2.icList).length = m.icList.length ∧
    ∀ (j : Nat) (c : INT_CONTEXT), m.icList[j]? = some c →
      ∃ c1 : INT_CONTEXT, (updateSlot (releaseSlot x) i m2.icList)[j]? = some c1 ∧
        SlotKept x.TinselV2 c c1 := by
  obtain ⟨hlen, hget⟩ := FreeWaitCheck_weak i v m m2 h
  refine ⟨by rw [length_updateSlot, hlen], ?_⟩
  intro j c hj
  obtain ⟨c2, h2, hg, hw1, hw2⟩ := hget j c hj
  rw [updateSlot_get, h2]
  by_cases hji : j = i
  · rw [if_pos hji]
    refine ⟨releaseSlot x c2, rfl, ?_⟩
    unfold releaseSlot
    cases hv : x.TinselV2
    · exact ⟨hw1, hw2, fun _ => Or.inr (fun h => by cases h)⟩
    · exact ⟨Or.inr rfl, Or.inr rfl, fun _ => Or.inr (fun _ => ⟨rfl, rfl⟩)⟩
  · rw [if_neg hji]
    exact ⟨c2, rfl, hw1, hw2, fun hf => Or.inl (by rw [← hg]; exact hf)⟩

theorem FreeWaitCheck_not_suspended (i : Nat) (v : Bool) (m m1 : Machine) :
    FreeWaitCheck i v m ≠ .suspended m1 := by
  intro hf
  unfold FreeWaitCheck at hf
  cases hm : m.icList[i]? with
  | none => simp only [hm] at hf; cases hf
  | some pic =>
    simp only [hm] at hf
    generalize (if pic.waitNumber1 ≠ 0 then clearWaitee pic.waitNumber1 m.icList else m.icList)
      = l1 at hf
    by_cases hw : ((l1[i]?).getD pic).waitNumber2 ≠ 0
    · rw [if_pos hw] at hf
      split at hf <;> cases hf
    · rw [if_neg hw] at hf
      cases hf

theorem FreeInterpretContextPi_ok {κ : Type} (x : Host κ) (i : Nat) (m m1 : Machine)
    (h : FreeInterpretContextPi x i m = .ok m1) :
    ∃ m2 : Machine, FreeWaitCheck i true m = .ok m2 ∧
      m1.icList = updateSlot (releaseSlot x) i m2.icList := by
  unfold FreeInterpretContextPi at h
  cases hf : FreeWaitCheck i true m with
  | ok m2 =>
    rw [hf] at h
    injection h with h
    subst h
    exact ⟨m2, rfl, rfl⟩
  | suspended m2 => rw [hf] at h; cases h
  | fatal f m2 => rw [hf] at h; cases h
  | timeout m2 => rw [hf] at h; cases h

theorem FreeInterpretContextPi_not_suspended {κ : Type} (x : Host κ) (i : Nat) (m m1 : Machine) :
    FreeInterpretContextPi x i m ≠ .suspended m1 := by
  intro h
  unfold FreeInterpretContextPi at h
  cases hf : FreeWaitCheck i true m with
  | ok m2 => rw [hf] at h; cases h
  | suspended m2 => exact FreeWaitCheck_not_suspended i true m m2 hf
  | fatal f m2 => rw [hf] at h; cases h
  | timeout m2 => rw [hf] at h; cases h

theorem findContext_live (p : Nat) (l : List INT_CONTEXT) (c : INT_CONTEXT)
    (h : l[findContext p l]? = some c) : c.GSort ≠ GSORT.GS_NONE ∧ c.pProc = p := by
  rcases findContext_spec p l with ⟨h1, _⟩ | ⟨d, hd, h1, h2, _⟩
  · have := getElem?_lt _ _ _ h
    omega
  · rw [h] at hd
    injection hd with hd
    subst hd
    exact ⟨h1, h2⟩

theorem init_slots {κ : Type} (x : Host κ) (cur : Nat) (gsort : GSORT)
    (hCode event : Nat) (hpoly actorid : Int) (pinvo : Nat) (myEscape : Int) (m m1 : Machine)
    (i : Nat)
    (h : InitInterpretContext x cur gsort hCode event hpoly actorid pinvo myEscape m =
      .ok (i, m1)) :
    m1.icList.length = m.icList.length ∧
    (∀ (j : Nat) (c : INT_CONTEXT), m.icList[j]? = some c →
      ∃ c1 : INT_CONTEXT, m1.icList[j]? = some c1 ∧ SlotKept x.TinselV2 c c1) ∧
    ∃ slot c1 : INT_CONTEXT, m.icList[i]? = some slot ∧ slot.GSort = GSORT.GS_NONE ∧
      m1.icList[i]? = some c1 ∧ c1.waitNumber1 = slot.waitNumber1 ∧
      c1.waitNumber2 = slot.waitNumber2 ∧ m1.rescheduled = m.rescheduled := by
  obtain ⟨slot, ic0, hs, hfree, h0, hic, hm⟩ :=
    InitInterpretContext_ok x cur gsort hCode event hpoly actorid pinvo myEscape m m1 i h
  have hw : ic0.waitNumber1 = slot.waitNumber1 ∧ ic0.waitNumber2 = slot.waitNumber2 := by
    rw [hic, LockCode_eq]
    exact ⟨rfl, rfl⟩
  have hl : m1.icList = m.icList.set i ic0 := by rw [hm]
  refine ⟨by rw [hl]; simp, ?_, slot, ic0, hs, hfree, h0, hw.1, hw.2, by rw [hm]⟩
  intro j c hj
  by_cases hji : i = j
  · subst hji
    rw [hs] at hj
    injection hj with hj
    subst hj
    exact ⟨ic0, h0, Or.inl hw.1, Or.inl hw.2, fun _ => Or.inl hfree⟩
  · refine ⟨c, ?_, SlotKept_refl _ c⟩
    rw [hl, List.getElem?_set_ne hji]
    exact hj

theorem WaitInterpretSetup_ok (fuel cur p time : Nat) (m m1 : Machine) (a : Nat)
    (h : WaitInterpretSetup fuel cur p time m = .ok (m1, a)) :
    ∃ w : Nat, m1.icList =
      updateSlot (fun c => { c with resumeCode := RESCODE.RES_WAITING }) (findContext cur m.icList)
        (updateSlot (fun c => { c with waitNumber1 := w }) (findContext cur m.icList)
          (updateSlot (fun c => { c with waitNumber2 := w }) (findContext p m.icList)
            m.icList)) := by
  unfold WaitInterpretSetup at h
  simp only at h
  split at h
  · cases h
  · split at h
    · cases h
    · split at h
      · cases h
      · split at h
        · split at h
          · cases h
          · rename_i w hw
            split at h
            · injection h with h
              injection h with h1 h2
              subst h1
              exact ⟨w, rfl⟩
            · cases h
        · cases h

theorem wait_slots {κ : Type} (x : Host κ) (fuel cur p time : Nat) (m m1 : Machine) (a : Nat)
    (h : WaitInterpretSetup fuel cur p time m = .ok (m1, a)) :
    m1.icList.length = m.icList.length ∧
    ∀ (j : Nat) (c : INT_CONTEXT), m.icList[j]? = some c →
      ∃ c1 : INT_CONTEXT, m1.icList[j]? = some c1 ∧
        SlotStep x (PoolOp.wait fuel cur p time) m j c c1 := by
  obtain ⟨w, hl⟩ := WaitInterpretSetup_ok fuel cur p time m m1 a h
  refine ⟨by rw [hl]; simp [length_updateSlot], ?_⟩
  intro j c hj
  rw [hl, updateSlot_get, updateSlot_get, updateSlot_get, hj]
  by_cases hjp : j = findContext p m.icList
  · have hlive := (findContext_live p m.icList c (by rw [← hjp]; exact hj)).1
    by_cases hjc : j = findContext cur m.icList
    · rw [if_pos hjc, if_pos hjc, if_pos hjp]
      exact ⟨_, rfl, Or.inr ⟨hlive, rfl, fuel, cur, p, time, rfl, Or.inl hjp.symm⟩⟩
    · rw [if_neg hjc, if_neg hjc, if_pos hjp]
      exact ⟨_, rfl, Or.inr ⟨hlive, rfl, fuel, cur, p, time, rfl, Or.inl hjp.symm⟩⟩
  · by_cases hjc : j = findContext cur m.icList
    · have hlive := (findContext_live cur m.icList c (by rw [← hjc]; exact hj)).1
      rw [if_pos hjc, if_pos hjc, if_neg hjp]
      exact ⟨_, rfl, Or.inr ⟨hlive, rfl, fuel, cur, p, time, rfl, Or.inr ⟨hjc.symm, rfl⟩⟩⟩
    · rw [if_neg hjc, if_neg hjc, if_neg hjp]
      exact ⟨c, rfl, Or.inl (SlotKept_refl _ c)⟩

theorem SlotKept_of_links (v2 : Bool) (c0 c c1 : INT_CONTEXT) (hl : SameLinks c0 c)
    (h : SlotKept v2 c c1) : SlotKept v2 c0 c1 := by
  obtain ⟨l1, l2, l3, _⟩ := hl
  unfold SlotKept at h ⊢
  rw [l1, l2, l3] at h
  exact h

/-- The pool after the passes of `Interpret` on slot `i`: the links of every slot are as
before. -/
theorem ofExec_slots {κ : Type} (m : Machine) (i : Nat) (ic : INT_CONTEXT) (e : Exec κ)
    (hi : m.icList[i]? = some ic) (hl : SameLinks ic e.ic) :
    (m.ofExec i e).icList.length = m.icList.length ∧
    ∀ (j : Nat) (c : INT_CONTEXT), m.icList[j]? = some c →
      ∃ c1 : INT_CONTEXT, (m.ofExec i e).icList[j]? = some c1 ∧ SameLinks c c1 := by
  refine ⟨by simp [Machine.ofExec], ?_⟩
  intro j c hj
  show ∃ c1 : INT_CONTEXT, (m.icList.set i e.ic)[j]? = some c1 ∧ SameLinks c c1
  by_cases hij : i = j
  · subst hij
    rw [hi] at hj
    injection hj with hj
    subst hj
    exact ⟨e.ic, List.getElem?_set_self (getElem?_lt _ _ _ hi), hl⟩
  · rw [List.getElem?_set_ne hij]
    exact ⟨c, hj, rfl, rfl, rfl, rfl, rfl⟩

theorem interpret_slots {κ : Type} (x : Host κ) (fuel : Nat) (coroParam : Option κ) (i : Nat)
    (m m1 : Machine) (h : applyOp x (PoolOp.interpret fuel coroParam i) m = some m1) :
    m1.icList.length = m.icList.length ∧
    ∀ (j : Nat) (c : INT_CONTEXT), m.icList[j]? = some c →
      ∃ c1 : INT_CONTEXT, m1.icList[j]? = some c1 ∧ SlotKept x.TinselV2 c c1 := by
  unfold applyOp Interpret at h
  cases hi : m.icList[i]? with
  | none => simp only [hi] at h; cases h
  | some ic =>
    simp only [hi] at h
    have hlinks := InterpretLoop_links x fuel (m.toExec ic coroParam)
    have hplain : ∀ e : Exec κ, SameLinks ic e.ic →
        (m.ofExec i e).icList.length = m.icList.length ∧
        ∀ (j : Nat) (c : INT_CONTEXT), m.icList[j]? = some c →
          ∃ c1 : INT_CONTEXT, (m.ofExec i e).icList[j]? = some c1 ∧
            SlotKept x.TinselV2 c c1 := by
      intro e hl
      obtain ⟨h1, h2⟩ := ofExec_slots m i ic e hi hl
      refine ⟨h1, fun j c hj => ?_⟩
      obtain ⟨c1, hc1, hs⟩ := h2 j c hj
      exact ⟨c1, hc1, SlotKept_of_links _ c c1 c1 hs (SlotKept_refl _ c1)⟩
    cases hr : InterpretLoop x fuel (m.toExec ic coroParam) with
    | ok e =>
      rw [hr] at hlinks
      simp only [hr] at h
      by_cases hsp : e.ic.sp = 0
      · simp only [hsp, if_true] at h
        cases hf : FreeInterpretContextPi x i (m.ofExec i e) with
        | ok m2 =>
          simp only [hf] at h
          injection h with h
          subst h
          obtain ⟨m3, h3, hl3⟩ := FreeInterpretContextPi_ok x i _ _ hf
          obtain ⟨r1, r2⟩ := release_slots x i true _ m3 h3
          obtain ⟨o1, o2⟩ := ofExec_slots m i ic e hi hlinks
          refine ⟨by rw [hl3, r1, o1], fun j c hj => ?_⟩
          obtain ⟨c1, hc1, hs⟩ := o2 j c hj
          obtain ⟨c2, hc2, hk⟩ := r2 j c1 hc1
          exact ⟨c2, by rw [hl3]; exact hc2, SlotKept_of_links _ c c1 c2 hs hk⟩
        | suspended m2 => exact absurd hf (FreeInterpretContextPi_not_suspended x i _ m2)
        | fatal f m2 => simp only [hf] at h; cases h
        | timeout m2 => simp only [hf] at h; cases h
      · simp only [hsp, if_false] at h
        cases h
    | suspended e =>
      rw [hr] at hlinks
      simp only [hr] at h
      injection h with h
      subst h
      exact hplain e hlinks
    | fatal f e => simp only [hr] at h; cases h
    | timeout e => simp only [hr] at h; cases h

theorem wipeSlot_kept (v2 : Bool) (c : INT_CONTEXT) : SlotKept v2 c (wipeSlot c) :=
  ⟨Or.inr rfl, Or.inr rfl, fun _ => Or.inr (fun _ => ⟨rfl, rfl⟩)⟩

theorem freeMost_slots (v2 : Bool) (m : Machine) :
    (FreeMostInterpretContexts m).icList.length = m.icList.length ∧
    ∀ (j : Nat) (c : INT_CONTEXT), m.icList[j]? = some c →
      ∃ c1 : INT_CONTEXT, (FreeMostInterpretContexts m).icList[j]? = some c1 ∧
        SlotKept v2 c c1 := by
  refine ⟨by simp [FreeMostInterpretContexts], fun j c hj => ?_⟩
  refine ⟨_, FreeMost_get m.icList j c hj, ?_⟩
  split
  · exact wipeSlot_kept v2 c
  · exact SlotKept_refl v2 c

theorem freeMaster_slots (v2 : Bool) (m : Machine) :
    (FreeMasterInterpretContext m).icList.length = m.icList.length ∧
    ∀ (j : Nat) (c : INT_CONTEXT), m.icList[j]? = some c →
      ∃ c1 : INT_CONTEXT, (FreeMasterInterpretContext m).icList[j]? = some c1 ∧
        SlotKept v2 c c1 := by
  show (freeMasterLoop m.icList).length = m.icList.length ∧
    ∀ (j : Nat) (c : INT_CONTEXT), m.icList[j]? = some c →
      ∃ c1 : INT_CONTEXT, (freeMasterLoop m.icList)[j]? = some c1 ∧ SlotKept v2 c c1
  rcases freeMasterLoop_cases m.icList with ⟨_, heq⟩ | ⟨i, d, hi, _, _, heq⟩
  · rw [heq]
    exact ⟨rfl, fun j c hj => ⟨c, hj, SlotKept_refl v2 c⟩⟩
  · rw [heq]
    refine ⟨by simp, fun j c hj => ?_⟩
    by_cases hij : i = j
    · subst hij
      rw [hi] at hj
      injection hj with hj
      subst hj
      exact ⟨wipeSlot d, List.getElem?_set_self (getElem?_lt _ _ _ hi), wipeSlot_kept v2 d⟩
    · rw [List.getElem?_set_ne hij]
      exact ⟨c, hj, SlotKept_refl v2 c⟩

theorem freePr_slots {κ : Type} (x : Host κ) (p : Nat) (m m1 : Machine)
    (h : FreeInterpretContextPr x p m = .ok m1) :
    m1.icList.length = m.icList.length ∧
    ∀ (j : Nat) (c : INT_CONTEXT), m.icList[j]? = some c →
      ∃ c1 : INT_CONTEXT, m1.icList[j]? = some c1 ∧ SlotKept x.TinselV2 c c1 := by
  unfold FreeInterpretContextPr at h
  simp only at h
  by_cases hlt : findContext p m.icList < m.icList.length
  · rw [if_pos hlt] at h
    cases hf : FreeWaitCheck (findContext p m.icList) false m with
    | ok m2 =>
      simp only [hf] at h
      injection h with h
      subst h
      exact release_slots x _ false m m2 hf
    | suspended m2 => simp only [hf] at h; cases h
    | fatal f m2 => simp only [hf] at h; cases h
    | timeout m2 => simp only [hf] at h; cases h
  · rw [if_neg hlt] at h
    injection h with h
    subst h
    exact ⟨rfl, fun j c hj => ⟨c, hj, SlotKept_refl _ c⟩⟩

/-- Every operation keeps the size of the pool, and does to each slot what `SlotStep`
says. -/
theorem applyOp_slots {κ : Type} (x : Host κ) (op : PoolOp κ) (m m1 : Machine)
    (h : applyOp x op m = some m1) :
    m1.icList.length = m.icList.length ∧
    ∀ (j : Nat) (c : INT_CONTEXT), m.icList[j]? = some c →
      ∃ c1 : INT_CONTEXT, m1.icList[j]? = some c1 ∧ SlotStep x op m j c c1 := by
  have lift : ∀ (op : PoolOp κ),
      (m1.icList.length = m.icList.length ∧
        ∀ (j : Nat) (c : INT_CONTEXT), m.icList[j]? = some c →
          ∃ c1 : INT_CONTEXT, m1.icList[j]? = some c1 ∧ SlotKept x.TinselV2 c c1) →
      m1.icList.length = m.icList.length ∧
        ∀ (j : Nat) (c : INT_CONTEXT), m.icList[j]? = some c →
          ∃ c1 : INT_CONTEXT, m1.icList[j]? = some c1 ∧ SlotStep x op m j c c1 := by
    intro op hk
    refine ⟨hk.1, fun j c hj => ?_⟩
    obtain ⟨c1, h1, h2⟩ := hk.2 j c hj
    exact ⟨c1, h1, Or.inl h2⟩
  cases op with
  | init cur gsort hCode event hpoly actorid pinvo myEscape =>
    apply lift
    unfold applyOp at h
    cases hr : InitInterpretContext x cur gsort hCode event hpoly actorid pinvo myEscape m with
    | error f => simp only [hr] at h; cases h
    | ok r =>
      obtain ⟨i, m2⟩ := r
      simp only [hr] at h
      injection h with h
      subst h
      have := init_slots x cur gsort hCode event hpoly actorid pinvo myEscape m m2 i hr
      exact ⟨this.1, this.2.1⟩
  | wait fuel cur p time =>
    unfold applyOp at h
    cases hr : WaitInterpretSetup fuel cur p time m with
    | ok r =>
      obtain ⟨m2, a⟩ := r
      simp only [hr] at h
      injection h with h
      subst h
      exact wait_slots x fuel cur p time m m2 a hr
    | suspended r => simp only [hr] at h; cases h
    | fatal f r => simp only [hr] at h; cases h
    | timeout r => simp only [hr] at h; cases h
  | interpret fuel coroParam i =>
    exact lift _ (interpret_slots x fuel coroParam i m m1 h)
  | freePi i =>
    apply lift
    unfold applyOp at h
    cases hr : FreeInterpretContextPi x i m with
    | ok m2 =>
      simp only [hr] at h
      injection h with h
      subst h
      obtain ⟨m3, h3, hl3⟩ := FreeInterpretContextPi_ok x i _ _ hr
      rw [hl3]
      exact release_slots x i true m m3 h3
    | suspended r => simp only [hr] at h; cases h
    | fatal f r => simp only [hr] at h; cases h
    | timeout r => simp only [hr] at h; cases h
  | freePr p =>
    apply lift
    unfold applyOp at h
    cases hr : FreeInterpretContextPr x p m with
    | ok m2 =>
      simp only [hr] at h
      injection h with h
      subst h
      exact freePr_slots x p m m2 hr
    | suspended r => simp only [hr] at h; cases h
    | fatal f r => simp only [hr] at h; cases h
    | timeout r => simp only [hr] at h; cases h
  | freeMost =>
    apply lift
    unfold applyOp at h
    injection h with h
    subst h
    exact freeMost_slots _ m
  | freeMaster =>
    apply lift
    unfold applyOp at h
    injection h with h
    subst h
    exact freeMaster_slots _ m

theorem registerOrReset_pool {κ : Type} (x : Host κ) (st : Startup) (num : Int)
    (m m1 : Machine) (h : registerOrReset x st num m = .ok m1) :
    ∀ (j : Nat) (c : INT_CONTEXT), m1.icList[j]? = some c →
      c.waitNumber1 = 0 ∧ c.waitNumber2 = 0 := by
  unfold registerOrReset at h
  cases hg : m.pGlobals with
  | none =>
    simp only [hg] at h
    by_cases hneg : num < 0
    · simp [hneg] at h
    · simp only [hneg, if_false] at h
      injection h with h
      subst h
      intro j c hj
      have hc : c ∈ List.replicate st.NUM_INTERPRET (callocContext x) :=
        List.mem_iff_getElem?.mpr ⟨j, hj⟩
      rw [List.eq_of_mem_replicate hc]
      exact ⟨rfl, rfl⟩
  | some g =>
    simp only [hg] at h
    by_cases hn : m.numGlobals = num
    · by_cases hr : 0 ≤ m.numGlobals ∧ m.numGlobals.toNat ≤ g.length
      · simp only [hn, if_true] at h
        rw [hn] at hr
        simp only [hr, and_self, if_true] at h
        injection h with h
        subst h
        intro j c hj
        have hc : c ∈ m.icList.map zeroed := List.mem_iff_getElem?.mpr ⟨j, hj⟩
        obtain ⟨d, _, hd⟩ := List.mem_map.mp hc
        rw [← hd]
        exact ⟨rfl, rfl⟩
      · simp only [hn, if_true] at h
        rw [hn] at hr
        simp only [hr, if_false] at h
        cases h
    · simp only [hn, if_false] at h
      cases h

theorem RegisterGlobals_pool {κ : Type} (x : Host κ) (st : Startup) (num : Int)
    (m m1 : Machine) (h : RegisterGlobals x st num m = .ok m1) :
    ∀ (j : Nat) (c : INT_CONTEXT), m1.icList[j]? = some c →
      c.waitNumber1 = 0 ∧ c.waitNumber2 = 0 := by
  unfold RegisterGlobals at h
  cases hr : registerOrReset x st num m with
  | ok m2 =>
    have hp := registerOrReset_pool x st num m m2 hr
    simp only [hr] at h
    by_cases hv : x.TinselV2 = true
    · simp only [hv, if_true] at h
      split at h
      · cases h
      · cases h
      · split at h
        · cases h
        · split at h
          · injection h with h
            subst h
            exact hp
          · cases h
      · cases h
    · simp only [hv, if_false] at h
      injection h with h
      subst h
      exact hp
  | suspended m2 => simp only [hr] at h; cases h
  | fatal f m2 => simp only [hr] at h; cases h
  | timeout m2 => simp only [hr] at h; cases h

/-- In a Tinsel 2 engine every operation keeps the free slots clean. -/
theorem applyOp_clean {κ : Type} (x : Host κ) (hv : x.TinselV2 = true) (op : PoolOp κ)
    (m m1 : Machine) (h : applyOp x op m = some m1) (hc : FreeSlotsClean m.icList) :
    FreeSlotsClean m1.icList := by
  obtain ⟨hlen, hget⟩ := applyOp_slots x op m m1 h
  intro j c1 hj1 hfree
  obtain ⟨c, hj⟩ := getElem?_of_length_eq m1.icList m.icList hlen.symm j c1 hj1
  obtain ⟨c2, hj2, hs⟩ := hget j c hj
  rw [hj1] at hj2
  injection hj2 with hj2
  subst hj2
  rcases hs with ⟨hw1, hw2, hg⟩ | ⟨hlive, hg, _⟩
  · rcases hg hfree with hcf | hz
    · obtain ⟨z1, z2⟩ := hc j c hj hcf
      constructor
      · rcases hw1 with e | e
        · rw [e, z1]
        · exact e
      · rcases hw2 with e | e
        · rw [e, z2]
        · exact e
    · exact hz hv
  · exact absurd (hg ▸ hfree) hlive

theorem Runs_clean {κ : Type} (x : Host κ) (st : Startup) (hv : x.TinselV2 = true)
    (m : Machine) (hr : Runs x st m) : FreeSlotsClean m.icList := by
  induction hr with
  | register m0 m num h =>
    intro j c hj _
    exact RegisterGlobals_pool x st num m0 m h j c hj
  | step m m1 op _ h ih => exact applyOp_clean x hv op m m1 h ih

theorem Runs_ops {κ : Type} (x : Host κ) (st : Startup) (ops : List (PoolOp κ))
    (m m1 : Machine) (hr : Runs x st m) (h : runOps x ops m = some m1) : Runs x st m1 := by
  induction ops generalizing m with
  | nil =>
    injection h with h
    subst h
    exact hr
  | cons op rest ih =>
    unfold runOps at h
    cases ha : applyOp x op m with
    | none => simp only [ha] at h; cases h
    | some m2 =>
      simp only [ha] at h
      exact ih m2 (Runs.step m m2 op hr ha) h

/-- A slot whose `waitNumber2` is 0 keeps it through operations none of which is a wait
for the process that owns it. -/
theorem untargeted_unwaited {κ : Type} (x : Host κ) (j : Nat) (ops : List (PoolOp κ))
    (m m1 : Machine) (c : INT_CONTEXT) (h : runOps x ops m = some m1)
    (hu : Untargeted x j ops m) (hj : m.icList[j]? = some c) (h0 : c.waitNumber2 = 0) :
    ∃ c1 : INT_CONTEXT, m1.icList[j]? = some c1 ∧ c1.waitNumber2 = 0 := by
  induction ops generalizing m c with
  | nil =>
    injection h with h
    subst h
    exact ⟨c, hj, h0⟩
  | cons op rest ih =>
    unfold runOps at h
    cases ha : applyOp x op m with
    | none => simp only [ha] at h; cases h
    | some m2 =>
      simp only [ha] at h
      obtain ⟨hwait, hrest⟩ := hu
      obtain ⟨c2, hc2, hs⟩ := (applyOp_slots x op m m2 ha).2 j c hj
      have h2 : c2.waitNumber2 = 0 := by
        rcases hs with ⟨_, hw2, _⟩ | ⟨_, _, fuel, cur, p, time, hop, ht | ⟨_, hw2⟩⟩
        · rcases hw2 with e | e
          · rw [e, h0]
          · exact e
        · exact absurd ht (hwait fuel cur p time hop)
        · rw [hw2, h0]
      exact ih m2 c2 h (hrest m2 ha) hc2 h2

/-- C29, as stated, does not hold in a Tinsel 1 engine: after `RegisterGlobals(2)`, two
calls of `InitInterpretContext` (by process 1 and by process 2), a `WaitInterpret` of
process 1 for process 2 and the release of the context of process 2, slot 1 is free and
still has the token in `waitNumber2`; the context that `InitInterpretContext` then returns
to process 3 is that slot, it starts with the token in `waitNumber2` although no
`WaitInterpret` targeted it, and its release finds no waiter and fails. -/
theorem released_slot_keeps_wait_number :
    sampleHostV1.TinselV2 = false ∧ Runs sampleHostV1 sampleStartup staleSlotMachine ∧
    (staleSlotMachine.icList[1]?.map fun c => (c.GSort, c.waitNumber1, c.waitNumber2)) =
      some (GSORT.GS_NONE, 0, 700) ∧
    ¬ FreeSlotsClean staleSlotMachine.icList ∧
    ∃ m1 : Machine,
      InitInterpretContext sampleHostV1 3 (GSORT.GS_OTHER 0) 0 0 0 0 0 0 staleSlotMachine =
        .ok (1, m1) ∧
      (m1.icList[1]?.map fun c => (c.pProc, c.waitNumber1, c.waitNumber2)) = some (3, 0, 700) ∧
      FreeInterpretContextPi sampleHostV1 1 m1 = .fatal .noWaiter m1 := by
  refine ⟨rfl, ?_, rfl, ?_, ?_⟩
  · exact Runs_ops sampleHostV1 sampleStartup sampleOps sampleFreshV1 staleSlotMachine
      (Runs.register unregisteredMachine sampleFreshV1 2 rfl) rfl
  · intro h
    have h1 := h 1 _ rfl rfl
    exact absurd h1.2 (by decide)
  · exact ⟨_, rfl, rfl, rfl⟩

/-- C29 (amended): in a Tinsel 2 engine, in every state reachable from `RegisterGlobals`
through `InitInterpretContext`, `WaitInterpret`, `Interpret` and the release operations,
every free slot has `waitNumber1 = 0` and `waitNumber2 = 0`. So every context returned by
`InitInterpretContext` in such a state starts with both wait numbers 0, and after any
further operations none of which is a `WaitInterpret` for the process that owns its slot,
the release of that slot succeeds and reschedules nobody. -/
theorem free_slots_clean {κ : Type} (x : Host κ) (st : Startup) (m : Machine)
    (hv : x.TinselV2 = true) (hr : Runs x st m) :
    FreeSlotsClean m.icList ∧
    ∀ (cur : Nat) (gsort : GSORT) (hCode event : Nat) (hpoly actorid : Int) (pinvo : Nat)
      (myEscape : Int) (i : Nat) (m1 : Machine),
      InitInterpretContext x cur gsort hCode event hpoly actorid pinvo myEscape m = .ok (i, m1) →
      (∃ c : INT_CONTEXT, m1.icList[i]? = some c ∧ c.waitNumber1 = 0 ∧ c.waitNumber2 = 0) ∧
      ∀ (ops : List (PoolOp κ)) (m2 : Machine), runOps x ops m1 = some m2 →
        Untargeted x i ops m1 →
        ∃ m3 : Machine, FreeInterpretContextPi x i m2 = .ok m3 ∧
          m3.rescheduled = m2.rescheduled := by
  have hclean := Runs_clean x st hv m hr
  refine ⟨hclean, ?_⟩
  intro cur gsort hCode event hpoly actorid pinvo myEscape i m1 hinit
  obtain ⟨_, _, slot, c1, hs, hfree, hc1, hw1, hw2, _⟩ :=
    init_slots x cur gsort hCode event hpoly actorid pinvo myEscape m m1 i hinit
  obtain ⟨z1, z2⟩ := hclean i slot hs hfree
  rw [z1] at hw1
  rw [z2] at hw2
  refine ⟨⟨c1, hc1, hw1, hw2⟩, ?_⟩
  intro ops m2 hrun hu
  obtain ⟨c2, hc2, h2⟩ := untargeted_unwaited x i ops m1 m2 c1 hrun hu hc1 hw2
  obtain ⟨m3, h3, hres, _⟩ := (release_unwaited x m2 i c2 hc2 h2).1
  exact ⟨m3, h3, hres⟩

theorem free_slots_clean_witness :
    sampleHost.TinselV2 = true ∧ Runs sampleHost sampleStartup cleanSlotMachine ∧
    (cleanSlotMachine.icList[1]?.map fun c => (c.GSort, c.waitNumber1, c.waitNumber2)) =
      some (GSORT.GS_NONE, 0, 0) ∧
    FreeSlotsClean cleanSlotMachine.icList ∧
    ∃ m1 : Machine,
      InitInterpretContext sampleHost 3 (GSORT.GS_OTHER 0) 0 0 0 0 0 0 cleanSlotMachine =
        .ok (1, m1) ∧
      (∃ c : INT_CONTEXT, m1.icList[1]? = some c ∧ c.waitNumber1 = 0 ∧ c.waitNumber2 = 0) ∧
      ∃ m3 : Machine, FreeInterpretContextPi sampleHost 1 m1 = .ok m3 ∧
        m3.rescheduled = m1.rescheduled :=
  have hr : Runs sampleHost sampleStartup cleanSlotMachine :=
    Runs_ops sampleHost sampleStartup sampleOps sampleFresh cleanSlotMachine
      (Runs.register unregisteredMachine sampleFresh 2 rfl) rfl
  have h := free_slots_clean sampleHost sampleStartup cleanSlotMachine rfl hr
  ⟨rfl, hr, rfl, h.1, _, rfl,
    (h.2 3 (GSORT.GS_OTHER 0) 0 0 0 0 0 0 1 _ rfl).1,
    (h.2 3 (GSORT.GS_OTHER 0) 0 0 0 0 0 0 1 _ rfl).2 [] _ rfl trivial⟩

/-! ### Who changes `resumeCode` -/

/-- `FreeWaitCheck` appends at most one process to the reschedule log, and changes the
`resumeCode` of a slot only by posting a notification to it. -/
theorem FreeWaitCheck_resume (i : Nat) (v : Bool) (m m1 : Machine)
    (h : FreeWaitCheck i v m = .ok m1) :
    (m1.rescheduled = m.rescheduled ∨ ∃ p : Nat, m1.rescheduled = m.rescheduled ++ [p]) ∧
    ∀ (j : Nat) (c : INT_CONTEXT), m.icList[j]? = some c →
      ∃ c1 : INT_CONTEXT, m1.icList[j]? = some c1 ∧
        ((c1.resumeCode = c.resumeCode ∧ c1.waitNumber1 = c.waitNumber1) ∨
          (m1.rescheduled = m.rescheduled ++ [c.pProc] ∧ c.waitNumber1 ≠ 0 ∧
            c1.waitNumber1 = 0 ∧
            c1.resumeCode = (if v then RESCODE.RES_FINISHED else RESCODE.RES_CUTSHORT))) := by
  unfold FreeWaitCheck at h
  split at h
  · cases h
  · rename_i pic hpic
    obtain ⟨hlen, hget⟩ := freeWaitCheck_first pic.waitNumber1 m.icList
    generalize (if pic.waitNumber1 ≠ 0 then clearWaitee pic.waitNumber1 m.icList else m.icList)
      = l1 at hlen hget h
    simp only at h
    split at h
    · rename_i hw2
      rcases notifyWaiter_cases ((l1[i]?).getD pic).waitNumber2
        (if v then RESCODE.RES_FINISHED else RESCODE.RES_CUTSHORT) l1 with
        ⟨_, heq⟩ | ⟨k, d, hk, hdw, _, heq⟩
      · rw [heq] at h
        cases h
      · rw [heq] at h
        injection h with h
        subst h
        refine ⟨Or.inr ⟨d.pProc, rfl⟩, ?_⟩
        intro j c hj
        obtain ⟨c1, h1, h2, _⟩ := hget j c hj
        have hf := same_but_waitee_fields c c1 h2
        by_cases hkj : k = j
        · subst hkj
          rw [hk] at h1
          injection h1 with h1
          subst h1
          refine ⟨{ d with waitNumber1 := 0, resumeCode :=
            (if v then RESCODE.RES_FINISHED else RESCODE.RES_CUTSHORT) },
            by simp [getElem?_lt _ _ _ hk], Or.inr ⟨?_, ?_, rfl, rfl⟩⟩
          · show m.rescheduled ++ [d.pProc] = m.rescheduled ++ [c.pProc]
            rw [hf.2.1]
          · rw [← hf.1, hdw]
            exact hw2
        · exact ⟨c1, by simp [List.getElem?_set_ne hkj, h1], Or.inl ⟨hf.2.2.2, hf.1⟩⟩
    · injection h with h
      subst h
      refine ⟨Or.inl rfl, ?_⟩
      intro j c hj
      obtain ⟨c1, h1, h2, _⟩ := hget j c hj
      have hf := same_but_waitee_fields c c1 h2
      exact ⟨c1, h1, Or.inl ⟨hf.2.2.2, hf.1⟩⟩

/-- A release (`FreeWaitCheck`, then the tail shared by the two release routines) and the
`resumeCode` of the slots. -/
theorem release_resume {κ : Type} (x : Host κ) (i : Nat) (v : Bool) (m m2 m1 : Machine)
    (h : FreeWaitCheck i v m = .ok m2)
    (h1 : m1 = { m2 with icList := updateSlot (releaseSlot x) i m2.icList }) :
    (∃ ext : List Nat, m1.rescheduled = m.rescheduled ++ ext) ∧
    ∀ (j : Nat) (c : INT_CONTEXT), m.icList[j]? = some c →
      ∃ c1 : INT_CONTEXT, m1.icList[j]? = some c1 ∧ ResumeStep m m1 c c1 := by
  obtain ⟨hres, hget⟩ := FreeWaitCheck_resume i v m m2 h
  subst h1
  constructor
  · rcases hres with e | ⟨p, e⟩
    · exact ⟨[], by simp [e]⟩
    · exact ⟨[p], e⟩
  · intro j c hj
    obtain ⟨c2, h2, hc⟩ := hget j c hj
    show ∃ c1 : INT_CONTEXT, (updateSlot (releaseSlot x) i m2.icList)[j]? = some c1 ∧ _
    rw [updateSlot_get, h2]
    by_cases hji : j = i
    · rw [if_pos hji]
      refine ⟨releaseSlot x c2, rfl, ?_⟩
      cases hv : x.TinselV2
      · have e1 : (releaseSlot x c2).resumeCode = c2.resumeCode := by
          unfold releaseSlot
          rw [hv]
          rfl
        have e2 : (releaseSlot x c2).waitNumber1 = c2.waitNumber1 := by
          unfold releaseSlot
          rw [hv]
          rfl
        rcases hc with ⟨hr, _⟩ | ⟨ha, hb, hc0, hd⟩
        · exact Or.inl (by rw [e1, hr])
        · refine Or.inr (Or.inr ⟨ha, hb, by rw [e2, hc0], ?_⟩)
          rw [e1, hd]
          cases v
          · exact Or.inr rfl
          · exact Or.inl rfl
      · refine Or.inr (Or.inl ?_)
        unfold releaseSlot
        rw [hv]
        rfl
    · rw [if_neg hji]
      refine ⟨c2, rfl, ?_⟩
      rcases hc with ⟨hr, _⟩ | ⟨ha, hb, hc0, hd⟩
      · exact Or.inl hr
      · refine Or.inr (Or.inr ⟨ha, hb, hc0, ?_⟩)
        rw [hd]
        cases v
        · exact Or.inr rfl
        · exact Or.inl rfl

theorem ResumeStep_refl (m : Machine) (c : INT_CONTEXT) : ResumeStep m m c c := Or.inl rfl

theorem FreeInterpretContextPi_ok_eq {κ : Type} (x : Host κ) (i : Nat) (m m1 : Machine)
    (h : FreeInterpretContextPi x i m = .ok m1) :
    ∃ m2 : Machine, FreeWaitCheck i true m = .ok m2 ∧
      m1 = { m2 with icList := updateSlot (releaseSlot x) i m2.icList } := by
  unfold FreeInterpretContextPi at h
  cases hf : FreeWaitCheck i true m with
  | ok m2 =>
    rw [hf] at h
    injection h with h
    subst h
    exact ⟨m2, rfl, rfl⟩
  | suspended m2 => rw [hf] at h; cases h
  | fatal f m2 => rw [hf] at h; cases h
  | timeout m2 => rw [hf] at h; cases h

theorem WaitInterpretSetup_rescheduled (fuel cur p time : Nat) (m m1 : Machine) (a : Nat)
    (h : WaitInterpretSetup fuel cur p time m = .ok (m1, a)) :
    m1.rescheduled = m.rescheduled := by
  unfold WaitInterpretSetup at h
  simp only at h
  split at h
  · cases h
  · split at h
    · cases h
    · split at h
      · cases h
      · split at h
        · split at h
          · cases h
          · split at h
            · injection h with h
              injection h with h1 h2
              subst h1
              rfl
            · cases h
        · cases h

theorem init_resume {κ : Type} (x : Host κ) (cur : Nat) (gsort : GSORT)
    (hCode event : Nat) (hpoly actorid : Int) (pinvo : Nat) (myEscape : Int) (m m1 : Machine)
    (i : Nat)
    (h : InitInterpretContext x cur gsort hCode event hpoly actorid pinvo myEscape m =
      .ok (i, m1)) :
    m1.rescheduled = m.rescheduled ∧
    ∀ (j : Nat) (c : INT_CONTEXT), m.icList[j]? = some c →
      ∃ c1 : INT_CONTEXT, m1.icList[j]? = some c1 ∧ c1.resumeCode = c.resumeCode := by
  obtain ⟨slot, ic0, hs, _, h0, hic, hm⟩ :=
    InitInterpretContext_ok x cur gsort hCode event hpoly actorid pinvo myEscape m m1 i h
  have hw : ic0.resumeCode = slot.resumeCode := by
    rw [hic, LockCode_eq]
  have hl : m1.icList = m.icList.set i ic0 := by rw [hm]
  refine ⟨by rw [hm], ?_⟩
  intro j c hj
  by_cases hji : i = j
  · subst hji
    rw [hs] at hj
    injection hj with hj
    subst hj
    exact ⟨ic0, h0, hw⟩
  · refine ⟨c, ?_, rfl⟩
    rw [hl, List.getElem?_set_ne hji]
    exact hj

theorem wait_resume (fuel cur p time : Nat) (m m1 : Machine) (a : Nat)
    (h : WaitInterpretSetup fuel cur p time m = .ok (m1, a)) :
    ∀ (j : Nat) (c : INT_CONTEXT), m.icList[j]? = some c →
      ∃ c1 : INT_CONTEXT, m1.icList[j]? = some c1 ∧
        (c1.resumeCode = c.resumeCode ∨ c1.resumeCode = RESCODE.RES_WAITING) := by
  obtain ⟨w, hl⟩ := WaitInterpretSetup_ok fuel cur p time m m1 a h
  intro j c hj
  rw [hl, updateSlot_get, updateSlot_get, updateSlot_get, hj]
  by_cases hjc : j = findContext cur m.icList
  · rw [if_pos hjc, if_pos hjc]
    by_cases hjp : j = findContext p m.icList
    · rw [if_pos hjp]
      exact ⟨_, rfl, Or.inr rfl⟩
    · rw [if_neg hjp]
      exact ⟨_, rfl, Or.inr rfl⟩
  · rw [if_neg hjc, if_neg hjc]
    by_cases hjp : j = findContext p m.icList
    · rw [if_pos hjp]
      exact ⟨_, rfl, Or.inl rfl⟩
    · rw [if_neg hjp]
      exact ⟨c, rfl, Or.inl rfl⟩

/-- The pool after the passes of `Interpret` on slot `i`, before the release. -/
theorem ofExec_resume {κ : Type} (m : Machine) (i : Nat) (ic : INT_CONTEXT) (e : Exec κ)
    (hi : m.icList[i]? = some ic) (hl : SameLinks ic e.ic) :
    (m.ofExec i e).rescheduled = m.rescheduled ∧
    ∀ (j : Nat) (c : INT_CONTEXT), m.icList[j]? = some c →
      ∃ c1 : INT_CONTEXT, (m.ofExec i e).icList[j]? = some c1 ∧
        c1.resumeCode = c.resumeCode ∧ c1.pProc = c.pProc ∧
        c1.waitNumber1 = c.waitNumber1 := by
  refine ⟨rfl, ?_⟩
  intro j c hj
  obtain ⟨c1, h1, l1, _, _, l4, l5⟩ := (ofExec_slots m i ic e hi hl).2 j c hj
  exact ⟨c1, h1, l5, l4, l1⟩

theorem ResumeStep_of_eq (m mo m1 : Machine) (c co c1 : INT_CONTEXT)
    (hm : mo.rescheduled = m.rescheduled) (hr : co.resumeCode = c.resumeCode)
    (hp : co.pProc = c.pProc) (hw : co.waitNumber1 = c.waitNumber1)
    (h : ResumeStep mo m1 co c1) : ResumeStep m m1 c c1 := by
  unfold ResumeStep at h ⊢
  rw [hm, hr, hp, hw] at h
  exact h

theorem interpret_resume {κ : Type} (x : Host κ) (fuel : Nat) (coroParam : Option κ) (i : Nat)
    (m m1 : Machine) (h : applyOp x (PoolOp.interpret fuel coroParam i) m = some m1) :
    (∃ ext : List Nat, m1.rescheduled = m.rescheduled ++ ext) ∧
    ∀ (j : Nat) (c : INT_CONTEXT), m.icList[j]? = some c →
      ∃ c1 : INT_CONTEXT, m1.icList[j]? = some c1 ∧ ResumeStep m m1 c c1 := by
  unfold applyOp Interpret at h
  cases hi : m.icList[i]? with
  | none => simp only [hi] at h; cases h
  | some ic =>
    simp only [hi] at h
    have hlinks := InterpretLoop_links x fuel (m.toExec ic coroParam)
    cases hr : InterpretLoop x fuel (m.toExec ic coroParam) with
    | ok e =>
      rw [hr] at hlinks
      simp only [hr] at h
      by_cases hsp : e.ic.sp = 0
      · simp only [hsp, if_true] at h
        cases hf : FreeInterpretContextPi x i (m.ofExec i e) with
        | ok m2 =>
          simp only [hf] at h
          injection h with h
          subst h
          obtain ⟨m3, h3, hm3⟩ := FreeInterpretContextPi_ok_eq x i _ _ hf
          obtain ⟨r1, r2⟩ := release_resume x i true _ m3 m2 h3 hm3
          obtain ⟨o1, o2⟩ := ofExec_resume m i ic e hi hlinks
          refine ⟨by rw [← o1]; exact r1, fun j c hj => ?_⟩
          obtain ⟨co, hco, e1, e2, e3⟩ := o2 j c hj
          obtain ⟨c2, hc2, hk⟩ := r2 j co hco
          exact ⟨c2, hc2, ResumeStep_of_eq m _ m2 c co c2 o1 e1 e2 e3 hk⟩
        | suspended m2 => exact absurd hf (FreeInterpretContextPi_not_suspended x i _ m2)
        | fatal f m2 => simp only [hf] at h; cases h
        | timeout m2 => simp only [hf] at h; cases h
      · simp only [hsp, if_false] at h
        cases h
    | suspended e =>
      rw [hr] at hlinks
      simp only [hr] at h
      injection h with h
      subst h
      obtain ⟨o1, o2⟩ := ofExec_resume m i ic e hi hlinks
      refine ⟨⟨[], by simp [o1]⟩, fun j c hj => ?_⟩
      obtain ⟨co, hco, e1, _, _⟩ := o2 j c hj
      exact ⟨co, hco, Or.inl e1⟩
    | fatal f e => simp only [hr] at h; cases h
    | timeout e => simp only [hr] at h; cases h

/-- Every operation only appends to the reschedule log, and does to the `resumeCode` of
each slot what `ResumeStep` says. -/
theorem applyOp_resume {κ : Type} (x : Host κ) (op : PoolOp κ) (m m1 : Machine)
    (h : applyOp x op m = some m1) :
    (∃ ext : List Nat, m1.rescheduled = m.rescheduled ++ ext) ∧
    ∀ (j : Nat) (c : INT_CONTEXT), m.icList[j]? = some c →
      ∃ c1 : INT_CONTEXT, m1.icList[j]? = some c1 ∧ ResumeStep m m1 c c1 := by
  cases op with
  | init cur gsort hCode event hpoly actorid pinvo myEscape =>
    unfold applyOp at h
    cases hr : InitInterpretContext x cur gsort hCode event hpoly actorid pinvo myEscape m with
    | error f => simp only [hr] at h; cases h
    | ok r =>
      obtain ⟨i, m2⟩ := r
      simp only [hr] at h
      injection h with h
      subst h
      obtain ⟨h1, h2⟩ := init_resume x cur gsort hCode event hpoly actorid pinvo myEscape m m2 i hr
      refine ⟨⟨[], by simp [h1]⟩, fun j c hj => ?_⟩
      obtain ⟨c1, hc1, e⟩ := h2 j c hj
      exact ⟨c1, hc1, Or.inl e⟩
  | wait fuel cur p time =>
    unfold applyOp at h
    cases hr : WaitInterpretSetup fuel cur p time m with
    | ok r =>
      obtain ⟨m2, a⟩ := r
      simp only [hr] at h
      injection h with h
      subst h
      refine ⟨⟨[], by simp [WaitInterpretSetup_rescheduled fuel cur p time m m2 a hr]⟩,
        fun j c hj => ?_⟩
      obtain ⟨c1, hc1, e⟩ := wait_resume fuel cur p time m m2 a hr j c hj
      rcases e with e | e
      · exact ⟨c1, hc1, Or.inl e⟩
      · exact ⟨c1, hc1, Or.inr (Or.inl e)⟩
    | suspended r => simp only [hr] at h; cases h
    | fatal f r => simp only [hr] at h; cases h
    | timeout r => simp only [hr] at h; cases h
  | interpret fuel coroParam i => exact interpret_resume x fuel coroParam i m m1 h
  | freePi i =>
    unfold applyOp at h
    cases hr : FreeInterpretContextPi x i m with
    | ok m2 =>
      simp only [hr] at h
      injection h with h
      subst h
      obtain ⟨m3, h3, hm3⟩ := FreeInterpretContextPi_ok_eq x i _ _ hr
      exact release_resume x i true m m3 m2 h3 hm3
    | suspended r => simp only [hr] at h; cases h
    | fatal f r => simp only [hr] at h; cases h
    | timeout r => simp only [hr] at h; cases h
  | freePr p =>
    unfold applyOp at h
    cases hr : FreeInterpretContextPr x p m with
    | ok m2 =>
      simp only [hr] at h
      injection h with h
      subst h
      unfold FreeInterpretContextPr at hr
      simp only at hr
      by_cases hlt : findContext p m.icList < m.icList.length
      · rw [if_pos hlt] at hr
        cases hf : FreeWaitCheck (findContext p m.icList) false m with
        | ok m3 =>
          simp only [hf] at hr
          injection hr with hr
          exact release_resume x _ false m m3 m2 hf hr.symm
        | suspended m3 => simp only [hf] at hr; cases hr
        | fatal f m3 => simp only [hf] at hr; cases hr
        | timeout m3 => simp only [hf] at hr; cases hr
      · rw [if_neg hlt] at hr
        injection hr with hr
        subst hr
        exact ⟨⟨[], by simp⟩, fun j c hj => ⟨c, hj, Or.inl rfl⟩⟩
    | suspended r => simp only [hr] at h; cases h
    | fatal f r => simp only [hr] at h; cases h
    | timeout r => simp only [hr] at h; cases h
  | freeMost =>
    unfold applyOp at h
    injection h with h
    subst h
    refine ⟨⟨[], by simp [FreeMostInterpretContexts]⟩, fun j c hj => ?_⟩
    refine ⟨_, FreeMost_get m.icList j c hj, ?_⟩
    split
    · exact Or.inr (Or.inl rfl)
    · exact Or.inl rfl
  | freeMaster =>
    unfold applyOp at h
    injection h with h
    subst h
    refine ⟨⟨[], by simp [FreeMasterInterpretContext]⟩, fun j c hj => ?_⟩
    show ∃ c1 : INT_CONTEXT, (freeMasterLoop m.icList)[j]? = some c1 ∧ _
    rcases freeMasterLoop_cases m.icList with ⟨_, heq⟩ | ⟨i, d, hi, _, _, heq⟩
    · rw [heq]
      exact ⟨c, hj, Or.inl rfl⟩
    · rw [heq]
      by_cases hij : i = j
      · subst hij
        rw [hi] at hj
        injection hj with hj
        subst hj
        exact ⟨wipeSlot d, List.getElem?_set_self (getElem?_lt _ _ _ hi), Or.inr (Or.inl rfl)⟩
      · rw [List.getElem?_set_ne hij]
        exact ⟨c, hj, Or.inl rfl⟩

/-- A slot whose `resumeCode` is `RES_WAITING` keeps it through operations as long as no
process is rescheduled. -/
theorem waiting_until_rescheduled {κ : Type} (x : Host κ) (a : Nat) (ops : List (PoolOp κ))
    (m m2 : Machine) (A : INT_CONTEXT) (h : runOps x ops m = some m2)
    (hA : m.icList[a]? = some A) (hwait : A.resumeCode = RESCODE.RES_WAITING) :
    (∃ ext : List Nat, m2.rescheduled = m.rescheduled ++ ext) ∧
    (m2.rescheduled = m.rescheduled →
      ∃ A2 : INT_CONTEXT, m2.icList[a]? = some A2 ∧ A2.resumeCode = RESCODE.RES_WAITING) := by
  induction ops generalizing m A with
  | nil =>
    injection h with h
    subst h
    exact ⟨⟨[], by simp⟩, fun _ => ⟨A, hA, hwait⟩⟩
  | cons op rest ih =>
    unfold runOps at h
    cases ha : applyOp x op m with
    | none => simp only [ha] at h; cases h
    | some m1 =>
      simp only [ha] at h
      obtain ⟨⟨e1, he1⟩, hstep⟩ := applyOp_resume x op m m1 ha
      obtain ⟨A1, hA1, hs⟩ := hstep a A hA
      by_cases hw1 : A1.resumeCode = RESCODE.RES_WAITING
      · obtain ⟨⟨e2, he2⟩, hkeep⟩ := ih m1 A1 h hA1 hw1
        refine ⟨⟨e1 ++ e2, by rw [he2, he1, List.append_assoc]⟩, ?_⟩
        intro heq
        apply hkeep
        rw [he2, he1, List.append_assoc] at heq
        have hnil : e1 ++ e2 = [] := List.append_right_eq_self.mp heq
        have h2 : e2 = [] := (List.append_eq_nil.mp hnil).2
        rw [he2, h2, List.append_nil]
      · have hpost : m1.rescheduled = m.rescheduled ++ [A.pProc] := by
          rcases hs with e | e | ⟨e, _⟩
          · exact absurd (e.trans hwait) hw1
          · exact absurd e hw1
          · exact e
        have happ : ∃ e2 : List Nat, m2.rescheduled = m1.rescheduled ++ e2 := by
          clear ih hstep hs hw1 hA1 hpost he1 ha hA hwait
          induction rest generalizing m1 with
          | nil =>
            injection h with h
            subst h
            exact ⟨[], by simp⟩
          | cons op2 rest2 ih2 =>
            unfold runOps at h
            cases hb : applyOp x op2 m1 with
            | none => simp only [hb] at h; cases h
            | some m3 =>
              simp only [hb] at h
              obtain ⟨⟨f1, hf1⟩, _⟩ := applyOp_resume x op2 m1 m3 hb
              obtain ⟨f2, hf2⟩ := ih2 m3 h
              exact ⟨f1 ++ f2, by rw [hf2, hf1, List.append_assoc]⟩
        obtain ⟨e2, he2⟩ := happ
        refine ⟨⟨[A.pProc] ++ e2, by rw [he2, hpost, List.append_assoc]⟩, ?_⟩
        intro heq
        rw [he2, hpost, List.append_assoc] at heq
        have hnil : [A.pProc] ++ e2 = [] := List.append_right_eq_self.mp heq
        cases hnil

/-! ### The rendezvous result -/

/-- C9, as stated, does not hold. In this pool the context of process 1 (slot 1) waits,
with token 7 and `resumeCode = RES_WAITING`, for the context of process 2 (slot 2), and
the free slot 0 still carries 7 as its `waitNumber1`. When the context of process 2 is
released, voluntarily or by `FreeInterpretContextPr`, the loop of `FreeWaitCheck` notifies
slot 0, the first slot that holds the token, and reschedules its last owner, process 3:
the waiter keeps `resumeCode = RES_WAITING` and `waitNumber1 = 7`, its process is not
rescheduled and its `WaitInterpret` does not return. -/
theorem stale_slot_takes_notification :
    (sampleShadowMachine.icList[1]?.map fun c =>
      (c.GSort, c.pProc, c.waitNumber1, c.resumeCode)) =
      some (GSORT.GS_OTHER 0, 1, 7, RESCODE.RES_WAITING) ∧
    (sampleShadowMachine.icList[2]?.map fun c => (c.GSort, c.pProc, c.waitNumber2)) =
      some (GSORT.GS_OTHER 0, 2, 7) ∧
    (∃ m1 : Machine, FreeInterpretContextPi sampleHost 2 sampleShadowMachine = .ok m1 ∧
      (m1.icList[1]?.map fun c => (c.waitNumber1, c.resumeCode)) =
        some (7, RESCODE.RES_WAITING) ∧
      m1.rescheduled = [3] ∧ WaitInterpretResume 1 m1 = none) ∧
    (∃ m1 : Machine, FreeInterpretContextPr sampleHost 2 sampleShadowMachine = .ok m1 ∧
      (m1.icList[1]?.map fun c => (c.waitNumber1, c.resumeCode)) =
        some (7, RESCODE.RES_WAITING) ∧
      m1.rescheduled = [3] ∧ WaitInterpretResume 1 m1 = none) :=
  ⟨rfl, rfl, ⟨_, rfl, rfl, rfl, rfl⟩, ⟨_, rfl, rfl, rfl, rfl⟩⟩

/-- C9 (amended). Rendezvous result. Let `A` (slot `a`) wait on `B` (slot `b`):
`A.waitNumber1 = B.waitNumber2 = w ≠ 0`, `A.resumeCode = RES_WAITING`, and let `A` be the
only slot of the pool (free slots included) whose `waitNumber1` is `w`. If `B` is released
voluntarily (`FreeInterpretContextPi`), `A.resumeCode` becomes `RES_FINISHED`,
`A.waitNumber1` becomes 0, `A`'s process is rescheduled and `A`'s `WaitInterpret` returns
`true`. If `B` (live, the context `FreeInterpretContextPr` finds for its process) is
released by `FreeInterpretContextPr`, `A.resumeCode` becomes `RES_CUTSHORT` and `A`'s
`WaitInterpret` returns `false`. `A`'s wait does not return before a notification is
posted: the resumed `WaitInterpret` does not return while `resumeCode` is `RES_WAITING`;
an operation on the pool takes the `resumeCode` of a slot out of `RES_WAITING` only by
posting a notification to it (`RES_FINISHED` or `RES_CUTSHORT`, `waitNumber1` cleared, its
process rescheduled); and after any operations that rescheduled no process `A`'s
`WaitInterpret` still does not return. -/
theorem rendezvous_result {κ : Type} (x : Host κ) (m : Machine) (a b : Nat)
    (A B : INT_CONTEXT) (w : Nat) (hA : m.icList[a]? = some A) (hB : m.icList[b]? = some B)
    (hab : a ≠ b) (hw : w ≠ 0) (hA1 : A.waitNumber1 = w) (hB2 : B.waitNumber2 = w)
    (hwait : A.resumeCode = RESCODE.RES_WAITING)
    (huniq : ∀ (j : Nat) (c : INT_CONTEXT), m.icList[j]? = some c → c.waitNumber1 = w → j = a) :
    WaitInterpretResume a m = none ∧
    (∀ (m2 : Machine) (r : Bool), WaitInterpretResume a m2 = some r →
      ∃ A2 : INT_CONTEXT, m2.icList[a]? = some A2 ∧ A2.resumeCode ≠ RESCODE.RES_WAITING ∧
        (r = true ↔ A2.resumeCode = RESCODE.RES_FINISHED)) ∧
    (∃ (m1 : Machine) (A1 B1 : INT_CONTEXT), FreeInterpretContextPi x b m = .ok m1 ∧
      m1.icList[a]? = some A1 ∧ A1.resumeCode = RESCODE.RES_FINISHED ∧ A1.waitNumber1 = 0 ∧
      m1.rescheduled = m.rescheduled ++ [A.pProc] ∧ WaitInterpretResume a m1 = some true ∧
      m1.icList[b]? = some B1 ∧ B1.GSort = GSORT.GS_NONE) ∧
    (B.GSort ≠ GSORT.GS_NONE →
      (∀ (j : Nat) (d : INT_CONTEXT), j < b → m.icList[j]? = some d →
        ¬ (d.GSort ≠ GSORT.GS_NONE ∧ d.pProc = B.pProc)) →
      ∃ (m1 : Machine) (A1 B1 : INT_CONTEXT), FreeInterpretContextPr x B.pProc m = .ok m1 ∧
        m1.icList[a]? = some A1 ∧ A1.resumeCode = RESCODE.RES_CUTSHORT ∧ A1.waitNumber1 = 0 ∧
        m1.rescheduled = m.rescheduled ++ [A.pProc] ∧ WaitInterpretResume a m1 = some false ∧
        m1.icList[b]? = some B1 ∧ B1.GSort = GSORT.GS_NONE) ∧
    (∀ (op : PoolOp κ) (m1 m2 : Machine) (A1 A2 : INT_CONTEXT), m1.icList[a]? = some A1 →
      A1.resumeCode = RESCODE.RES_WAITING → applyOp x op m1 = some m2 →
      m2.icList[a]? = some A2 → A2.resumeCode ≠ RESCODE.RES_WAITING →
      m2.rescheduled = m1.rescheduled ++ [A1.pProc] ∧ A1.waitNumber1 ≠ 0 ∧
        A2.waitNumber1 = 0 ∧
        (A2.resumeCode = RESCODE.RES_FINISHED ∨ A2.resumeCode = RESCODE.RES_CUTSHORT)) ∧
    (∀ (ops : List (PoolOp κ)) (m2 : Machine), runOps x ops m = some m2 →
      m2.rescheduled = m.rescheduled → WaitInterpretResume a m2 = none) := by
  refine ⟨by simp [WaitInterpretResume, hA, hwait], ?_, ?_, ?_, ?_, ?_⟩
  · intro m2 r hr
    unfold WaitInterpretResume at hr
    split at hr
    · cases hr
    · rename_i A2 hA2
      split at hr
      · cases hr
      · rename_i hne
        injection hr with hr
        exact ⟨A2, hA2, hne, by rw [← hr]; simp⟩
  · obtain ⟨m1, A1, B1, hf, h1, h2, h3, h4, _, h6⟩ :=
      FreeWaitCheck_notifies true m a b A B w hA hB hab hw hA1 hB2 huniq
    have hset := updateSlot_eq_set (releaseSlot x) m1.icList b B1 h2
    have hbl := getElem?_lt _ _ _ h2
    have ha2 : (m1.icList.set b (releaseSlot x B1))[a]? = some A1 := by
      rw [List.getElem?_set_ne (Ne.symm hab)]; exact h1
    refine ⟨{ m1 with icList := updateSlot (releaseSlot x) b m1.icList }, A1,
      releaseSlot x B1, ?_, ?_, by simpa using h3, h4, h6, ?_, ?_, rfl⟩
    · simp [FreeInterpretContextPi, hf]
    · rw [hset]; exact ha2
    · have h3b : A1.resumeCode = RESCODE.RES_FINISHED := by simpa using h3
      simp [WaitInterpretResume, hset, ha2, h3b]
    · rw [hset]; simp [hbl]
  · intro hlive hfirst
    obtain ⟨m1, A1, B1, hf, h1, h2, h3, h4, _, h6⟩ :=
      FreeWaitCheck_notifies false m a b A B w hA hB hab hw hA1 hB2 huniq
    have hfind := findContext_eq B.pProc m.icList b B hB hlive rfl hfirst
    have hset := updateSlot_eq_set (releaseSlot x) m1.icList b B1 h2
    have hbl := getElem?_lt _ _ _ h2
    have hbl0 := getElem?_lt _ _ _ hB
    have ha2 : (m1.icList.set b (releaseSlot x B1))[a]? = some A1 := by
      rw [List.getElem?_set_ne (Ne.symm hab)]; exact h1
    refine ⟨{ m1 with icList := updateSlot (releaseSlot x) b m1.icList }, A1,
      releaseSlot x B1, ?_, ?_, by simpa using h3, h4, h6, ?_, ?_, rfl⟩
    · simp [FreeInterpretContextPr, hfind, hbl0, hf]
    · rw [hset]; exact ha2
    · have h3b : A1.resumeCode = RESCODE.RES_CUTSHORT := by simpa using h3
      simp [WaitInterpretResume, hset, ha2, h3b]
    · rw [hset]; simp [hbl]
  · intro op m1 m2 A1 A2 h1 hw1 hop h2 hne
    obtain ⟨c1, hc1, hs⟩ := (applyOp_resume x op m1 m2 hop).2 a A1 h1
    rw [h2] at hc1
    injection hc1 with hc1
    subst hc1
    rcases hs with e | e | e
    · exact absurd (e.trans hw1) hne
    · exact absurd e hne
    · exact e
  · intro ops m2 hrun heq
    obtain ⟨A2, h2, hw2⟩ := (waiting_until_rescheduled x a ops m m2 A hrun hA hwait).2 heq
    simp [WaitInterpretResume, h2, hw2]

theorem rendezvous_result_witness :
    (∃ (m1 : Machine) (A1 : INT_CONTEXT),
      FreeInterpretContextPi sampleHost 1 sampleWaitMachine = .ok m1 ∧
      m1.icList[0]? = some A1 ∧ A1.resumeCode = RESCODE.RES_FINISHED ∧
      WaitInterpretResume 0 m1 = some true) ∧
    (∃ (m1 : Machine) (A1 : INT_CONTEXT),
      FreeInterpretContextPr sampleHost 2 sampleWaitMachine = .ok m1 ∧
      m1.icList[0]? = some A1 ∧ A1.resumeCode = RESCODE.RES_CUTSHORT ∧
      WaitInterpretResume 0 m1 = some false) := by
  have h := rendezvous_result sampleHost sampleWaitMachine 0 1
    { sampleContext [] with pProc := 1, waitNumber1 := 7 }
    { sampleContext [] with pProc := 2, waitNumber2 := 7 } 7 rfl rfl (by decide) (by decide)
    rfl rfl rfl
    (by
      intro j c hj hc
      rcases j with _ | _ | j
      · rfl
      · simp [sampleWaitMachine] at hj
        subst hj
        simp [sampleContext] at hc
      · simp [sampleWaitMachine] at hj)
  obtain ⟨_, _, ⟨m1, A1, _, h1, h2, h3, _, _, h4, _⟩, hpr, _⟩ := h
  obtain ⟨m2, A2, _, g1, g2, g3, _, _, g4, _⟩ := hpr (by simp [sampleContext])
    (by
      intro j d hj hd
      have hj0 : j = 0 := by omega
      subst hj0
      simp [sampleWaitMachine] at hd
      subst hd
      simp [sampleContext])
  exact ⟨⟨m1, A1, h1, h2, h3, h4⟩, ⟨m2, A2, g1, g2, g3, g4⟩⟩

end Tinsel
